import Mathlib

/-!
# ezimg: BMP and PNG decoding (`src/ezimg.h`)

A shallow embedding of the decoder of `ezimg.h`.

Conventions of the embedding.

* A buffer is a `List Nat`; a byte read from it is taken modulo 256 (the C type
  is `unsigned char`).  `in_size` is the length of the input list and `out_size`
  the length of the output list: the caller hands over exactly the bytes it owns.
* A pointer into the input (or into the output) is its offset from the start of
  that buffer, an unbounded natural number (a 64-bit address space).
* `unsigned int` arithmetic is arithmetic modulo `2^32` (`u32`).
* Dereferencing a pointer outside its buffer is undefined behaviour in C; the
  embedding stops with `Trap.oob`.  Loops whose trip count is not a counter
  run on fuel; `Trap.fuel` reports exhausted fuel.
-/

namespace Ezimg

/-- Status codes returned by the two `load` functions (the enum of `ezimg.h`). -/
inductive Status
  | EZIMG_OK
  | EZIMG_INVALID_IMAGE
  | EZIMG_NOT_ENOUGH_SPACE
  | EZIMG_NOT_SUPPORTED
  deriving DecidableEq

/-- Ways in which a run of the embedded C code has no defined result. -/
inductive Trap
  | oob
  | fuel
  deriving DecidableEq

deriving instance DecidableEq for Except

/-- Reduction of a natural number to the range of `unsigned int`. -/
def u32 (n : Nat) : Nat := n % 4294967296

/-- Unsigned 32-bit subtraction `a - b`. -/
def sub32 (a b : Nat) : Nat := (u32 a + 4294967296 - u32 b) % 4294967296

/-- Conversion `(int)v` of a 32-bit pattern to its two's-complement value. -/
def toInt32 (v : Nat) : Int :=
  if u32 v < 2147483648 then (u32 v : Int) else (u32 v : Int) - 4294967296

/-- Conversion `(unsigned int)i` of a signed value. -/
def toUInt32 (i : Int) : Nat := (i % 4294967296).toNat

/-- Macro `EZIMG_ABS(x)`: `((x)<0)?(-(x)):(x)`. -/
def EZIMG_ABS (x : Int) : Int := if x < 0 then -x else x

/-- Direct read `*(p)` of a byte of a buffer. -/
def peek (mem : List Nat) (p : Nat) : Except Trap Nat :=
  match mem[p]? with
  | some b => .ok (b % 256)
  | none => .error Trap.oob

/-- Direct write `*(p) = v` of a byte of a buffer. -/
def poke (mem : List Nat) (p : Nat) (v : Nat) : Except Trap (List Nat) :=
  if p < mem.length then .ok (mem.set p (v % 256)) else .error Trap.oob

/-- Counted loop `for(i = i0; <n more iterations>; ++i) body`. -/
def forLoop {ε σ : Type} (body : Nat → σ → Except ε σ) : Nat → Nat → σ → Except ε σ
  | 0, _, s => .ok s
  | n + 1, i, s =>
    match body i s with
    | .ok s1 => forLoop body n (i + 1) s1
    | .error e => .error e

/-- Loop `for(i = 0; i < n; ++i) body`. -/
def forRange {ε σ : Type} (n : Nat) (body : Nat → σ → Except ε σ) (s : σ) : Except ε σ :=
  forLoop body n 0 s

/-- The function of the same name: index of the lowest set bit, `-1` if none. -/
def ezimg_least_significant_set_bit (value : Nat) : Int :=
  match (List.range 32).find? (fun test => value &&& (1 <<< test) != 0) with
  | some test => (test : Int)
  | none => -1

/-- Byte stream `ezimg_stream`; pointers are offsets into the input buffer. -/
structure ezimg_stream where
  buffer : Nat
  buffer_size : Nat
  ptr : Nat
  ptr_end : Nat
  big_endian : Bool
  deriving DecidableEq

/-- Little-endian stream over `buffer_size` bytes at `buffer`. -/
def ezimg_init_stream (buffer buffer_size : Nat) : ezimg_stream :=
  { buffer := buffer, buffer_size := buffer_size, ptr := buffer,
    ptr_end := buffer + buffer_size, big_endian := false }

/-- Big-endian stream over `buffer_size` bytes at `buffer`. -/
def ezimg_init_stream_big (buffer buffer_size : Nat) : ezimg_stream :=
  { buffer := buffer, buffer_size := buffer_size, ptr := buffer,
    ptr_end := buffer + buffer_size, big_endian := true }

/-- One byte from the stream; `0` once the cursor has reached `ptr_end`. -/
def ezimg_read_u8 (mem : List Nat) (stream : ezimg_stream) : Except Trap (Nat × ezimg_stream) :=
  if stream.ptr ≥ stream.ptr_end then .ok (0, stream)
  else
    match peek mem stream.ptr with
    | .ok b => .ok (b, { stream with ptr := stream.ptr + 1 })
    | .error e => .error e

/-- Two bytes from the stream in the stream's byte order. -/
def ezimg_read_u16 (mem : List Nat) (stream : ezimg_stream) : Except Trap (Nat × ezimg_stream) := do
  let (lsb, stream) ← ezimg_read_u8 mem stream
  let (msb, stream) ← ezimg_read_u8 mem stream
  if stream.big_endian then
    return ((lsb <<< 8) ||| (msb <<< 0), stream)
  else
    return ((msb <<< 8) ||| (lsb <<< 0), stream)

/-- Four bytes from the stream in the stream's byte order. -/
def ezimg_read_u32 (mem : List Nat) (stream : ezimg_stream) : Except Trap (Nat × ezimg_stream) := do
  let (lsb, stream) ← ezimg_read_u8 mem stream
  let (mi1, stream) ← ezimg_read_u8 mem stream
  let (mi2, stream) ← ezimg_read_u8 mem stream
  let (msb, stream) ← ezimg_read_u8 mem stream
  if stream.big_endian then
    return ((lsb <<< 24) ||| (mi1 <<< 16) ||| (mi2 <<< 8) ||| (msb <<< 0), stream)
  else
    return ((msb <<< 24) ||| (mi2 <<< 16) ||| (mi1 <<< 8) ||| (lsb <<< 0), stream)

/-- Four bytes from the stream as a signed 32-bit value. -/
def ezimg_read_i32 (mem : List Nat) (stream : ezimg_stream) : Except Trap (Int × ezimg_stream) := do
  let (lsb, stream) ← ezimg_read_u8 mem stream
  let (mi1, stream) ← ezimg_read_u8 mem stream
  let (mi2, stream) ← ezimg_read_u8 mem stream
  let (msb, stream) ← ezimg_read_u8 mem stream
  if stream.big_endian then
    return (toInt32 ((lsb <<< 24) ||| (mi1 <<< 16) ||| (mi2 <<< 8) ||| (msb <<< 0)), stream)
  else
    return (toInt32 ((msb <<< 24) ||| (mi2 <<< 16) ||| (mi1 <<< 8) ||| (lsb <<< 0)), stream)

/-- Signature test of a BMP file: `'B'`, `'M'`. -/
def ezimg_bmp_check_signature (sign1 sign2 : Nat) : Bool :=
  sign1 == 66 && sign2 == 77

/-- Required output size of a BMP image: `abs_width*abs_height*4`. -/
def ezimg_bmp_size (inp : List Nat) : Except Trap Nat := do
  let in_size := inp.length
  if in_size < 54 then return 0
  let stream := ezimg_init_stream 0 in_size
  let (sign1, stream) ← ezimg_read_u8 inp stream
  let (sign2, stream) ← ezimg_read_u8 inp stream
  if !ezimg_bmp_check_signature sign1 sign2 then return 0
  let (_, stream) ← ezimg_read_u32 inp stream
  let (_, stream) ← ezimg_read_u32 inp stream
  let (_, stream) ← ezimg_read_u32 inp stream
  let (_, stream) ← ezimg_read_u32 inp stream
  let (width, stream) ← ezimg_read_i32 inp stream
  let (height, _) ← ezimg_read_i32 inp stream
  let abs_width := toUInt32 (EZIMG_ABS width)
  let abs_height := toUInt32 (EZIMG_ABS height)
  return u32 (abs_width * abs_height * 4)

/-- What a `load` call leaves behind: the status it returns, the output buffer,
and the values stored through `width` and `height` (`none`: nothing stored). -/
structure LoadResult where
  status : Status
  out : List Nat
  width : Option Nat
  height : Option Nat
  deriving DecidableEq

/-- Macro `PADDING(V, P)` of `ezimg_bmp_load`: `((V)%(P)==0)?(0):((P)-((V)%(P)))`. -/
def PADDING (V P : Nat) : Nat := if V % P = 0 then 0 else P - V % P

/-- Macro `XY2OFF(X, Y)` (and `YX2OFF(Y, X)`): `(((Y)*absw + (X))*4)`, unsigned. -/
def XY2OFF (absw X Y : Nat) : Nat := u32 ((Y * absw + X) * 4)

/-- State of the decode loops of `ezimg_bmp_load`: the data stream, the output
buffer and the write cursor `outp` (an offset into the output). -/
structure BmpState where
  stream : ezimg_stream
  out : List Nat
  outp : Nat
  deriving DecidableEq

/-- The four stores `*outp++ = 0xff; *outp++ = r; *outp++ = g; *outp++ = b;`. -/
def bmp_put_pixel (st : BmpState) (r g b : Nat) : Except Trap BmpState := do
  let out ← poke st.out st.outp 255
  let out ← poke out (st.outp + 1) r
  let out ← poke out (st.outp + 2) g
  let out ← poke out (st.outp + 3) b
  return { st with out := out, outp := st.outp + 4 }

/-- Body of the padding loop: one byte read and dropped. -/
def bmp_skip_byte (inp : List Nat) (st : BmpState) : Except Trap BmpState := do
  let (_, stream) ← ezimg_read_u8 inp st.stream
  return { st with stream := stream }

/-- The loop `for(x = 0; x < padding; ++x) ezimg_read_u8(&stream);`. -/
def bmp_skip_padding (inp : List Nat) (padding : Nat) (st : BmpState) : Except Trap BmpState :=
  forRange padding (fun _ st => bmp_skip_byte inp st) st

/-- Palette lookup and pixel store shared by the 4-bit and 8-bit paths. -/
def bmp_palette_pixel (inp : List Nat) (palette i : Nat) (st : BmpState) : Except Trap BmpState := do
  let b ← peek inp (palette + i * 4 + 0)
  let g ← peek inp (palette + i * 4 + 1)
  let r ← peek inp (palette + i * 4 + 2)
  let _ ← peek inp (palette + i * 4 + 3)
  bmp_put_pixel st r g b

/-- Body of the pixel loop of the 4-bit branch, pixel `x` of a row: on even `x`
a byte is read into `i4` and its high nibble is the index, on odd `x` the index
is the low nibble of `i4`. -/
def bmp_pixel4 (inp : List Nat) (palette : Nat) (x : Nat) (p : Nat × BmpState) :
    Except Trap (Nat × BmpState) := do
  let (i4, st) := p
  if x % 2 = 0 then
    let (i4, stream) ← ezimg_read_u8 inp st.stream
    let st ← bmp_palette_pixel inp palette (i4 >>> 4) { st with stream := stream }
    return (i4, st)
  else
    let st ← bmp_palette_pixel inp palette (i4 &&& 15) st
    return (i4, st)

/-- Body of the row loop of the 4-bit branch: `i4 = 0`, the pixels, the padding. -/
def bmp_row4 (inp : List Nat) (palette absw padding : Nat) (st : BmpState) :
    Except Trap BmpState := do
  let (_, st) ← forRange absw (bmp_pixel4 inp palette) (0, st)
  bmp_skip_padding inp padding st

/-- Row padding of the 4-bit branch.  `PADDING` has no outer parentheses: in
`PADDING(absw/2, 4) - 1` the `- 1` is part of the else arm of the conditional
expression. -/
def bmp_padding4 (absw : Nat) : Nat :=
  if absw % 2 = 0 then PADDING (absw / 2) 4
  else (if (absw / 2) % 4 = 0 then 0 else (4 - (absw / 2) % 4) - 1)

/-- Decode loops of the branch `compression == 0 && bit_count == 4`. -/
def bmp_decode4 (inp : List Nat) (palette absw absh : Nat) (st : BmpState) : Except Trap BmpState :=
  let padding := bmp_padding4 absw
  forRange absh (fun _ st => bmp_row4 inp palette absw padding st) st

/-- Body of the pixel loop of the 8-bit branch. -/
def bmp_pixel8 (inp : List Nat) (palette : Nat) (st : BmpState) : Except Trap BmpState := do
  let (i, stream) ← ezimg_read_u8 inp st.stream
  bmp_palette_pixel inp palette i { st with stream := stream }

/-- Body of the row loop of the 8-bit branch. -/
def bmp_row8 (inp : List Nat) (palette absw padding : Nat) (st : BmpState) :
    Except Trap BmpState := do
  let st ← forRange absw (fun _ st => bmp_pixel8 inp palette st) st
  bmp_skip_padding inp padding st

/-- Decode loops of the branch `compression == 0 && bit_count == 8`. -/
def bmp_decode8 (inp : List Nat) (palette absw absh : Nat) (st : BmpState) : Except Trap BmpState :=
  let padding := PADDING (1 * absw) 4
  forRange absh (fun _ st => bmp_row8 inp palette absw padding st) st

/-- Body of the pixel loop of the 24-bit branch: bytes B, G, R. -/
def bmp_pixel24 (inp : List Nat) (st : BmpState) : Except Trap BmpState := do
  let (b, stream) ← ezimg_read_u8 inp st.stream
  let (g, stream) ← ezimg_read_u8 inp stream
  let (r, stream) ← ezimg_read_u8 inp stream
  bmp_put_pixel { st with stream := stream } r g b

/-- Body of the row loop of the 24-bit branch. -/
def bmp_row24 (inp : List Nat) (absw padding : Nat) (st : BmpState) : Except Trap BmpState := do
  let st ← forRange absw (fun _ st => bmp_pixel24 inp st) st
  bmp_skip_padding inp padding st

/-- Decode loops of the branch `compression == 0 && bit_count == 24`. -/
def bmp_decode24 (inp : List Nat) (absw absh : Nat) (st : BmpState) : Except Trap BmpState :=
  let padding := PADDING (3 * absw) 4
  forRange absh (fun _ st => bmp_row24 inp absw padding st) st

/-- Body of the pixel loop of the branch `compression == 0 && bit_count == 32`:
bytes B, G, R, A; the alpha byte is read and not used. -/
def bmp_pixel32 (inp : List Nat) (st : BmpState) : Except Trap BmpState := do
  let (b, stream) ← ezimg_read_u8 inp st.stream
  let (g, stream) ← ezimg_read_u8 inp stream
  let (r, stream) ← ezimg_read_u8 inp stream
  let (_, stream) ← ezimg_read_u8 inp stream
  bmp_put_pixel { st with stream := stream } r g b

/-- Decode loops of the branch `compression == 0 && bit_count == 32`. -/
def bmp_decode32 (inp : List Nat) (absw absh : Nat) (st : BmpState) : Except Trap BmpState :=
  forRange absh (fun _ st => forRange absw (fun _ st => bmp_pixel32 inp st) st) st

/-- Body of the pixel loop of the branch `compression == 3 && bit_count == 32`:
the four bytes form `pixel`, each channel is masked and shifted; the alpha
value is computed and not used.  `x >> n` is the shift of `Nat`. -/
def bmp_pixel_bitfields (inp : List Nat) (rmask gmask bmask amask rlssb glssb blssb alssb : Nat)
    (st : BmpState) : Except Trap BmpState := do
  let (a, stream) ← ezimg_read_u8 inp st.stream
  let (b, stream) ← ezimg_read_u8 inp stream
  let (g, stream) ← ezimg_read_u8 inp stream
  let (r, stream) ← ezimg_read_u8 inp stream
  let pixel := (r <<< 24) ||| (g <<< 16) ||| (b <<< 8) ||| (a <<< 0)
  let r := ((pixel &&& rmask) >>> rlssb) &&& 255
  let g := ((pixel &&& gmask) >>> glssb) &&& 255
  let b := ((pixel &&& bmask) >>> blssb) &&& 255
  let _ := ((pixel &&& amask) >>> alssb) &&& 255
  bmp_put_pixel { st with stream := stream } r g b

/-- Decode loops of the branch `compression == 3 && bit_count == 32`.  The four
`lssb` values are stored in `unsigned int` variables. -/
def bmp_decode_bitfields (inp : List Nat) (rmask gmask bmask amask absw absh : Nat)
    (st : BmpState) : Except Trap BmpState :=
  let rlssb := toUInt32 (ezimg_least_significant_set_bit rmask)
  let glssb := toUInt32 (ezimg_least_significant_set_bit gmask)
  let blssb := toUInt32 (ezimg_least_significant_set_bit bmask)
  let alssb := toUInt32 (ezimg_least_significant_set_bit amask)
  forRange absh (fun _ st =>
    forRange absw (fun _ st =>
      bmp_pixel_bitfields inp rmask gmask bmask amask rlssb glssb blssb alssb st) st) st

/-- Exchange of the 4-byte pixels at `outp + o1` and `outp + o2`, in the order
of the source: save the pixel at `o2`, copy `o1` over it byte by byte, store the
saved bytes at `o1`. -/
def bmp_swap_pixels (out : List Nat) (outp o1 o2 : Nat) : Except Trap (List Nat) := do
  let a ← peek out (outp + o2 + 0)
  let r ← peek out (outp + o2 + 1)
  let g ← peek out (outp + o2 + 2)
  let b ← peek out (outp + o2 + 3)
  let v ← peek out (outp + o1 + 0)
  let out ← poke out (outp + o2 + 0) v
  let v ← peek out (outp + o1 + 1)
  let out ← poke out (outp + o2 + 1) v
  let v ← peek out (outp + o1 + 2)
  let out ← poke out (outp + o2 + 2) v
  let v ← peek out (outp + o1 + 3)
  let out ← poke out (outp + o2 + 3) v
  let out ← poke out (outp + o1 + 0) a
  let out ← poke out (outp + o1 + 1) r
  let out ← poke out (outp + o1 + 2) g
  let out ← poke out (outp + o1 + 3) b
  return out

/-- The block `if(h > 0)` of `ezimg_bmp_load` after `outp = out`: rows `y` and
`absh - 1 - y` are exchanged for `y < absh / 2`. -/
def bmp_flip_rows (absw absh : Nat) (out : List Nat) : Except Trap (List Nat) :=
  let half_height := absh / 2
  forRange half_height (fun y out =>
    let r1 := y
    let r2 := absh - 1 - y
    forRange absw (fun x out =>
      bmp_swap_pixels out 0 (XY2OFF absw x r1) (XY2OFF absw x r2)) out) out

/-- The block `if(w < 0)` of `ezimg_bmp_load`: columns `x` and `absw - 1 - x`
are exchanged for `x < absw / 2`, at offsets taken from the current `outp`. -/
def bmp_mirror_columns (absw absh : Nat) (outp : Nat) (out : List Nat) : Except Trap (List Nat) :=
  let half_width := absw / 2
  forRange absh (fun y out =>
    forRange half_width (fun x out =>
      let c1 := x
      let c2 := absw - 1 - x
      bmp_swap_pixels out outp (XY2OFF absw c1 y) (XY2OFF absw c2 y)) out) out

/-- The block `if(dib_header_size > 40)` of `ezimg_bmp_load`: the four channel
masks, read from the header stream, or zeros. -/
def bmp_read_masks (inp : List Nat) (dib_header_size : Nat) (stream : ezimg_stream) :
    Except Trap (Nat × Nat × Nat × Nat) :=
  if dib_header_size > 40 then do
    let (rmask, stream) ← ezimg_read_u32 inp stream
    let (gmask, stream) ← ezimg_read_u32 inp stream
    let (bmask, stream) ← ezimg_read_u32 inp stream
    let (amask, _) ← ezimg_read_u32 inp stream
    return (rmask, gmask, bmask, amask)
  else return (0, 0, 0, 0)

/-- The chain `if(compression == 0 && bit_count == 4) ... else if ... else` of
`ezimg_bmp_load`: the decode loops of the branch taken, or `none` for the final
`else` (which returns `EZIMG_NOT_SUPPORTED`). -/
def bmp_decode_dispatch (inp : List Nat) (palette absw absh bit_count compression
    rmask gmask bmask amask : Nat) (st : BmpState) : Option (Except Trap BmpState) :=
  if compression = 0 ∧ bit_count = 4 then some (bmp_decode4 inp palette absw absh st)
  else if compression = 0 ∧ bit_count = 8 then some (bmp_decode8 inp palette absw absh st)
  else if compression = 0 ∧ bit_count = 24 then some (bmp_decode24 inp absw absh st)
  else if compression = 0 ∧ bit_count = 32 then some (bmp_decode32 inp absw absh st)
  else if compression = 3 ∧ bit_count = 32 then
    some (bmp_decode_bitfields inp rmask gmask bmask amask absw absh st)
  else none

/-- The two orientation fixes and the stores through `width` and `height` that
end `ezimg_bmp_load`, from the state `st` the decode loops leave. -/
def bmp_orient (w h : Int) (absw absh : Nat) (st : BmpState) : Except Trap LoadResult := do
  let (out1, outp) ←
    (if h > 0 then do
      let o ← bmp_flip_rows absw absh st.out
      return (o, 0)
    else return (st.out, st.outp) : Except Trap (List Nat × Nat))
  let out2 ← (if w < 0 then bmp_mirror_columns absw absh outp out1 else return out1)
  return { status := .EZIMG_OK, out := out2, width := some absw, height := some absh }

/-- Second half of `ezimg_bmp_load`, from `palette_offset = 14 + dib_header_size`
to the end: pixel decode, the two orientation fixes, and the stores through
`width` and `height`. -/
def bmp_load_pixels (inp out : List Nat) (data_offset dib_header_size : Nat) (w h : Int)
    (bit_count compression rmask gmask bmask amask : Nat) : Except Trap LoadResult := do
  let in_size := inp.length
  let absw := toUInt32 (EZIMG_ABS w)
  let absh := toUInt32 (EZIMG_ABS h)
  let palette_offset := u32 (14 + dib_header_size)
  let palette := palette_offset
  let data := data_offset
  let data_size := sub32 in_size data_offset
  let st : BmpState := { stream := ezimg_init_stream data data_size, out := out, outp := 0 }
  match bmp_decode_dispatch inp palette absw absh bit_count compression
      rmask gmask bmask amask st with
  | none =>
    return { status := .EZIMG_NOT_SUPPORTED, out := out, width := none, height := none }
  | some run =>
    let st ← run
    bmp_orient w h absw absh st

/-- The function `ezimg_bmp_load`; `in_size` and `out_size` are the lengths of
the two buffers.  The header is parsed here, the rest is `bmp_load_pixels`. -/
def ezimg_bmp_load (inp out : List Nat) : Except Trap LoadResult := do
  let in_size := inp.length
  let out_size := out.length
  let fail (s : Status) : LoadResult := { status := s, out := out, width := none, height := none }
  if in_size < 54 then return fail .EZIMG_INVALID_IMAGE
  let stream := ezimg_init_stream 0 in_size
  let (sign1, stream) ← ezimg_read_u8 inp stream
  let (sign2, stream) ← ezimg_read_u8 inp stream
  if !ezimg_bmp_check_signature sign1 sign2 then return fail .EZIMG_INVALID_IMAGE
  let (_, stream) ← ezimg_read_u32 inp stream
  let (_, stream) ← ezimg_read_u32 inp stream
  let (data_offset, stream) ← ezimg_read_u32 inp stream
  let (dib_header_size, stream) ← ezimg_read_u32 inp stream
  let (w, stream) ← ezimg_read_i32 inp stream
  let (h, stream) ← ezimg_read_i32 inp stream
  let absw := toUInt32 (EZIMG_ABS w)
  let absh := toUInt32 (EZIMG_ABS h)
  if out_size < u32 (absw * absh * 4) then return fail .EZIMG_NOT_ENOUGH_SPACE
  let (planes, stream) ← ezimg_read_u16 inp stream
  let (bit_count, stream) ← ezimg_read_u16 inp stream
  let (compression, stream) ← ezimg_read_u32 inp stream
  if planes ≠ 1 then return fail .EZIMG_NOT_SUPPORTED
  if bit_count ≠ 4 ∧ bit_count ≠ 8 ∧ bit_count ≠ 24 ∧ bit_count ≠ 32 then
    return fail .EZIMG_NOT_SUPPORTED
  if compression ≠ 0 ∧ compression ≠ 3 then return fail .EZIMG_NOT_SUPPORTED
  let (_, stream) ← ezimg_read_u32 inp stream
  let (_, stream) ← ezimg_read_u32 inp stream
  let (_, stream) ← ezimg_read_u32 inp stream
  let (_, stream) ← ezimg_read_u32 inp stream
  let (_, stream) ← ezimg_read_u32 inp stream
  let (rmask, gmask, bmask, amask) ← bmp_read_masks inp dib_header_size stream
  bmp_load_pixels inp out data_offset dib_header_size w h bit_count compression
    rmask gmask bmask amask

/-- Signature test of a PNG file on the eight bytes read: `137 80 78 71 13 10 26 10`. -/
def ezimg_png_check_signature (sign : List Nat) : Bool :=
  sign.getD 0 0 == 137 && sign.getD 1 0 == 80 &&
  sign.getD 2 0 == 78 && sign.getD 3 0 == 71 &&
  sign.getD 4 0 == 13 && sign.getD 5 0 == 10 &&
  sign.getD 6 0 == 26 && sign.getD 7 0 == 10

/-- Size of the decompressed data of a `width` by `height` image:
`(width*height*4) + (1*height)`, unsigned. -/
def ezimg_png_decomp_data_max_size (width height : Nat) : Nat :=
  u32 (u32 (width * height * 4) + u32 (1 * height))

/-- Chunk type `IHDR`. -/
def EZIMG_CHUNK_START : Nat := 0x49484452

/-- Chunk type `IEND`. -/
def EZIMG_CHUNK_END : Nat := 0x49454e44

/-- Chunk type `IDAT`. -/
def EZIMG_CHUNK_IDAT : Nat := 0x49444154

/-- The loop `for(i = 0; i < 8; ++i) signature[i] = ezimg_read_u8(&stream);`. -/
def png_read_signature (inp : List Nat) (stream : ezimg_stream) :
    Except Trap (List Nat × ezimg_stream) :=
  forRange 8 (fun _ (p : List Nat × ezimg_stream) => do
    let (b, stream) ← ezimg_read_u8 inp p.2
    return (p.1 ++ [b], stream)) ([], stream)

/-- Required output size of a PNG image. -/
def ezimg_png_size (inp : List Nat) : Except Trap Nat := do
  let in_size := inp.length
  let stream := ezimg_init_stream_big 0 in_size
  if in_size < 8 then return 0
  let (signature, stream) ← png_read_signature inp stream
  if !ezimg_png_check_signature signature then return 0
  let (_, stream) ← ezimg_read_u32 inp stream
  let (type, stream) ← ezimg_read_u32 inp stream
  if type ≠ EZIMG_CHUNK_START then return 0
  let (width, stream) ← ezimg_read_u32 inp stream
  let (height, _) ← ezimg_read_u32 inp stream
  return ezimg_png_decomp_data_max_size width height

/-- Bound on the number of recorded data chunks. -/
def EZIMG_CHUNK_MAX_ENTRIES : Nat := 50

/-- Bit stream `ezimg_cstream` over the recorded data chunks; `chunks` holds the
offset of each chunk payload in the input, `at_end` is the field `end`. -/
structure ezimg_cstream where
  chunks : List Nat
  lens : List Nat
  num_chunks : Nat
  current_chunk : Nat
  current_pos : Nat
  buff : Nat
  mask : Nat
  at_end : Bool
  deriving DecidableEq

/-- Next byte of the chunk list; `0` and `end = 1` once the list is exhausted. -/
def ezimg_cread_u8 (inp : List Nat) (stream : ezimg_cstream) :
    Except Trap (Nat × ezimg_cstream) :=
  if stream.at_end then .ok (0, stream)
  else if stream.current_chunk ≥ stream.num_chunks then
    .ok (0, { stream with at_end := true })
  else
    let stream :=
      if stream.current_pos ≥ stream.lens.getD stream.current_chunk 0 then
        { stream with current_chunk := stream.current_chunk + 1, current_pos := 0 }
      else stream
    if stream.current_chunk ≥ stream.num_chunks then
      .ok (0, { stream with at_end := true })
    else
      match peek inp (stream.chunks.getD stream.current_chunk 0 + stream.current_pos) with
      | .ok byte_read => .ok (byte_read, { stream with current_pos := stream.current_pos + 1 })
      | .error e => .error e

/-- Start of the bit stream over the first `num_chunks` recorded chunks. -/
def ezimg_init_cstream (inp : List Nat) (stream : ezimg_cstream) (num_chunks : Nat) :
    Except Trap ezimg_cstream := do
  let stream := { stream with
    num_chunks := num_chunks, current_chunk := 0, current_pos := 0,
    at_end := false, mask := 1 }
  let (b, stream) ← ezimg_cread_u8 inp stream
  return { stream with buff := b }

/-- Next bit of the stream, least significant bit of each byte first. -/
def ezimg_next_bit (inp : List Nat) (stream : ezimg_cstream) :
    Except Trap (Nat × ezimg_cstream) :=
  if stream.at_end then .ok (0, stream)
  else
    let bit := if stream.buff &&& stream.mask ≠ 0 then 1 else 0
    let stream := { stream with mask := (stream.mask <<< 1) % 256 }
    if stream.mask = 0 then do
      let stream := { stream with mask := 1 }
      let (b, stream) ← ezimg_cread_u8 inp stream
      return (bit, { stream with buff := b })
    else .ok (bit, stream)

/-- The next `count` bits as a number, first bit lowest. -/
def ezimg_cread_bits (inp : List Nat) (stream : ezimg_cstream) (count : Nat) :
    Except Trap (Nat × ezimg_cstream) :=
  forRange count (fun i (p : Nat × ezimg_cstream) => do
    let (bit, stream) ← ezimg_next_bit inp p.2
    return (p.1 ||| (bit <<< i), stream)) (0, stream)

/-- Drop of the rest of a partly consumed byte. -/
def ezimg_cflush (inp : List Nat) (stream : ezimg_cstream) : Except Trap ezimg_cstream :=
  if stream.mask ≠ 1 then do
    let stream := { stream with mask := 1 }
    let (b, stream) ← ezimg_cread_u8 inp stream
    return { stream with buff := b }
  else .ok stream

/-- Base lengths of the length symbols 265..284. -/
def ezimg_deflate_len_table : List Int :=
  [11, 13, 15, 17, 19, 23, 27,
   31, 35, 43, 51, 59, 67, 83,
   99, 115, 131, 163, 195, 227]

/-- Length denoted by a length symbol, `-1` outside 257..285. -/
def ezimg_deflate_len (inp : List Nat) (code : Int) (stream : ezimg_cstream) :
    Except Trap (Int × ezimg_cstream) :=
  if code < 257 ∨ code > 285 then .ok (-1, stream)
  else if code = 285 then .ok (258, stream)
  else if code < 265 then .ok (code - 254, stream)
  else do
    let (extra, stream) ← ezimg_cread_bits inp stream ((code - 261) / 4).toNat
    return ((extra : Int) + ezimg_deflate_len_table.getD (code - 265).toNat 0, stream)

/-- Base distances (minus one) of the distance symbols 4..29. -/
def ezimg_deflate_dist_table : List Int :=
  [4, 6, 8, 12, 16, 24, 32, 48,
   64, 96, 128, 192, 256, 384,
   512, 768, 1024, 1536, 2048,
   3072, 4096, 6144, 8192,
   12288, 16384, 24576]

/-- Distance denoted by a distance symbol, `-1` outside 0..29. -/
def ezimg_deflate_dist (inp : List Nat) (code : Int) (stream : ezimg_cstream) :
    Except Trap (Int × ezimg_cstream) :=
  if code < 0 ∨ code > 29 then .ok (-1, stream)
  else if code < 4 then .ok (code + 1, stream)
  else do
    let (extra, stream) ← ezimg_cread_bits inp stream ((code - 2) / 2).toNat
    return ((extra : Int) + ezimg_deflate_dist_table.getD (code - 4).toNat 0 + 1, stream)

/-- Capacity of a Huffman table. -/
def EZIMG_HTABLE_MAX_ENTRIES : Nat := 290

/-- Entry of a Huffman table: the code of a symbol and its length in bits. -/
structure ezimg_huff_entry where
  code : Nat
  len : Nat
  deriving DecidableEq

/-- Huffman table; `entries` has `EZIMG_HTABLE_MAX_ENTRIES` elements. -/
structure ezimg_huff where
  max_len : Nat
  count : Nat
  entries : List ezimg_huff_entry
  deriving DecidableEq

/-- A table as `ezimg_huff x = {0}` leaves it. -/
def huff_zero : ezimg_huff :=
  { max_len := 0, count := 0, entries := List.replicate EZIMG_HTABLE_MAX_ENTRIES ⟨0, 0⟩ }

/-- All entries cleared and `count = 0`; `max_len` is left as it is. -/
def ezimg_reset_huff (huff : ezimg_huff) : ezimg_huff :=
  { huff with entries := List.replicate EZIMG_HTABLE_MAX_ENTRIES ⟨0, 0⟩, count := 0 }

/-- The `for` loop of `ezimg_huff_decode`: the first `i < count` whose entry has
length `len` and code `code`. -/
def huff_find (huff : ezimg_huff) (code len : Nat) : Option Nat :=
  (List.range huff.count).find? (fun i =>
    let e := huff.entries.getD i ⟨0, 0⟩
    e.len == len && e.code == code)

/-- The `while(len <= huff->max_len)` loop of `ezimg_huff_decode`; the first
argument is `max_len + 1 - len`, the number of values of `len` still allowed. -/
def huff_decode_loop (inp : List Nat) (huff : ezimg_huff) :
    Nat → Nat → Nat → ezimg_cstream → Except Trap (Int × ezimg_cstream)
  | 0, _, _, stream => .ok (-1, stream)
  | k + 1, code, len, stream =>
    match huff_find huff code len with
    | some i => .ok ((i : Int), stream)
    | none =>
      if len ≥ huff.max_len then .ok (-1, stream)
      else
        match ezimg_cread_bits inp stream 1 with
        | .ok (bit, stream) =>
          huff_decode_loop inp huff k (u32 (code <<< 1) ||| (bit &&& 255)) (len + 1) stream
        | .error e => .error e

/-- One symbol decoded with the table, `-1` if no code matches. -/
def ezimg_huff_decode (inp : List Nat) (huff : ezimg_huff) (chunk_stream : ezimg_cstream) :
    Except Trap (Int × ezimg_cstream) := do
  let (bit, chunk_stream) ← ezimg_cread_bits inp chunk_stream 1
  huff_decode_loop inp huff huff.max_len (bit &&& 255) 1 chunk_stream

/-- Read `a[i]` of an `unsigned int` array. -/
def aget (a : List Nat) (i : Nat) : Except Trap Nat :=
  match a[i]? with
  | some v => .ok v
  | none => .error Trap.oob

/-- Store `a[i] = v` in an `unsigned int` array. -/
def aset (a : List Nat) (i : Nat) (v : Nat) : Except Trap (List Nat) :=
  if i < a.length then .ok (a.set i (u32 v)) else .error Trap.oob

/-- State of the `while(i < hcount)` loop of `ezimg_compute_htable`. -/
structure HtableState where
  stream : ezimg_cstream
  htable : List Nat
  i : Nat
  deriving DecidableEq

/-- The loop `while(i < hcount)` of `ezimg_compute_htable`, on fuel; `none` is
`return(0)`. -/
def compute_htable_loop (inp : List Nat) (clen_huff : ezimg_huff) (hcount : Nat) :
    Nat → HtableState → Except Trap (Option HtableState)
  | 0, st => if st.i < hcount then .error Trap.fuel else .ok (some st)
  | fuel + 1, st =>
    if st.i < hcount then do
      let (encoded_len, stream) ← ezimg_huff_decode inp clen_huff st.stream
      if encoded_len < 0 ∨ encoded_len > 18 then return none
      let sel : Except Trap (Option (Nat × Nat × ezimg_cstream)) :=
        if encoded_len ≤ 15 then .ok (some (encoded_len.toNat, 1, stream))
        else if encoded_len = 16 then
          if st.i = 0 then .ok none
          else do
            let rep_val ← aget st.htable (st.i - 1)
            let (n, stream) ← ezimg_cread_bits inp stream 2
            return some (rep_val, 3 + n, stream)
        else if encoded_len = 17 then do
          let (n, stream) ← ezimg_cread_bits inp stream 3
          return some (0, 3 + n, stream)
        else if encoded_len = 18 then do
          let (n, stream) ← ezimg_cread_bits inp stream 7
          return some (0, 11 + n, stream)
        else .ok none
      match ← sel with
      | none => return none
      | some (rep_val, rep_count, stream) =>
        let (htable, i) ← forRange rep_count (fun _ (p : List Nat × Nat) => do
          let htable ← aset p.1 p.2 rep_val
          return (htable, p.2 + 1)) (st.htable, st.i)
        compute_htable_loop inp clen_huff hcount fuel
          { stream := stream, htable := htable, i := i }
    else .ok (some st)

/-- Code lengths of `hcount` symbols decoded into `htable` (an array of `hmax`
elements); the result is `none` for `return(0)`. -/
def ezimg_compute_htable (inp : List Nat) (chunk_stream : ezimg_cstream)
    (clen_huff : ezimg_huff) (htable : List Nat) (hcount hmax : Nat) :
    Except Trap (Option (List Nat × ezimg_cstream)) := do
  let htable ← forRange hmax (fun i htable => aset htable i 0) htable
  match ← compute_htable_loop inp clen_huff hcount hcount
      { stream := chunk_stream, htable := htable, i := 0 } with
  | none => return none
  | some st =>
    if st.i ≠ hcount then return none
    return some (st.htable, st.stream)

/-- Size of the local arrays `codes` and `len_count` of `ezimg_compute_huff`. -/
def MAX_CODE_LEN : Nat := 16

/-- Canonical Huffman table of the `hcount` code lengths in `htable`; the result
is `none` for `return(0)`. -/
def ezimg_compute_huff (htable : List Nat) (hcount : Nat) (huff : ezimg_huff) :
    Except Trap (Option ezimg_huff) := do
  let codes : List Nat := List.replicate MAX_CODE_LEN 0
  let len_count : List Nat := List.replicate MAX_CODE_LEN 0
  if hcount ≥ EZIMG_HTABLE_MAX_ENTRIES then return none
  let counted ← forRange hcount
    (fun i (p : Option (List Nat × Nat)) =>
      match p with
      | none => .ok none
      | some (len_count, max_len) => do
        let code_len ← aget htable i
        if code_len ≥ EZIMG_HTABLE_MAX_ENTRIES then return none
        let c ← aget len_count code_len
        let len_count ← aset len_count code_len (c + 1)
        return some (len_count, if code_len > max_len then code_len else max_len))
    (some (len_count, 0))
  match counted with
  | none => return none
  | some (len_count, max_len) =>
    if max_len > MAX_CODE_LEN then return none
    let len_count ← aset len_count 0 0
    let codes ← aset codes 0 0
    let (_, codes) ← forLoop (fun i (p : Nat × List Nat) => do
      let c ← aget len_count (i - 1)
      let code := u32 (u32 (p.1 + c) <<< 1)
      let codes ← aset p.2 i code
      return (code, codes)) max_len 1 (0, codes)
    let huff := ezimg_reset_huff huff
    let huff := { huff with count := hcount, max_len := max_len }
    let (entries, _) ← forRange hcount (fun i (p : List ezimg_huff_entry × List Nat) => do
      let code_len ← aget htable i
      if i ≥ p.1.length then throw Trap.oob
      let c ← aget p.2 code_len
      let entry : ezimg_huff_entry :=
        if code_len = 0 then ⟨0, code_len⟩ else ⟨c, code_len⟩
      let codes ← aset p.2 code_len (c + 1)
      return (p.1.set i entry, codes)) (huff.entries, codes)
    return some { huff with entries := entries }

/-- Ways in which `ezimg_decompress_idat` stops before its end: a trap, or
`return(0)` with the output buffer as written so far. -/
inductive Halt
  | trap (t : Trap)
  | reject (buff : List Nat)
  deriving DecidableEq

/-- A step that cannot reject, run inside `ezimg_decompress_idat`. -/
def liftTrap {α : Type} (x : Except Trap α) : Except Halt α :=
  match x with
  | .ok a => .ok a
  | .error t => .error (Halt.trap t)

/-- State of `ezimg_decompress_idat`: the bit stream, the output buffer and the
write cursor `outp` (an offset into the output). -/
structure InflateState where
  stream : ezimg_cstream
  buff : List Nat
  outp : Nat
  deriving DecidableEq

/-- Macro `EMIT(b)`: `if(outp >= outp_end) return(0); *outp++ = (unsigned char)(b);`.
The argument `b` is evaluated after the bound check, as in the expansion. -/
def EMIT (outp_end : Nat) (st : InflateState)
    (b : InflateState → Except Halt (Nat × InflateState)) : Except Halt InflateState :=
  if st.outp ≥ outp_end then .error (Halt.reject st.buff)
  else
    match b st with
    | .ok (v, st) =>
      match poke st.buff st.outp v with
      | .ok buff => .ok { st with buff := buff, outp := st.outp + 1 }
      | .error t => .error (Halt.trap t)
    | .error e => .error e

/-- Literal/length code lengths of a fixed-Huffman block. -/
def fixed_hlit_table : List Nat :=
  (List.range 288).map (fun i =>
    if i ≤ 143 then 8 else if i ≤ 255 then 9 else if i ≤ 279 then 7 else 8)

/-- Distance code lengths of a fixed-Huffman block. -/
def fixed_hdist_table : List Nat := List.replicate 32 5

/-- Order in which the code lengths of the code-length alphabet are stored. -/
def hclen_ord : List Nat := [16, 17, 18, 0, 8, 7, 9, 6, 10, 5, 11, 4, 12, 3, 13, 2, 14, 1, 15]

/-- A `return(0)` of `ezimg_decompress_idat` when a helper returned 0. -/
def orReject {α : Type} (buff : List Nat) (x : Except Trap (Option α)) : Except Halt α :=
  match x with
  | .ok (some a) => .ok a
  | .ok none => .error (Halt.reject buff)
  | .error t => .error (Halt.trap t)

/-- The branch `btype == 0` of `ezimg_decompress_idat`: a stored block. -/
def inflate_stored (inp : List Nat) (outp_end : Nat) (st : InflateState) :
    Except Halt InflateState := do
  let stream ← liftTrap (ezimg_cflush inp st.stream)
  let (b0len, stream) ← liftTrap (ezimg_cread_bits inp stream 16)
  let (b0nlen, stream) ← liftTrap (ezimg_cread_bits inp stream 16)
  -- `~b0len` is the complement of the 32-bit variable
  if 4294967295 - u32 b0len ≠ b0nlen then throw (Halt.reject st.buff)
  forRange b0len (fun _ (st : InflateState) =>
    EMIT outp_end st (fun st => do
      let (b, stream) ← liftTrap (ezimg_cread_bits inp st.stream 8)
      return (b, { st with stream := stream }))) { st with stream := stream }

/-- The branch `btype == 1`: the two tables of a fixed-Huffman block. -/
def inflate_fixed_tables (st : InflateState) : Except Halt (ezimg_huff × ezimg_huff) := do
  let lit_len_huff ← orReject st.buff (ezimg_compute_huff fixed_hlit_table 288 huff_zero)
  let dist_huff ← orReject st.buff (ezimg_compute_huff fixed_hdist_table 32 huff_zero)
  return (lit_len_huff, dist_huff)

/-- The branch `btype == 2`: the two tables of a dynamic-Huffman block, read
from the stream.  `clen_huff` is an uninitialised local of the source; its
fields are all overwritten by `ezimg_compute_huff`. -/
def inflate_dynamic_tables (inp : List Nat) (st : InflateState) :
    Except Halt (ezimg_huff × ezimg_huff × ezimg_cstream) := do
  let (hlit, stream) ← liftTrap (ezimg_cread_bits inp st.stream 5)
  let (hdist, stream) ← liftTrap (ezimg_cread_bits inp stream 5)
  let (hclen, stream) ← liftTrap (ezimg_cread_bits inp stream 4)
  if hclen > 19 then throw (Halt.reject st.buff)
  let hlit := hlit + 257
  let hdist := hdist + 1
  let hclen := hclen + 4
  let (hclen_table, stream) ← liftTrap (forRange hclen
    (fun i (p : List Nat × ezimg_cstream) => do
      let (v, stream) ← ezimg_cread_bits inp p.2 3
      let k ← aget hclen_ord i
      let t ← aset p.1 k v
      return (t, stream)) (List.replicate 20 0, stream))
  let clen_huff ← orReject st.buff (ezimg_compute_huff hclen_table 20 huff_zero)
  let (hlit_table, stream) ← orReject st.buff
    (ezimg_compute_htable inp stream clen_huff (List.replicate 288 0) hlit 288)
  let lit_len_huff ← orReject st.buff (ezimg_compute_huff hlit_table hlit huff_zero)
  let (hdist_table, stream) ← orReject st.buff
    (ezimg_compute_htable inp stream clen_huff (List.replicate 32 0) hdist 32)
  let dist_huff ← orReject st.buff (ezimg_compute_huff hdist_table hdist huff_zero)
  return (lit_len_huff, dist_huff, stream)

/-- The block `else if(lit_len > 256)` of the symbol loop: a back-reference. -/
def inflate_backref (inp : List Nat) (dist_huff : ezimg_huff) (outp_end : Nat) (lit_len : Int)
    (st : InflateState) : Except Halt InflateState := do
  let (len, stream) ← liftTrap (ezimg_deflate_len inp lit_len st.stream)
  let (dist, stream) ← liftTrap (ezimg_huff_decode inp dist_huff stream)
  if dist < 0 then throw (Halt.reject st.buff)
  let (dist, stream) ← liftTrap (ezimg_deflate_dist inp dist stream)
  if dist < 0 ∨ len ≤ 0 then throw (Halt.reject st.buff)
  -- `backp = outp - dist; if(backp < decomp_data) return(0);`
  if (st.outp : Int) - dist < 0 then throw (Halt.reject st.buff)
  let backp := ((st.outp : Int) - dist).toNat
  let (st, _) ← forRange len.toNat (fun _ (p : InflateState × Nat) => do
    let st ← EMIT outp_end p.1 (fun st => do
      let b ← liftTrap (peek st.buff p.2)
      return (b, st))
    return (st, p.2 + 1)) ({ st with stream := stream }, backp)
  return st

/-- The symbol loop `while(lit_len != 256)` of a compressed block, on fuel. -/
def inflate_symbols (inp : List Nat) (lit_len_huff dist_huff : ezimg_huff) (outp_end : Nat) :
    Nat → InflateState → Except Halt InflateState
  | 0, _ => .error (Halt.trap Trap.fuel)
  | fuel + 1, st => do
    let (lit_len, stream) ← liftTrap (ezimg_huff_decode inp lit_len_huff st.stream)
    let st := { st with stream := stream }
    if lit_len = 256 then return st
    if lit_len < 0 then throw (Halt.reject st.buff)
    if lit_len < 256 then
      let st ← EMIT outp_end st (fun st => .ok (lit_len.toNat, st))
      inflate_symbols inp lit_len_huff dist_huff outp_end fuel st
    else
      let st ← inflate_backref inp dist_huff outp_end lit_len st
      inflate_symbols inp lit_len_huff dist_huff outp_end fuel st

/-- The block loop `while(!is_last)` of `ezimg_decompress_idat`, on fuel. -/
def inflate_blocks (inp : List Nat) (outp_end : Nat) :
    Nat → InflateState → Except Halt InflateState
  | 0, _ => .error (Halt.trap Trap.fuel)
  | fuel + 1, st => do
    let (is_last, stream) ← liftTrap (ezimg_cread_bits inp st.stream 1)
    let (btype, stream) ← liftTrap (ezimg_cread_bits inp stream 2)
    let st := { st with stream := stream }
    let st ←
      (if btype = 0 then inflate_stored inp outp_end st
      else if btype = 1 then do
        let (lit_len_huff, dist_huff) ← inflate_fixed_tables st
        inflate_symbols inp lit_len_huff dist_huff outp_end (outp_end - st.outp + 1) st
      else if btype = 2 then do
        let (lit_len_huff, dist_huff, stream) ← inflate_dynamic_tables inp st
        inflate_symbols inp lit_len_huff dist_huff outp_end (outp_end - st.outp + 1)
          { st with stream := stream }
      else throw (Halt.reject st.buff) : Except Halt InflateState)
    if is_last ≠ 0 then return st
    inflate_blocks inp outp_end fuel st

/-- Fuel of the block loop: every block that starts before the end of the
stream takes at least one bit of it. -/
def inflate_block_fuel (stream : ezimg_cstream) : Nat :=
  8 * ((stream.lens.take stream.num_chunks).sum + stream.num_chunks) + 8

/-- The part of `ezimg_decompress_idat` after the capacity check: the zlib
header and the block loop, writing below `outp_end = decomp_data_max_size`. -/
def decompress_run (inp : List Nat) (chunk_stream : ezimg_cstream)
    (decomp_data_max_size : Nat) (buff : List Nat) : Except Trap (Bool × List Nat) :=
  let outp_end := decomp_data_max_size
  let run : Except Halt InflateState := do
    let (comp_method, stream) ← liftTrap (ezimg_cread_bits inp chunk_stream 4)
    let (comp_info, stream) ← liftTrap (ezimg_cread_bits inp stream 4)
    let (_, stream) ← liftTrap (ezimg_cread_bits inp stream 5)
    let (fdict, stream) ← liftTrap (ezimg_cread_bits inp stream 1)
    let (_, stream) ← liftTrap (ezimg_cread_bits inp stream 2)
    if comp_method ≠ 8 ∨ comp_info > 7 ∨ fdict ≠ 0 then throw (Halt.reject buff)
    inflate_blocks inp outp_end (inflate_block_fuel chunk_stream)
      { stream := stream, buff := buff, outp := 0 }
  match run with
  | .ok st => .ok (true, st.buff)
  | .error (Halt.reject b) => .ok (false, b)
  | .error (Halt.trap t) => .error t

/-- The function `ezimg_decompress_idat`: the returned flag is `false` for
`return(0)`, and the list is the buffer `buff` as the call leaves it. -/
def ezimg_decompress_idat (inp : List Nat) (chunk_stream : ezimg_cstream)
    (width height : Nat) (buff : List Nat) : Except Trap (Bool × List Nat) :=
  let buff_size := buff.length
  let decomp_data_max_size := ezimg_png_decomp_data_max_size width height
  if buff_size < decomp_data_max_size then .ok (false, buff)
  else decompress_run inp chunk_stream decomp_data_max_size buff

/-- The functions `ezimg_png_filter1` and `ezimg_png_filter2`: `src[channel] + a[channel]`
as an `unsigned char`. -/
def ezimg_png_filter1 (src a : Nat) : Nat := (src + a) % 256

/-- See `ezimg_png_filter1`. -/
def ezimg_png_filter2 (src b : Nat) : Nat := (src + b) % 256

/-- The function `ezimg_png_filter3`: `src[channel] + (a[channel] + b[channel]) / 2`. -/
def ezimg_png_filter3 (src a b : Nat) : Nat :=
  let avg := (a + b) / 2
  (src + avg % 256) % 256

/-- The function `ezimg_png_filter4`: the Paeth predictor added to `src[channel]`. -/
def ezimg_png_filter4 (src a b c : Nat) : Nat :=
  let p : Int := (a : Int) + (b : Int) - (c : Int)
  let pa := p - (a : Int)
  let pb := p - (b : Int)
  let pc := p - (c : Int)
  let pa := if pa < 0 then -pa else pa
  let pb := if pb < 0 then -pb else pb
  let pc := if pc < 0 then -pc else pc
  let pr := if pa ≤ pb ∧ pa ≤ pc then a else if pb ≤ pc then b else c
  (src + pr) % 256

/-- The pointer `b_pixel` of `ezimg_png_filter`: into the local `zero_pixel`
(with its offset there) or into the data buffer. -/
inductive RowPtr
  | zero (off : Nat)
  | data (off : Nat)
  deriving DecidableEq

/-- Pointer arithmetic `p + n`. -/
def RowPtr.add (p : RowPtr) (n : Nat) : RowPtr :=
  match p with
  | .zero off => .zero (off + n)
  | .data off => .data (off + n)

/-- Read `p[channel]`; `zero_pixel` has four bytes, all zero. -/
def RowPtr.get (buf : List Nat) (p : RowPtr) (channel : Nat) : Except Trap Nat :=
  match p with
  | .zero off => if off + channel < 4 then .ok 0 else .error Trap.oob
  | .data off => peek buf (off + channel)

/-- Read `*((unsigned int *)p)` as its four bytes in memory order. -/
def RowPtr.get4 (buf : List Nat) (p : RowPtr) : Except Trap (List Nat) := do
  let b0 ← p.get buf 0
  let b1 ← p.get buf 1
  let b2 ← p.get buf 2
  let b3 ← p.get buf 3
  return [b0, b1, b2, b3]

/-- State of the pixel loops of `ezimg_png_filter`; `a_pixel` and `c_pixel` are
held as their four bytes in memory order. -/
structure FilterState where
  buf : List Nat
  src : Nat
  dst : Nat
  a_pixel : List Nat
  b_pixel : RowPtr
  c_pixel : List Nat
  deriving DecidableEq

/-- One pixel of a scanline: the four stores `dst[k] = f(src[k], a[k], b[k], c[k])`
in order (`b` is read only when `useb` is set), the updates of `c_pixel`,
`a_pixel` and `b_pixel` selected by the branch, and `dst += 4; src += 4`. -/
def png_filter_pixel (f : Nat → Nat → Nat → Nat → Nat) (useb setc seta : Bool)
    (prev_row_advance : Nat) (st : FilterState) : Except Trap FilterState := do
  let buf ← forRange 4 (fun k buf => do
    let s ← peek buf (st.src + k)
    let b ← (if useb then st.b_pixel.get buf k else .ok 0)
    poke buf (st.dst + k) (f s (st.a_pixel.getD k 0) b (st.c_pixel.getD k 0))) st.buf
  let c_pixel ← (if setc then st.b_pixel.get4 buf else .ok st.c_pixel)
  let a_pixel ← (if seta then (RowPtr.data st.dst).get4 buf else .ok st.a_pixel)
  return { buf := buf, src := st.src + 4, dst := st.dst + 4, a_pixel := a_pixel,
           b_pixel := (if useb then st.b_pixel.add prev_row_advance else st.b_pixel),
           c_pixel := c_pixel }

/-- State of the scanline loop of `ezimg_png_filter`. -/
structure FilterRows where
  buf : List Nat
  src : Nat
  dst : Nat
  prev_row : RowPtr
  prev_row_advance : Nat
  deriving DecidableEq

/-- One scanline of `ezimg_png_filter`: the filter byte and the branch it
selects; an unknown filter type is `return(0)`. -/
def png_filter_row (width : Nat) (rs : FilterRows) : Except Halt FilterRows := do
  let filter ← liftTrap (peek rs.buf rs.src)
  let src := rs.src + 1
  let curr_row := rs.dst
  let st0 : FilterState :=
    { buf := rs.buf, src := src, dst := rs.dst, a_pixel := [0, 0, 0, 0],
      b_pixel := rs.prev_row, c_pixel := [0, 0, 0, 0] }
  let st ←
    (if filter = 0 then
      liftTrap (forRange width (fun _ (st : FilterState) => do
        let buf ← forRange 4 (fun k buf => do
          let s ← peek buf (st.src + k)
          poke buf (st.dst + k) s) st.buf
        return { st with buf := buf, src := st.src + 4, dst := st.dst + 4 }) st0)
    else if filter = 1 then
      liftTrap (forRange width (fun _ st =>
        png_filter_pixel (fun s a _ _ => ezimg_png_filter1 s a) false false true
          rs.prev_row_advance st) st0)
    else if filter = 2 then
      liftTrap (forRange width (fun _ st =>
        png_filter_pixel (fun s _ b _ => ezimg_png_filter2 s b) true false false
          rs.prev_row_advance st) st0)
    else if filter = 3 then
      liftTrap (forRange width (fun _ st =>
        png_filter_pixel (fun s a b _ => ezimg_png_filter3 s a b) true false true
          rs.prev_row_advance st) st0)
    else if filter = 4 then
      liftTrap (forRange width (fun _ st =>
        png_filter_pixel (fun s a b c => ezimg_png_filter4 s a b c) true true true
          rs.prev_row_advance st) st0)
    else throw (Halt.reject rs.buf) : Except Halt FilterState)
  return { buf := st.buf, src := st.src, dst := st.dst, prev_row := RowPtr.data curr_row,
           prev_row_advance := 4 }

/-- The function `ezimg_png_filter`, run in place on `decomp_data`: the flag is
`false` for `return(0)`, the list is the buffer as the call leaves it. -/
def ezimg_png_filter (decomp_data : List Nat) (width height : Nat) :
    Except Trap (Bool × List Nat) :=
  match forRange height (fun _ rs => png_filter_row width rs)
      { buf := decomp_data, src := 0, dst := 0, prev_row := RowPtr.zero 0,
        prev_row_advance := 0 } with
  | .ok rs => .ok (true, rs.buf)
  | .error (Halt.reject b) => .ok (false, b)
  | .error (Halt.trap t) => .error t

/-- The block `if(color_type == 2)` of `ezimg_png_load`: for every `y < h` and
`x < w` the bytes after `pos = 1 + x*4 + 3` move up by one and a zero is stored
at `pos`. -/
def png_rgb_to_rgba (w h decomp_data_max_size : Nat) (decomp_data : List Nat) :
    Except Trap (List Nat) :=
  forRange h (fun _ d =>
    forRange w (fun x d => do
      let pos := u32 (1 + u32 (x * 4) + 3)
      let first := sub32 decomp_data_max_size 1
      -- `for(i = decomp_data_max_size - 1; i > pos; --i)`
      let d ← forRange (first - pos) (fun k d => do
        let i := first - k
        let v ← peek d (i - 1)
        poke d i v) d
      poke d pos 0) d) decomp_data

/-- The last loop of `ezimg_png_load`: every pixel goes from (R,G,B,A) to
(A,R,G,B), with `0xff` for A when `color_type == 2`. -/
def png_rgba_to_argb (w h color_type : Nat) (decomp_data : List Nat) : Except Trap (List Nat) :=
  forRange h (fun y d =>
    forRange w (fun x d => do
      let offset := u32 ((y * w + x) * 4)
      let r ← peek d (offset + 0)
      let g ← peek d (offset + 1)
      let b ← peek d (offset + 2)
      let a ← peek d (offset + 3)
      let d ← poke d (offset + 0) (if color_type = 2 then 255 else a)
      let d ← poke d (offset + 1) r
      let d ← poke d (offset + 2) g
      poke d (offset + 3) b) d) decomp_data

/-- State of the chunk walk of `ezimg_png_load`; `chunks` and `lens` hold the
recorded data chunks, their number is `idat_chunk_index`. -/
structure PngWalk where
  stream : ezimg_stream
  w : Nat
  h : Nat
  color_type : Nat
  first_chunk : Bool
  chunks : List Nat
  lens : List Nat
  deriving DecidableEq

/-- How the chunk walk ends: a status returned from inside the loop, or the
loop left after the `IEND` chunk. -/
inductive WalkEnd
  | returned (s : Status)
  | finished (walk : PngWalk)
  deriving DecidableEq

/-- The chain `if(type == EZIMG_CHUNK_START) ... else if(type == EZIMG_CHUNK_END)
... else if(type == EZIMG_CHUNK_IDAT) ...` of the chunk walk, for a chunk of
length `len` and type `type` whose payload starts at `stream.ptr`: a status
returned from inside, or the new state and the flag `last_chunk`. -/
def png_walk_chunk (inp : List Nat) (wk : PngWalk) (len type : Nat) (stream : ezimg_stream) :
    Except Trap (Status ⊕ (PngWalk × Bool)) :=
  let chunk_data := stream.ptr
  if type = EZIMG_CHUNK_START then do
    let (w, stream) ← ezimg_read_u32 inp stream
    let (h, stream) ← ezimg_read_u32 inp stream
    let (bit_count, stream) ← ezimg_read_u8 inp stream
    let (color_type, stream) ← ezimg_read_u8 inp stream
    let (compression, stream) ← ezimg_read_u8 inp stream
    let (filter, stream) ← ezimg_read_u8 inp stream
    let (interlace, _) ← ezimg_read_u8 inp stream
    if w = 0 ∨ h = 0 then return Sum.inl .EZIMG_INVALID_IMAGE
    if bit_count ≠ 8 ∨ (color_type ≠ 2 ∧ color_type ≠ 6) ∨
        compression ≠ 0 ∨ filter ≠ 0 ∨ interlace ≠ 0 then
      return Sum.inl .EZIMG_NOT_SUPPORTED
    return Sum.inr ({ wk with w := w, h := h, color_type := color_type }, false)
  else if type = EZIMG_CHUNK_END then
    return Sum.inr (wk, true)
  else if type = EZIMG_CHUNK_IDAT then
    if wk.chunks.length ≥ EZIMG_CHUNK_MAX_ENTRIES then
      return Sum.inl .EZIMG_NOT_SUPPORTED
    else
      return Sum.inr ({ wk with chunks := wk.chunks ++ [chunk_data],
                                 lens := wk.lens ++ [len] }, false)
  else return Sum.inr (wk, false)

/-- Body of the loop `while(!last_chunk)` of `ezimg_png_load`, one chunk: the
result is `Sum.inl` when the function returns or the loop is left, `Sum.inr`
with the state of the next iteration otherwise. -/
def png_walk_step (inp : List Nat) (wk : PngWalk) : Except Trap (WalkEnd ⊕ PngWalk) := do
  let in_size := inp.length
  let (len, stream) ← ezimg_read_u32 inp wk.stream
  let (type, stream) ← ezimg_read_u32 inp stream
  let chunk_data := stream.ptr
  let next_chunk := chunk_data + len + 4
  if wk.first_chunk ∧ type ≠ EZIMG_CHUNK_START then
    return Sum.inl (WalkEnd.returned .EZIMG_INVALID_IMAGE)
  match ← png_walk_chunk inp wk len type stream with
  | Sum.inl s => return Sum.inl (WalkEnd.returned s)
  | Sum.inr (wk, last_chunk) =>
    let wk := { wk with
      first_chunk := false,
      stream := ezimg_init_stream_big next_chunk (sub32 in_size (u32 next_chunk)) }
    if last_chunk then return Sum.inl (WalkEnd.finished wk)
    return Sum.inr wk

/-- The loop `while(!last_chunk)` of `ezimg_png_load`, on fuel. -/
def png_walk (inp : List Nat) : Nat → PngWalk → Except Trap WalkEnd
  | 0, _ => .error Trap.fuel
  | fuel + 1, wk =>
    match png_walk_step inp wk with
    | .ok (Sum.inl e) => .ok e
    | .ok (Sum.inr wk) => png_walk inp fuel wk
    | .error e => .error e

/-- State of the chunk walk when the loop is entered: the stream stands after
the signature. -/
def png_walk_init (stream : ezimg_stream) : PngWalk :=
  { stream := stream, w := 0, h := 0, color_type := 0, first_chunk := true,
    chunks := [], lens := [] }

/-- Second half of `ezimg_png_load`, after the chunk walk: the test for a
missing data chunk, decompression into the output buffer, the insertion of
alpha bytes, the filters and the reordering of the channels. -/
def png_load_decode (inp out : List Nat) (wk : PngWalk) : Except Trap LoadResult := do
  let fail (s : Status) (o : List Nat) : LoadResult :=
    { status := s, out := o, width := none, height := none }
  let idat_chunk_index := wk.chunks.length
  let w := wk.w
  let h := wk.h
  let color_type := wk.color_type
  if idat_chunk_index = 0 then return fail .EZIMG_INVALID_IMAGE out
  let cstream ← ezimg_init_cstream inp
    { chunks := wk.chunks, lens := wk.lens, num_chunks := 0, current_chunk := 0,
      current_pos := 0, buff := 0, mask := 0, at_end := false } idat_chunk_index
  let (decompressed, decomp_data) ← ezimg_decompress_idat inp cstream w h out
  if !decompressed then return fail .EZIMG_INVALID_IMAGE decomp_data
  let decomp_data_max_size := ezimg_png_decomp_data_max_size w h
  let decomp_data ←
    (if color_type = 2 then png_rgb_to_rgba w h decomp_data_max_size decomp_data
     else .ok decomp_data)
  let (filtered, decomp_data) ← ezimg_png_filter decomp_data w h
  if !filtered then return fail .EZIMG_INVALID_IMAGE decomp_data
  let decomp_data ← png_rgba_to_argb w h color_type decomp_data
  return { status := .EZIMG_OK, out := decomp_data, width := some w, height := some h }

/-- The function `ezimg_png_load`; `in_size` and `out_size` are the lengths of
the two buffers.  The signature and the chunk walk are here, the rest is
`png_load_decode`. -/
def ezimg_png_load (inp out : List Nat) : Except Trap LoadResult := do
  let in_size := inp.length
  let fail (s : Status) (o : List Nat) : LoadResult :=
    { status := s, out := o, width := none, height := none }
  let stream := ezimg_init_stream_big 0 in_size
  if in_size < 8 then return fail .EZIMG_INVALID_IMAGE out
  let (signature, stream) ← png_read_signature inp stream
  if !ezimg_png_check_signature signature then return fail .EZIMG_INVALID_IMAGE out
  let walk ← png_walk inp (in_size + 4) (png_walk_init stream)
  match walk with
  | WalkEnd.returned s => return fail s out
  | WalkEnd.finished wk => png_load_decode inp out wk
/-- Byte `i` of a buffer as the code reads it. -/
def byteAt (mem : List Nat) (i : Nat) : Nat := mem.getD i 0 % 256

/-- Little-endian 32-bit value of the four bytes at offset `i`. -/
def le32 (mem : List Nat) (i : Nat) : Nat :=
  byteAt mem i + 256 * byteAt mem (i + 1) + 65536 * byteAt mem (i + 2)
    + 16777216 * byteAt mem (i + 3)

/-- Little-endian 16-bit value of the two bytes at offset `i`. -/
def le16 (mem : List Nat) (i : Nat) : Nat :=
  byteAt mem i + 256 * byteAt mem (i + 1)

/-- Big-endian 32-bit value of the four bytes at offset `i`. -/
def be32 (mem : List Nat) (i : Nat) : Nat :=
  16777216 * byteAt mem i + 65536 * byteAt mem (i + 1) + 256 * byteAt mem (i + 2)
    + byteAt mem (i + 3)

/-- Header field of a BMP: offset of the pixel data (bytes 10-13). -/
def bmpDataOffset (inp : List Nat) : Nat := le32 inp 10

/-- Header field of a BMP: size of the DIB header (bytes 14-17). -/
def bmpDibSize (inp : List Nat) : Nat := le32 inp 14

/-- Header field of a BMP: signed width (bytes 18-21). -/
def bmpWidth (inp : List Nat) : Int := toInt32 (le32 inp 18)

/-- Header field of a BMP: signed height (bytes 22-25). -/
def bmpHeight (inp : List Nat) : Int := toInt32 (le32 inp 22)

/-- Header field of a BMP: planes (bytes 26-27). -/
def bmpPlanes (inp : List Nat) : Nat := le16 inp 26

/-- Header field of a BMP: bit count (bytes 28-29). -/
def bmpBitCount (inp : List Nat) : Nat := le16 inp 28

/-- Header field of a BMP: compression (bytes 30-33). -/
def bmpCompression (inp : List Nat) : Nat := le32 inp 30

/-- A load result that reports `s` and leaves the output and the dimension
variables untouched. -/
def failWith (s : Status) (out : List Nat) : LoadResult :=
  { status := s, out := out, width := none, height := none }

/-- The eight bytes at the start of the input are the PNG signature. -/
def pngSignatureOk (inp : List Nat) : Prop :=
  byteAt inp 0 = 137 ∧ byteAt inp 1 = 80 ∧ byteAt inp 2 = 78 ∧ byteAt inp 3 = 71 ∧
  byteAt inp 4 = 13 ∧ byteAt inp 5 = 10 ∧ byteAt inp 6 = 26 ∧ byteAt inp 7 = 10

instance (inp : List Nat) : Decidable (pngSignatureOk inp) := by
  unfold pngSignatureOk; infer_instance

/-- A 2x1 top-down 24-bit BMP: 54 header bytes, then the row `00 00 FF FF 00 00`
and two bytes of row padding. -/
def bmp24_2x1 : List Nat :=
  [66, 77, 0, 0, 0, 0, 0, 0, 0, 0, 54, 0, 0, 0, 40, 0, 0, 0, 2, 0, 0, 0, 255, 255, 255, 255,
   1, 0, 24, 0, 0, 0, 0, 0, 0, 0, 0, 0, 0, 0, 0, 0, 0, 0, 0, 0, 0, 0, 0, 0, 0, 0, 0, 0,
   0, 0, 255, 255, 0, 0, 0, 0]

/-- The header of `bmp24_2x1` with the planes field set to 2. -/
def bmp24_planes2 : List Nat :=
  [66, 77, 0, 0, 0, 0, 0, 0, 0, 0, 54, 0, 0, 0, 40, 0, 0, 0, 2, 0, 0, 0, 255, 255, 255, 255,
   2, 0, 24, 0, 0, 0, 0, 0, 0, 0, 0, 0, 0, 0, 0, 0, 0, 0, 0, 0, 0, 0, 0, 0, 0, 0, 0, 0,
   0, 0, 255, 255, 0, 0, 0, 0]

/-- First chunk of a PNG: the type field (bytes 12-15, big-endian). -/
def pngFirstType (inp : List Nat) : Nat := be32 inp 12

/-- First chunk of a PNG: the length field (bytes 8-11, big-endian). -/
def pngFirstLen (inp : List Nat) : Nat := be32 inp 8

/-- Header chunk of a PNG: width (bytes 16-19, big-endian). -/
def pngWidth (inp : List Nat) : Nat := be32 inp 16

/-- Header chunk of a PNG: height (bytes 20-23, big-endian). -/
def pngHeight (inp : List Nat) : Nat := be32 inp 20

/-- Header chunk of a PNG: bit depth (byte 24). -/
def pngBitDepth (inp : List Nat) : Nat := byteAt inp 24

/-- Header chunk of a PNG: colour type (byte 25). -/
def pngColorType (inp : List Nat) : Nat := byteAt inp 25

/-- Header chunk of a PNG: compression method (byte 26). -/
def pngCompression (inp : List Nat) : Nat := byteAt inp 26

/-- Header chunk of a PNG: filter method (byte 27). -/
def pngFilter (inp : List Nat) : Nat := byteAt inp 27

/-- Header chunk of a PNG: interlace method (byte 28). -/
def pngInterlace (inp : List Nat) : Nat := byteAt inp 28

/-- The header chunk asks for something outside the supported baseline. -/
def pngUnsupported (inp : List Nat) : Prop :=
  pngBitDepth inp ≠ 8 ∨ (pngColorType inp ≠ 2 ∧ pngColorType inp ≠ 6) ∨
    pngCompression inp ≠ 0 ∨ pngFilter inp ≠ 0 ∨ pngInterlace inp ≠ 0

instance (inp : List Nat) : Decidable (pngUnsupported inp) := by
  unfold pngUnsupported; infer_instance

/-- The stream of `ezimg_png_load` when the chunk walk starts (after the
signature). -/
def pngStreamAfterSignature (inp : List Nat) : ezimg_stream :=
  ⟨0, inp.length, 8, inp.length, true⟩

/-- The chunk walk of `ezimg_png_load` on `inp`, as the function runs it. -/
def pngWalkOf (inp : List Nat) : Except Trap WalkEnd :=
  png_walk inp (inp.length + 4) (png_walk_init (pngStreamAfterSignature inp))

/-- State of the chunk walk after a supported header chunk at the start of the
input: the next chunk is looked for `length + 4` bytes after the position the
stream reached on reading the length and type fields. -/
def pngAfterHeader (inp : List Nat) : PngWalk :=
  { stream := ezimg_init_stream_big (min 16 inp.length + pngFirstLen inp + 4)
      (sub32 inp.length (u32 (min 16 inp.length + pngFirstLen inp + 4))),
    w := pngWidth inp, h := pngHeight inp, color_type := pngColorType inp,
    first_chunk := false, chunks := [], lens := [] }

/-- A 1x1 truecolour-with-alpha PNG: IHDR, one IDAT with a fixed-Huffman block holding the scanline `00 0A 14 1E 28`, IEND. -/
def png_rgba_1x1 : List Nat :=
  [137, 80, 78, 71, 13, 10, 26, 10, 0, 0, 0, 13, 73, 72, 68, 82, 0, 0, 0, 1, 0, 0, 0, 1, 8, 6,
   0, 0, 0, 31, 21, 196, 137, 0, 0, 0, 13, 73, 68, 65, 84, 120, 1, 99, 224, 18, 145, 211, 0, 0,
   0, 205, 0, 101, 152, 233, 7, 176, 0, 0, 0, 0, 73, 69, 78, 68, 174, 66, 96, 130]

/-- A PNG signature followed by an IDAT chunk instead of the header chunk. -/
def png_first_idat : List Nat :=
  [137, 80, 78, 71, 13, 10, 26, 10, 0, 0, 0, 13, 73, 68, 65, 84, 120, 1, 99, 224, 18, 145, 211,
   0, 0, 0, 205, 0, 101, 152, 233, 7, 176, 0, 0, 0, 0, 73, 69, 78, 68, 174, 66, 96, 130]

/-- A PNG whose header chunk has width 0 and height 1. -/
def png_zero_width : List Nat :=
  [137, 80, 78, 71, 13, 10, 26, 10, 0, 0, 0, 13, 73, 72, 68, 82, 0, 0, 0, 0, 0, 0, 0, 1, 8, 6,
   0, 0, 0, 240, 215, 175, 183, 0, 0, 0, 0, 73, 69, 78, 68, 174, 66, 96, 130]

/-- A PNG whose header chunk has bit depth 16. -/
def png_depth16 : List Nat :=
  [137, 80, 78, 71, 13, 10, 26, 10, 0, 0, 0, 13, 73, 72, 68, 82, 0, 0, 0, 1, 0, 0, 0, 1, 16, 6,
   0, 0, 0, 79, 133, 24, 202, 0, 0, 0, 0, 73, 69, 78, 68, 174, 66, 96, 130]

/-- A PNG with a supported 1x1 header chunk followed directly by IEND. -/
def png_no_idat : List Nat :=
  [137, 80, 78, 71, 13, 10, 26, 10, 0, 0, 0, 13, 73, 72, 68, 82, 0, 0, 0, 1, 0, 0, 0, 1, 8, 6,
   0, 0, 0, 31, 21, 196, 137, 0, 0, 0, 0, 73, 69, 78, 68, 174, 66, 96, 130]

/-- The image `png_rgba_1x1` with a second header chunk, of a 2x2 image, inserted after the first. -/
def png_two_ihdr : List Nat :=
  [137, 80, 78, 71, 13, 10, 26, 10, 0, 0, 0, 13, 73, 72, 68, 82, 0, 0, 0, 1, 0, 0, 0, 1, 8, 6,
   0, 0, 0, 31, 21, 196, 137, 0, 0, 0, 13, 73, 72, 68, 82, 0, 0, 0, 2, 0, 0, 0, 2, 8, 6, 0, 0,
   0, 114, 182, 13, 36, 0, 0, 0, 13, 73, 68, 65, 84, 120, 1, 99, 224, 18, 145, 211, 0, 0, 0,
   205, 0, 101, 152, 233, 7, 176, 0, 0, 0, 0, 73, 69, 78, 68, 174, 66, 96, 130]

/-- Type field of the chunk the walk reads next in state `wk` (`0` if a read
traps). -/
def pngChunkType (inp : List Nat) (wk : PngWalk) : Nat :=
  match ezimg_read_u32 inp wk.stream with
  | .ok (_, stream) =>
    match ezimg_read_u32 inp stream with
    | .ok (type, _) => type
    | .error _ => 0
  | .error _ => 0

/-- None of the chunks that the walk meets in its next `fuel` iterations from
state `wk` on is a header chunk. -/
def pngNoHeaderChunkFrom (inp : List Nat) : Nat → PngWalk → Bool
  | 0, _ => true
  | fuel + 1, wk =>
    pngChunkType inp wk != EZIMG_CHUNK_START &&
      match png_walk_step inp wk with
      | .ok (Sum.inr wk1) => pngNoHeaderChunkFrom inp fuel wk1
      | _ => true

/-- The four stores of one output pixel at offset `p`: `0xff`, R, G, B. -/
def put4 (out : List Nat) (p r g b : Nat) : List Nat :=
  (((out.set p 255).set (p + 1) (r % 256)).set (p + 2) (g % 256)).set (p + 3) (b % 256)

/-- Row stride of a 24-bit BMP of width `w`: `3*w` rounded up to a multiple of 4. -/
def bmpStride24 (w : Nat) : Nat := (3 * w + 3) / 4 * 4

/-- Byte `k` of the output pixel (0xFF, R, G, B) decoded from the three bytes
B, G, R at offset `p` of the input. -/
def pix24 (inp : List Nat) (p k : Nat) : Nat :=
  if k = 0 then 255 else byteAt inp (p + (3 - k))

/-- A 1x2 top-down 4-bit BMP: 54 header bytes, a palette of 16 entries with entry `i` = (B, G, R, A) = (10i+1, 10i+2, 10i+3, 0) at offset 54, and at offset 118 the two rows `10 00 00 00` and `20 00 00 00`, each padded to 4 bytes. -/
def bmp4_1x2 : List Nat :=
  [66, 77, 0, 0, 0, 0, 0, 0, 0, 0, 118, 0, 0, 0, 40, 0, 0, 0, 1, 0, 0, 0, 254, 255, 255, 255,
   1, 0, 4, 0, 0, 0, 0, 0, 0, 0, 0, 0, 0, 0, 0, 0, 0, 0, 0, 0, 0, 0, 0, 0, 0, 0, 0, 0, 1, 2, 3,
   0, 11, 12, 13, 0, 21, 22, 23, 0, 31, 32, 33, 0, 41, 42, 43, 0, 51, 52, 53, 0, 61, 62, 63, 0,
   71, 72, 73, 0, 81, 82, 83, 0, 91, 92, 93, 0, 101, 102, 103, 0, 111, 112, 113, 0, 121, 122,
   123, 0, 131, 132, 133, 0, 141, 142, 143, 0, 151, 152, 153, 0, 16, 0, 0, 0, 32, 0, 0, 0]

/-- A 24-bit BMP with width field -2 and height field -1 (top-down); the stored row holds
the pixels (B, G, R) = (1, 2, 3) and (4, 5, 6) and two bytes of padding. -/
def bmp24_neg_width_top_down : List Nat :=
  [66, 77, 0, 0, 0, 0, 0, 0, 0, 0, 54, 0, 0, 0, 40, 0, 0, 0, 254, 255, 255, 255, 255, 255, 255,
  255, 1, 0, 24, 0, 0, 0, 0, 0, 0, 0, 0, 0, 0, 0, 0, 0, 0, 0, 0, 0, 0, 0, 0, 0, 0, 0, 0, 0, 1, 2,
  3, 4, 5, 6, 0, 0]

/-- The input `bmp24_neg_width_top_down` with the width field negated (2 instead of -2). -/
def bmp24_pos_width_top_down : List Nat :=
  [66, 77, 0, 0, 0, 0, 0, 0, 0, 0, 54, 0, 0, 0, 40, 0, 0, 0, 2, 0, 0, 0, 255, 255, 255, 255, 1, 0,
  24, 0, 0, 0, 0, 0, 0, 0, 0, 0, 0, 0, 0, 0, 0, 0, 0, 0, 0, 0, 0, 0, 0, 0, 0, 0, 1, 2, 3, 4, 5, 6,
  0, 0]

/-- The input `bmp24_neg_width_top_down` with the height field negated (1 instead of -1). -/
def bmp24_neg_width_bottom_up : List Nat :=
  [66, 77, 0, 0, 0, 0, 0, 0, 0, 0, 54, 0, 0, 0, 40, 0, 0, 0, 254, 255, 255, 255, 1, 0, 0, 0, 1, 0,
  24, 0, 0, 0, 0, 0, 0, 0, 0, 0, 0, 0, 0, 0, 0, 0, 0, 0, 0, 0, 0, 0, 0, 0, 0, 0, 1, 2, 3, 4, 5, 6,
  0, 0]

/-- An output buffer of 16 bytes: 8 bytes for a 2x1 image, then the bytes 10..17. -/
def out_2x1_and_tail : List Nat := [0, 0, 0, 0, 0, 0, 0, 0, 10, 11, 12, 13, 14, 15, 16, 17]

/-- A 1x1 top-down 32-bit BITFIELDS BMP with a 56-byte DIB header and the masks
R = 00FF0000, G = 0000FF00, B = 000000FF, A = FF000000; the pixel word is 80332211,
that is alpha 0x80, R 0x33, G 0x22, B 0x11. -/
def bmp32_bitfields_alpha : List Nat :=
  [66, 77, 0, 0, 0, 0, 0, 0, 0, 0, 70, 0, 0, 0, 56, 0, 0, 0, 1, 0, 0, 0, 255, 255, 255, 255, 1, 0,
  32, 0, 3, 0, 0, 0, 0, 0, 0, 0, 0, 0, 0, 0, 0, 0, 0, 0, 0, 0, 0, 0, 0, 0, 0, 0, 0, 0, 255, 0, 0,
  255, 0, 0, 255, 0, 0, 0, 0, 0, 0, 255, 17, 34, 51, 128]

/-- The image of `png_rgba_1x1` with its scanline `00 0A 14 1E 28` in one stored block:
the data chunk holds the zlib header `78 01`, the block header `01`, LEN = `05 00`,
NLEN = `FA FF`, the five bytes and the Adler-32 checksum. -/
def png_stored_1x1 : List Nat :=
  [137, 80, 78, 71, 13, 10, 26, 10, 0, 0, 0, 13, 73, 72, 68, 82, 0, 0, 0, 1, 0, 0, 0, 1, 8, 6, 0,
  0, 0, 31, 21, 196, 137, 0, 0, 0, 16, 73, 68, 65, 84, 120, 1, 1, 5, 0, 250, 255, 0, 10, 20, 30,
  40, 0, 205, 0, 101, 123, 39, 84, 186, 0, 0, 0, 0, 73, 69, 78, 68, 174, 66, 96, 130]

/-- The two statements `stream->mask = 1; stream->buff = ezimg_cread_u8(stream);`
with which `ezimg_next_bit` and `ezimg_cflush` move to the next byte. -/
def cstream_refill (inp : List Nat) (stream : ezimg_cstream) : Except Trap ezimg_cstream :=
  match ezimg_cread_u8 inp { stream with mask := 1 } with
  | .ok (b, stream) => .ok { stream with buff := b }
  | .error e => .error e

/-- Number of symbols among the first `n` of the table `lens` whose code length
is `L`. -/
def lenCount (lens : List Nat) (n L : Nat) : Nat := (lens.take n).count L

/-- First code of each length for the first `n` code lengths of `lens`:
`first[0] = 0` and `first[L+1] = (first[L] + count[L]) * 2`, with `count[0]`
taken as 0. -/
def firstCode (lens : List Nat) (n : Nat) : Nat → Nat
  | 0 => 0
  | L + 1 => (firstCode lens n L + (if L = 0 then 0 else lenCount lens n L)) * 2

/-- The longest of the first `n` code lengths of `lens`, as the first loop of
`ezimg_compute_huff` finds it. -/
def maxLenUpTo (lens : List Nat) : Nat → Nat
  | 0 => 0
  | n + 1 => if lens.getD n 0 > maxLenUpTo lens n then lens.getD n 0 else maxLenUpTo lens n

/-- The next `n` bits of the stream, in the order in which `ezimg_next_bit`
delivers them, and the stream after them. -/
def next_bits (inp : List Nat) : Nat → ezimg_cstream → Except Trap (List Nat × ezimg_cstream)
  | 0, stream => .ok ([], stream)
  | n + 1, stream =>
    match ezimg_next_bit inp stream with
    | .ok (bit, stream) =>
      match next_bits inp n stream with
      | .ok (bits, stream) => .ok (bit :: bits, stream)
      | .error e => .error e
    | .error e => .error e

/-- Value of a bit string written most significant bit first. -/
def msbValue (bits : List Nat) : Nat := bits.foldl (fun a b => 2 * a + b) 0

/-- Value of a bit string written least significant bit first: the sum of
`bit_i * 2^i`. -/
def lsbValue : List Nat → Nat
  | [] => 0
  | b :: bs => b + 2 * lsbValue bs

/-- The table of the comment above `ezimg_deflate_dist_table`, one entry per
line of the comment: the symbol, the number of extra bits, and the first and
the last distance listed for it. -/
def distComment : List (Nat × Nat × Nat × Nat) :=
  [(0, 0, 1, 1), (1, 0, 2, 2), (2, 0, 3, 3), (3, 0, 4, 4), (4, 1, 5, 6), (5, 1, 7, 8),
   (6, 2, 9, 12), (7, 2, 13, 16), (8, 3, 17, 24), (9, 3, 25, 32), (10, 4, 33, 48),
   (11, 4, 49, 64), (12, 5, 65, 96), (13, 5, 97, 128), (14, 6, 129, 192), (15, 6, 193, 256),
   (16, 7, 257, 384), (17, 7, 385, 512), (18, 8, 513, 768), (19, 8, 769, 1024),
   (20, 9, 1025, 1536), (21, 9, 1537, 2048), (22, 10, 2049, 3072), (23, 10, 3073, 4096),
   (24, 11, 4097, 6144), (25, 11, 6145, 8192), (26, 12, 8193, 12288), (27, 12, 12289, 16384),
   (28, 13, 16385, 24576), (29, 13, 24577, 32768)]

/-- The distances listed for the symbols 0, ..., 29: first and last. -/
def distCommentRange : List (Nat × Nat) :=
  distComment.map (fun r => (r.2.2.1, r.2.2.2))

/-- The number of extra bits listed for the symbols 0, ..., 29. -/
def distCommentBits : List Nat :=
  distComment.map (fun r => r.2.1)


/-- A 1x2 truecolor PNG (colour type 2, 8 bits) whose data chunk is one
fixed-Huffman block of literals holding the two scanlines `00 0A 14 1E` and
`00 28 32 3C`: filter byte 0 and the pixels (10, 20, 30) and (40, 50, 60). -/
def png_rgb_1x2 : List Nat :=
  [137, 80, 78, 71, 13, 10, 26, 10, 0, 0, 0, 13, 73, 72, 68, 82, 0, 0, 0, 1, 0, 0, 0, 2, 8, 2,
   0, 0, 0, 22, 227, 33, 112, 0, 0, 0, 16, 73, 68, 65, 84, 120, 1, 99, 224, 18, 145, 99, 208,
   48, 178, 1, 0, 2, 116, 0, 211, 136, 167, 126, 226, 0, 0, 0, 0, 73, 69, 78, 68, 174, 66, 96,
   130]

/-- Number of extra bits read after a code-length symbol: 2 after 16, 3 after
17, 7 after 18, none after a length 0..15. -/
def clenExtraBits (sym : Nat) : Nat :=
  if sym ≤ 15 then 0 else if sym = 16 then 2 else if sym = 17 then 3 else 7

/-- Entries that one code-length symbol with the value `extra` of its extra
bits adds after the entries `acc`: itself once for 0..15, `3 + extra` copies of
the previous entry for 16, `3 + extra` zeros for 17, `11 + extra` zeros for 18. -/
def clenRun (acc : List Nat) (sym extra : Nat) : List Nat :=
  if sym ≤ 15 then [sym]
  else if sym = 16 then List.replicate (3 + extra) (acc.getD (acc.length - 1) 0)
  else if sym = 17 then List.replicate (3 + extra) 0
  else List.replicate (11 + extra) 0

/-- Expansion of a sequence of code-length symbols, each with the value of its
extra bits, after the entries `acc`. -/
def clenExpand : List (Nat × Nat) → List Nat → List Nat
  | [], acc => acc
  | (sym, extra) :: rest, acc => clenExpand rest (acc ++ clenRun acc sym extra)

/-- The stream spells the code-length symbols `syms`: each is decoded with
`huff` and followed by its extra bits; the result is the stream after them. -/
def clenReads (inp : List Nat) (huff : ezimg_huff) :
    List (Nat × Nat) → ezimg_cstream → Option ezimg_cstream
  | [], s => some s
  | (sym, extra) :: rest, s =>
    match ezimg_huff_decode inp huff s with
    | .ok (v, s1) =>
      if v = (sym : Int) ∧ sym ≤ 18 then
        match ezimg_cread_bits inp s1 (clenExtraBits sym) with
        | .ok (n, s2) => if n = extra then clenReads inp huff rest s2 else none
        | .error _ => none
      else none
    | .error _ => none

/-- The table that `ezimg_compute_huff` builds from the code lengths 2 of the
code-length symbols 5, 16, 17 and 18: their codes are 00, 01, 10 and 11. -/
def clen_huff_5_16_17_18 : ezimg_huff :=
  ⟨2, 20, List.replicate 5 ⟨0, 0⟩ ++ [⟨0, 2⟩] ++ List.replicate 10 ⟨0, 0⟩
    ++ [⟨1, 2⟩, ⟨2, 2⟩, ⟨3, 2⟩] ++ List.replicate 271 ⟨0, 0⟩⟩

/-- One pass of the symbol loop of a compressed block: the flag is `false`
when the end-of-block symbol 256 was decoded and the loop is left. -/
def inflate_symbol_step (inp : List Nat) (lit_len_huff dist_huff : ezimg_huff) (outp_end : Nat)
    (st : InflateState) : Except Halt (Bool × InflateState) := do
  let (lit_len, stream) ← liftTrap (ezimg_huff_decode inp lit_len_huff st.stream)
  let st := { st with stream := stream }
  if lit_len = 256 then return (false, st)
  if lit_len < 0 then throw (Halt.reject st.buff)
  if lit_len < 256 then
    let st ← EMIT outp_end st (fun st => .ok (lit_len.toNat, st))
    return (true, st)
  else
    let st ← inflate_backref inp dist_huff outp_end lit_len st
    return (true, st)

/-- The state of the symbol loop after `k` passes, none of which met the
end-of-block symbol (flag `true`); an earlier end or failure is returned as it is. -/
def inflate_symbols_after (inp : List Nat) (lit_len_huff dist_huff : ezimg_huff)
    (outp_end : Nat) : Nat → InflateState → Except Halt (Bool × InflateState)
  | 0, st => .ok (true, st)
  | k + 1, st =>
    match inflate_symbol_step inp lit_len_huff dist_huff outp_end st with
    | .ok (true, st1) => inflate_symbols_after inp lit_len_huff dist_huff outp_end k st1
    | r => r

/-- One pass of the block loop of `ezimg_decompress_idat`: the block header, the
tables and the data of one block; the flag is `is_last != 0`. -/
def inflate_block_step (inp : List Nat) (outp_end : Nat) (st : InflateState) :
    Except Halt (Bool × InflateState) := do
  let (is_last, stream) ← liftTrap (ezimg_cread_bits inp st.stream 1)
  let (btype, stream) ← liftTrap (ezimg_cread_bits inp stream 2)
  let st := { st with stream := stream }
  let st ←
    (if btype = 0 then inflate_stored inp outp_end st
    else if btype = 1 then do
      let (lit_len_huff, dist_huff) ← inflate_fixed_tables st
      inflate_symbols inp lit_len_huff dist_huff outp_end (outp_end - st.outp + 1) st
    else if btype = 2 then do
      let (lit_len_huff, dist_huff, stream) ← inflate_dynamic_tables inp st
      inflate_symbols inp lit_len_huff dist_huff outp_end (outp_end - st.outp + 1)
        { st with stream := stream }
    else throw (Halt.reject st.buff) : Except Halt InflateState)
  return (decide (is_last ≠ 0), st)

/-- The state of the block loop after `n` blocks, none of them the last one
(flag `false`); an earlier last block or failure is returned as it is. -/
def inflate_blocks_after (inp : List Nat) (outp_end : Nat) :
    Nat → InflateState → Except Halt (Bool × InflateState)
  | 0, st => .ok (false, st)
  | n + 1, st =>
    match inflate_block_step inp outp_end st with
    | .ok (false, st1) => inflate_blocks_after inp outp_end n st1
    | r => r

/-- Header and tables of a compressed block (types 1 and 2): the `is_last`
bit, the literal/length and distance tables and the state in which the symbol
loop of the block starts; `none` for the block types 0 and 3. -/
def inflate_block_open (inp : List Nat) (st : InflateState) :
    Except Halt (Option (Nat × ezimg_huff × ezimg_huff × InflateState)) := do
  let (is_last, stream) ← liftTrap (ezimg_cread_bits inp st.stream 1)
  let (btype, stream) ← liftTrap (ezimg_cread_bits inp stream 2)
  let st := { st with stream := stream }
  if btype = 1 then
    let (lit_len_huff, dist_huff) ← inflate_fixed_tables st
    return some (is_last, lit_len_huff, dist_huff, st)
  else if btype = 2 then
    let (lit_len_huff, dist_huff, stream) ← inflate_dynamic_tables inp st
    return some (is_last, lit_len_huff, dist_huff, { st with stream := stream })
  else return none

/-- Value of `p[channel]` for a pointer into `zero_pixel` or into the buffer. -/
def RowPtr.val (buf : List Nat) (p : RowPtr) (channel : Nat) : Nat :=
  match p with
  | .zero _ => 0
  | .data off => byteAt buf (off + channel)

/-- Paeth predictor as the PNG specification words it: with `p = a + b - c`
in unbounded integers, `a` if `|p-a| ≤ |p-b|` and `|p-a| ≤ |p-c|`, else `b` if
`|p-b| ≤ |p-c|`, else `c`. -/
def paethPredictor (a b c : Nat) : Nat :=
  let p : Int := (a : Int) + (b : Int) - (c : Int)
  if (p - (a : Int)).natAbs ≤ (p - (b : Int)).natAbs
      ∧ (p - (a : Int)).natAbs ≤ (p - (c : Int)).natAbs then a
  else if (p - (b : Int)).natAbs ≤ (p - (c : Int)).natAbs then b
  else c

/-- Reconstruction of a byte as the PNG specification words it for the filter
types 0 (None), 1 (Sub), 2 (Up), 3 (Average) and 4 (Paeth), from the raw byte
and the reconstructed neighbours `a` (left), `b` (above), `c` (above left). -/
def pngRecon (ft raw a b c : Nat) : Nat :=
  if ft = 0 then raw % 256
  else if ft = 1 then (raw + a) % 256
  else if ft = 2 then (raw + b) % 256
  else if ft = 3 then (raw + (a + b) / 2) % 256
  else (raw + paethPredictor a b c) % 256

/-- Byte `p` of the filtered buffer `o` is the reconstruction of its raw byte
in the original buffer `d` (scanlines of one filter byte and `4*w` data
bytes): with `y = p / (4*w)` the scanline and `j = p % (4*w)` the byte in it,
the filter byte is `d[y*(4*w+1)]`, the raw byte `d[p + y + 1]`, and the
neighbours are `o[p-4]` (0 for `j < 4`), `o[p-4*w]` (0 for `y = 0`) and
`o[p-4*w-4]` (0 for `y = 0` or `j < 4`). -/
def ReconPos (d : List Nat) (w : Nat) (o : List Nat) (p : Nat) : Prop :=
  byteAt o p = pngRecon (byteAt d (p / (4 * w) * (4 * w + 1))) (byteAt d (p + p / (4 * w) + 1))
    (if p % (4 * w) < 4 then 0 else byteAt o (p - 4))
    (if p / (4 * w) = 0 then 0 else byteAt o (p - 4 * w))
    (if p / (4 * w) = 0 ∨ p % (4 * w) < 4 then 0 else byteAt o (p - 4 * w - 4))

/-- Invariant of the pixel loop of scanline `y` of `ezimg_png_filter` after `x`
pixels, for the branch with the flags `useb`, `setc`, `seta`. -/
def FilterPixInv (d : List Nat) (w y : Nat) (useb setc seta : Bool) (x : Nat)
    (st : FilterState) : Prop :=
  st.src = y * (4 * w + 1) + 1 + 4 * x ∧ st.dst = 4 * w * y + 4 * x ∧
  st.buf.length = d.length ∧
  (∀ i, 4 * w * y + 4 * x ≤ i → byteAt st.buf i = byteAt d i) ∧
  (∀ p, p < 4 * w * y + 4 * x → ReconPos d w st.buf p) ∧
  (∀ k, k < 4 → st.a_pixel.getD k 0
    = if seta = true ∧ 0 < x then byteAt st.buf (4 * w * y + 4 * x + k - 4) else 0) ∧
  (useb = true → st.b_pixel
    = if y = 0 then RowPtr.zero 0 else RowPtr.data (4 * w * (y - 1) + 4 * x)) ∧
  (∀ k, k < 4 → st.c_pixel.getD k 0
    = if setc = true ∧ 0 < x ∧ 0 < y then byteAt st.buf (4 * w * (y - 1) + 4 * x + k - 4)
      else 0)

/-- Invariant of the scanline loop of `ezimg_png_filter` after `y` scanlines. -/
def FilterRowInv (d : List Nat) (w y : Nat) (rs : FilterRows) : Prop :=
  rs.src = y * (4 * w + 1) ∧ rs.dst = 4 * w * y ∧
  rs.prev_row = (if y = 0 then RowPtr.zero 0 else RowPtr.data (4 * w * (y - 1))) ∧
  rs.prev_row_advance = (if y = 0 then 0 else 4) ∧
  rs.buf.length = d.length ∧
  (∀ i, 4 * w * y ≤ i → byteAt rs.buf i = byteAt d i) ∧
  (∀ p, p < 4 * w * y → ReconPos d w rs.buf p)

/-- Two scanlines of two pixels: filter 1 (Sub) on `0A 14 1E 28 05 06 07 08`
and filter 3 (Average) on `01 02 03 04 FA FB FC FD`. -/
def scanlines_sub_average : List Nat :=
  [1, 10, 20, 30, 40, 5, 6, 7, 8, 3, 1, 2, 3, 4, 250, 251, 252, 253]

/-- Two scanlines of two pixels, both of filter 4 (Paeth), with the raw bytes
of `scanlines_sub_average`. -/
def scanlines_paeth : List Nat :=
  [4, 10, 20, 30, 40, 5, 6, 7, 8, 4, 1, 2, 3, 4, 250, 251, 252, 253]

/-- The mask of a bit stream is one of the eight bit positions of a byte. -/
def streamOk (s : ezimg_cstream) : Prop :=
  s.mask = 1 ∨ s.mask = 2 ∨ s.mask = 4 ∨ s.mask = 8 ∨ s.mask = 16 ∨ s.mask = 32 ∨ s.mask = 64
    ∨ s.mask = 128

instance (s : ezimg_cstream) : Decidable (streamOk s) := by
  unfold streamOk; infer_instance

/-- Lengths plus one of the chunks `cur`, `cur + 1`, ... below `num`, added up. -/
def chunkUnits (lens : List Nat) (num cur : Nat) : Nat :=
  ((List.range' cur (num - cur)).map (fun c => lens.getD c 0 + 1)).sum

/-- Bytes and chunk ends still ahead of the byte cursor of a stream. -/
def streamUnits (s : ezimg_cstream) : Nat :=
  chunkUnits s.lens s.num_chunks s.current_chunk
    - min s.current_pos (s.lens.getD s.current_chunk 0 + 1)

/-- Bits of the current byte from the mask on: 8 for mask 1, 1 for mask 128. -/
def maskBits (m : Nat) : Nat :=
  if m = 1 then 8 else if m = 2 then 7 else if m = 4 then 6 else if m = 8 then 5
  else if m = 16 then 4 else if m = 32 then 3 else if m = 64 then 2 else if m = 128 then 1
  else 0

/-- A bound on the number of bits that can still be read before the stream is
at its end: 0 at the end, else 8 for each remaining unit plus the bits left of
the current byte. -/
def streamLeft (s : ezimg_cstream) : Nat :=
  if s.at_end then 0 else 8 * streamUnits s + maskBits s.mask

/-- The stream `s2` is the stream `s1` moved forward: a valid mask stays valid
and no more bits are left than before. -/
def StreamAdv (s1 s2 : ezimg_cstream) : Prop :=
  streamOk s1 → streamOk s2 ∧ streamLeft s2 ≤ streamLeft s1

/-- The literal/length table of a fixed-Huffman block. -/
def fixed_lit_huff : ezimg_huff :=
  ⟨9, 288, (List.range 288).map (fun s =>
    if s ≤ 143 then (⟨48 + s, 8⟩ : ezimg_huff_entry)
    else if s ≤ 255 then ⟨400 + (s - 144), 9⟩
    else if s ≤ 279 then ⟨s - 256, 7⟩
    else ⟨192 + (s - 280), 8⟩) ++ [⟨0, 0⟩, ⟨0, 0⟩]⟩

/-- The distance table of a fixed-Huffman block. -/
def fixed_dist_huff : ezimg_huff :=
  ⟨5, 32, (List.range 32).map (fun s => (⟨s, 5⟩ : ezimg_huff_entry))
    ++ List.replicate 258 ⟨0, 0⟩⟩

/-- A 1x1 truecolour-with-alpha PNG whose data chunk is one fixed-Huffman block
with the literal `41` followed by a back-reference of length 3 and distance 2:
the distance reaches before the start of the output. -/
def png_backref_too_far : List Nat :=
  [137, 80, 78, 71, 13, 10, 26, 10, 0, 0, 0, 13, 73, 72, 68, 82, 0, 0, 0, 1, 0, 0, 0, 1, 8, 6,
   0, 0, 0, 31, 21, 196, 137, 0, 0, 0, 10, 73, 68, 65, 84, 120, 1, 115, 4, 66, 0, 0, 66, 0, 66,
   173, 232, 110, 72, 0, 0, 0, 0, 73, 69, 78, 68, 174, 66, 96, 130]

/-- The values returned by `n` successive calls of `ezimg_cread_u8`, and the
stream after them. -/
def cread_bytes (inp : List Nat) : Nat → ezimg_cstream → Except Trap (List Nat × ezimg_cstream)
  | 0, stream => .ok ([], stream)
  | n + 1, stream =>
    match ezimg_cread_u8 inp stream with
    | .ok (b, stream) =>
      match cread_bytes inp n stream with
      | .ok (bs, stream) => .ok (b :: bs, stream)
      | .error e => .error e
    | .error e => .error e

/-- The image `png_rgba_1x1` with two empty data chunks before its data chunk. -/
def png_empty_idat : List Nat :=
  [137, 80, 78, 71, 13, 10, 26, 10, 0, 0, 0, 13, 73, 72, 68, 82, 0, 0, 0, 1, 0, 0, 0, 1, 8, 6,
   0, 0, 0, 31, 21, 196, 137, 0, 0, 0, 0, 73, 68, 65, 84, 53, 175, 6, 30, 0, 0, 0, 0, 73, 68,
   65, 84, 53, 175, 6, 30, 0, 0, 0, 13, 73, 68, 65, 84, 120, 1, 99, 224, 18, 145, 211, 0, 0, 0,
   205, 0, 101, 152, 233, 7, 176, 0, 0, 0, 0, 73, 69, 78, 68, 174, 66, 96, 130]

/-- A 1x1 PNG whose data chunk is one dynamic-Huffman block: HLIT = 288 and
HDIST = 1, the code-length symbols 0 and 18 have the codes 0 and 1, and the
literal/length lengths are given as four runs of zeros (symbol 18) of the
lengths 138, 138, 11 and 138. -/
def png_htable_overrun : List Nat :=
  [137, 80, 78, 71, 13, 10, 26, 10, 0, 0, 0, 13, 73, 72, 68, 82, 0, 0, 0, 1, 0, 0, 0, 1, 8, 6,
   0, 0, 0, 31, 21, 196, 137, 0, 0, 0, 10, 73, 68, 65, 84, 120, 1, 253, 0, 128, 228, 255, 63,
   224, 31, 87, 234, 32, 68, 0, 0, 0, 0, 73, 69, 78, 68, 174, 66, 96, 130]

/-- The table of the code-length codes of `png_htable_overrun`: the symbol 0
has the code 0 and the symbol 18 the code 1, both of one bit. -/
def clen_huff_0_18 : ezimg_huff :=
  ⟨1, 20, [⟨0, 1⟩] ++ List.replicate 17 ⟨0, 0⟩ ++ [⟨1, 1⟩] ++ List.replicate 271 ⟨0, 0⟩⟩

/-- The loop `while(rep_count > 0) { htable[i++] = rep_val; rep_count -= 1; }`
of `ezimg_compute_htable` as it stands in `compute_htable_loop`. -/
def htable_run (rep_val rep_count : Nat) (htable : List Nat) (i : Nat) :
    Except Trap (List Nat × Nat) :=
  forRange rep_count (fun _ (p : List Nat × Nat) => do
    let htable ← aset p.1 p.2 rep_val
    return (htable, p.2 + 1)) (htable, i)

/-- The first 33 bytes of `png_rgba_1x1`: the signature and the header chunk,
and no other chunk. -/
def png_no_iend : List Nat :=
  [137, 80, 78, 71, 13, 10, 26, 10, 0, 0, 0, 13, 73, 72, 68, 82, 0, 0, 0, 1, 0, 0, 0, 1, 8, 6,
   0, 0, 0, 31, 21, 196, 137]

/-- The signature, the header chunk of a 1x1 image and a data chunk whose
length field is 1000, with 13 bytes after its type field. -/
def png_idat_past_end : List Nat :=
  [137, 80, 78, 71, 13, 10, 26, 10, 0, 0, 0, 13, 73, 72, 68, 82, 0, 0, 0, 1, 0, 0, 0, 1, 8, 6,
   0, 0, 0, 31, 21, 196, 137, 0, 0, 3, 232, 73, 68, 65, 84, 120, 1, 99, 224, 18, 145, 211, 0,
   0, 0, 205, 0, 101]

/-- The first 24 bytes of `png_rgba_1x1`: the signature, the length and type of
the header chunk, the width 1 and the height 1. -/
def png_cut_24 : List Nat :=
  [137, 80, 78, 71, 13, 10, 26, 10, 0, 0, 0, 13, 73, 72, 68, 82, 0, 0, 0, 1, 0, 0, 0, 1]

/-- The first 26 bytes of `png_rgba_1x1`: as `png_cut_24`, then the bit depth 8
and the colour type 6. -/
def png_cut_26 : List Nat :=
  [137, 80, 78, 71, 13, 10, 26, 10, 0, 0, 0, 13, 73, 72, 68, 82, 0, 0, 0, 1, 0, 0, 0, 1, 8, 6]

/-- A 54-byte BMP header: 24 bits per pixel, no compression, data offset 54,
width 65536 and height 65536. -/
def bmp24_65536 : List Nat :=
  [66, 77, 0, 0, 0, 0, 0, 0, 0, 0, 54, 0, 0, 0, 40, 0, 0, 0, 0, 0, 1, 0, 0, 0, 1, 0, 1, 0, 24,
   0, 0, 0, 0, 0, 0, 0, 0, 0, 0, 0, 0, 0, 0, 0, 0, 0, 0, 0, 0, 0, 0, 0, 0, 0]

/-- Byte `k` after the cursor of a byte stream as the reads deliver it: the byte
of the buffer while it lies before `ptr_end`, and 0 from `ptr_end` on. -/
def streamByte (mem : List Nat) (s : ezimg_stream) (k : Nat) : Nat :=
  if s.ptr + k < s.ptr_end then byteAt mem (s.ptr + k) else 0

/-- The stream with its cursor moved by `n` bytes, but not beyond `ptr_end`. -/
def streamAfter (s : ezimg_stream) (n : Nat) : ezimg_stream :=
  { s with ptr := min (s.ptr + n) s.ptr_end }

/-- The 16-bit value of the next two bytes `b0 b1` in the byte order of the
stream: `b0*2^8 + b1` big-endian, `b1*2^8 + b0` little-endian. -/
def streamU16 (mem : List Nat) (s : ezimg_stream) : Nat :=
  if s.big_endian then streamByte mem s 0 * 2 ^ 8 + streamByte mem s 1
  else streamByte mem s 1 * 2 ^ 8 + streamByte mem s 0

/-- The 32-bit value of the next four bytes `b0 b1 b2 b3` in the byte order of
the stream: `b0*2^24 + b1*2^16 + b2*2^8 + b3` big-endian,
`b3*2^24 + b2*2^16 + b1*2^8 + b0` little-endian. -/
def streamU32 (mem : List Nat) (s : ezimg_stream) : Nat :=
  if s.big_endian then
    streamByte mem s 0 * 2 ^ 24 + streamByte mem s 1 * 2 ^ 16 + streamByte mem s 2 * 2 ^ 8
      + streamByte mem s 3
  else
    streamByte mem s 3 * 2 ^ 24 + streamByte mem s 2 * 2 ^ 16 + streamByte mem s 1 * 2 ^ 8
      + streamByte mem s 0

/-- Kraft sum of the first `n` code lengths, scaled by `2^15`: the sum of
`2^(15 - len)` over the symbols whose length `len` is not 0. -/
def kraftSum (lens : List Nat) (n : Nat) : Nat :=
  (((lens.take n).filter (fun l => l ≠ 0)).map (fun l => 2 ^ (15 - l))).sum

/-- The part of the scaled Kraft sum that comes from the lengths `1, ..., L`,
counted length by length. -/
def kraftUpTo (lens : List Nat) (n : Nat) : Nat → Nat
  | 0 => 0
  | L + 1 => kraftUpTo lens n L + lenCount lens n (L + 1) * 2 ^ (15 - (L + 1))

/-- A result `r` meets the condition `Q` when it is a value and `P` when it is
an error. -/
def Res {ε α : Type} (Q : α → Prop) (P : ε → Prop) (r : Except ε α) : Prop :=
  match r with
  | .ok a => Q a
  | .error e => P e

/-- A step that can stop only by an access outside a buffer: a value `a` with
`Q a`, or `Trap.oob`. -/
def OobOr {α : Type} (Q : α → Prop) (r : Except Trap α) : Prop :=
  Res Q (fun t => t = Trap.oob) r

/-- The buffer `b` differs from the buffer `b0` only below the index `E`. -/
def Frame (E : Nat) (b0 b : List Nat) : Prop :=
  b.length = b0.length ∧ ∀ i, E ≤ i → b[i]? = b0[i]?

/-- The ways in which a step of `ezimg_decompress_idat` may stop: `return(0)`
with a buffer that differs from `b0` only below `E`, or an access outside a
buffer; not the exhaustion of fuel. -/
def HaltFrame (E : Nat) (b0 : List Nat) (e : Halt) : Prop :=
  match e with
  | .reject b => Frame E b0 b
  | .trap t => t = Trap.oob

/-- Arguments with which the indexing of `ezimg_compute_huff` stays inside its
arrays: a count below 290, inside the table, and code lengths of at most 15. -/
def GoodHuffArgs (htable : List Nat) (hcount : Nat) : Prop :=
  hcount < 290 ∧ hcount ≤ htable.length ∧ ∀ s, s < hcount → htable.getD s 0 ≤ 15

/-- The table that `ezimg_compute_huff` builds from the first `hcount` code
lengths of `htable` (`huff_zero` if the call traps or returns 0). -/
def huff_of (htable : List Nat) (hcount : Nat) : ezimg_huff :=
  match ezimg_compute_huff htable hcount huff_zero with
  | .ok (some T) => T
  | _ => huff_zero

/-- The branch `btype == 2` as in `inflate_dynamic_tables`, with each of the
three tests `if(!ezimg_compute_huff(...)) return(0);` replaced by the table
that the call builds: neither a trap nor the value 0 of a call is looked for. -/
def inflate_dynamic_tables_unchecked (inp : List Nat) (st : InflateState) :
    Except Halt (ezimg_huff × ezimg_huff × ezimg_cstream) := do
  let (hlit, stream) ← liftTrap (ezimg_cread_bits inp st.stream 5)
  let (hdist, stream) ← liftTrap (ezimg_cread_bits inp stream 5)
  let (hclen, stream) ← liftTrap (ezimg_cread_bits inp stream 4)
  if hclen > 19 then throw (Halt.reject st.buff)
  let hlit := hlit + 257
  let hdist := hdist + 1
  let hclen := hclen + 4
  let (hclen_table, stream) ← liftTrap (forRange hclen
    (fun i (p : List Nat × ezimg_cstream) => do
      let (v, stream) ← ezimg_cread_bits inp p.2 3
      let k ← aget hclen_ord i
      let t ← aset p.1 k v
      return (t, stream)) (List.replicate 20 0, stream))
  let clen_huff ← (.ok (huff_of hclen_table 20) : Except Halt ezimg_huff)
  let (hlit_table, stream) ← orReject st.buff
    (ezimg_compute_htable inp stream clen_huff (List.replicate 288 0) hlit 288)
  let lit_len_huff ← (.ok (huff_of hlit_table hlit) : Except Halt ezimg_huff)
  let (hdist_table, stream) ← orReject st.buff
    (ezimg_compute_htable inp stream clen_huff (List.replicate 32 0) hdist 32)
  let dist_huff ← (.ok (huff_of hdist_table hdist) : Except Halt ezimg_huff)
  return (lit_len_huff, dist_huff, stream)

/-- The zlib header and the block loop of `decompress_run`, before the result
is turned into the flag and buffer that `ezimg_decompress_idat` returns. -/
def decompress_blocks (inp : List Nat) (chunk_stream : ezimg_cstream)
    (decomp_data_max_size : Nat) (buff : List Nat) : Except Halt InflateState := do
  let outp_end := decomp_data_max_size
  let (comp_method, stream) ← liftTrap (ezimg_cread_bits inp chunk_stream 4)
  let (comp_info, stream) ← liftTrap (ezimg_cread_bits inp stream 4)
  let (_, stream) ← liftTrap (ezimg_cread_bits inp stream 5)
  let (fdict, stream) ← liftTrap (ezimg_cread_bits inp stream 1)
  let (_, stream) ← liftTrap (ezimg_cread_bits inp stream 2)
  if comp_method ≠ 8 ∨ comp_info > 7 ∨ fdict ≠ 0 then throw (Halt.reject buff)
  inflate_blocks inp outp_end (inflate_block_fuel chunk_stream)
    { stream := stream, buff := buff, outp := 0 }

/-- Length of the code of the symbol `s` in a fixed-Huffman block. -/
def fixedLitLen (s : Nat) : Nat :=
  if s ≤ 143 then 8 else if s ≤ 255 then 9 else if s ≤ 279 then 7 else 8

/-- Code of the symbol `s` in a fixed-Huffman block. -/
def fixedLitCode (s : Nat) : Nat :=
  if s ≤ 143 then 48 + s else if s ≤ 255 then 400 + (s - 144)
  else if s ≤ 279 then s - 256 else 192 + (s - 280)

/-- The stream after the codes of the symbols `syms` of a fixed-Huffman block
have been read from it; `none` if the next bits are not these codes. -/
def fixedLitReads (inp : List Nat) : List Nat → ezimg_cstream → Option ezimg_cstream
  | [], s => some s
  | sym :: rest, s =>
    match next_bits inp (fixedLitLen sym) s with
    | .ok (bits, s') =>
      if msbValue bits = fixedLitCode sym then fixedLitReads inp rest s' else none
    | .error _ => none

/-- The buffer `buff` with the bytes `bytes` stored from the position `outp` on. -/
def storeFrom (buff : List Nat) (outp : Nat) : List Nat → List Nat
  | [] => buff
  | b :: bs => storeFrom (buff.set outp (b % 256)) (outp + 1) bs
theorem byteAt_lt (mem : List Nat) (i : Nat) : byteAt mem i < 256 := by
  unfold byteAt; omega

theorem peek_eq (mem : List Nat) (i : Nat) (h : i < mem.length) :
    peek mem i = .ok (byteAt mem i) := by
  simp [peek, byteAt, List.getD, List.getElem?_eq_getElem h]

theorem or4_eq (b0 b1 b2 b3 : Nat) (h0 : b0 < 256) (h1 : b1 < 256) (h2 : b2 < 256) :
    (b3 <<< 24) ||| (b2 <<< 16) ||| (b1 <<< 8) ||| (b0 <<< 0)
      = b0 + 256 * b1 + 65536 * b2 + 16777216 * b3 := by
  have e1 : 2 ^ 8 * b1 + b0 = 2 ^ 8 * b1 ||| b0 := Nat.mul_add_lt_is_or (by omega) b1
  have e2 : 2 ^ 16 * b2 + (2 ^ 8 * b1 + b0) = 2 ^ 16 * b2 ||| (2 ^ 8 * b1 + b0) :=
    Nat.mul_add_lt_is_or (by omega) b2
  have e3 : 2 ^ 24 * b3 + (2 ^ 16 * b2 + (2 ^ 8 * b1 + b0))
      = 2 ^ 24 * b3 ||| (2 ^ 16 * b2 + (2 ^ 8 * b1 + b0)) :=
    Nat.mul_add_lt_is_or (by omega) b3
  simp only [Nat.shiftLeft_eq, Nat.or_assoc, Nat.pow_zero, Nat.mul_one]
  rw [Nat.mul_comm b3, Nat.mul_comm b2, Nat.mul_comm b1, ← e1, ← e2, ← e3]
  omega

theorem or2_eq (b0 b1 : Nat) (h0 : b0 < 256) :
    (b1 <<< 8) ||| (b0 <<< 0) = b0 + 256 * b1 := by
  have e1 : 2 ^ 8 * b1 + b0 = 2 ^ 8 * b1 ||| b0 := Nat.mul_add_lt_is_or (by omega) b1
  simp only [Nat.shiftLeft_eq, Nat.pow_zero, Nat.mul_one]
  rw [Nat.mul_comm b1, ← e1]
  omega

theorem read_u8_in (mem : List Nat) (b z p e : Nat) (be : Bool) (h1 : p < e)
    (h2 : p < mem.length) :
    ezimg_read_u8 mem ⟨b, z, p, e, be⟩ = .ok (byteAt mem p, ⟨b, z, p + 1, e, be⟩) := by
  simp [ezimg_read_u8, peek_eq mem p h2, Nat.not_le.mpr h1]

theorem read_u8_end (mem : List Nat) (b z p e : Nat) (be : Bool) (h1 : e ≤ p) :
    ezimg_read_u8 mem ⟨b, z, p, e, be⟩ = .ok (0, ⟨b, z, p, e, be⟩) := by
  simp [ezimg_read_u8, h1]

theorem read_u16_le_in (mem : List Nat) (b z p e : Nat) (h1 : p + 2 ≤ e)
    (h2 : p + 2 ≤ mem.length) :
    ezimg_read_u16 mem ⟨b, z, p, e, false⟩ = .ok (le16 mem p, ⟨b, z, p + 2, e, false⟩) := by
  simp only [ezimg_read_u16, bind, Except.bind, pure, Except.pure]
  rw [read_u8_in mem b z p e false (by omega) (by omega)]
  simp only []
  rw [read_u8_in mem b z (p + 1) e false (by omega) (by omega)]
  have e2 := or2_eq (byteAt mem p) (byteAt mem (p + 1)) (byteAt_lt mem p)
  simp only [Nat.shiftLeft_zero] at e2
  simp [le16, e2]

theorem read_u32_le_in (mem : List Nat) (b z p e : Nat) (h1 : p + 4 ≤ e)
    (h2 : p + 4 ≤ mem.length) :
    ezimg_read_u32 mem ⟨b, z, p, e, false⟩ = .ok (le32 mem p, ⟨b, z, p + 4, e, false⟩) := by
  simp only [ezimg_read_u32, bind, Except.bind, pure, Except.pure]
  rw [read_u8_in mem b z p e false (by omega) (by omega)]
  simp only []
  rw [read_u8_in mem b z (p + 1) e false (by omega) (by omega)]
  simp only []
  rw [read_u8_in mem b z (p + 1 + 1) e false (by omega) (by omega)]
  simp only []
  rw [read_u8_in mem b z (p + 1 + 1 + 1) e false (by omega) (by omega)]
  have e4 := or4_eq (byteAt mem p) (byteAt mem (p + 1)) (byteAt mem (p + 2)) (byteAt mem (p + 3))
    (byteAt_lt mem p) (byteAt_lt mem (p + 1)) (byteAt_lt mem (p + 2))
  simp only [Nat.shiftLeft_zero] at e4
  simp [le32, e4, Nat.add_assoc]

theorem read_i32_le_in (mem : List Nat) (b z p e : Nat) (h1 : p + 4 ≤ e)
    (h2 : p + 4 ≤ mem.length) :
    ezimg_read_i32 mem ⟨b, z, p, e, false⟩
      = .ok (toInt32 (le32 mem p), ⟨b, z, p + 4, e, false⟩) := by
  simp only [ezimg_read_i32, bind, Except.bind, pure, Except.pure]
  rw [read_u8_in mem b z p e false (by omega) (by omega)]
  simp only []
  rw [read_u8_in mem b z (p + 1) e false (by omega) (by omega)]
  simp only []
  rw [read_u8_in mem b z (p + 1 + 1) e false (by omega) (by omega)]
  simp only []
  rw [read_u8_in mem b z (p + 1 + 1 + 1) e false (by omega) (by omega)]
  have e4 := or4_eq (byteAt mem p) (byteAt mem (p + 1)) (byteAt mem (p + 2)) (byteAt mem (p + 3))
    (byteAt_lt mem p) (byteAt_lt mem (p + 1)) (byteAt_lt mem (p + 2))
  simp only [Nat.shiftLeft_zero] at e4
  simp [le32, e4, Nat.add_assoc]

theorem bmp_size_short (inp : List Nat) (h : inp.length < 54) : ezimg_bmp_size inp = .ok 0 := by
  simp [ezimg_bmp_size, h]
  rfl

theorem bmp_size_hdr (inp : List Nat) (h : 54 ≤ inp.length) :
    ezimg_bmp_size inp =
      if byteAt inp 0 = 66 ∧ byteAt inp 1 = 77 then
        .ok (u32 (toUInt32 (EZIMG_ABS (toInt32 (le32 inp 18)))
          * toUInt32 (EZIMG_ABS (toInt32 (le32 inp 22))) * 4))
      else .ok 0 := by
  simp only [ezimg_bmp_size, ezimg_init_stream, bind, Except.bind, pure, Except.pure]
  rw [if_neg (by omega)]
  rw [read_u8_in inp _ _ 0 _ false (by omega) (by omega)]
  simp only []
  rw [read_u8_in inp _ _ (0+1) _ false (by omega) (by omega)]
  simp only [ezimg_bmp_check_signature]
  by_cases hs : byteAt inp 0 = 66 ∧ byteAt inp 1 = 77
  · simp only [hs, and_self, if_true, beq_self_eq_true, Bool.and_self, Bool.not_true,
      Bool.false_eq_true, if_false]
    rw [read_u32_le_in inp _ _ _ _ (by omega) (by omega)]
    simp only []
    rw [read_u32_le_in inp _ _ _ _ (by omega) (by omega)]
    simp only []
    rw [read_u32_le_in inp _ _ _ _ (by omega) (by omega)]
    simp only []
    rw [read_u32_le_in inp _ _ _ _ (by omega) (by omega)]
    simp only []
    rw [read_i32_le_in inp _ _ _ _ (by omega) (by omega)]
    simp only []
    rw [read_i32_le_in inp _ _ _ _ (by omega) (by omega)]
  · rw [if_neg hs]
    have : (byteAt inp 0 == 66 && byteAt inp 1 == 77) = false := by
      simp only [not_and] at hs
      simp only [Bool.and_eq_false_imp, beq_iff_eq, beq_eq_false_iff_ne]
      exact hs
    simp [this]

theorem read_u8_safe (mem : List Nat) (s : ezimg_stream) (h : s.ptr_end ≤ mem.length) :
    ∃ v s', ezimg_read_u8 mem s = .ok (v, s') ∧ s'.ptr_end = s.ptr_end := by
  unfold ezimg_read_u8
  by_cases hp : s.ptr ≥ s.ptr_end
  · exact ⟨0, s, by simp [hp], rfl⟩
  · have hlt : s.ptr < mem.length := by omega
    exact ⟨byteAt mem s.ptr, { s with ptr := s.ptr + 1 }, by simp [hp, peek_eq mem _ hlt], rfl⟩

theorem read_u32_safe (mem : List Nat) (s : ezimg_stream) (h : s.ptr_end ≤ mem.length) :
    ∃ v s', ezimg_read_u32 mem s = .ok (v, s') ∧ s'.ptr_end = s.ptr_end := by
  obtain ⟨v0, s0, e0, h0⟩ := read_u8_safe mem s h
  obtain ⟨v1, s1, e1, h1⟩ := read_u8_safe mem s0 (by omega)
  obtain ⟨v2, s2, e2, h2⟩ := read_u8_safe mem s1 (by omega)
  obtain ⟨v3, s3, e3, h3⟩ := read_u8_safe mem s2 (by omega)
  simp only [ezimg_read_u32, bind, Except.bind, pure, Except.pure, e0, e1, e2, e3]
  by_cases hb : s3.big_endian = true
  · rw [if_pos hb]
    exact ⟨_, s3, rfl, by omega⟩
  · rw [if_neg hb]
    exact ⟨_, s3, rfl, by omega⟩

theorem bmp_read_masks_safe (inp : List Nat) (d : Nat) (s : ezimg_stream)
    (h : s.ptr_end ≤ inp.length) : ∃ m, bmp_read_masks inp d s = .ok m := by
  unfold bmp_read_masks
  by_cases hd : d > 40
  · obtain ⟨v0, s0, e0, h0⟩ := read_u32_safe inp s h
    obtain ⟨v1, s1, e1, h1⟩ := read_u32_safe inp s0 (by omega)
    obtain ⟨v2, s2, e2, h2⟩ := read_u32_safe inp s1 (by omega)
    obtain ⟨v3, s3, e3, h3⟩ := read_u32_safe inp s2 (by omega)
    simp only [hd, if_true, bind, Except.bind, pure, Except.pure, e0, e1, e2, e3]
    exact ⟨_, rfl⟩
  · simp only [hd, if_false]
    exact ⟨_, rfl⟩

theorem toUInt32_abs (v : Nat) : toUInt32 (EZIMG_ABS (toInt32 v)) = (toInt32 v).natAbs := by
  unfold toUInt32 EZIMG_ABS toInt32 u32
  split_ifs <;> omega

theorem bmp_load_short (inp out : List Nat) (h : inp.length < 54) :
    ezimg_bmp_load inp out = .ok (failWith .EZIMG_INVALID_IMAGE out) := by
  simp [ezimg_bmp_load, h, failWith]
  rfl

theorem bmp_load_badsig (inp out : List Nat) (h : 54 ≤ inp.length)
    (hs : ¬ (byteAt inp 0 = 66 ∧ byteAt inp 1 = 77)) :
    ezimg_bmp_load inp out = .ok (failWith .EZIMG_INVALID_IMAGE out) := by
  simp only [ezimg_bmp_load, ezimg_init_stream, bind, Except.bind, pure, Except.pure]
  rw [if_neg (by omega)]
  rw [read_u8_in inp _ _ 0 _ false (by omega) (by omega)]
  simp only []
  rw [read_u8_in inp _ _ (0+1) _ false (by omega) (by omega)]
  simp only [ezimg_bmp_check_signature]
  have : (byteAt inp 0 == 66 && byteAt inp 1 == 77) = false := by
    simp only [not_and] at hs
    simp only [Bool.and_eq_false_imp, beq_iff_eq, beq_eq_false_iff_ne]
    exact hs
  simp [this, failWith]

theorem bmp_load_hdr (inp out : List Nat) (h : 54 ≤ inp.length)
    (hs : byteAt inp 0 = 66 ∧ byteAt inp 1 = 77) :
    ezimg_bmp_load inp out =
      if out.length < u32 ((bmpWidth inp).natAbs * (bmpHeight inp).natAbs * 4) then
        .ok (failWith .EZIMG_NOT_ENOUGH_SPACE out)
      else if bmpPlanes inp ≠ 1 then .ok (failWith .EZIMG_NOT_SUPPORTED out)
      else if bmpBitCount inp ≠ 4 ∧ bmpBitCount inp ≠ 8 ∧ bmpBitCount inp ≠ 24
          ∧ bmpBitCount inp ≠ 32 then .ok (failWith .EZIMG_NOT_SUPPORTED out)
      else if bmpCompression inp ≠ 0 ∧ bmpCompression inp ≠ 3 then
        .ok (failWith .EZIMG_NOT_SUPPORTED out)
      else
        match bmp_read_masks inp (bmpDibSize inp) ⟨0, inp.length, 54, 0 + inp.length, false⟩ with
        | .ok m =>
          bmp_load_pixels inp out (bmpDataOffset inp) (bmpDibSize inp) (bmpWidth inp)
            (bmpHeight inp) (bmpBitCount inp) (bmpCompression inp) m.1 m.2.1 m.2.2.1 m.2.2.2
        | .error e => .error e := by
  simp only [ezimg_bmp_load, ezimg_init_stream, bind, Except.bind, pure, Except.pure]
  rw [if_neg (by omega)]
  rw [read_u8_in inp _ _ 0 _ false (by omega) (by omega)]
  simp only []
  rw [read_u8_in inp _ _ (0+1) _ false (by omega) (by omega)]
  simp only [ezimg_bmp_check_signature, hs, beq_self_eq_true, Bool.and_self, Bool.not_true,
      Bool.false_eq_true, if_false]
  rw [read_u32_le_in inp _ _ _ _ (by omega) (by omega)]
  simp only []
  rw [read_u32_le_in inp _ _ _ _ (by omega) (by omega)]
  simp only []
  rw [read_u32_le_in inp _ _ _ _ (by omega) (by omega)]
  simp only []
  rw [read_u32_le_in inp _ _ _ _ (by omega) (by omega)]
  simp only []
  rw [read_i32_le_in inp _ _ _ _ (by omega) (by omega)]
  simp only []
  rw [read_i32_le_in inp _ _ _ _ (by omega) (by omega)]
  simp only [toUInt32_abs]
  rw [read_u16_le_in inp _ _ _ _ (by omega) (by omega)]
  simp only []
  rw [read_u16_le_in inp _ _ _ _ (by omega) (by omega)]
  simp only []
  rw [read_u32_le_in inp _ _ _ _ (by omega) (by omega)]
  simp only []
  rw [read_u32_le_in inp _ _ _ _ (by omega) (by omega)]
  simp only []
  rw [read_u32_le_in inp _ _ _ _ (by omega) (by omega)]
  simp only []
  rw [read_u32_le_in inp _ _ _ _ (by omega) (by omega)]
  simp only []
  rw [read_u32_le_in inp _ _ _ _ (by omega) (by omega)]
  simp only []
  rw [read_u32_le_in inp _ _ _ _ (by omega) (by omega)]
  simp only [bmpWidth, bmpHeight, bmpPlanes, bmpBitCount, bmpCompression, bmpDibSize,
    bmpDataOffset, failWith, Nat.zero_add, Nat.reduceAdd]
  split_ifs <;> first
    | rfl
    | (generalize bmp_read_masks inp (le32 inp 14) _ = r; cases r <;> rfl)

theorem png_read_signature_in (inp : List Nat) (h : 8 ≤ inp.length) :
    png_read_signature inp ⟨0, inp.length, 0, 0 + inp.length, true⟩ =
      .ok ([byteAt inp 0, byteAt inp 1, byteAt inp 2, byteAt inp 3, byteAt inp 4,
            byteAt inp 5, byteAt inp 6, byteAt inp 7],
           ⟨0, inp.length, 8, 0 + inp.length, true⟩) := by
  simp only [png_read_signature, forRange, forLoop, bind, Except.bind, pure, Except.pure]
  rw [read_u8_in inp _ _ 0 _ true (by omega) (by omega)]
  simp only []
  rw [read_u8_in inp _ _ 1 _ true (by omega) (by omega)]
  simp only []
  rw [read_u8_in inp _ _ 2 _ true (by omega) (by omega)]
  simp only []
  rw [read_u8_in inp _ _ 3 _ true (by omega) (by omega)]
  simp only []
  rw [read_u8_in inp _ _ 4 _ true (by omega) (by omega)]
  simp only []
  rw [read_u8_in inp _ _ 5 _ true (by omega) (by omega)]
  simp only []
  rw [read_u8_in inp _ _ 6 _ true (by omega) (by omega)]
  simp only []
  rw [read_u8_in inp _ _ 7 _ true (by omega) (by omega)]
  rfl

theorem png_check_signature_iff (inp : List Nat) :
    ezimg_png_check_signature [byteAt inp 0, byteAt inp 1, byteAt inp 2, byteAt inp 3,
      byteAt inp 4, byteAt inp 5, byteAt inp 6, byteAt inp 7] = true ↔ pngSignatureOk inp := by
  simp [ezimg_png_check_signature, pngSignatureOk, and_assoc]

theorem png_size_short (inp : List Nat) (h : inp.length < 8) : ezimg_png_size inp = .ok 0 := by
  simp [ezimg_png_size, h]
  rfl

theorem png_load_short (inp out : List Nat) (h : inp.length < 8) :
    ezimg_png_load inp out = .ok (failWith .EZIMG_INVALID_IMAGE out) := by
  simp [ezimg_png_load, h, failWith]
  rfl

theorem png_size_badsig (inp : List Nat) (h : 8 ≤ inp.length) (hs : ¬ pngSignatureOk inp) :
    ezimg_png_size inp = .ok 0 := by
  simp only [ezimg_png_size, ezimg_init_stream_big, bind, Except.bind, pure, Except.pure]
  rw [if_neg (by omega), png_read_signature_in inp h]
  have : ezimg_png_check_signature [byteAt inp 0, byteAt inp 1, byteAt inp 2, byteAt inp 3,
      byteAt inp 4, byteAt inp 5, byteAt inp 6, byteAt inp 7] = false := by
    rw [← Bool.not_eq_true, png_check_signature_iff]; exact hs
  simp [this]

theorem png_load_badsig (inp out : List Nat) (h : 8 ≤ inp.length) (hs : ¬ pngSignatureOk inp) :
    ezimg_png_load inp out = .ok (failWith .EZIMG_INVALID_IMAGE out) := by
  simp only [ezimg_png_load, ezimg_init_stream_big, bind, Except.bind, pure, Except.pure]
  rw [if_neg (by omega), png_read_signature_in inp h]
  have : ezimg_png_check_signature [byteAt inp 0, byteAt inp 1, byteAt inp 2, byteAt inp 3,
      byteAt inp 4, byteAt inp 5, byteAt inp 6, byteAt inp 7] = false := by
    rw [← Bool.not_eq_true, png_check_signature_iff]; exact hs
  simp [this, failWith]

theorem bmp_orient_status (w h : Int) (absw absh : Nat) (st : BmpState) (r : LoadResult)
    (hr : bmp_orient w h absw absh st = .ok r) : r.status = .EZIMG_OK := by
  simp only [bmp_orient, bind, Except.bind, pure, Except.pure] at hr
  repeat' (split at hr)
  all_goals (try (simp at hr))
  all_goals (try (subst hr))
  all_goals (try rfl)

theorem bmp_load_pixels_status (inp out : List Nat) (d z : Nat) (w h : Int)
    (bc cp rm gm bm am : Nat) (r : LoadResult)
    (hr : bmp_load_pixels inp out d z w h bc cp rm gm bm am = .ok r) :
    r.status = .EZIMG_OK ∨ (r = failWith .EZIMG_NOT_SUPPORTED out) := by
  simp only [bmp_load_pixels, bind, Except.bind, pure, Except.pure] at hr
  split at hr
  · right
    injection hr with hr
    rw [← hr]; rfl
  · left
    split at hr
    · exact absurd hr (by simp)
    · exact bmp_orient_status _ _ _ _ _ _ hr

/-! ## Claims C1 - C3, C6: the BMP header -/

/-- C1: for an input of at least 54 bytes that starts with 'B','M',
`ezimg_bmp_size` returns `|width| * |height| * 4` reduced modulo `2^32`, with
width and height the little-endian signed fields at offsets 18-21 and 22-25;
any other input of at least 54 bytes with the signature and the same eight
bytes at offsets 18-25 gets the same result. -/
theorem C1_bmp_size_formula (inp : List Nat) (hlen : 54 ≤ inp.length)
    (hB : byteAt inp 0 = 66) (hM : byteAt inp 1 = 77) :
    ezimg_bmp_size inp
        = .ok (((bmpWidth inp).natAbs * (bmpHeight inp).natAbs * 4) % 4294967296)
      ∧ ∀ inp2 : List Nat, 54 ≤ inp2.length → byteAt inp2 0 = 66 → byteAt inp2 1 = 77 →
          (∀ i, 18 ≤ i → i < 26 → byteAt inp2 i = byteAt inp i) →
          ezimg_bmp_size inp2 = ezimg_bmp_size inp := by
  have key : ∀ l : List Nat, 54 ≤ l.length → byteAt l 0 = 66 → byteAt l 1 = 77 →
      ezimg_bmp_size l = .ok (((bmpWidth l).natAbs * (bmpHeight l).natAbs * 4) % 4294967296) := by
    intro l hl h0 h1
    rw [bmp_size_hdr l hl, if_pos ⟨h0, h1⟩, toUInt32_abs, toUInt32_abs]
    rfl
  refine ⟨key inp hlen hB hM, ?_⟩
  intro inp2 hlen2 hB2 hM2 hag
  rw [key inp hlen hB hM, key inp2 hlen2 hB2 hM2]
  simp only [bmpWidth, bmpHeight, le32]
  rw [hag 18 (by omega) (by omega), hag 19 (by omega) (by omega), hag 20 (by omega) (by omega),
    hag 21 (by omega) (by omega), hag 22 (by omega) (by omega), hag 23 (by omega) (by omega),
    hag 24 (by omega) (by omega), hag 25 (by omega) (by omega)]

/-- Witness of C1 on the 2x1 image `bmp24_2x1`. -/
theorem C1_bmp_size_formula_witness :
    54 ≤ bmp24_2x1.length ∧ byteAt bmp24_2x1 0 = 66 ∧ byteAt bmp24_2x1 1 = 77 ∧
    (ezimg_bmp_size bmp24_2x1
        = .ok (((bmpWidth bmp24_2x1).natAbs * (bmpHeight bmp24_2x1).natAbs * 4) % 4294967296)
      ∧ ∀ inp2 : List Nat, 54 ≤ inp2.length → byteAt inp2 0 = 66 → byteAt inp2 1 = 77 →
          (∀ i, 18 ≤ i → i < 26 → byteAt inp2 i = byteAt bmp24_2x1 i) →
          ezimg_bmp_size inp2 = ezimg_bmp_size bmp24_2x1) :=
  ⟨by decide, by decide, by decide,
    C1_bmp_size_formula bmp24_2x1 (by decide) (by decide) (by decide)⟩

/-- C2: unrecognised input is rejected by both calls of each format.  A BMP
input shorter than 54 bytes or not starting with 'B','M' gets size 0 and
`EZIMG_INVALID_IMAGE`; a PNG input shorter than 8 bytes or whose first 8 bytes
are not the signature gets size 0 and `EZIMG_INVALID_IMAGE`.  In each case the
output buffer is left as it was. -/
theorem C2_unrecognised_input_rejected (inp out : List Nat) :
    ((inp.length < 54 ∨ ¬ (byteAt inp 0 = 66 ∧ byteAt inp 1 = 77)) →
      ezimg_bmp_size inp = .ok 0 ∧
      ezimg_bmp_load inp out = .ok (failWith .EZIMG_INVALID_IMAGE out)) ∧
    ((inp.length < 8 ∨ ¬ pngSignatureOk inp) →
      ezimg_png_size inp = .ok 0 ∧
      ezimg_png_load inp out = .ok (failWith .EZIMG_INVALID_IMAGE out)) := by
  constructor
  · intro h
    by_cases hl : inp.length < 54
    · exact ⟨bmp_size_short inp hl, bmp_load_short inp out hl⟩
    · have hs : ¬ (byteAt inp 0 = 66 ∧ byteAt inp 1 = 77) := h.resolve_left hl
      refine ⟨?_, bmp_load_badsig inp out (by omega) hs⟩
      rw [bmp_size_hdr inp (by omega), if_neg hs]
  · intro h
    by_cases hl : inp.length < 8
    · exact ⟨png_size_short inp hl, png_load_short inp out hl⟩
    · have hs : ¬ pngSignatureOk inp := h.resolve_left hl
      exact ⟨png_size_badsig inp (by omega) hs, png_load_badsig inp out (by omega) hs⟩

/-- Witness of C2: the three bytes `B M 0` as a BMP, and `bmp24_2x1` (which
does not start with the PNG signature) as a PNG. -/
theorem C2_unrecognised_input_rejected_witness :
    (ezimg_bmp_size [66, 77, 0] = .ok 0 ∧
      ezimg_bmp_load [66, 77, 0] [7, 7] = .ok (failWith .EZIMG_INVALID_IMAGE [7, 7])) ∧
    (ezimg_png_size bmp24_2x1 = .ok 0 ∧
      ezimg_png_load bmp24_2x1 [7, 7] = .ok (failWith .EZIMG_INVALID_IMAGE [7, 7])) :=
  ⟨(C2_unrecognised_input_rejected [66, 77, 0] [7, 7]).1 (Or.inl (by decide)),
   (C2_unrecognised_input_rejected bmp24_2x1 [7, 7]).2 (Or.inr (by decide))⟩

/-- C3: for a BMP input of at least 54 bytes with the 'BM' signature,
`ezimg_bmp_load` returns `EZIMG_NOT_ENOUGH_SPACE` exactly when `out_size` is
smaller than the value of `ezimg_bmp_size` on the same input, whatever the
planes, bit-count and compression fields are, and the output buffer is then
left as it was. -/
theorem C3_bmp_not_enough_space (inp out : List Nat) (hlen : 54 ≤ inp.length)
    (hB : byteAt inp 0 = 66) (hM : byteAt inp 1 = 77) :
    ∃ size, ezimg_bmp_size inp = .ok size ∧
      (out.length < size →
        ezimg_bmp_load inp out = .ok (failWith .EZIMG_NOT_ENOUGH_SPACE out)) ∧
      (size ≤ out.length →
        ∀ r, ezimg_bmp_load inp out = .ok r → r.status ≠ .EZIMG_NOT_ENOUGH_SPACE) := by
  refine ⟨u32 ((bmpWidth inp).natAbs * (bmpHeight inp).natAbs * 4), ?_, ?_, ?_⟩
  · rw [bmp_size_hdr inp hlen, if_pos ⟨hB, hM⟩, toUInt32_abs, toUInt32_abs]
    rfl
  · intro hlt
    rw [bmp_load_hdr inp out hlen ⟨hB, hM⟩, if_pos hlt]
  · intro hge r hr
    rw [bmp_load_hdr inp out hlen ⟨hB, hM⟩, if_neg (by omega)] at hr
    split_ifs at hr with h1 h2 h3
    · injection hr with hr; rw [← hr]; simp [failWith]
    · injection hr with hr; rw [← hr]; simp [failWith]
    · injection hr with hr; rw [← hr]; simp [failWith]
    · split at hr
      · rcases bmp_load_pixels_status _ _ _ _ _ _ _ _ _ _ _ _ r hr with h | h
        · rw [h]; simp
        · rw [h]; simp [failWith]
      · exact absurd hr (by simp)

/-- Witness of C3 on `bmp24_2x1`, whose size is 8, with a 3-byte output. -/
theorem C3_bmp_not_enough_space_witness :
    54 ≤ bmp24_2x1.length ∧ byteAt bmp24_2x1 0 = 66 ∧ byteAt bmp24_2x1 1 = 77 ∧
    ∃ size, ezimg_bmp_size bmp24_2x1 = .ok size ∧
      (([1, 2, 3] : List Nat).length < size →
        ezimg_bmp_load bmp24_2x1 [1, 2, 3] = .ok (failWith .EZIMG_NOT_ENOUGH_SPACE [1, 2, 3])) ∧
      (size ≤ ([1, 2, 3] : List Nat).length →
        ∀ r, ezimg_bmp_load bmp24_2x1 [1, 2, 3] = .ok r →
          r.status ≠ .EZIMG_NOT_ENOUGH_SPACE) :=
  ⟨by decide, by decide, by decide,
    C3_bmp_not_enough_space bmp24_2x1 [1, 2, 3] (by decide) (by decide) (by decide)⟩

theorem bmp_load_pixels_comp3 (inp out : List Nat) (d z : Nat) (w h : Int)
    (bc rm gm bm am : Nat) (hbc : bc ≠ 32) :
    bmp_load_pixels inp out d z w h bc 3 rm gm bm am
      = .ok (failWith .EZIMG_NOT_SUPPORTED out) := by
  simp [bmp_load_pixels, bmp_decode_dispatch, hbc, failWith]
  rfl

/-- C6: a BMP input that passes the size, signature and capacity checks gets
`EZIMG_NOT_SUPPORTED`, with the output buffer left as it was, whenever
planes != 1, or the bit count is not one of 4, 8, 24, 32, or compression is
neither 0 nor 3, or compression is 3 with a bit count other than 32. -/
theorem C6_bmp_not_supported (inp out : List Nat) (hlen : 54 ≤ inp.length)
    (hB : byteAt inp 0 = 66) (hM : byteAt inp 1 = 77)
    (hcap : ((bmpWidth inp).natAbs * (bmpHeight inp).natAbs * 4) % 4294967296 ≤ out.length)
    (hbad : bmpPlanes inp ≠ 1 ∨
      (bmpBitCount inp ≠ 4 ∧ bmpBitCount inp ≠ 8 ∧ bmpBitCount inp ≠ 24 ∧ bmpBitCount inp ≠ 32) ∨
      (bmpCompression inp ≠ 0 ∧ bmpCompression inp ≠ 3) ∨
      (bmpCompression inp = 3 ∧ bmpBitCount inp ≠ 32)) :
    ezimg_bmp_load inp out = .ok (failWith .EZIMG_NOT_SUPPORTED out) := by
  rw [bmp_load_hdr inp out hlen ⟨hB, hM⟩, if_neg (by unfold u32; omega)]
  split_ifs with h1 h2 h3
  · rfl
  · rfl
  · rfl
  · obtain ⟨m, hm⟩ := bmp_read_masks_safe inp (bmpDibSize inp)
      ⟨0, inp.length, 54, 0 + inp.length, false⟩ (by simp)
    rw [hm]
    rcases hbad with hb | hb | hb | hb
    · exact absurd hb h1
    · exact absurd hb h2
    · exact absurd hb h3
    · simp only []
      rw [hb.1]
      exact bmp_load_pixels_comp3 _ _ _ _ _ _ _ _ _ _ _ hb.2

/-- Witness of C6 on `bmp24_planes2`, a 24-bit header with planes = 2. -/
theorem C6_bmp_not_supported_witness :
    ezimg_bmp_load bmp24_planes2 (List.replicate 8 0)
      = .ok (failWith .EZIMG_NOT_SUPPORTED (List.replicate 8 0)) :=
  C6_bmp_not_supported bmp24_planes2 (List.replicate 8 0) (by decide) (by decide) (by decide)
    (by decide) (Or.inl (by decide))

/-! ## The PNG header and the chunk walk -/

theorem byteAt_of_le (mem : List Nat) (p : Nat) (h : mem.length ≤ p) : byteAt mem p = 0 := by
  simp [byteAt, List.getD, List.getElem?_eq_none h]

theorem read_u8_whole (mem : List Nat) (b z p : Nat) (be : Bool) (hp : p ≤ mem.length) :
    ezimg_read_u8 mem ⟨b, z, p, mem.length, be⟩
      = .ok (byteAt mem p, ⟨b, z, min (p + 1) mem.length, mem.length, be⟩) := by
  by_cases h : p < mem.length
  · rw [read_u8_in mem b z p _ be h h, Nat.min_eq_left (by omega)]
  · have hp' : p = mem.length := by omega
    rw [read_u8_end mem b z p _ be (by omega), byteAt_of_le mem p (by omega),
      Nat.min_eq_right (by omega)]
    rw [← hp']

theorem byteAt_min (mem : List Nat) (p k : Nat) :
    byteAt mem (min (p + k) mem.length) = byteAt mem (p + k) := by
  by_cases h : p + k ≤ mem.length
  · rw [Nat.min_eq_left h]
  · rw [Nat.min_eq_right (by omega), byteAt_of_le mem _ (le_refl _),
      byteAt_of_le mem _ (by omega)]

theorem read_u32_whole_be (mem : List Nat) (b z p : Nat) (hp : p ≤ mem.length) :
    ezimg_read_u32 mem ⟨b, z, p, mem.length, true⟩
      = .ok (be32 mem p, ⟨b, z, min (p + 4) mem.length, mem.length, true⟩) := by
  simp only [ezimg_read_u32, bind, Except.bind, pure, Except.pure]
  rw [read_u8_whole mem b z p true hp]
  simp only []
  rw [read_u8_whole mem b z _ true (Nat.min_le_right _ _)]
  simp only []
  rw [read_u8_whole mem b z _ true (Nat.min_le_right _ _)]
  simp only []
  rw [read_u8_whole mem b z _ true (Nat.min_le_right _ _)]
  have e2 : min (min (p + 1) mem.length + 1) mem.length = min (p + 2) mem.length := by omega
  have e3 : min (min (p + 2) mem.length + 1) mem.length = min (p + 3) mem.length := by omega
  have e4 : min (min (p + 3) mem.length + 1) mem.length = min (p + 4) mem.length := by omega
  have e := or4_eq (byteAt mem (p + 3)) (byteAt mem (p + 2)) (byteAt mem (p + 1)) (byteAt mem p)
    (byteAt_lt _ _) (byteAt_lt _ _) (byteAt_lt _ _)
  simp only [Nat.shiftLeft_zero] at e
  simp only [e2, e3, e4, byteAt_min mem p _, if_true, Nat.shiftLeft_zero, e, be32]
  congr 2
  omega

theorem byteAt_min' (mem : List Nat) (p : Nat) :
    byteAt mem (min p mem.length) = byteAt mem p := by
  have := byteAt_min mem 0 p
  simpa using this

theorem be32_min (mem : List Nat) (p : Nat) :
    be32 mem (min p mem.length) = be32 mem p := by
  by_cases h : p ≤ mem.length
  · rw [Nat.min_eq_left h]
  · rw [Nat.min_eq_right (by omega)]
    simp only [be32]
    rw [byteAt_of_le mem _ (le_refl _), byteAt_of_le mem (mem.length + 1) (by omega),
      byteAt_of_le mem (mem.length + 2) (by omega), byteAt_of_le mem (mem.length + 3) (by omega),
      byteAt_of_le mem p (by omega), byteAt_of_le mem (p + 1) (by omega),
      byteAt_of_le mem (p + 2) (by omega), byteAt_of_le mem (p + 3) (by omega)]

theorem png_size_hdr (inp : List Nat) (h : 8 ≤ inp.length) (hs : pngSignatureOk inp) :
    ezimg_png_size inp =
      if pngFirstType inp ≠ EZIMG_CHUNK_START then .ok 0
      else .ok (ezimg_png_decomp_data_max_size (pngWidth inp) (pngHeight inp)) := by
  simp only [ezimg_png_size, ezimg_init_stream_big, bind, Except.bind, pure, Except.pure]
  rw [if_neg (by omega), png_read_signature_in inp h]
  have hc := (png_check_signature_iff inp).mpr hs
  simp only [hc, Bool.not_true, Bool.false_eq_true, if_false, Nat.zero_add]
  rw [read_u32_whole_be inp _ _ 8 h]
  simp only []
  rw [read_u32_whole_be inp _ _ _ (Nat.min_le_right _ _)]
  simp only []
  rw [read_u32_whole_be inp _ _ _ (Nat.min_le_right _ _)]
  simp only []
  rw [read_u32_whole_be inp _ _ _ (Nat.min_le_right _ _)]
  have e2 : min (min (8 + 4) inp.length + 4) inp.length = min 16 inp.length := by omega
  have e3 : min (min 16 inp.length + 4) inp.length = min 20 inp.length := by omega
  simp only [e2, e3, be32_min, pngFirstType, pngWidth, pngHeight]

theorem png_first_step (inp : List Nat) (h : 8 ≤ inp.length) :
    png_walk_step inp (png_walk_init (pngStreamAfterSignature inp)) =
      if pngFirstType inp ≠ EZIMG_CHUNK_START then
        .ok (Sum.inl (WalkEnd.returned .EZIMG_INVALID_IMAGE))
      else if pngWidth inp = 0 ∨ pngHeight inp = 0 then
        .ok (Sum.inl (WalkEnd.returned .EZIMG_INVALID_IMAGE))
      else if pngUnsupported inp then
        .ok (Sum.inl (WalkEnd.returned .EZIMG_NOT_SUPPORTED))
      else .ok (Sum.inr (pngAfterHeader inp)) := by
  simp only [png_walk_step, png_walk_chunk, png_walk_init, pngStreamAfterSignature, bind,
    Except.bind, pure, Except.pure]
  rw [read_u32_whole_be inp _ _ 8 h]
  simp only []
  rw [read_u32_whole_be inp _ _ _ (Nat.min_le_right _ _)]
  have e2 : min (min (8 + 4) inp.length + 4) inp.length = min 16 inp.length := by omega
  simp only [e2, be32_min]
  by_cases ht : pngFirstType inp = EZIMG_CHUNK_START
  · have ht' : be32 inp (8 + 4) = EZIMG_CHUNK_START := ht
    simp only [ht, ht', ne_eq, not_true_eq_false, and_false, if_false, if_true]
    rw [read_u32_whole_be inp _ _ _ (Nat.min_le_right _ _)]
    simp only []
    rw [read_u32_whole_be inp _ _ _ (Nat.min_le_right _ _)]
    simp only []
    rw [read_u8_whole inp _ _ _ _ (Nat.min_le_right _ _)]
    simp only []
    rw [read_u8_whole inp _ _ _ _ (Nat.min_le_right _ _)]
    simp only []
    rw [read_u8_whole inp _ _ _ _ (Nat.min_le_right _ _)]
    simp only []
    rw [read_u8_whole inp _ _ _ _ (Nat.min_le_right _ _)]
    simp only []
    rw [read_u8_whole inp _ _ _ _ (Nat.min_le_right _ _)]
    have e3 : min (min 16 inp.length + 4) inp.length = min 20 inp.length := by omega
    have e4 : min (min 20 inp.length + 4) inp.length = min 24 inp.length := by omega
    have e5 : min (min 24 inp.length + 1) inp.length = min 25 inp.length := by omega
    have e6 : min (min 25 inp.length + 1) inp.length = min 26 inp.length := by omega
    have e7 : min (min 26 inp.length + 1) inp.length = min 27 inp.length := by omega
    have e8 : min (min 27 inp.length + 1) inp.length = min 28 inp.length := by omega
    simp only [e3, e4, e5, e6, e7, e8, be32_min, byteAt_min']
    by_cases hz : pngWidth inp = 0 ∨ pngHeight inp = 0
    · have hz' : be32 inp 16 = 0 ∨ be32 inp 20 = 0 := hz
      simp only [hz, hz', if_true]
    · have hz' : ¬ (be32 inp 16 = 0 ∨ be32 inp 20 = 0) := hz
      simp only [hz, hz', if_false]
      by_cases hu : pngUnsupported inp
      · have hu' := hu
        simp only [pngUnsupported, pngBitDepth, pngColorType, pngCompression, pngFilter,
          pngInterlace, ne_eq] at hu'
        simp only [hu, hu', if_true]
      · have hu' := hu
        simp only [pngUnsupported, pngBitDepth, pngColorType, pngCompression, pngFilter,
          pngInterlace, ne_eq] at hu'
        simp only [hu, hu', if_false]
        rfl
  · have ht' : ¬ be32 inp (8 + 4) = EZIMG_CHUNK_START := ht
    simp [ht, ht']

theorem png_load_hdr (inp out : List Nat) (h : 8 ≤ inp.length) (hs : pngSignatureOk inp) :
    ezimg_png_load inp out =
      match pngWalkOf inp with
      | .ok (WalkEnd.returned s) => .ok (failWith s out)
      | .ok (WalkEnd.finished wk) => png_load_decode inp out wk
      | .error e => .error e := by
  simp only [ezimg_png_load, ezimg_init_stream_big, bind, Except.bind, pure, Except.pure]
  rw [if_neg (by omega), png_read_signature_in inp h]
  have hc := (png_check_signature_iff inp).mpr hs
  simp only [hc, Bool.not_true, Bool.false_eq_true, if_false, Nat.zero_add, pngWalkOf,
    pngStreamAfterSignature]
  generalize png_walk inp (inp.length + 4) _ = r
  rcases r with e | (s | wk) <;> rfl

theorem pngWalkOf_eq (inp : List Nat) (h : 8 ≤ inp.length) :
    pngWalkOf inp =
      if pngFirstType inp ≠ EZIMG_CHUNK_START then
        .ok (WalkEnd.returned .EZIMG_INVALID_IMAGE)
      else if pngWidth inp = 0 ∨ pngHeight inp = 0 then
        .ok (WalkEnd.returned .EZIMG_INVALID_IMAGE)
      else if pngUnsupported inp then
        .ok (WalkEnd.returned .EZIMG_NOT_SUPPORTED)
      else png_walk inp (inp.length + 3) (pngAfterHeader inp) := by
  unfold pngWalkOf
  rw [show inp.length + 4 = (inp.length + 3) + 1 from rfl, png_walk, png_first_step inp h]
  split_ifs <;> rfl

theorem png_load_decode_no_idat (inp out : List Nat) (wk : PngWalk) (h : wk.chunks = []) :
    png_load_decode inp out wk = .ok (failWith .EZIMG_INVALID_IMAGE out) := by
  simp [png_load_decode, h, failWith]
  rfl

/-! ## Claim C7 -/

/-- C7: with a valid signature, `ezimg_png_load` returns `EZIMG_INVALID_IMAGE`
if the type of the first chunk is not IHDR (and `ezimg_png_size` returns 0),
`EZIMG_INVALID_IMAGE` if the IHDR width or height is 0, otherwise
`EZIMG_NOT_SUPPORTED` if the bit depth is not 8, or the colour type is neither
2 nor 6, or one of the compression, filter and interlace methods is not 0; and
it returns `EZIMG_INVALID_IMAGE` if the chunk walk leaves its loop at IEND with
no IDAT chunk recorded.  The output buffer is untouched in all four cases. -/
theorem C7_png_header_classification (inp out : List Nat) (hlen : 8 ≤ inp.length)
    (hsig : pngSignatureOk inp) :
    (pngFirstType inp ≠ EZIMG_CHUNK_START →
      ezimg_png_load inp out = .ok (failWith .EZIMG_INVALID_IMAGE out) ∧
      ezimg_png_size inp = .ok 0) ∧
    (pngFirstType inp = EZIMG_CHUNK_START → (pngWidth inp = 0 ∨ pngHeight inp = 0) →
      ezimg_png_load inp out = .ok (failWith .EZIMG_INVALID_IMAGE out)) ∧
    (pngFirstType inp = EZIMG_CHUNK_START → pngWidth inp ≠ 0 → pngHeight inp ≠ 0 →
      pngUnsupported inp →
      ezimg_png_load inp out = .ok (failWith .EZIMG_NOT_SUPPORTED out)) ∧
    (∀ wk, pngWalkOf inp = .ok (WalkEnd.finished wk) → wk.chunks = [] →
      ezimg_png_load inp out = .ok (failWith .EZIMG_INVALID_IMAGE out)) := by
  refine ⟨?_, ?_, ?_, ?_⟩
  · intro ht
    refine ⟨?_, ?_⟩
    · rw [png_load_hdr inp out hlen hsig, pngWalkOf_eq inp hlen, if_pos ht]
    · rw [png_size_hdr inp hlen hsig, if_pos ht]
  · intro ht hz
    rw [png_load_hdr inp out hlen hsig, pngWalkOf_eq inp hlen, if_neg (by simpa using ht),
      if_pos hz]
  · intro ht hw hh hu
    rw [png_load_hdr inp out hlen hsig, pngWalkOf_eq inp hlen, if_neg (by simpa using ht),
      if_neg (by simp [hw, hh]), if_pos hu]
  · intro wk hwk hno
    rw [png_load_hdr inp out hlen hsig, hwk]
    exact png_load_decode_no_idat inp out wk hno

theorem png_walk_chunk_returned (inp : List Nat) (wk : PngWalk) (len type : Nat)
    (stream : ezimg_stream) (s : Status)
    (h : png_walk_chunk inp wk len type stream = .ok (Sum.inl s)) :
    s = .EZIMG_INVALID_IMAGE ∨ s = .EZIMG_NOT_SUPPORTED := by
  simp only [png_walk_chunk, bind, Except.bind, pure, Except.pure] at h
  repeat' (split at h)
  all_goals (try (simp at h))
  all_goals (try (subst h))
  all_goals (try simp)

theorem png_walk_chunk_keeps_dims (inp : List Nat) (wk wk1 : PngWalk) (len type : Nat)
    (stream : ezimg_stream) (last : Bool) (ht : type ≠ EZIMG_CHUNK_START)
    (h : png_walk_chunk inp wk len type stream = .ok (Sum.inr (wk1, last))) :
    wk1.w = wk.w ∧ wk1.h = wk.h := by
  simp only [png_walk_chunk, if_neg ht, bind, Except.bind, pure, Except.pure] at h
  repeat' (split at h)
  all_goals (try (simp at h))
  all_goals (try (obtain ⟨h1, h2⟩ := h; subst h1))
  all_goals (try simp)

theorem png_walk_step_returned (inp : List Nat) (wk : PngWalk) (s : Status)
    (h : png_walk_step inp wk = .ok (Sum.inl (WalkEnd.returned s))) :
    s = .EZIMG_INVALID_IMAGE ∨ s = .EZIMG_NOT_SUPPORTED := by
  simp only [png_walk_step, bind, Except.bind, pure, Except.pure] at h
  repeat' (split at h)
  all_goals (try (simp at h))
  all_goals (try (subst h))
  all_goals (try simp)
  rename_i hq
  exact png_walk_chunk_returned _ _ _ _ _ _ hq

theorem png_walk_returned (inp : List Nat) (fuel : Nat) (wk : PngWalk) (s : Status)
    (h : png_walk inp fuel wk = .ok (WalkEnd.returned s)) :
    s = .EZIMG_INVALID_IMAGE ∨ s = .EZIMG_NOT_SUPPORTED := by
  induction fuel generalizing wk with
  | zero => simp [png_walk] at h
  | succ n ih =>
    rw [png_walk] at h
    split at h
    · rename_i e he
      injection h with h
      subst h
      exact png_walk_step_returned inp wk s he
    · exact ih _ h
    · simp at h

theorem png_load_decode_status (inp out : List Nat) (wk : PngWalk) (r : LoadResult)
    (h : png_load_decode inp out wk = .ok r) :
    r.status = .EZIMG_INVALID_IMAGE ∨ r.status = .EZIMG_OK := by
  simp only [png_load_decode, bind, Except.bind, pure, Except.pure] at h
  repeat' (split at h)
  all_goals (try (simp at h))
  all_goals (try (subst h))
  all_goals (try simp)

theorem png_load_status (inp out : List Nat) (r : LoadResult)
    (h : ezimg_png_load inp out = .ok r) :
    r.status ≠ .EZIMG_NOT_ENOUGH_SPACE := by
  by_cases hl : inp.length < 8
  · rw [png_load_short inp out hl] at h
    injection h with h; subst h; simp [failWith]
  · by_cases hs : pngSignatureOk inp
    · rw [png_load_hdr inp out (by omega) hs] at h
      split at h
      · rename_i s hw
        injection h with h; subst h
        rcases png_walk_returned inp _ _ s hw with h1 | h1 <;> simp [failWith, h1]
      · rcases png_load_decode_status inp out _ r h with h1 | h1 <;> simp [h1]
      · simp at h
    · rw [png_load_badsig inp out (by omega) hs] at h
      injection h with h; subst h; simp [failWith]

/-! ## Claims C4 and C5: the capacity of the PNG output -/

theorem png_walk_step_keeps_dims (inp : List Nat) (wk : PngWalk)
    (ht : pngChunkType inp wk ≠ EZIMG_CHUNK_START) :
    (∀ wk1, png_walk_step inp wk = .ok (Sum.inr wk1) → wk1.w = wk.w ∧ wk1.h = wk.h) ∧
    (∀ res, png_walk_step inp wk = .ok (Sum.inl (WalkEnd.finished res)) →
      res.w = wk.w ∧ res.h = wk.h) := by
  simp only [pngChunkType] at ht
  constructor
  · intro wk1 h
    simp only [png_walk_step, bind, Except.bind, pure, Except.pure] at h
    repeat' (split at h)
    all_goals (try (simp at h))
    all_goals (try (subst h))
    rename_i x2 v1 hq2 x1 v hq1 hf x0 dl wkn lc hq hl
    rw [hq2] at ht
    simp only [] at ht
    rw [hq1] at ht
    exact png_walk_chunk_keeps_dims inp wk wkn _ _ _ lc ht hq
  · intro res h
    simp only [png_walk_step, bind, Except.bind, pure, Except.pure] at h
    repeat' (split at h)
    all_goals (try (simp at h))
    all_goals (try (subst h))
    rename_i x2 v1 hq2 x1 v hq1 hf x0 dl wkn lc hq hl
    rw [hq2] at ht
    simp only [] at ht
    rw [hq1] at ht
    exact png_walk_chunk_keeps_dims inp wk wkn _ _ _ lc ht hq

theorem png_walk_keeps_dims (inp : List Nat) (fuel : Nat) (wk res : PngWalk)
    (hno : pngNoHeaderChunkFrom inp fuel wk = true)
    (h : png_walk inp fuel wk = .ok (WalkEnd.finished res)) :
    res.w = wk.w ∧ res.h = wk.h := by
  induction fuel generalizing wk with
  | zero => simp [png_walk] at h
  | succ n ih =>
    rw [png_walk] at h
    rw [pngNoHeaderChunkFrom, Bool.and_eq_true, bne_iff_ne] at hno
    obtain ⟨ht, hrest⟩ := hno
    have hk := png_walk_step_keeps_dims inp wk ht
    split at h
    · rename_i e he
      injection h with h
      subst h
      exact hk.2 res he
    · rename_i wk1 he
      rw [he] at hrest
      have h1 := ih wk1 hrest h
      have h2 := hk.1 wk1 he
      exact ⟨h1.1.trans h2.1, h1.2.trans h2.2⟩
    · simp at h

theorem decomp_max_size_eq (w h : Nat) :
    ezimg_png_decomp_data_max_size w h = (w * h * 4 + h) % 4294967296 := by
  unfold ezimg_png_decomp_data_max_size u32
  omega

/-- C5 (counterexample): `png_two_ihdr` has a valid signature and a first chunk
of type IHDR, and its size is 5; but the chunk walk of `ezimg_png_load` ends
holding the 2x2 dimensions of the second header chunk, so that with a 5-byte
output the decompressor fails its capacity check without writing, and the load
returns `EZIMG_INVALID_IMAGE`. -/
theorem C5_counterexample_second_header :
    pngSignatureOk png_two_ihdr ∧ pngFirstType png_two_ihdr = EZIMG_CHUNK_START ∧
    ezimg_png_size png_two_ihdr = .ok 5 ∧
    (∃ res, pngWalkOf png_two_ihdr = .ok (WalkEnd.finished res) ∧ res.w = 2 ∧ res.h = 2 ∧
      ∀ cs, ezimg_decompress_idat png_two_ihdr cs res.w res.h (List.replicate 5 0)
        = .ok (false, List.replicate 5 0)) ∧
    ezimg_png_load png_two_ihdr (List.replicate 5 0)
      = .ok (failWith .EZIMG_INVALID_IMAGE (List.replicate 5 0)) := by
  refine ⟨by decide, by decide, by decide, ?_, by decide⟩
  refine ⟨_, (by rfl : pngWalkOf png_two_ihdr = .ok (WalkEnd.finished _)), rfl, rfl, ?_⟩
  intro cs
  rfl

/-- C5 (amended): for an input with a valid PNG signature whose first chunk type
is IHDR, `ezimg_png_size` returns `width*height*4 + height` modulo `2^32`, with
width and height the big-endian fields of that chunk; and when the chunk walk
of `ezimg_png_load` runs to IEND without meeting another header chunk, the
decompressor is called with the same width and height, so that it fails its
capacity check, writing nothing, for every output smaller than that size, and
passes it (going on to the zlib header) for an output of exactly that size. -/
theorem C5_png_size_and_capacity (inp : List Nat) (hlen : 8 ≤ inp.length)
    (hsig : pngSignatureOk inp) (htype : pngFirstType inp = EZIMG_CHUNK_START) :
    ezimg_png_size inp
        = .ok ((pngWidth inp * pngHeight inp * 4 + pngHeight inp) % 4294967296) ∧
    ∀ res, pngWalkOf inp = .ok (WalkEnd.finished res) →
      pngNoHeaderChunkFrom inp (inp.length + 3) (pngAfterHeader inp) = true →
      res.w = pngWidth inp ∧ res.h = pngHeight inp ∧
      ∀ (cs : ezimg_cstream) (out : List Nat) (size : Nat), ezimg_png_size inp = .ok size →
        (out.length < size →
          ezimg_decompress_idat inp cs res.w res.h out = .ok (false, out)) ∧
        (out.length = size →
          ezimg_decompress_idat inp cs res.w res.h out = decompress_run inp cs size out) := by
  have hsize : ezimg_png_size inp
      = .ok (ezimg_png_decomp_data_max_size (pngWidth inp) (pngHeight inp)) := by
    rw [png_size_hdr inp hlen hsig, if_neg (by simpa using htype)]
  refine ⟨by rw [hsize, decomp_max_size_eq], ?_⟩
  intro res hwalk hno
  rw [pngWalkOf_eq inp hlen, if_neg (by simpa using htype)] at hwalk
  have hdims : res.w = pngWidth inp ∧ res.h = pngHeight inp := by
    split_ifs at hwalk
    · simp at hwalk
    · simp at hwalk
    · exact png_walk_keeps_dims inp _ _ res hno hwalk
  refine ⟨hdims.1, hdims.2, ?_⟩
  intro cs out size hsz
  rw [hsize] at hsz
  injection hsz with hsz
  subst hsz
  rw [hdims.1, hdims.2]
  constructor
  · intro hlt
    simp [ezimg_decompress_idat, hlt]
  · intro heq
    simp [ezimg_decompress_idat, heq]

/-- Witness of C5 on `png_rgba_1x1`, whose walk ends at IEND after one header
chunk and one data chunk. -/
theorem C5_png_size_and_capacity_witness :
    pngNoHeaderChunkFrom png_rgba_1x1 (png_rgba_1x1.length + 3) (pngAfterHeader png_rgba_1x1)
        = true ∧
    (∃ res, pngWalkOf png_rgba_1x1 = .ok (WalkEnd.finished res)) ∧
    ezimg_png_size png_rgba_1x1
        = .ok ((pngWidth png_rgba_1x1 * pngHeight png_rgba_1x1 * 4 + pngHeight png_rgba_1x1)
            % 4294967296) ∧
    ∀ res, pngWalkOf png_rgba_1x1 = .ok (WalkEnd.finished res) →
      pngNoHeaderChunkFrom png_rgba_1x1 (png_rgba_1x1.length + 3) (pngAfterHeader png_rgba_1x1)
        = true →
      res.w = pngWidth png_rgba_1x1 ∧ res.h = pngHeight png_rgba_1x1 ∧
      ∀ (cs : ezimg_cstream) (out : List Nat) (size : Nat),
        ezimg_png_size png_rgba_1x1 = .ok size →
        (out.length < size →
          ezimg_decompress_idat png_rgba_1x1 cs res.w res.h out = .ok (false, out)) ∧
        (out.length = size →
          ezimg_decompress_idat png_rgba_1x1 cs res.w res.h out
            = decompress_run png_rgba_1x1 cs size out) :=
  ⟨by decide, ⟨_, (by rfl : pngWalkOf png_rgba_1x1 = .ok (WalkEnd.finished _))⟩,
    C5_png_size_and_capacity png_rgba_1x1 (by decide) (by decide) (by decide)⟩

/-- Witness of C7: the four cases on `png_first_idat`, `png_zero_width`,
`png_depth16` and `png_no_idat`. -/
theorem C7_png_header_classification_witness :
    (ezimg_png_load png_first_idat [1, 2] = .ok (failWith .EZIMG_INVALID_IMAGE [1, 2]) ∧
      ezimg_png_size png_first_idat = .ok 0) ∧
    ezimg_png_load png_zero_width [1, 2] = .ok (failWith .EZIMG_INVALID_IMAGE [1, 2]) ∧
    ezimg_png_load png_depth16 [1, 2] = .ok (failWith .EZIMG_NOT_SUPPORTED [1, 2]) ∧
    ezimg_png_load png_no_idat [1, 2] = .ok (failWith .EZIMG_INVALID_IMAGE [1, 2]) :=
  ⟨(C7_png_header_classification png_first_idat [1, 2] (by decide) (by decide)).1 (by decide),
   (C7_png_header_classification png_zero_width [1, 2] (by decide) (by decide)).2.1
      (by decide) (by decide),
   (C7_png_header_classification png_depth16 [1, 2] (by decide) (by decide)).2.2.1
      (by decide) (by decide) (by decide) (by decide),
   (C7_png_header_classification png_no_idat [1, 2] (by decide) (by decide)).2.2.2
      _ (by rfl) rfl⟩

/-! ## Counted loops and single stores -/

theorem forLoop_inv {ε σ : Type} (body : Nat → σ → Except ε σ) (Inv : Nat → σ → Prop) :
    ∀ (n i : Nat) (s : σ), Inv i s →
      (∀ j s, i ≤ j → j < i + n → Inv j s → ∃ s', body j s = .ok s' ∧ Inv (j + 1) s') →
      ∃ s', forLoop body n i s = .ok s' ∧ Inv (i + n) s' := by
  intro n
  induction n with
  | zero =>
    intro i s h0 _
    exact ⟨s, rfl, h0⟩
  | succ n ih =>
    intro i s h0 hstep
    obtain ⟨s1, hb, h1⟩ := hstep i s (le_refl _) (by omega) h0
    obtain ⟨s', hl, h'⟩ := ih (i + 1) s1 h1 (fun j s hj1 hj2 hinv =>
      hstep j s (by omega) (by omega) hinv)
    refine ⟨s', ?_, ?_⟩
    · rw [forLoop, hb]
      exact hl
    · have e : i + (n + 1) = i + 1 + n := by omega
      rw [e]
      exact h'

theorem forLoop_ok_inv {ε σ : Type} (body : Nat → σ → Except ε σ) (Inv : Nat → σ → Prop) :
    ∀ (n i : Nat) (s s' : σ), Inv i s →
      (∀ j s s1, i ≤ j → j < i + n → Inv j s → body j s = .ok s1 → Inv (j + 1) s1) →
      forLoop body n i s = .ok s' → Inv (i + n) s' := by
  intro n
  induction n with
  | zero =>
    intro i s s' h0 _ h
    rw [forLoop] at h
    injection h with h
    subst h
    exact h0
  | succ n ih =>
    intro i s s' h0 hstep h
    rw [forLoop] at h
    split at h
    · rename_i s1 hb
      have h1 := hstep i s s1 (le_refl _) (by omega) h0 hb
      have e : i + (n + 1) = i + 1 + n := by omega
      rw [e]
      exact ih (i + 1) s1 s' h1 (fun j s s2 hj1 hj2 hinv hb2 =>
        hstep j s s2 (by omega) (by omega) hinv hb2) h
    · simp at h

theorem forLoop_congr {ε σ : Type} (body1 body2 : Nat → σ → Except ε σ) (P : σ → Prop)
    (hbody : ∀ j s, P s → body1 j s = body2 j s ∧ ∀ s', body1 j s = .ok s' → P s') :
    ∀ (n i : Nat) (s : σ), P s → forLoop body1 n i s = forLoop body2 n i s := by
  intro n
  induction n with
  | zero => intro i s _; rfl
  | succ n ih =>
    intro i s hs
    obtain ⟨he, hp⟩ := hbody i s hs
    rw [forLoop, forLoop, ← he]
    cases hb : body1 i s with
    | error e => rfl
    | ok s1 => exact ih (i + 1) s1 (hp s1 hb)

theorem poke_ok (mem : List Nat) (p v : Nat) (h : p < mem.length) :
    poke mem p v = .ok (mem.set p (v % 256)) := by
  simp [poke, h]

theorem put4_length (out : List Nat) (p r g b : Nat) : (put4 out p r g b).length = out.length := by
  simp [put4]

theorem put4_get (out : List Nat) (p r g b i : Nat) (h : p + 4 ≤ out.length) :
    (put4 out p r g b)[i]? =
      if i = p then some 255 else if i = p + 1 then some (r % 256)
      else if i = p + 2 then some (g % 256) else if i = p + 3 then some (b % 256)
      else out[i]? := by
  unfold put4
  simp only [List.getElem?_set, List.length_set]
  split_ifs <;> first | rfl | omega

theorem bmp_put_pixel_ok (st : BmpState) (r g b : Nat) (h : st.outp + 4 ≤ st.out.length) :
    bmp_put_pixel st r g b
      = .ok { st with out := put4 st.out st.outp r g b, outp := st.outp + 4 } := by
  simp only [bmp_put_pixel, bind, Except.bind, pure, Except.pure]
  rw [poke_ok _ _ _ (by omega)]
  simp only []
  rw [poke_ok _ _ _ (by simp; omega)]
  simp only []
  rw [poke_ok _ _ _ (by simp; omega)]
  simp only []
  rw [poke_ok _ _ _ (by simp; omega)]
  rfl

theorem read_u8_step (mem : List Nat) (s : ezimg_stream) (h1 : s.ptr < s.ptr_end)
    (h2 : s.ptr < mem.length) :
    ezimg_read_u8 mem s = .ok (byteAt mem s.ptr, { s with ptr := s.ptr + 1 }) := by
  cases s
  exact read_u8_in mem _ _ _ _ _ h1 h2

theorem bmp_pixel24_ok (inp : List Nat) (st : BmpState)
    (h1 : st.stream.ptr + 3 ≤ st.stream.ptr_end) (h2 : st.stream.ptr + 3 ≤ inp.length)
    (h3 : st.outp + 4 ≤ st.out.length) :
    bmp_pixel24 inp st =
      .ok { stream := { st.stream with ptr := st.stream.ptr + 3 },
            out := put4 st.out st.outp (byteAt inp (st.stream.ptr + 2))
              (byteAt inp (st.stream.ptr + 1)) (byteAt inp st.stream.ptr),
            outp := st.outp + 4 } := by
  simp only [bmp_pixel24, bind, Except.bind, pure, Except.pure]
  rw [read_u8_step inp _ (by omega) (by omega)]
  simp only []
  rw [read_u8_step inp _ (by simp; omega) (by simp; omega)]
  simp only []
  rw [read_u8_step inp _ (by simp; omega) (by simp; omega)]
  simp only []
  rw [bmp_put_pixel_ok _ _ _ _ (by simpa using h3)]

theorem bmp_skip_padding_ok (inp : List Nat) (padding : Nat) (st : BmpState)
    (h1 : st.stream.ptr + padding ≤ st.stream.ptr_end)
    (h2 : st.stream.ptr + padding ≤ inp.length) :
    bmp_skip_padding inp padding st
      = .ok { st with stream := { st.stream with ptr := st.stream.ptr + padding } } := by
  unfold bmp_skip_padding forRange
  obtain ⟨s', hs, hinv⟩ := forLoop_inv (fun _ st => bmp_skip_byte inp st)
    (fun j s => s = { st with stream := { st.stream with ptr := st.stream.ptr + j } })
    padding 0 st rfl (by
      intro j s _ hj hinv
      subst hinv
      refine ⟨_, ?_, rfl⟩
      simp only [bmp_skip_byte, bind, Except.bind, pure, Except.pure]
      rw [read_u8_step inp _ (by simp; omega) (by simp; omega)]
      simp only [Nat.add_assoc])
  rw [hs, hinv, Nat.zero_add]

theorem mod_byteAt (mem : List Nat) (i : Nat) : byteAt mem i % 256 = byteAt mem i :=
  Nat.mod_eq_of_lt (byteAt_lt mem i)

theorem bmp_row24_ok (inp : List Nat) (w padding : Nat) (st : BmpState)
    (h1 : st.stream.ptr + 3 * w + padding ≤ st.stream.ptr_end)
    (h2 : st.stream.ptr + 3 * w + padding ≤ inp.length)
    (h3 : st.outp + 4 * w ≤ st.out.length) :
    ∃ st', bmp_row24 inp w padding st = .ok st' ∧
      st'.stream = { st.stream with ptr := st.stream.ptr + 3 * w + padding } ∧
      st'.outp = st.outp + 4 * w ∧ st'.out.length = st.out.length ∧
      (∀ i, i < st.outp ∨ st.outp + 4 * w ≤ i → st'.out[i]? = st.out[i]?) ∧
      (∀ j k, j < w → k < 4 →
        st'.out[st.outp + 4 * j + k]? = some (pix24 inp (st.stream.ptr + 3 * j) k)) := by
  obtain ⟨s1, hs1, hstream, houtp, hlen, hkeep, hpix⟩ := forLoop_inv (fun _ st => bmp_pixel24 inp st)
    (fun x s => s.stream = { st.stream with ptr := st.stream.ptr + 3 * x } ∧
      s.outp = st.outp + 4 * x ∧ s.out.length = st.out.length ∧
      (∀ i, i < st.outp ∨ st.outp + 4 * x ≤ i → s.out[i]? = st.out[i]?) ∧
      (∀ j k, j < x → k < 4 →
        s.out[st.outp + 4 * j + k]? = some (pix24 inp (st.stream.ptr + 3 * j) k)))
    w 0 st ⟨rfl, rfl, rfl, fun _ _ => rfl, fun j k hj _ => absurd hj (by omega)⟩ (by
      intro x s _ hx ⟨hstream, houtp, hlen, hkeep, hpix⟩
      have hp : s.stream.ptr = st.stream.ptr + 3 * x := by rw [hstream]
      have he : s.stream.ptr_end = st.stream.ptr_end := by rw [hstream]
      refine ⟨_, bmp_pixel24_ok inp s (by omega) (by omega) (by omega), ?_, ?_, ?_, ?_, ?_⟩
      · simp only [hstream]
        congr 1
      · simp only [houtp]; omega
      · simp only [put4_length, hlen]
      · intro i hi
        simp only []
        rw [put4_get _ _ _ _ _ _ (by omega)]
        rw [if_neg (by omega), if_neg (by omega), if_neg (by omega), if_neg (by omega)]
        exact hkeep i (by omega)
      · intro j k hj hk
        simp only []
        rw [put4_get _ _ _ _ _ _ (by omega)]
        by_cases hjx : j < x
        · rw [if_neg (by omega), if_neg (by omega), if_neg (by omega), if_neg (by omega)]
          exact hpix j k hjx hk
        · have hjx' : j = x := by omega
          subst hjx'
          rw [hp, houtp, mod_byteAt, mod_byteAt, mod_byteAt]
          unfold pix24
          have hk' : k = 0 ∨ k = 1 ∨ k = 2 ∨ k = 3 := by omega
          rcases hk' with rfl | rfl | rfl | rfl <;> simp)
  simp only [bmp_row24, forRange, bind, Except.bind, pure, Except.pure]
  rw [hs1]
  simp only []
  have hp : s1.stream.ptr = st.stream.ptr + 3 * w := by rw [hstream]; simp
  have he : s1.stream.ptr_end = st.stream.ptr_end := by rw [hstream]
  rw [bmp_skip_padding_ok inp padding s1 (by omega) (by omega)]
  refine ⟨_, rfl, ?_, ?_, ?_, ?_, ?_⟩
  · simp only [hstream, Nat.zero_add]
  · simpa using houtp
  · exact hlen
  · intro i hi
    exact hkeep i (by omega)
  · intro j k hj hk
    exact hpix j k (by omega) hk

theorem stride24_eq (w : Nat) : 3 * w + PADDING (3 * w) 4 = bmpStride24 w := by
  unfold PADDING bmpStride24
  split_ifs <;> omega

theorem bmp_decode24_ok (inp : List Nat) (w h : Nat) (st : BmpState)
    (h1 : st.stream.ptr + h * bmpStride24 w ≤ st.stream.ptr_end)
    (h2 : st.stream.ptr + h * bmpStride24 w ≤ inp.length)
    (h3 : st.outp + 4 * (h * w) ≤ st.out.length) :
    ∃ st', bmp_decode24 inp w h st = .ok st' ∧
      st'.outp = st.outp + 4 * (h * w) ∧ st'.out.length = st.out.length ∧
      (∀ i, i < st.outp ∨ st.outp + 4 * (h * w) ≤ i → st'.out[i]? = st.out[i]?) ∧
      (∀ y x k, y < h → x < w → k < 4 →
        st'.out[st.outp + 4 * (y * w + x) + k]?
          = some (pix24 inp (st.stream.ptr + y * bmpStride24 w + 3 * x) k)) := by
  obtain ⟨s1, hs1, hstream, houtp, hlen, hkeep, hpix⟩ := forLoop_inv
    (fun _ st => bmp_row24 inp w (PADDING (3 * w) 4) st)
    (fun y s => s.stream = { st.stream with ptr := st.stream.ptr + y * bmpStride24 w } ∧
      s.outp = st.outp + 4 * (y * w) ∧ s.out.length = st.out.length ∧
      (∀ i, i < st.outp ∨ st.outp + 4 * (y * w) ≤ i → s.out[i]? = st.out[i]?) ∧
      (∀ r x k, r < y → x < w → k < 4 →
        s.out[st.outp + 4 * (r * w + x) + k]?
          = some (pix24 inp (st.stream.ptr + r * bmpStride24 w + 3 * x) k)))
    h 0 st ⟨by simp, by simp, rfl, fun _ _ => rfl, fun r x k hr _ _ => absurd hr (by omega)⟩ (by
      intro y s _ hy ⟨hstream, houtp, hlen, hkeep, hpix⟩
      have hp : s.stream.ptr = st.stream.ptr + y * bmpStride24 w := by rw [hstream]
      have he : s.stream.ptr_end = st.stream.ptr_end := by rw [hstream]
      have hS := stride24_eq w
      have hyS : y * bmpStride24 w + bmpStride24 w ≤ h * bmpStride24 w := by
        have := Nat.mul_le_mul_right (bmpStride24 w) (show y + 1 ≤ h by omega)
        rwa [Nat.add_mul, Nat.one_mul] at this
      have hyw : y * w + w ≤ h * w := by
        have := Nat.mul_le_mul_right w (show y + 1 ≤ h by omega)
        rwa [Nat.add_mul, Nat.one_mul] at this
      obtain ⟨s', hrow, hstream', houtp', hlen', hkeep', hpix'⟩ :=
        bmp_row24_ok inp w (PADDING (3 * w) 4) s (by omega) (by omega) (by omega)
      refine ⟨s', hrow, ?_, ?_, ?_, ?_, ?_⟩
      · rw [hstream', hstream]
        simp only [Nat.add_mul, Nat.one_mul]
        congr 1
        omega
      · rw [houtp', houtp]
        simp only [Nat.add_mul, Nat.one_mul]
        omega
      · rw [hlen', hlen]
      · intro i hi
        simp only [Nat.add_mul, Nat.one_mul] at hi
        rw [hkeep' i (by omega)]
        exact hkeep i (by omega)
      · intro r x k hr hx hk
        by_cases hry : r < y
        · have hrw : r * w + w ≤ y * w := by
            have := Nat.mul_le_mul_right w (show r + 1 ≤ y by omega)
            rwa [Nat.add_mul, Nat.one_mul] at this
          rw [hkeep' _ (by omega)]
          exact hpix r x k hry hx hk
        · have hry' : r = y := by omega
          subst hry'
          have := hpix' x k hx hk
          rw [hp, houtp] at this
          rw [← this]
          congr 1
          omega)
  refine ⟨s1, ?_, ?_, hlen, ?_, ?_⟩
  · unfold bmp_decode24 forRange
    exact hs1
  · simpa using houtp
  · intro i hi
    exact hkeep i (by simpa using hi)
  · intro y x k hy hx hk
    exact hpix y x k (by omega) hx hk

theorem sub32_eq (a b : Nat) (hb : b ≤ a) (ha : a < 4294967296) : sub32 a b = a - b := by
  unfold sub32 u32
  omega

theorem u32_le (n : Nat) : u32 n ≤ n := Nat.mod_le _ _

theorem bmp_load_pixels_24 (inp out : List Nat) (d z : Nat) (w h : Int) (rm gm bm am : Nat)
    (hw : ¬ w < 0) (hh : ¬ h > 0) :
    bmp_load_pixels inp out d z w h 24 0 rm gm bm am =
      match bmp_decode24 inp (toUInt32 (EZIMG_ABS w)) (toUInt32 (EZIMG_ABS h))
          { stream := ezimg_init_stream d (sub32 inp.length d), out := out, outp := 0 } with
      | .ok st => .ok { status := .EZIMG_OK, out := st.out,
                        width := some (toUInt32 (EZIMG_ABS w)),
                        height := some (toUInt32 (EZIMG_ABS h)) }
      | .error e => .error e := by
  simp only [bmp_load_pixels, bmp_decode_dispatch, bmp_orient, bind, Except.bind, pure,
    Except.pure]
  simp only [hw, hh, if_false]
  simp
  generalize bmp_decode24 inp _ _ _ = r
  cases r <;> rfl

/-! ## Claim C8 -/

/-- C8: for a 24-bit, compression-0, planes-1 BMP with positive width `w` and
negative height whose pixel data lies inside the input (and an output buffer
that holds the `w * |h|` pixels), `ezimg_bmp_load` returns `EZIMG_OK` and
output pixel (x, y) is the 4 bytes (0xFF, R, G, B), where B, G, R are the three
bytes at `data_offset + y*stride + 3*x` and `stride` is `3*w` rounded up to a
multiple of 4.  The 2x1 image with row bytes 00 00 FF FF 00 00 decodes to
FF FF 00 00 FF 00 00 FF. -/
theorem C8_bmp24_top_down (inp out : List Nat) (hlen : 54 ≤ inp.length)
    (hin : inp.length < 4294967296)
    (hB : byteAt inp 0 = 66) (hM : byteAt inp 1 = 77)
    (hplanes : bmpPlanes inp = 1) (hbits : bmpBitCount inp = 24)
    (hcomp : bmpCompression inp = 0)
    (hw : 0 < bmpWidth inp) (hh : bmpHeight inp < 0)
    (hdata : bmpDataOffset inp + (bmpHeight inp).natAbs * bmpStride24 (bmpWidth inp).natAbs
      ≤ inp.length)
    (hout : 4 * ((bmpHeight inp).natAbs * (bmpWidth inp).natAbs) ≤ out.length) :
    (∃ r, ezimg_bmp_load inp out = .ok r ∧ r.status = .EZIMG_OK ∧
      r.width = some (bmpWidth inp).natAbs ∧ r.height = some (bmpHeight inp).natAbs ∧
      r.out.length = out.length ∧
      ∀ x y, x < (bmpWidth inp).natAbs → y < (bmpHeight inp).natAbs →
        r.out[(y * (bmpWidth inp).natAbs + x) * 4]? = some 255 ∧
        r.out[(y * (bmpWidth inp).natAbs + x) * 4 + 1]? = some (byteAt inp
          (bmpDataOffset inp + y * bmpStride24 (bmpWidth inp).natAbs + 3 * x + 2)) ∧
        r.out[(y * (bmpWidth inp).natAbs + x) * 4 + 2]? = some (byteAt inp
          (bmpDataOffset inp + y * bmpStride24 (bmpWidth inp).natAbs + 3 * x + 1)) ∧
        r.out[(y * (bmpWidth inp).natAbs + x) * 4 + 3]? = some (byteAt inp
          (bmpDataOffset inp + y * bmpStride24 (bmpWidth inp).natAbs + 3 * x))) ∧
    ezimg_bmp_load bmp24_2x1 (List.replicate 8 0)
      = .ok ⟨.EZIMG_OK, [255, 255, 0, 0, 255, 0, 0, 255], some 2, some 1⟩ := by
  refine ⟨?_, by decide⟩
  have hcap : ¬ out.length < u32 ((bmpWidth inp).natAbs * (bmpHeight inp).natAbs * 4) := by
    have := u32_le ((bmpWidth inp).natAbs * (bmpHeight inp).natAbs * 4)
    have e : (bmpWidth inp).natAbs * (bmpHeight inp).natAbs * 4
        = 4 * ((bmpHeight inp).natAbs * (bmpWidth inp).natAbs) := by ring
    omega
  obtain ⟨m, hm⟩ := bmp_read_masks_safe inp (bmpDibSize inp)
    ⟨0, inp.length, 54, 0 + inp.length, false⟩ (by simp)
  rw [bmp_load_hdr inp out hlen ⟨hB, hM⟩, if_neg hcap, if_neg (by simp [hplanes]),
    if_neg (by simp [hbits]), if_neg (by simp [hcomp]), hm]
  simp only [hbits, hcomp]
  rw [bmp_load_pixels_24 inp out _ _ _ _ _ _ _ _ (by omega) (by omega)]
  have hd : bmpDataOffset inp ≤ inp.length := by omega
  obtain ⟨st, hdec, houtp, hlen', hkeep, hpix⟩ := bmp_decode24_ok inp (bmpWidth inp).natAbs
    (bmpHeight inp).natAbs
    { stream := ezimg_init_stream (bmpDataOffset inp) (sub32 inp.length (bmpDataOffset inp)),
      out := out, outp := 0 }
    (by simp only [ezimg_init_stream]; rw [sub32_eq _ _ hd hin]; omega)
    (by simp only [ezimg_init_stream]; omega)
    (by simpa using hout)
  simp only [bmpWidth, bmpHeight] at hdec ⊢
  rw [toUInt32_abs, toUInt32_abs, hdec]
  refine ⟨_, rfl, rfl, rfl, rfl, hlen', ?_⟩
  intro x y hx hy
  have p0 := hpix y x 0 hy hx (by omega)
  have p1 := hpix y x 1 hy hx (by omega)
  have p2 := hpix y x 2 hy hx (by omega)
  have p3 := hpix y x 3 hy hx (by omega)
  simp only [pix24, ezimg_init_stream, Nat.zero_add, bmpWidth, bmpHeight] at p0 p1 p2 p3
  simp only [Nat.mul_comm _ 4]
  refine ⟨?_, ?_, ?_, ?_⟩
  · simpa using p0
  · simpa using p1
  · simpa using p2
  · simpa using p3

/-- Witness of C8 on `bmp24_2x1`: pixel 1 of row 0 is (FF, 00, 00, FF). -/
theorem C8_bmp24_top_down_witness :
    (54 ≤ bmp24_2x1.length ∧ bmpPlanes bmp24_2x1 = 1 ∧ bmpBitCount bmp24_2x1 = 24 ∧
      bmpCompression bmp24_2x1 = 0 ∧ 0 < bmpWidth bmp24_2x1 ∧ bmpHeight bmp24_2x1 < 0) ∧
    ∃ r, ezimg_bmp_load bmp24_2x1 (List.replicate 8 0) = .ok r ∧ r.status = .EZIMG_OK ∧
      r.out[4]? = some 255 ∧ r.out[5]? = some 0 ∧ r.out[6]? = some 0 ∧ r.out[7]? = some 255 := by
  refine ⟨by decide, ?_⟩
  obtain ⟨⟨r, hr, hs, _, _, _, hp⟩, _⟩ := C8_bmp24_top_down bmp24_2x1 (List.replicate 8 0)
    (by decide) (by decide) (by decide) (by decide) (by decide) (by decide) (by decide)
    (by decide) (by decide) (by decide) (by decide)
  have h := hp 1 0 (by decide) (by decide)
  exact ⟨r, hr, hs, h.1, h.2.1, h.2.2.1, h.2.2.2⟩

/-! ## Claim C9 -/

set_option maxRecDepth 100000 in
/-- C9 (what the code does): on the 1x2 4-bit image `bmp4_1x2` the stored rows
are 4 bytes apart (row 1 starts at offset 122 with the byte `20`, whose high
nibble selects palette entry 2 = (B, G, R) = (21, 22, 23)), but
`ezimg_bmp_load` takes the index of row 1 from offset 119, directly after the
byte of row 0: the second output pixel is palette entry 0, (FF, 03, 02, 01),
not (FF, 17, 16, 15).  The row padding computed for width 1 (and 9) is 0. -/
theorem C9_bmp4_odd_width_stride :
    bmpDataOffset bmp4_1x2 = 118 ∧ byteAt bmp4_1x2 (118 + 1 * 4) >>> 4 = 2 ∧
    byteAt bmp4_1x2 (54 + 4 * 2 + 2) = 23 ∧
    bmp_padding4 1 = 0 ∧ bmp_padding4 9 = 0 ∧
    ezimg_bmp_load bmp4_1x2 (List.replicate 8 0)
      = .ok ⟨.EZIMG_OK, [255, 13, 12, 11, 255, 3, 2, 1], some 1, some 2⟩ := by
  refine ⟨by decide!, by decide!, by decide!, by decide, by decide, by decide!⟩

/-! ## Decoding two inputs that differ in the header only -/

theorem poke_of_ok (mem m' : List Nat) (p v : Nat) (h : poke mem p v = .ok m') :
    p < mem.length ∧ m' = mem.set p (v % 256) := by
  unfold poke at h
  split at h
  · injection h with h
    exact ⟨by assumption, h.symm⟩
  · simp at h

theorem byteAt_set (mem : List Nat) (p v i : Nat) :
    byteAt (mem.set p v) i = if i = p ∧ p < mem.length then v % 256 else byteAt mem i := by
  unfold byteAt
  simp only [List.getD_eq_getElem?_getD]
  by_cases h : i = p ∧ p < mem.length
  · obtain ⟨h1, h2⟩ := h
    subst h1
    rw [if_pos ⟨rfl, h2⟩, List.getElem?_set_self h2]
    rfl
  · rw [if_neg h]
    by_cases h1 : p = i
    · subst h1
      have h2 : mem.length ≤ p := by
        by_contra hc
        exact h ⟨rfl, by omega⟩
      rw [List.getElem?_eq_none (by simpa using h2), List.getElem?_eq_none h2]
    · rw [List.getElem?_set_ne h1]

set_option maxRecDepth 100000 in
/-- C11 (what the code does): the width-negated top-down input decodes to the
pixels (FF,3,2,1), (FF,6,5,4).  With width -2 and height -1 the code leaves
these two pixels in the same order (no mirror inside the image) and exchanges
the 8 bytes that follow the image in the output buffer; with an output buffer
of exactly 8 bytes the exchange leaves the buffer.  With height +1 the same
image is mirrored in place. -/
theorem C11_mirror_after_top_down_decode_runs_past_image :
    ezimg_bmp_load bmp24_pos_width_top_down out_2x1_and_tail
      = .ok ⟨.EZIMG_OK, [255, 3, 2, 1, 255, 6, 5, 4, 10, 11, 12, 13, 14, 15, 16, 17],
          some 2, some 1⟩ ∧
    ezimg_bmp_load bmp24_neg_width_top_down out_2x1_and_tail
      = .ok ⟨.EZIMG_OK, [255, 3, 2, 1, 255, 6, 5, 4, 14, 15, 16, 17, 10, 11, 12, 13],
          some 2, some 1⟩ ∧
    ezimg_bmp_load bmp24_neg_width_top_down (List.replicate 8 0) = .error Trap.oob ∧
    ezimg_bmp_load bmp24_neg_width_bottom_up out_2x1_and_tail
      = .ok ⟨.EZIMG_OK, [255, 6, 5, 4, 255, 3, 2, 1, 10, 11, 12, 13, 14, 15, 16, 17],
          some 2, some 1⟩ := by
  refine ⟨by decide, by decide, by decide, by decide⟩

/-! ## Claim C13 -/

set_option maxRecDepth 100000 in
/-- C13 (what the code does): on the 1x1 BITFIELDS image `bmp32_bitfields_alpha`
the alpha mask (offset 66) is FF000000 and the pixel word has alpha 0x80, yet
the first output byte is 0xFF: the output pixel is (FF, 33, 22, 11). -/
theorem C13_bitfields_alpha_is_constant :
    le32 bmp32_bitfields_alpha 66 = 0xFF000000 ∧
    le32 bmp32_bitfields_alpha (bmpDataOffset bmp32_bitfields_alpha) = 0x80332211 ∧
    ((le32 bmp32_bitfields_alpha (bmpDataOffset bmp32_bitfields_alpha)
        &&& le32 bmp32_bitfields_alpha 66) >>> 24) &&& 0xFF = 0x80 ∧
    ezimg_bmp_load bmp32_bitfields_alpha (List.replicate 4 0)
      = .ok ⟨.EZIMG_OK, [0xFF, 0x33, 0x22, 0x11], some 1, some 1⟩ := by
  refine ⟨by decide, by decide, by decide, by decide⟩

/-! ## Claim C14 -/

set_option maxRecDepth 100000 in
/-- C14 (what the code does): `bmp24_neg_width_top_down` is a 2x1 image, so
`ezimg_bmp_size` is 8; `ezimg_bmp_load` returns `EZIMG_OK` on the 16-byte
buffer `out_2x1_and_tail` and the bytes at the indices 8..15, beyond the image,
are changed (byte 8 was 10 and becomes 14). -/
theorem C14_bytes_beyond_image_changed :
    ezimg_bmp_size bmp24_neg_width_top_down = .ok 8 ∧
    out_2x1_and_tail[8]? = some 10 ∧
    ∃ r, ezimg_bmp_load bmp24_neg_width_top_down out_2x1_and_tail = .ok r ∧
      r.status = .EZIMG_OK ∧ r.out[8]? = some 14 ∧
      r.out.drop 8 = [14, 15, 16, 17, 10, 11, 12, 13] := by
  refine ⟨by decide, by decide, ⟨.EZIMG_OK, [255, 3, 2, 1, 255, 6, 5, 4, 14, 15, 16, 17, 10, 11, 12, 13], some 2, some 1⟩, by decide, rfl, rfl, rfl⟩

/-! ## The table built by `ezimg_compute_huff` -/

theorem lenCount_le (lens : List Nat) (n L : Nat) : lenCount lens n L ≤ n := by
  unfold lenCount
  exact le_trans (List.count_le_length _ _) (by rw [List.length_take]; exact Nat.min_le_left _ _)

theorem lenCount_zero (lens : List Nat) (L : Nat) : lenCount lens 0 L = 0 := by
  simp [lenCount]

theorem lenCount_succ (lens : List Nat) (j L : Nat) (hj : j < lens.length) :
    lenCount lens (j + 1) L = lenCount lens j L + (if lens.getD j 0 = L then 1 else 0) := by
  unfold lenCount
  rw [List.take_succ, List.count_append, List.getD_eq_getElem?_getD,
    List.getElem?_eq_getElem hj]
  simp [List.count_singleton]

theorem firstCode_bound (lens : List Nat) (n L : Nat) :
    firstCode lens n L + 2 * n ≤ 2 ^ (L + 1) * n := by
  induction L with
  | zero => simp [firstCode]
  | succ L ih =>
    rw [firstCode]
    have hc := lenCount_le lens n L
    have e : 2 ^ (L + 1 + 1) * n = 2 * (2 ^ (L + 1) * n) := by ring
    rw [e]
    split_ifs <;> omega

theorem firstCode_small (lens : List Nat) (n L : Nat) (hn : n < 290) (hL : L ≤ 15) :
    firstCode lens n L + 2 * n ≤ 19005440 := by
  have h := firstCode_bound lens n L
  have h2 : 2 ^ (L + 1) ≤ 2 ^ 16 := Nat.pow_le_pow_right (by omega) (by omega)
  have h3 : 2 ^ (L + 1) * n ≤ 2 ^ 16 * 290 :=
    Nat.mul_le_mul h2 (by omega)
  omega

theorem aget_ok (a : List Nat) (i v : Nat) (h : a[i]? = some v) : aget a i = .ok v := by
  simp [aget, h]

theorem aset_ok (a : List Nat) (i v : Nat) (h : i < a.length) (hv : v < 4294967296) :
    aset a i v = .ok (a.set i v) := by
  simp [aset, h, u32, Nat.mod_eq_of_lt hv]

theorem getD_get (a : List Nat) (i : Nat) (h : i < a.length) : a[i]? = some (a.getD i 0) := by
  rw [List.getD_eq_getElem?_getD, List.getElem?_eq_getElem h]
  rfl

theorem forLoop_inv_of_eq {ε σ : Type} (body : Nat → σ → Except ε σ) (Inv : Nat → σ → Prop)
    (n i : Nat) (s : σ) (r : Except ε σ) (hr : forLoop body n i s = r) (h0 : Inv i s)
    (hstep : ∀ j s, i ≤ j → j < i + n → Inv j s → ∃ s', body j s = .ok s' ∧ Inv (j + 1) s') :
    ∃ s', r = .ok s' ∧ Inv (i + n) s' := by
  obtain ⟨s', h1, h2⟩ := forLoop_inv body Inv n i s h0 hstep
  exact ⟨s', by rw [← hr, h1], h2⟩

theorem aset_ok_u32 (a : List Nat) (i v : Nat) (h : i < a.length) :
    aset a i v = .ok (a.set i (u32 v)) := by
  simp [aset, h]

theorem u32_eq (n : Nat) (h : n < 4294967296) : u32 n = n := Nat.mod_eq_of_lt h

theorem compute_huff_full (htable : List Nat) (hcount : Nat) (huff : ezimg_huff)
    (hn : hcount < 290) (hlen : hcount ≤ htable.length)
    (h15 : ∀ s, s < hcount → htable.getD s 0 ≤ 15) :
    ∃ entries, ezimg_compute_huff htable hcount huff
        = .ok (some ⟨maxLenUpTo htable hcount, hcount, entries⟩) ∧
      maxLenUpTo htable hcount ≤ 15 ∧
      (∀ s, s < hcount → htable.getD s 0 ≤ maxLenUpTo htable hcount) ∧ entries.length = 290 ∧
      (∀ s, s < hcount → entries[s]? = some
        ⟨if htable.getD s 0 = 0 then 0
          else firstCode htable hcount (htable.getD s 0) + lenCount htable s (htable.getD s 0),
         htable.getD s 0⟩) ∧
      ∀ s, hcount ≤ s → s < 290 → entries[s]? = some ⟨0, 0⟩ := by
  unfold ezimg_compute_huff
  simp only [bind, Except.bind, pure, Except.pure, EZIMG_HTABLE_MAX_ENTRIES, MAX_CODE_LEN]
  rw [if_neg (by omega)]
  generalize hr : forRange hcount _ (some (List.replicate 16 0, 0)) = r
  unfold forRange at hr
  obtain ⟨p, rfl, lc, mx, rfl, hl, hc, hm, hmx, hmeq⟩ := forLoop_inv_of_eq _
    (fun i p => ∃ lc mx, p = some (lc, mx) ∧ lc.length = 16 ∧
      (∀ L, L < 16 → lc[L]? = some (lenCount htable i L)) ∧ mx ≤ 15 ∧
      (∀ s, s < i → htable.getD s 0 ≤ mx) ∧ mx = maxLenUpTo htable i)
    hcount 0 (some (List.replicate 16 0, 0)) r hr
    ⟨_, _, rfl, by simp, (by
      intro L hL
      rw [lenCount_zero, List.getElem?_replicate, if_pos hL]), by omega, (by intro s hs; omega),
      rfl⟩ (by
      intro j p _ hj ⟨lc, mx, hp, hl, hc, hm, hmx, hmeq⟩
      subst hp
      simp only [Nat.zero_add] at hj
      have hL := h15 j hj
      simp only []
      rw [aget_ok htable j _ (getD_get htable j (by omega))]
      simp only []
      rw [if_neg (by omega)]
      rw [aget_ok lc _ _ (hc _ (by omega))]
      simp only []
      have hcl := lenCount_le htable j (htable.getD j 0)
      rw [aset_ok lc _ _ (by omega) (by omega)]
      refine ⟨_, rfl, _, _, rfl, by simp [hl], ?_, ?_, ?_, ?_⟩
      · intro L hL'
        rw [lenCount_succ htable j L (by omega), List.getElem?_set]
        by_cases he : htable.getD j 0 = L
        · rw [if_pos he, if_pos he, if_pos (by omega), he]
        · rw [if_neg he, if_neg he]
          exact hc L hL'
      · split_ifs <;> omega
      · intro s hs
        by_cases hsj : s < j
        · have := hmx s hsj
          split_ifs <;> omega
        · have e : s = j := by omega
          subst e
          split_ifs <;> omega
      · rw [maxLenUpTo, hmeq])
  clear hr
  simp only [Nat.zero_add] at hc hmx
  simp only []
  rw [if_neg (by omega)]
  rw [aset_ok lc 0 0 (by omega) (by omega)]
  simp only []
  rw [aset_ok (List.replicate 16 0) 0 0 (by simp) (by omega)]
  simp only []
  generalize hr2 : forLoop _ mx 1 (0, (List.replicate 16 0).set 0 0) = r2
  obtain ⟨p2, rfl, _, hl2, hc2⟩ := forLoop_inv_of_eq _
    (fun i (p : Nat × List Nat) => p.1 = firstCode htable hcount (i - 1) ∧ p.2.length = 16 ∧
      ∀ L, L < i → p.2[L]? = some (firstCode htable hcount L))
    mx 1 (0, (List.replicate 16 0).set 0 0) r2 hr2
    ⟨rfl, by simp, (by
      intro L hL
      have e : L = 0 := by omega
      subst e
      rfl)⟩ (by
      intro j p hj1 hj2 ⟨hp1, hp2, hp3⟩
      obtain ⟨m, rfl⟩ : ∃ m, j = m + 1 := ⟨j - 1, by omega⟩
      simp only [Nat.add_sub_cancel] at hp1 ⊢
      have hget : (lc.set 0 0)[m]?
          = some (if m = 0 then 0 else lenCount htable hcount m) := by
        rw [List.getElem?_set]
        by_cases hm0 : m = 0
        · subst hm0
          simp [hl]
        · rw [if_neg (by omega), if_neg hm0]
          exact hc m (by omega)
      rw [aget_ok _ _ _ hget]
      simp only []
      have hb := firstCode_small htable hcount m hn (by omega)
      have hcl := lenCount_le htable hcount m
      have hcode : u32 (u32 (p.1 + (if m = 0 then 0 else lenCount htable hcount m)) <<< 1)
          = firstCode htable hcount (m + 1) := by
        have hin : u32 (firstCode htable hcount m
            + (if m = 0 then 0 else lenCount htable hcount m))
            = firstCode htable hcount m + (if m = 0 then 0 else lenCount htable hcount m) :=
          u32_eq _ (by split_ifs <;> omega)
        rw [hp1, hin, Nat.shiftLeft_eq, Nat.pow_one, firstCode]
        exact u32_eq _ (by split_ifs <;> omega)
      rw [hcode]
      have hb2 := firstCode_small htable hcount (m + 1) hn (by omega)
      rw [aset_ok p.2 _ _ (by omega) (by omega)]
      refine ⟨_, rfl, rfl, by simp [hp2], ?_⟩
      intro L hL
      simp only []
      rw [List.getElem?_set]
      by_cases he : m + 1 = L
      · rw [if_pos he, if_pos (by omega), he]
      · rw [if_neg he]
        exact hp3 L (by omega))
  clear hr2
  simp only []
  generalize hr3 : forRange hcount _ ((ezimg_reset_huff huff).entries, p2.2) = r3
  unfold forRange at hr3
  obtain ⟨p3, rfl, hl3, _, hz3, he3, _⟩ := forLoop_inv_of_eq _
    (fun i (p : List ezimg_huff_entry × List Nat) => p.1.length = 290 ∧ p.2.length = 16 ∧
      (∀ s, i ≤ s → s < 290 → p.1[s]? = some ⟨0, 0⟩) ∧
      (∀ s, s < i → p.1[s]? = some
        ⟨if htable.getD s 0 = 0 then 0
          else firstCode htable hcount (htable.getD s 0) + lenCount htable s (htable.getD s 0),
         htable.getD s 0⟩) ∧
      ∀ L, 1 ≤ L → L ≤ mx →
        p.2[L]? = some (firstCode htable hcount L + lenCount htable i L))
    hcount 0 ((ezimg_reset_huff huff).entries, p2.2) r3 hr3
    ⟨by simp only [ezimg_reset_huff, EZIMG_HTABLE_MAX_ENTRIES, List.length_replicate], hl2,
      (by
        intro s _ hs
        simp only [ezimg_reset_huff, EZIMG_HTABLE_MAX_ENTRIES]
        rw [List.getElem?_replicate, if_pos hs]),
      fun s hs => absurd hs (by omega), (by
        intro L _ hL
        rw [lenCount_zero, Nat.add_zero]
        exact hc2 L (by omega))⟩ (by
      intro j p _ hj ⟨hq1, hq2, hq0, hq3, hq4⟩
      simp only [Nat.zero_add] at hj
      have hL := hmx j hj
      rw [aget_ok htable j _ (getD_get htable j (by omega))]
      simp only []
      rw [if_neg (by omega), aget_ok p.2 _ _ (getD_get p.2 _ (by omega))]
      simp only []
      rw [aset_ok_u32 p.2 _ _ (by omega)]
      refine ⟨_, rfl, by simp [hq1], by simp [hq2], ?_, ?_, ?_⟩
      · intro s hs1 hs2
        simp only []
        rw [List.getElem?_set_ne (by omega)]
        exact hq0 s (by omega) hs2
      · intro s hs
        simp only []
        rw [List.getElem?_set]
        by_cases hsj : j = s
        · subst hsj
          rw [if_pos rfl, if_pos (by omega)]
          by_cases h0 : htable.getD j 0 = 0
          · rw [if_pos h0, if_pos h0, h0]
          · rw [if_neg h0, if_neg h0]
            have := hq4 (htable.getD j 0) (by omega) hL
            rw [getD_get p.2 _ (by omega)] at this
            injection this with this
            rw [this]
        · rw [if_neg hsj]
          exact hq3 s (by omega)
      · intro L hL1 hL2
        simp only []
        rw [List.getElem?_set, lenCount_succ htable j L (by omega)]
        by_cases he : htable.getD j 0 = L
        · rw [if_pos he, if_pos (by omega), if_pos he]
          have := hq4 L hL1 hL2
          rw [← he, getD_get p.2 _ (by omega)] at this
          injection this with this
          have hb := firstCode_small htable hcount (htable.getD j 0) hn (by omega)
          have hcl := lenCount_le htable j (htable.getD j 0)
          rw [this, u32_eq _ (by omega), he, Nat.add_assoc]
        · rw [if_neg he, if_neg he, Nat.add_zero]
          exact hq4 L hL1 hL2)
  clear hr3
  simp only [Nat.zero_add] at he3 hz3 hmeq
  subst hmeq
  exact ⟨p3.1, rfl, hm, hmx, hl3, he3, hz3⟩

theorem compute_huff_spec (htable : List Nat) (hcount : Nat) (huff : ezimg_huff)
    (hn : hcount < 290) (hlen : hcount ≤ htable.length)
    (h15 : ∀ s, s < hcount → htable.getD s 0 ≤ 15) :
    ∃ mx entries, ezimg_compute_huff htable hcount huff = .ok (some ⟨mx, hcount, entries⟩) ∧
      mx ≤ 15 ∧ (∀ s, s < hcount → htable.getD s 0 ≤ mx) ∧ entries.length = 290 ∧
      ∀ s, s < hcount → entries[s]? = some
        ⟨if htable.getD s 0 = 0 then 0
          else firstCode htable hcount (htable.getD s 0) + lenCount htable s (htable.getD s 0),
         htable.getD s 0⟩ := by
  obtain ⟨entries, h1, h2, h3, h4, h5, _⟩ := compute_huff_full htable hcount huff hn hlen h15
  exact ⟨_, entries, h1, h2, h3, h4, h5⟩

/-! ## The tables of a fixed-Huffman block -/

theorem huff_table_eq (htable : List Nat) (hcount : Nat) (T : ezimg_huff)
    (hn : hcount < 290) (hlen : hcount ≤ htable.length)
    (h15 : ∀ s, s < hcount → htable.getD s 0 ≤ 15)
    (hm : maxLenUpTo htable hcount = T.max_len) (hc : T.count = hcount)
    (hl : T.entries.length = 290)
    (he : ∀ s, s < hcount → T.entries[s]? = some
      ⟨if htable.getD s 0 = 0 then 0
        else firstCode htable hcount (htable.getD s 0) + lenCount htable s (htable.getD s 0),
       htable.getD s 0⟩)
    (hz : ∀ s, hcount ≤ s → s < 290 → T.entries[s]? = some ⟨0, 0⟩) :
    ezimg_compute_huff htable hcount huff_zero = .ok (some T) := by
  obtain ⟨entries, hr, _, _, hel, hent, hzero⟩ :=
    compute_huff_full htable hcount huff_zero hn hlen h15
  rw [hr]
  have hE : entries = T.entries := by
    apply List.ext_getElem?
    intro s
    by_cases h1 : s < hcount
    · rw [hent s h1, he s h1]
    · by_cases h2 : s < 290
      · rw [hzero s (by omega) h2, hz s (by omega) h2]
      · rw [List.getElem?_eq_none (by omega), List.getElem?_eq_none (by omega)]
  obtain ⟨m, c, e⟩ := T
  simp only [] at hm hc hE
  subst hm hc hE
  rfl

theorem fixed_hlit_length : fixed_hlit_table.length = 288 := by
  simp [fixed_hlit_table]

theorem fixed_hlit_getD (s : Nat) (hs : s < 288) :
    fixed_hlit_table.getD s 0
      = if s ≤ 143 then 8 else if s ≤ 255 then 9 else if s ≤ 279 then 7 else 8 := by
  simp [fixed_hlit_table, List.getD_eq_getElem?_getD, List.getElem?_map,
    List.getElem?_range hs]

theorem fixed_hlit_lenCount : ∀ s, s ≤ 288 → ∀ L, lenCount fixed_hlit_table s L =
    if L = 8 then (s - (s - 144)) + (s - 280)
    else if L = 9 then (s - 144) - (s - 256)
    else if L = 7 then (s - 256) - (s - 280) else 0 := by
  intro s
  induction s with
  | zero =>
    intro _ L
    rw [lenCount_zero]
    split_ifs <;> rfl
  | succ s ih =>
    intro hs L
    rw [lenCount_succ _ _ _ (by rw [fixed_hlit_length]; omega), ih (by omega) L,
      fixed_hlit_getD s (by omega)]
    split_ifs <;> omega

theorem fixed_hlit_maxLen : ∀ s, s ≤ 288 →
    maxLenUpTo fixed_hlit_table s ≤ 9 ∧ (145 ≤ s → maxLenUpTo fixed_hlit_table s = 9) := by
  intro s
  induction s with
  | zero => intro _; exact ⟨by simp [maxLenUpTo], fun h => by omega⟩
  | succ s ih =>
    intro hs
    obtain ⟨i1, i2⟩ := ih (by omega)
    have hg := fixed_hlit_getD s (by omega)
    rw [maxLenUpTo]
    generalize fixed_hlit_table.getD s 0 = g at hg ⊢
    generalize maxLenUpTo fixed_hlit_table s = m at i1 i2 ⊢
    split_ifs at hg ⊢ <;> omega

theorem fixed_hlit_firstCode :
    firstCode fixed_hlit_table 288 7 = 0 ∧ firstCode fixed_hlit_table 288 8 = 48 ∧
      firstCode fixed_hlit_table 288 9 = 400 := by
  have hc := fixed_hlit_lenCount 288 (le_refl _)
  simp [firstCode, hc]

theorem fixed_lit_hent (s : Nat) (hs : s < 288) :
    fixed_lit_huff.entries[s]? = some
      ⟨if fixed_hlit_table.getD s 0 = 0 then 0
        else firstCode fixed_hlit_table 288 (fixed_hlit_table.getD s 0)
          + lenCount fixed_hlit_table s (fixed_hlit_table.getD s 0),
       fixed_hlit_table.getD s 0⟩ := by
  obtain ⟨f7, f8, f9⟩ := fixed_hlit_firstCode
  rw [fixed_hlit_getD s hs, fixed_hlit_lenCount s (by omega)]
  simp only [fixed_lit_huff]
  rw [List.getElem?_append_left (by simpa using hs), List.getElem?_map,
    List.getElem?_range hs]
  simp only [Option.map_some']
  by_cases h1 : s ≤ 143
  · simp only [if_pos h1, f8]
    simp
    omega
  · by_cases h2 : s ≤ 255
    · simp only [if_neg h1, if_pos h2, f9]
      simp
      omega
    · by_cases h3 : s ≤ 279
      · simp only [if_neg h1, if_neg h2, if_pos h3, f7]
        simp
        omega
      · simp only [if_neg h1, if_neg h2, if_neg h3, f8]
        simp
        omega

theorem fixed_lit_table_eq :
    ezimg_compute_huff fixed_hlit_table 288 huff_zero = .ok (some fixed_lit_huff) := by
  refine huff_table_eq fixed_hlit_table 288 fixed_lit_huff (by omega)
    (by rw [fixed_hlit_length]) ?_ ?_ rfl (by simp [fixed_lit_huff]) fixed_lit_hent ?_
  · intro s hs
    rw [fixed_hlit_getD s hs]
    split_ifs <;> omega
  · exact (fixed_hlit_maxLen 288 (le_refl _)).2 (by omega)
  · intro s h1 h2
    simp only [fixed_lit_huff]
    rw [List.getElem?_append_right (by simpa using h1)]
    have e : s - ((List.range 288).map (fun s =>
        if s ≤ 143 then (⟨48 + s, 8⟩ : ezimg_huff_entry)
        else if s ≤ 255 then ⟨400 + (s - 144), 9⟩
        else if s ≤ 279 then ⟨s - 256, 7⟩
        else ⟨192 + (s - 280), 8⟩)).length = s - 288 := by simp
    rw [e]
    have : s - 288 = 0 ∨ s - 288 = 1 := by omega
    rcases this with h | h <;> rw [h] <;> rfl

set_option maxRecDepth 1000000 in
set_option maxHeartbeats 4000000 in
theorem fixed_dist_table_eq :
    ezimg_compute_huff fixed_hdist_table 32 huff_zero = .ok (some fixed_dist_huff) := by
  decide!

theorem inflate_fixed_tables_eq (st : InflateState) :
    inflate_fixed_tables st = .ok (fixed_lit_huff, fixed_dist_huff) := by
  unfold inflate_fixed_tables
  rw [fixed_lit_table_eq, fixed_dist_table_eq]
  rfl

/-! ## Claim C19 -/

set_option maxRecDepth 1000000 in
set_option maxHeartbeats 4000000 in
/-- C19: for a fixed-Huffman block (`inflate_fixed_tables`, whatever the state)
the literal/length table built by `ezimg_compute_huff` has 288 entries and
longest code 9: symbol `s` has length 8 and code `48 + s` for 0-143, length 9
and code `400 + (s - 144)` for 144-255, length 7 and code `s - 256` for
256-279, length 8 and code `192 + (s - 280)` for 280-287 (the two spare
entries of the array stay zero); the distance table has 32 entries, each of
length 5 with code equal to the symbol. -/
theorem C19_fixed_huffman_tables :
    ezimg_compute_huff fixed_hlit_table 288 huff_zero
      = .ok (some ⟨9, 288, (List.range 288).map (fun s =>
          if s ≤ 143 then (⟨48 + s, 8⟩ : ezimg_huff_entry)
          else if s ≤ 255 then ⟨400 + (s - 144), 9⟩
          else if s ≤ 279 then ⟨s - 256, 7⟩
          else ⟨192 + (s - 280), 8⟩) ++ [⟨0, 0⟩, ⟨0, 0⟩]⟩) ∧
    ezimg_compute_huff fixed_hdist_table 32 huff_zero
      = .ok (some ⟨5, 32, (List.range 32).map (fun s => (⟨s, 5⟩ : ezimg_huff_entry))
          ++ List.replicate 258 ⟨0, 0⟩⟩) ∧
    ∀ st, ∃ lit dist, inflate_fixed_tables st = .ok (lit, dist) ∧
      lit.count = 288 ∧ dist.count = 32 ∧
      (∀ s, s < 288 → lit.entries[s]? = some
        (if s ≤ 143 then (⟨48 + s, 8⟩ : ezimg_huff_entry)
          else if s ≤ 255 then ⟨400 + (s - 144), 9⟩
          else if s ≤ 279 then ⟨s - 256, 7⟩
          else ⟨192 + (s - 280), 8⟩)) ∧
      (∀ s, s < 32 → dist.entries[s]? = some ⟨s, 5⟩) := by
  refine ⟨fixed_lit_table_eq, fixed_dist_table_eq, ?_⟩
  intro st
  refine ⟨fixed_lit_huff, fixed_dist_huff, inflate_fixed_tables_eq st, rfl, rfl, ?_, ?_⟩
  · intro s hs
    simp only [fixed_lit_huff]
    rw [List.getElem?_append_left (by simpa using hs)]
    simp [hs]
  · intro s hs
    simp only [fixed_dist_huff]
    rw [List.getElem?_append_left (by simpa using hs)]
    simp [hs]

/-! ## Claim C15 -/

theorem next_bit_le_one (inp : List Nat) (s s' : ezimg_cstream) (b : Nat)
    (h : ezimg_next_bit inp s = .ok (b, s')) : b ≤ 1 := by
  simp only [ezimg_next_bit, bind, Except.bind, pure, Except.pure] at h
  repeat' (split at h)
  all_goals (try (simp at h))
  all_goals (try omega)

theorem cread_bits_lt (inp : List Nat) (s s' : ezimg_cstream) (n v : Nat)
    (h : ezimg_cread_bits inp s n = .ok (v, s')) : v < 2 ^ n := by
  have := forLoop_ok_inv
    (fun i (p : Nat × ezimg_cstream) =>
      (do
        let (bit, stream) ← ezimg_next_bit inp p.2
        return (p.1 ||| (bit <<< i), stream) : Except Trap (Nat × ezimg_cstream)))
    (fun i p => p.1 < 2 ^ i) n 0 (0, s) (v, s') (by simp) (by
      intro j p p1 _ _ hinv hb
      simp only [bind, Except.bind, pure, Except.pure] at hb
      cases hq : ezimg_next_bit inp p.2 with
      | error e => rw [hq] at hb; simp at hb
      | ok q =>
        rw [hq] at hb
        simp only [] at hb
        injection hb with hb
        subst hb
        have h1 := next_bit_le_one inp p.2 q.2 q.1 hq
        simp only []
        apply Nat.or_lt_two_pow
        · exact lt_of_lt_of_le hinv (Nat.pow_le_pow_right (by omega) (by omega))
        · rw [Nat.shiftLeft_eq, Nat.pow_succ]
          have : 0 < 2 ^ j := Nat.two_pow_pos j
          nlinarith) h
  simpa using this

/-! ## Claim C16 -/

theorem inflate_stored_not_ok (inp : List Nat) (outp_end : Nat) (st st' : InflateState) :
    inflate_stored inp outp_end st ≠ .ok st' := by
  intro h
  simp only [inflate_stored, bind, Except.bind, pure, Except.pure, liftTrap] at h
  cases h0 : ezimg_cflush inp st.stream with
  | error e => rw [h0] at h; simp at h
  | ok s0 =>
    rw [h0] at h
    simp only [] at h
    cases h1 : ezimg_cread_bits inp s0 16 with
    | error e => rw [h1] at h; simp at h
    | ok q1 =>
      rw [h1] at h
      simp only [] at h
      cases h2 : ezimg_cread_bits inp q1.2 16 with
      | error e => rw [h2] at h; simp at h
      | ok q2 =>
        rw [h2] at h
        simp only [] at h
        have b1 := cread_bits_lt inp _ _ _ _ h1
        have b2 := cread_bits_lt inp _ _ _ _ h2
        have hu := u32_le q1.1
        rw [if_pos (by
          norm_num at b1 b2
          omega)] at h
        simp [throw, throwThe, MonadExceptOf.throw] at h

theorem and_two_pow_ne_zero (x k : Nat) : x &&& 2 ^ k ≠ 0 ↔ x / 2 ^ k % 2 = 1 := by
  have ht : (x &&& 2 ^ k).testBit k = x.testBit k := by
    rw [Nat.testBit_and, Nat.testBit_two_pow]
    simp
  constructor
  · intro h
    by_contra hc
    apply h
    apply Nat.eq_of_testBit_eq
    intro i
    rw [Nat.testBit_and, Nat.testBit_two_pow, Nat.zero_testBit]
    by_cases hik : k = i
    · subst hik
      have : x.testBit k = false := by
        rw [Nat.testBit_to_div_mod]
        simpa using hc
      simp [this]
    · simp [hik]
  · intro h hz
    have : x.testBit k = true := by
      rw [Nat.testBit_to_div_mod]
      simpa using h
    rw [← ht, hz, Nat.zero_testBit] at this
    exact absurd this (by simp)

theorem next_bit_spec (inp : List Nat) (s : ezimg_cstream) (k : Nat) (he : s.at_end = false)
    (hm : s.mask = 2 ^ k) (hk : k < 8) :
    ezimg_next_bit inp s =
      if k < 7 then .ok (s.buff / 2 ^ k % 2, { s with mask := 2 ^ (k + 1) })
      else
        match cstream_refill inp s with
        | .ok s' => .ok (s.buff / 2 ^ k % 2, s')
        | .error e => .error e := by
  have hbit : (if s.buff &&& s.mask ≠ 0 then 1 else 0) = s.buff / 2 ^ k % 2 := by
    rw [hm]
    by_cases h : s.buff / 2 ^ k % 2 = 1
    · rw [if_pos ((and_two_pow_ne_zero _ _).mpr h), h]
    · rw [if_neg (fun hc => h ((and_two_pow_ne_zero _ _).mp hc))]
      omega
  simp only [ezimg_next_bit, he, Bool.false_eq_true, if_false, hbit, bind, Except.bind, pure,
    Except.pure, cstream_refill]
  rw [hm, Nat.shiftLeft_eq, ← Nat.pow_succ]
  by_cases h7 : k < 7
  · have hlt : 2 ^ (k + 1) < 256 := by
      have : 2 ^ (k + 1) ≤ 2 ^ 7 := Nat.pow_le_pow_right (by omega) (by omega)
      omega
    have hpos : 0 < 2 ^ (k + 1) := Nat.two_pow_pos _
    rw [Nat.mod_eq_of_lt hlt, if_neg (by omega), if_pos h7]
  · have hk7 : k = 7 := by omega
    subst hk7
    rw [if_neg h7]
    simp only [Nat.reducePow, Nat.reduceAdd, Nat.mod_self, if_true]
    generalize ezimg_cread_u8 inp _ = r
    rcases r with e | ⟨b, s'⟩ <;> rfl

theorem forLoop_succ_last {ε σ : Type} (body : Nat → σ → Except ε σ) :
    ∀ (n i : Nat) (s : σ), forLoop body (n + 1) i s =
      match forLoop body n i s with
      | .ok s1 => body (i + n) s1
      | .error e => .error e := by
  intro n
  induction n with
  | zero =>
    intro i s
    simp only [forLoop, Nat.add_zero]
    cases body i s <;> rfl
  | succ n ih =>
    intro i s
    rw [forLoop]
    conv => rhs; rw [forLoop]
    cases hb : body i s with
    | error e => rfl
    | ok s1 =>
      simp only []
      rw [ih (i + 1) s1]
      have e : i + 1 + n = i + (n + 1) := by omega
      rw [e]

theorem or_shift_bit (a b j : Nat) (ha : a < 2 ^ j) : a ||| (b <<< j) = a + 2 ^ j * b := by
  rw [Nat.shiftLeft_eq, Nat.or_comm, Nat.mul_comm b, ← Nat.mul_add_lt_is_or ha]
  omega

theorem cread_bits_in_byte (inp : List Nat) (s : ezimg_cstream) (k n : Nat)
    (he : s.at_end = false) (hm : s.mask = 2 ^ k) (hkn : k + n ≤ 7) :
    ezimg_cread_bits inp s n
      = .ok (s.buff / 2 ^ k % 2 ^ n, { s with mask := 2 ^ (k + n) }) := by
  obtain ⟨p, hp, hinv⟩ := forLoop_inv
    (fun i (p : Nat × ezimg_cstream) =>
      (do
        let (bit, stream) ← ezimg_next_bit inp p.2
        return (p.1 ||| (bit <<< i), stream) : Except Trap (Nat × ezimg_cstream)))
    (fun j p => p = (s.buff / 2 ^ k % 2 ^ j, { s with mask := 2 ^ (k + j) }))
    n 0 (0, s) (by
      cases s
      simp only [] at hm
      subst hm
      simp [Nat.mod_one]) (by
      intro j p _ hj hinv
      subst hinv
      refine ⟨_, ?_, rfl⟩
      simp only [bind, Except.bind, pure, Except.pure]
      rw [next_bit_spec inp { s with mask := 2 ^ (k + j) } (k + j) he rfl (by omega),
        if_pos (by omega)]
      simp only []
      rw [or_shift_bit _ _ _ (Nat.mod_lt _ (Nat.two_pow_pos j)), Nat.mod_pow_succ,
        Nat.pow_add, Nat.div_div_eq_div_mul]
      rfl)
  unfold ezimg_cread_bits forRange
  rw [hp, hinv, Nat.zero_add]

theorem cread_bits_to_byte_end (inp : List Nat) (s : ezimg_cstream) (k n : Nat)
    (he : s.at_end = false) (hm : s.mask = 2 ^ k) (hn : 0 < n) (hkn : k + n = 8) :
    ezimg_cread_bits inp s n =
      match cstream_refill inp s with
      | .ok s' => .ok (s.buff / 2 ^ k % 2 ^ n, s')
      | .error e => .error e := by
  obtain ⟨m, rfl⟩ : ∃ m, n = m + 1 := ⟨n - 1, by omega⟩
  have h1 := cread_bits_in_byte inp s k m he hm (by omega)
  unfold ezimg_cread_bits forRange at h1 ⊢
  rw [forLoop_succ_last, h1]
  simp only [bind, Except.bind, pure, Except.pure, Nat.zero_add]
  rw [next_bit_spec inp { s with mask := 2 ^ (k + m) } (k + m) he rfl (by omega),
    if_neg (by omega)]
  have hr : cstream_refill inp { s with mask := 2 ^ (k + m) } = cstream_refill inp s := rfl
  rw [hr]
  cases cstream_refill inp s with
  | error e => rfl
  | ok s' =>
    simp only []
    rw [or_shift_bit _ _ _ (Nat.mod_lt _ (Nat.two_pow_pos m)), Nat.mod_pow_succ,
      Nat.pow_add, Nat.div_div_eq_div_mul]

theorem cread_u8_mask (inp : List Nat) (s s' : ezimg_cstream) (b : Nat)
    (h : ezimg_cread_u8 inp s = .ok (b, s')) : s'.mask = s.mask ∧ b < 256 := by
  simp only [ezimg_cread_u8, peek] at h
  repeat' (split at h)
  all_goals (try (simp at h))
  all_goals (try (obtain ⟨h1, h2⟩ := h; subst h1; subst h2))
  all_goals (try (exact ⟨rfl, by omega⟩))
  all_goals
    rename_i heq
    split at heq
    · injection heq with heq
      subst heq
      exact ⟨rfl, Nat.mod_lt _ (by omega)⟩
    · simp at heq

theorem cstream_refill_mask (inp : List Nat) (s s' : ezimg_cstream)
    (h : cstream_refill inp s = .ok s') : s'.mask = 1 ∧ s'.buff < 256 := by
  unfold cstream_refill at h
  split at h
  · rename_i b s1 hr
    injection h with h
    subst h
    exact cread_u8_mask inp _ _ _ hr
  · simp at h

theorem decompress_run_header (inp : List Nat) (cs s1 s2 : ezimg_cstream) (size : Nat)
    (buff : List Nat) (h0 : cs.at_end = false) (hm : cs.mask = 1)
    (hr1 : cstream_refill inp cs = .ok s1) (h1 : s1.at_end = false)
    (hr2 : cstream_refill inp s1 = .ok s2) :
    decompress_run inp cs size buff =
      if cs.buff % 16 ≠ 8 ∨ cs.buff / 16 % 16 > 7 ∨ s1.buff / 32 % 2 ≠ 0 then .ok (false, buff)
      else
        match inflate_blocks inp size (inflate_block_fuel cs)
            { stream := s2, buff := buff, outp := 0 } with
        | .ok st => .ok (true, st.buff)
        | .error (Halt.reject b) => .ok (false, b)
        | .error (Halt.trap t) => .error t := by
  have hm1 := (cstream_refill_mask inp cs s1 hr1).1
  have e1 := cread_bits_in_byte inp cs 0 4 h0 (by rw [hm]; rfl) (by omega)
  have e2 := cread_bits_to_byte_end inp { cs with mask := 2 ^ (0 + 4) } 4 4 h0 rfl
    (by omega) (by omega)
  rw [show cstream_refill inp { cs with mask := 2 ^ (0 + 4) } = cstream_refill inp cs from rfl,
    hr1] at e2
  have e3 := cread_bits_in_byte inp s1 0 5 h1 (by rw [hm1]; rfl) (by omega)
  have e4 := cread_bits_in_byte inp { s1 with mask := 2 ^ (0 + 5) } 5 1 h1 rfl (by omega)
  have e5 := cread_bits_to_byte_end inp { s1 with mask := 2 ^ (5 + 1) } 6 2 h1 rfl
    (by omega) (by omega)
  rw [show cstream_refill inp { s1 with mask := 2 ^ (5 + 1) } = cstream_refill inp s1 from rfl,
    hr2] at e5
  simp only [decompress_run, bind, Except.bind, pure, Except.pure, liftTrap, e1, e2, e3, e4, e5]
  simp only [Nat.pow_zero, Nat.div_one, Nat.reducePow, Nat.pow_one]
  by_cases hc : cs.buff % 16 ≠ 8 ∨ cs.buff / 16 % 16 > 7 ∨ s1.buff / 32 % 2 ≠ 0
  · rw [if_pos hc, if_pos hc]
    try rfl
  · rw [if_neg hc, if_neg hc]
    try rfl

theorem png_load_decode_rejected (inp out : List Nat) (wk : PngWalk) (cs : ezimg_cstream)
    (b : List Nat) (hc : wk.chunks ≠ [])
    (hi : ezimg_init_cstream inp
      { chunks := wk.chunks, lens := wk.lens, num_chunks := 0, current_chunk := 0,
        current_pos := 0, buff := 0, mask := 0, at_end := false } wk.chunks.length = .ok cs)
    (hd : ezimg_decompress_idat inp cs wk.w wk.h out = .ok (false, b)) :
    png_load_decode inp out wk = .ok (failWith .EZIMG_INVALID_IMAGE b) := by
  have hl : wk.chunks.length ≠ 0 := by
    intro h
    exact hc (List.length_eq_zero.mp h)
  simp only [png_load_decode, bind, Except.bind, pure, Except.pure, hl, if_false, hi, hd]
  rfl

/-! ## Claim C17 -/

/-- C17: let the bit stream stand at the start of a byte `b0` (mask 1, not at
its end), let the next byte of the stream be `b1` and let a byte follow it.
If the low nibble of `b0` is not 8, or its high nibble exceeds 7, or bit 5 of
`b1` is set, `ezimg_decompress_idat` returns 0 with the buffer untouched, and
`ezimg_png_load`, when this is the stream of its data chunks, returns
`EZIMG_INVALID_IMAGE`.  If the low nibble is 8, the high nibble at most 7 and
bit 5 of `b1` clear, the result is that of the block loop started after the
two bytes (given a buffer that passes the capacity test): the header is not
rejected, whatever the other bits of `b1`. -/
theorem C17_zlib_header_check (inp buff : List Nat) (cs s1 s2 : ezimg_cstream)
    (width height : Nat)
    (hcap : ezimg_png_decomp_data_max_size width height ≤ buff.length)
    (h0 : cs.at_end = false) (hm : cs.mask = 1) (hb : cs.buff < 256)
    (hr1 : cstream_refill inp cs = .ok s1) (h1 : s1.at_end = false)
    (hr2 : cstream_refill inp s1 = .ok s2) :
    (cs.buff % 16 ≠ 8 ∨ cs.buff / 16 > 7 ∨ s1.buff / 32 % 2 = 1 →
      ezimg_decompress_idat inp cs width height buff = .ok (false, buff) ∧
      ∀ wk, 8 ≤ inp.length → pngSignatureOk inp →
        pngWalkOf inp = .ok (WalkEnd.finished wk) → wk.chunks ≠ [] →
        ezimg_init_cstream inp
          { chunks := wk.chunks, lens := wk.lens, num_chunks := 0, current_chunk := 0,
            current_pos := 0, buff := 0, mask := 0, at_end := false } wk.chunks.length
          = .ok cs →
        wk.w = width → wk.h = height →
        ezimg_png_load inp buff = .ok (failWith .EZIMG_INVALID_IMAGE buff)) ∧
    (cs.buff % 16 = 8 ∧ cs.buff / 16 ≤ 7 ∧ s1.buff / 32 % 2 = 0 →
      ezimg_decompress_idat inp cs width height buff =
        match inflate_blocks inp (ezimg_png_decomp_data_max_size width height)
            (inflate_block_fuel cs) { stream := s2, buff := buff, outp := 0 } with
        | .ok st => .ok (true, st.buff)
        | .error (Halt.reject b) => .ok (false, b)
        | .error (Halt.trap t) => .error t) := by
  have hrun := decompress_run_header inp cs s1 s2
    (ezimg_png_decomp_data_max_size width height) buff h0 hm hr1 h1 hr2
  have hd : ezimg_decompress_idat inp cs width height buff
      = decompress_run inp cs (ezimg_png_decomp_data_max_size width height) buff := by
    simp only [ezimg_decompress_idat]
    rw [if_neg (by omega)]
  have hnib : cs.buff / 16 % 16 = cs.buff / 16 := Nat.mod_eq_of_lt (by omega)
  constructor
  · intro hc
    have hrej : ezimg_decompress_idat inp cs width height buff = .ok (false, buff) := by
      rw [hd, hrun, if_pos (by rw [hnib]; omega)]
    refine ⟨hrej, ?_⟩
    intro wk hlen hsig hwalk hidat hinit hw hh
    subst hw
    subst hh
    rw [png_load_hdr inp buff hlen hsig, hwalk]
    exact png_load_decode_rejected inp buff wk cs buff hidat hinit hrej
  · intro hc
    rw [hd, hrun, if_neg (by rw [hnib]; omega)]

set_option maxRecDepth 100000 in
set_option maxHeartbeats 4000000 in
/-- Witness of C17 on `png_rgba_1x1`, whose zlib header is `78 01`: the header
passes, and the same file with the first header byte replaced by `77`
(method 7) or `88` (window field 8), or the second by `21` (dictionary bit
set), is refused with `EZIMG_INVALID_IMAGE`. -/
theorem C17_zlib_header_check_witness :
    ezimg_decompress_idat png_rgba_1x1 ⟨[41], [13], 1, 0, 1, 120, 1, false⟩ 1 1
        (List.replicate 5 0) =
      (match inflate_blocks png_rgba_1x1 (ezimg_png_decomp_data_max_size 1 1)
          (inflate_block_fuel ⟨[41], [13], 1, 0, 1, 120, 1, false⟩)
          { stream := ⟨[41], [13], 1, 0, 3, 99, 1, false⟩, buff := List.replicate 5 0,
            outp := 0 } with
        | .ok st => .ok (true, st.buff)
        | .error (Halt.reject b) => .ok (false, b)
        | .error (Halt.trap t) => .error t) ∧
    ezimg_png_load (png_rgba_1x1.set 41 0x77) (List.replicate 5 0)
      = .ok (failWith .EZIMG_INVALID_IMAGE (List.replicate 5 0)) ∧
    ezimg_png_load (png_rgba_1x1.set 41 0x88) (List.replicate 5 0)
      = .ok (failWith .EZIMG_INVALID_IMAGE (List.replicate 5 0)) ∧
    ezimg_png_load (png_rgba_1x1.set 42 0x21) (List.replicate 5 0)
      = .ok (failWith .EZIMG_INVALID_IMAGE (List.replicate 5 0)) := by
  refine ⟨?_, ?_, ?_, ?_⟩
  · exact (C17_zlib_header_check png_rgba_1x1 (List.replicate 5 0)
      ⟨[41], [13], 1, 0, 1, 120, 1, false⟩ ⟨[41], [13], 1, 0, 2, 1, 1, false⟩
      ⟨[41], [13], 1, 0, 3, 99, 1, false⟩ 1 1 (by decide) rfl rfl (by decide) (by decide) rfl
      (by decide)).2 (by decide)
  · decide!
  · decide!
  · decide!

/-! ## Claim C12: the BITFIELDS branch -/

theorem huff_find_some (huff : ezimg_huff) (code len i : Nat)
    (h : huff_find huff code len = some i) :
    i < huff.count ∧ (huff.entries.getD i ⟨0, 0⟩).len = len ∧
      (huff.entries.getD i ⟨0, 0⟩).code = code := by
  unfold huff_find at h
  rw [List.find?_range_eq_some] at h
  obtain ⟨h1, h2, _⟩ := h
  simp only [Bool.and_eq_true, beq_iff_eq] at h1
  exact ⟨List.mem_range.mp h2, h1.1, h1.2⟩

theorem huff_decode_loop_result (inp : List Nat) (huff : ezimg_huff) :
    ∀ (k code len : Nat) (stream stream' : ezimg_cstream) (r : Int),
      huff_decode_loop inp huff k code len stream = .ok (r, stream') → 1 ≤ len →
      r = -1 ∨ ∃ i : Nat, r = (i : Int) ∧ i < huff.count ∧
        1 ≤ (huff.entries.getD i ⟨0, 0⟩).len := by
  intro k
  induction k with
  | zero =>
    intro code len stream stream' r h _
    rw [huff_decode_loop] at h
    injection h with h
    injection h with h _
    exact Or.inl h.symm
  | succ k ih =>
    intro code len stream stream' r h hl
    rw [huff_decode_loop] at h
    cases hf : huff_find huff code len with
    | some i =>
      rw [hf] at h
      simp only [] at h
      injection h with h
      injection h with h _
      obtain ⟨h1, h2, _⟩ := huff_find_some huff code len i hf
      exact Or.inr ⟨i, h.symm, h1, by omega⟩
    | none =>
      rw [hf] at h
      simp only [] at h
      split_ifs at h
      · injection h with h
        injection h with h _
        exact Or.inl h.symm
      · cases hb : ezimg_cread_bits inp stream 1 with
        | error e => rw [hb] at h; simp at h
        | ok q =>
          rw [hb] at h
          simp only [] at h
          exact ih _ _ _ _ _ h (by omega)

theorem huff_decode_result (inp : List Nat) (huff : ezimg_huff)
    (stream stream' : ezimg_cstream) (r : Int)
    (h : ezimg_huff_decode inp huff stream = .ok (r, stream')) :
    r = -1 ∨ ∃ i : Nat, r = (i : Int) ∧ i < huff.count ∧
      1 ≤ (huff.entries.getD i ⟨0, 0⟩).len := by
  simp only [ezimg_huff_decode, bind, Except.bind, pure, Except.pure] at h
  cases hb : ezimg_cread_bits inp stream 1 with
  | error e => rw [hb] at h; simp at h
  | ok q =>
    rw [hb] at h
    simp only [] at h
    exact huff_decode_loop_result inp huff _ _ _ _ _ _ h (le_refl 1)

set_option maxRecDepth 100000 in
/-- C18: for `hcount < 290` code lengths, all at most 15, `ezimg_compute_huff`
succeeds with a table of `hcount` symbols in which symbol `s` has its length
`L` and, when `L` is not 0, the code `first[L]` plus the number of symbols
before `s` that have length `L`, where `first[1] = 0` and
`first[L+1] = (first[L] + count[L]) << 1` (`firstCode`, `lenCount`); a symbol
of length 0 gets length 0 and code 0 and is never the result of
`ezimg_huff_decode`.  The lengths (3,3,3,3,3,2,4,4) give the codes 010, 011,
100, 101, 110, 00, 1110, 1111. -/
theorem C18_canonical_codes (htable : List Nat) (hcount : Nat) (huff : ezimg_huff)
    (hn : hcount < 290) (hlen : hcount ≤ htable.length)
    (h15 : ∀ s, s < hcount → htable.getD s 0 ≤ 15) :
    (∃ T, ezimg_compute_huff htable hcount huff = .ok (some T) ∧ T.count = hcount ∧
      (∀ s, s < hcount → T.entries[s]? = some
        ⟨if htable.getD s 0 = 0 then 0
          else firstCode htable hcount (htable.getD s 0) + lenCount htable s (htable.getD s 0),
         htable.getD s 0⟩) ∧
      (∀ inp stream stream' (r : Int), ezimg_huff_decode inp T stream = .ok (r, stream') →
        ∀ s, s < hcount → htable.getD s 0 = 0 → r ≠ (s : Int))) ∧
    firstCode htable hcount 1 = 0 ∧
    (∀ L, 1 ≤ L → firstCode htable hcount (L + 1)
      = (firstCode htable hcount L + lenCount htable hcount L) <<< 1) ∧
    ezimg_compute_huff [3, 3, 3, 3, 3, 2, 4, 4] 8 huff_zero
      = .ok (some ⟨4, 8, [⟨0b010, 3⟩, ⟨0b011, 3⟩, ⟨0b100, 3⟩, ⟨0b101, 3⟩, ⟨0b110, 3⟩, ⟨0b00, 2⟩,
          ⟨0b1110, 4⟩, ⟨0b1111, 4⟩] ++ List.replicate 282 ⟨0, 0⟩⟩) := by
  refine ⟨?_, rfl, ?_, by decide⟩
  · obtain ⟨mx, entries, hT, _, _, hel, hent⟩ := compute_huff_spec htable hcount huff hn hlen h15
    refine ⟨_, hT, rfl, hent, ?_⟩
    intro inp stream stream' r hd s hs h0 hrs
    rcases huff_decode_result inp _ stream stream' r hd with h1 | ⟨i, h1, h2, h3⟩
    · rw [h1] at hrs
      omega
    · have e : i = s := by omega
      subst e
      have := hent i hs
      simp only [] at h3
      rw [List.getD_eq_getElem?_getD, this] at h3
      simp only [Option.getD_some] at h3
      omega
  · intro L hL
    rw [firstCode, if_neg (by omega), Nat.shiftLeft_eq, Nat.pow_one]

/-- Witness of C18 on the lengths (3,3,3,3,3,2,4,4): symbol 6 gets the code
1110 of length 4. -/
theorem C18_canonical_codes_witness :
    (8 < 290 ∧ 8 ≤ [3, 3, 3, 3, 3, 2, 4, 4].length) ∧
    ∃ T, ezimg_compute_huff [3, 3, 3, 3, 3, 2, 4, 4] 8 huff_zero = .ok (some T) ∧
      T.entries[6]? = some ⟨0b1110, 4⟩ := by
  refine ⟨by decide, ?_⟩
  obtain ⟨⟨T, hT, _, hent, _⟩, _⟩ := C18_canonical_codes [3, 3, 3, 3, 3, 2, 4, 4] 8 huff_zero
    (by decide) (by decide) (by decide)
  exact ⟨T, hT, (hent 6 (by decide)).trans (congrArg some (by decide))⟩

/-! ## Claim C20: decoding one symbol -/

theorem cread_bits_one (inp : List Nat) (s : ezimg_cstream) :
    ezimg_cread_bits inp s 1 = ezimg_next_bit inp s := by
  simp only [ezimg_cread_bits, forRange, forLoop, bind, Except.bind, pure, Except.pure]
  cases ezimg_next_bit inp s with
  | error e => rfl
  | ok q => simp

theorem next_bits_length (inp : List Nat) :
    ∀ (n : Nat) (s s' : ezimg_cstream) (bits : List Nat),
      next_bits inp n s = .ok (bits, s') → bits.length = n ∧ ∀ b, b ∈ bits → b ≤ 1 := by
  intro n
  induction n with
  | zero =>
    intro s s' bits h
    rw [next_bits] at h
    injection h with h
    injection h with h _
    subst h
    exact ⟨rfl, fun b hb => by simp at hb⟩
  | succ n ih =>
    intro s s' bits h
    rw [next_bits] at h
    cases hb : ezimg_next_bit inp s with
    | error e => rw [hb] at h; simp at h
    | ok q =>
      rw [hb] at h
      simp only [] at h
      cases hr : next_bits inp n q.2 with
      | error e => rw [hr] at h; simp at h
      | ok q2 =>
        rw [hr] at h
        simp only [] at h
        injection h with h
        injection h with h _
        subst h
        obtain ⟨h1, h2⟩ := ih q.2 q2.2 q2.1 hr
        refine ⟨by simp [h1], ?_⟩
        intro b hb'
        rcases List.mem_cons.mp hb' with e | e
        · rw [e]
          exact next_bit_le_one inp s q.2 q.1 hb
        · exact h2 b e

theorem foldl_msb (bits : List Nat) :
    ∀ a, bits.foldl (fun a b => 2 * a + b) a = a * 2 ^ bits.length + msbValue bits := by
  induction bits with
  | nil => intro a; simp [msbValue]
  | cons b bs ih =>
    intro a
    simp only [List.foldl_cons, List.length_cons, msbValue]
    rw [ih (2 * a + b), ih (2 * 0 + b)]
    ring

theorem msbValue_cons (b : Nat) (bs : List Nat) :
    msbValue (b :: bs) = b * 2 ^ bs.length + msbValue bs := by
  have := foldl_msb bs (2 * 0 + b)
  simp only [msbValue, List.foldl_cons] at this ⊢
  rw [this]
  ring

theorem msbValue_append (as bs : List Nat) :
    msbValue (as ++ bs) = msbValue as * 2 ^ bs.length + msbValue bs := by
  unfold msbValue
  rw [List.foldl_append, foldl_msb bs]
  rfl

theorem msbValue_lt (bits : List Nat) (h : ∀ b, b ∈ bits → b ≤ 1) :
    msbValue bits < 2 ^ bits.length := by
  induction bits with
  | nil => simp [msbValue]
  | cons b bs ih =>
    rw [msbValue_cons, List.length_cons, Nat.pow_succ]
    have h1 := h b (List.mem_cons_self _ _)
    have h2 := ih (fun x hx => h x (List.mem_cons_of_mem _ hx))
    have h3 : b * 2 ^ bs.length ≤ 1 * 2 ^ bs.length := Nat.mul_le_mul_right _ h1
    omega

theorem msbValue_take (bits : List Nat) (h : ∀ b, b ∈ bits → b ≤ 1) (t : Nat) :
    msbValue (bits.take t) = msbValue bits / 2 ^ (bits.length - t) := by
  have e := msbValue_append (bits.take t) (bits.drop t)
  rw [List.take_append_drop] at e
  have hl : (bits.drop t).length = bits.length - t := List.length_drop _ _
  have hlt := msbValue_lt (bits.drop t) (fun b hb => h b (List.mem_of_mem_drop hb))
  rw [hl] at e hlt
  rw [e, Nat.add_comm, Nat.add_mul_div_right _ _ (Nat.two_pow_pos _),
    Nat.div_eq_of_lt hlt, Nat.zero_add]

theorem huff_find_none (T : ezimg_huff) (code len : Nat)
    (h : ∀ i, i < T.count → ¬ ((T.entries.getD i ⟨0, 0⟩).len = len ∧
      (T.entries.getD i ⟨0, 0⟩).code = code)) :
    huff_find T code len = none := by
  unfold huff_find
  rw [List.find?_range_eq_none]
  intro i hi
  have := h i hi
  simp only [Bool.not_eq_true', Bool.and_eq_false_iff, beq_eq_false_iff_ne, ne_eq,
    Bool.not_eq_eq_eq_not, Bool.not_true]
  by_cases hl : (T.entries.getD i ⟨0, 0⟩).len = len
  · right
    intro hc
    exact this ⟨hl, hc⟩
  · left
    exact hl

theorem huff_find_first (T : ezimg_huff) (code len s : Nat) (hs : s < T.count)
    (hp : (T.entries.getD s ⟨0, 0⟩).len = len ∧ (T.entries.getD s ⟨0, 0⟩).code = code)
    (hlow : ∀ i, i < s → ¬ ((T.entries.getD i ⟨0, 0⟩).len = len ∧
      (T.entries.getD i ⟨0, 0⟩).code = code)) :
    huff_find T code len = some s := by
  unfold huff_find
  rw [List.find?_range_eq_some]
  refine ⟨by simp only [hp.1, hp.2, beq_self_eq_true, Bool.and_self], List.mem_range.mpr hs, ?_⟩
  intro i hi
  have := hlow i hi
  simp only [Bool.not_eq_true', Bool.and_eq_false_iff, beq_eq_false_iff_ne, ne_eq,
    Bool.not_eq_eq_eq_not, Bool.not_true]
  by_cases hl : (T.entries.getD i ⟨0, 0⟩).len = len
  · right
    intro hc
    exact this ⟨hl, hc⟩
  · left
    exact hl

theorem huff_code_step (c b l : Nat) (hc : c < 2 ^ l) (hl : l ≤ 31) (hb : b ≤ 1) :
    u32 (c <<< 1) ||| (b &&& 255) = 2 * c + b := by
  have h1 : 2 ^ l ≤ 2 ^ 31 := Nat.pow_le_pow_right (by omega) hl
  have hb' : b &&& 255 = b := by
    have : b = 0 ∨ b = 1 := by omega
    rcases this with rfl | rfl <;> rfl
  rw [hb', Nat.shiftLeft_eq, Nat.pow_one, u32_eq _ (by omega), Nat.mul_comm c 2]
  have := Nat.mul_add_lt_is_or (show b < 2 ^ 1 by omega) c
  rw [Nat.pow_one] at this
  exact this.symm

theorem huff_decode_steps (inp : List Nat) (T : ezimg_huff) (hmax : T.max_len ≤ 31) :
    ∀ (m l c : Nat) (stream stream' : ezimg_cstream) (bits : List Nat),
      1 ≤ l → l + m ≤ T.max_len → c < 2 ^ l →
      next_bits inp m stream = .ok (bits, stream') →
      (∀ j, j < m → huff_find T (c * 2 ^ j + msbValue (bits.take j)) (l + j) = none) →
      huff_decode_loop inp T (T.max_len + 1 - l) c l stream
        = huff_decode_loop inp T (T.max_len + 1 - (l + m)) (c * 2 ^ m + msbValue bits)
            (l + m) stream' := by
  intro m
  induction m with
  | zero =>
    intro l c stream stream' bits _ _ _ hb _
    rw [next_bits] at hb
    injection hb with hb
    injection hb with h1 h2
    subst h1
    subst h2
    simp [msbValue]
  | succ m ih =>
    intro l c stream stream' bits hl hlm hc hb hnone
    rw [next_bits] at hb
    cases hq : ezimg_next_bit inp stream with
    | error e => rw [hq] at hb; simp at hb
    | ok q =>
      rw [hq] at hb
      simp only [] at hb
      cases hr : next_bits inp m q.2 with
      | error e => rw [hr] at hb; simp at hb
      | ok q2 =>
        rw [hr] at hb
        simp only [] at hb
        injection hb with hb
        injection hb with h1 h2
        subst h1
        subst h2
        obtain ⟨hlen, hbits⟩ := next_bits_length inp m q.2 q2.2 q2.1 hr
        have hb1 := next_bit_le_one inp stream q.2 q.1 hq
        have h0 := hnone 0 (by omega)
        simp only [Nat.pow_zero, Nat.mul_one, List.take_zero, Nat.add_zero] at h0
        rw [show msbValue [] = 0 from rfl, Nat.add_zero] at h0
        rw [show T.max_len + 1 - l = (T.max_len - l) + 1 by omega, huff_decode_loop, h0]
        simp only []
        rw [if_neg (by omega), cread_bits_one, hq]
        simp only []
        rw [huff_code_step c q.1 l hc (by omega) hb1]
        have := ih (l + 1) (2 * c + q.1) q.2 q2.2 q2.1 (by omega) (by omega)
          (by rw [Nat.pow_succ]; omega) hr (by
            intro j hj
            have hj1 := hnone (j + 1) (by omega)
            rw [List.take_succ_cons, msbValue_cons, List.length_take,
              Nat.min_eq_left (by omega)] at hj1
            rw [show (2 * c + q.1) * 2 ^ j + msbValue (List.take j q2.1)
                = c * 2 ^ (j + 1) + (q.1 * 2 ^ j + msbValue (List.take j q2.1)) by
                  rw [Nat.pow_succ]; ring,
              show l + 1 + j = l + (j + 1) by omega]
            exact hj1)
        rw [show T.max_len - l = T.max_len + 1 - (l + 1) by omega, this, msbValue_cons, hlen]
        rw [show l + 1 + m = l + (m + 1) by omega,
          show (2 * c + q.1) * 2 ^ m + msbValue q2.1
            = c * 2 ^ (m + 1) + (q.1 * 2 ^ m + msbValue q2.1) by rw [Nat.pow_succ]; ring]

theorem lenCount_mono (lens : List Nat) (L a : Nat) :
    ∀ d, a + d ≤ lens.length → lenCount lens a L ≤ lenCount lens (a + d) L := by
  intro d
  induction d with
  | zero => intro _; exact le_refl _
  | succ d ih =>
    intro h
    have := ih (by omega)
    rw [show a + (d + 1) = (a + d) + 1 by omega, lenCount_succ lens (a + d) L (by omega)]
    omega

theorem lenCount_rank_lt (lens : List Nat) (s n L : Nat) (hs : s < n) (hn : n ≤ lens.length)
    (hL : lens.getD s 0 = L) : lenCount lens s L < lenCount lens n L := by
  have h1 := lenCount_succ lens s L (by omega)
  rw [if_pos hL] at h1
  have h2 := lenCount_mono lens L (s + 1) (n - (s + 1)) (by omega)
  rw [show s + 1 + (n - (s + 1)) = n by omega] at h2
  omega

theorem firstCode_chain (lens : List Nat) (n l : Nat) (hl : 1 ≤ l) :
    ∀ d, 2 ^ (d + 1) * (firstCode lens n l + lenCount lens n l)
      ≤ firstCode lens n (l + 1 + d) := by
  intro d
  induction d with
  | zero =>
    rw [Nat.add_zero, firstCode, if_neg (by omega)]
    omega
  | succ d ih =>
    rw [show l + 1 + (d + 1) = (l + 1 + d) + 1 by omega, firstCode, Nat.pow_succ]
    have : firstCode lens n (l + 1 + d) * 2
        ≤ (firstCode lens n (l + 1 + d)
            + (if l + 1 + d = 0 then 0 else lenCount lens n (l + 1 + d))) * 2 :=
      Nat.mul_le_mul_right _ (Nat.le_add_right _ _)
    nlinarith

/-- No code of length `l` is the `l`-bit prefix of a code of a greater length
`L`; `c` is the longer code, and `c / 2 ^ (L - l)` its prefix. -/
theorem canonical_prefix_free (lens : List Nat) (n l L i c : Nat) (hl : 1 ≤ l) (hlL : l < L)
    (hi : i < n) (hn : n ≤ lens.length) (hil : lens.getD i 0 = l)
    (hc : firstCode lens n L ≤ c) :
    firstCode lens n l + lenCount lens i l ≠ c / 2 ^ (L - l) := by
  have h1 := lenCount_rank_lt lens i n l hi hn hil
  have h2 := firstCode_chain lens n l hl (L - l - 1)
  rw [show l + 1 + (L - l - 1) = L by omega, show L - l - 1 + 1 = L - l by omega] at h2
  have h3 : firstCode lens n l + lenCount lens n l ≤ c / 2 ^ (L - l) := by
    rw [Nat.le_div_iff_mul_le (Nat.two_pow_pos _), Nat.mul_comm]
    omega
  omega

theorem and_255_bit (b : Nat) (hb : b ≤ 1) : b &&& 255 = b := by
  have : b = 0 ∨ b = 1 := by omega
  rcases this with rfl | rfl <;> rfl

theorem huff_decode_none (inp : List Nat) (T : ezimg_huff) (hmax : T.max_len ≤ 31)
    (stream stream' : ezimg_cstream) (bits : List Nat)
    (hb : next_bits inp (max T.max_len 1) stream = .ok (bits, stream'))
    (hno : ∀ l i, 1 ≤ l → l ≤ T.max_len → i < T.count →
      ¬ ((T.entries.getD i ⟨0, 0⟩).len = l ∧
        (T.entries.getD i ⟨0, 0⟩).code = msbValue (bits.take l))) :
    ezimg_huff_decode inp T stream = .ok (-1, stream') := by
  obtain ⟨m, hm⟩ : ∃ m, max T.max_len 1 = m + 1 := ⟨max T.max_len 1 - 1, by omega⟩
  rw [hm, next_bits] at hb
  cases hq : ezimg_next_bit inp stream with
  | error e => rw [hq] at hb; simp at hb
  | ok q =>
    rw [hq] at hb
    simp only [] at hb
    cases hr : next_bits inp m q.2 with
    | error e => rw [hr] at hb; simp at hb
    | ok q2 =>
      rw [hr] at hb
      simp only [] at hb
      injection hb with hb
      injection hb with h1 h2
      subst h1
      subst h2
      obtain ⟨hlen, hbits⟩ := next_bits_length inp m q.2 q2.2 q2.1 hr
      have hb1 := next_bit_le_one inp stream q.2 q.1 hq
      simp only [ezimg_huff_decode, bind, Except.bind, pure, Except.pure]
      rw [cread_bits_one, hq]
      simp only []
      rw [and_255_bit _ hb1]
      by_cases h0 : T.max_len = 0
      · have hm0 : m = 0 := by omega
        subst hm0
        rw [next_bits] at hr
        injection hr with hr
        rw [← hr, h0, huff_decode_loop]
      · have hmm : T.max_len = m + 1 := by omega
        have hstep := huff_decode_steps inp T hmax m 1 q.1 q.2 q2.2 q2.1 (le_refl 1) (by omega)
          (by omega) hr (by
            intro j hj
            apply huff_find_none
            intro i hi
            have := hno (1 + j) i (by omega) (by omega) hi
            rw [show 1 + j = j + 1 by omega, List.take_succ_cons, msbValue_cons,
              List.length_take, Nat.min_eq_left (by omega)] at this
            rw [show 1 + j = j + 1 by omega]
            exact this)
        rw [show T.max_len + 1 - 1 = T.max_len by omega] at hstep
        rw [hstep, show T.max_len + 1 - (1 + m) = 0 + 1 by omega, huff_decode_loop]
        have hf : huff_find T (q.1 * 2 ^ m + msbValue q2.1) (1 + m) = none := by
          apply huff_find_none
          intro i hi
          have := hno (1 + m) i (by omega) (by omega) hi
          rw [show 1 + m = m + 1 by omega, List.take_succ_cons, msbValue_cons,
            List.length_take, Nat.min_eq_left (by omega), List.take_of_length_le (by omega)]
            at this
          rw [show 1 + m = m + 1 by omega]
          exact this
        rw [hf]
        simp only []
        rw [if_pos (by omega)]

theorem huff_decode_code (htable : List Nat) (hcount mx : Nat)
    (entries : List ezimg_huff_entry) (hlen : hcount ≤ htable.length) (hmx15 : mx ≤ 15)
    (hmx : ∀ s, s < hcount → htable.getD s 0 ≤ mx)
    (hent : ∀ s, s < hcount → entries[s]? = some
      ⟨if htable.getD s 0 = 0 then 0
        else firstCode htable hcount (htable.getD s 0) + lenCount htable s (htable.getD s 0),
       htable.getD s 0⟩)
    (inp : List Nat) (stream stream' : ezimg_cstream) (bits : List Nat) (s : Nat)
    (hs : s < hcount) (hL : htable.getD s 0 ≠ 0)
    (hb : next_bits inp (htable.getD s 0) stream = .ok (bits, stream'))
    (hv : msbValue bits
      = firstCode htable hcount (htable.getD s 0) + lenCount htable s (htable.getD s 0)) :
    ezimg_huff_decode inp ⟨mx, hcount, entries⟩ stream = .ok ((s : Int), stream') := by
  have hE : ∀ i, i < hcount → entries.getD i ⟨0, 0⟩ =
      ⟨if htable.getD i 0 = 0 then 0
        else firstCode htable hcount (htable.getD i 0) + lenCount htable i (htable.getD i 0),
       htable.getD i 0⟩ := by
    intro i hi
    rw [List.getD_eq_getElem?_getD, hent i hi]
    rfl
  obtain ⟨m, hm⟩ : ∃ m, htable.getD s 0 = m + 1 := ⟨htable.getD s 0 - 1, by omega⟩
  have hLmx := hmx s hs
  rw [hm] at hb hv hLmx
  rw [next_bits] at hb
  cases hq : ezimg_next_bit inp stream with
  | error e => rw [hq] at hb; simp at hb
  | ok q =>
    rw [hq] at hb
    simp only [] at hb
    cases hr : next_bits inp m q.2 with
    | error e => rw [hr] at hb; simp at hb
    | ok q2 =>
      rw [hr] at hb
      simp only [] at hb
      injection hb with hb
      injection hb with h1 h2
      subst h1
      subst h2
      obtain ⟨hlen2, hbits⟩ := next_bits_length inp m q.2 q2.2 q2.1 hr
      have hb1 := next_bit_le_one inp stream q.2 q.1 hq
      have hall : ∀ b, b ∈ q.1 :: q2.1 → b ≤ 1 := by
        intro b hb
        rcases List.mem_cons.mp hb with e | e
        · rw [e]; exact hb1
        · exact hbits b e
      simp only [ezimg_huff_decode, bind, Except.bind, pure, Except.pure]
      rw [cread_bits_one, hq]
      simp only []
      rw [and_255_bit _ hb1]
      have hstep := huff_decode_steps inp ⟨mx, hcount, entries⟩ (by simp only []; omega) m 1
        q.1 q.2 q2.2 q2.1 (le_refl 1) (by simp only []; omega) (by omega) hr (by
          intro j hj
          apply huff_find_none
          intro i hi ⟨e1, e2⟩
          simp only [] at hi e1 e2
          rw [hE i hi] at e1 e2
          simp only [] at e1 e2
          rw [if_neg (by omega), e1] at e2
          have ht := msbValue_take (q.1 :: q2.1) hall (j + 1)
          rw [List.take_succ_cons, msbValue_cons, List.length_take,
            Nat.min_eq_left (by omega), List.length_cons, hlen2, hv] at ht
          rw [ht, show m + 1 - (j + 1) = (m + 1) - (1 + j) by omega] at e2
          exact canonical_prefix_free htable hcount (1 + j) (m + 1) i _ (by omega) (by omega)
            hi hlen e1 (Nat.le_add_right _ _) e2)
      simp only [] at hstep
      rw [show mx + 1 - 1 = mx by omega] at hstep
      rw [hstep, show mx + 1 - (1 + m) = (mx - (1 + m)) + 1 by omega, huff_decode_loop]
      have hcode : q.1 * 2 ^ m + msbValue q2.1
          = firstCode htable hcount (m + 1) + lenCount htable s (m + 1) := by
        rw [← hv, msbValue_cons, hlen2]
      have hf : huff_find ⟨mx, hcount, entries⟩ (q.1 * 2 ^ m + msbValue q2.1) (1 + m)
          = some s := by
        apply huff_find_first _ _ _ _ hs
        · simp only []
          rw [hE s hs]
          simp only []
          rw [if_neg hL, hm, hcode]
          exact ⟨by omega, rfl⟩
        · intro i hi ⟨e1, e2⟩
          simp only [] at e1 e2
          rw [hE i (by omega)] at e1 e2
          simp only [] at e1 e2
          rw [if_neg (by omega), e1, hcode, show 1 + m = m + 1 by omega] at e2
          have := lenCount_rank_lt htable i s (m + 1) hi (by omega) (by omega)
          omega
      rw [hf]

set_option maxRecDepth 100000 in
/-- C20 (counterexample): the table built from the single code length 0 has
`max_len = 0` and no code, so that no prefix of the next 0 bits is a code; the
next 0 bits leave the stream where it is, but `ezimg_huff_decode` returns -1
with the mask of the stream moved on by one bit. -/
theorem C20_counterexample_empty_table :
    ∃ T, ezimg_compute_huff [0] 1 huff_zero = .ok (some T) ∧ T.max_len = 0 ∧
      next_bits [5] 0 ⟨[0], [1], 1, 0, 1, 5, 1, false⟩
        = .ok ([], ⟨[0], [1], 1, 0, 1, 5, 1, false⟩) ∧
      ezimg_huff_decode [5] T ⟨[0], [1], 1, 0, 1, 5, 1, false⟩
        = .ok (-1, ⟨[0], [1], 1, 0, 1, 5, 2, false⟩) ∧
      next_bits [5] 1 ⟨[0], [1], 1, 0, 1, 5, 1, false⟩
        = .ok ([1], ⟨[0], [1], 1, 0, 1, 5, 2, false⟩) :=
  ⟨⟨0, 1, List.replicate 290 ⟨0, 0⟩⟩, by decide, rfl, by decide, by decide, by decide⟩

/-- C20 (amended): let `T` be the table built by `ezimg_compute_huff` from
`hcount < 290` code lengths, all at most 15.  If symbol `s` has a non-zero
length `L` and the next `L` bits of the stream, read most significant bit
first, are the code of `s`, then `ezimg_huff_decode` returns `s` and leaves
the stream after exactly these `L` bits.  If no prefix of the next `max_len`
bits is the code of a symbol, it returns -1 and leaves the stream after
`max_len` bits, or after one bit when `max_len` is 0.  (No bound on the Kraft
sum is needed: a code that is spelled by `L` bits fits in `L` bits.) -/
theorem C20_huff_decode (htable : List Nat) (hcount : Nat) (huff T : ezimg_huff)
    (hn : hcount < 290) (hlen : hcount ≤ htable.length)
    (h15 : ∀ s, s < hcount → htable.getD s 0 ≤ 15)
    (hT : ezimg_compute_huff htable hcount huff = .ok (some T))
    (inp : List Nat) (stream stream' : ezimg_cstream) (bits : List Nat) :
    (∀ s e, s < hcount → T.entries[s]? = some e → e.len ≠ 0 →
      next_bits inp e.len stream = .ok (bits, stream') → msbValue bits = e.code →
      ezimg_huff_decode inp T stream = .ok ((s : Int), stream')) ∧
    (next_bits inp (max T.max_len 1) stream = .ok (bits, stream') →
      (∀ l s e, 1 ≤ l → l ≤ T.max_len → s < hcount → T.entries[s]? = some e →
        ¬ (e.len = l ∧ e.code = msbValue (bits.take l))) →
      ezimg_huff_decode inp T stream = .ok (-1, stream')) := by
  obtain ⟨mx, entries, hT', hmx15, hmx, hel, hent⟩ :=
    compute_huff_spec htable hcount huff hn hlen h15
  rw [hT] at hT'
  injection hT' with hT'
  injection hT' with hT'
  subst hT'
  constructor
  · intro s e hs he hne hb hv
    have hes := hent s hs
    rw [he] at hes
    injection hes with hes
    subst hes
    simp only [] at hne hb hv
    rw [if_neg hne] at hv
    exact huff_decode_code htable hcount mx entries hlen hmx15 hmx hent inp stream stream'
      bits s hs hne hb hv
  · intro hb hno
    apply huff_decode_none inp _ (by simp only []; omega) stream stream' bits hb
    intro l i hl1 hl2 hi
    simp only [] at hi hl2
    have := hno l i _ hl1 hl2 hi (hent i hi)
    rw [List.getD_eq_getElem?_getD, hent i hi]
    exact this

set_option maxRecDepth 100000 in
/-- Witness of C20 on the table of the lengths (3,3,3,3,3,2,4,4): in the byte
`07` the next four bits are 1, 1, 1, 0, the code 1110 of symbol 6, and
`ezimg_huff_decode` returns 6 with the mask of the stream at bit 4. -/
theorem C20_huff_decode_witness :
    ezimg_compute_huff [3, 3, 3, 3, 3, 2, 4, 4] 8 huff_zero
      = .ok (some ⟨4, 8, [⟨0b010, 3⟩, ⟨0b011, 3⟩, ⟨0b100, 3⟩, ⟨0b101, 3⟩, ⟨0b110, 3⟩, ⟨0b00, 2⟩,
          ⟨0b1110, 4⟩, ⟨0b1111, 4⟩] ++ List.replicate 282 ⟨0, 0⟩⟩) ∧
    next_bits [7] 4 ⟨[0], [1], 1, 0, 1, 7, 1, false⟩
      = .ok ([1, 1, 1, 0], ⟨[0], [1], 1, 0, 1, 7, 16, false⟩) ∧
    msbValue [1, 1, 1, 0] = 0b1110 ∧
    ezimg_huff_decode [7] ⟨4, 8, [⟨0b010, 3⟩, ⟨0b011, 3⟩, ⟨0b100, 3⟩, ⟨0b101, 3⟩, ⟨0b110, 3⟩,
        ⟨0b00, 2⟩, ⟨0b1110, 4⟩, ⟨0b1111, 4⟩] ++ List.replicate 282 ⟨0, 0⟩⟩
        ⟨[0], [1], 1, 0, 1, 7, 1, false⟩
      = .ok (((6 : Nat) : Int), ⟨[0], [1], 1, 0, 1, 7, 16, false⟩) := by
  have hT : ezimg_compute_huff [3, 3, 3, 3, 3, 2, 4, 4] 8 huff_zero
      = .ok (some ⟨4, 8, [⟨0b010, 3⟩, ⟨0b011, 3⟩, ⟨0b100, 3⟩, ⟨0b101, 3⟩, ⟨0b110, 3⟩, ⟨0b00, 2⟩,
          ⟨0b1110, 4⟩, ⟨0b1111, 4⟩] ++ List.replicate 282 ⟨0, 0⟩⟩) := by decide
  have hb : next_bits [7] 4 ⟨[0], [1], 1, 0, 1, 7, 1, false⟩
      = .ok ([1, 1, 1, 0], ⟨[0], [1], 1, 0, 1, 7, 16, false⟩) := by decide
  refine ⟨hT, hb, by decide, ?_⟩
  exact (C20_huff_decode [3, 3, 3, 3, 3, 2, 4, 4] 8 huff_zero _ (by decide) (by decide)
    (by decide) hT [7] ⟨[0], [1], 1, 0, 1, 7, 1, false⟩ ⟨[0], [1], 1, 0, 1, 7, 16, false⟩
    [1, 1, 1, 0]).1 6 ⟨0b1110, 4⟩ (by decide) (by decide) (by decide) hb (by decide)

/-! ## Claim C30: `ezimg_cread_bits` -/

theorem lsbValue_append (as bs : List Nat) :
    lsbValue (as ++ bs) = lsbValue as + 2 ^ as.length * lsbValue bs := by
  induction as with
  | nil => simp [lsbValue]
  | cons a as ih =>
    rw [List.cons_append, lsbValue, lsbValue, ih, List.length_cons, Nat.pow_succ]
    ring

theorem lsbValue_lt (bits : List Nat) (h : ∀ b, b ∈ bits → b ≤ 1) :
    lsbValue bits < 2 ^ bits.length := by
  induction bits with
  | nil => simp [lsbValue]
  | cons b bs ih =>
    rw [lsbValue, List.length_cons, Nat.pow_succ]
    have h1 := h b (List.mem_cons_self _ _)
    have h2 := ih (fun x hx => h x (List.mem_cons_of_mem _ hx))
    omega

theorem lsbValue_sum (bits : List Nat) :
    lsbValue bits = Finset.sum (Finset.range bits.length) (fun i => bits.getD i 0 * 2 ^ i) := by
  induction bits with
  | nil => simp [lsbValue]
  | cons b bs ih =>
    rw [lsbValue, List.length_cons, Finset.sum_range_succ', ih, Finset.mul_sum]
    simp only [List.getD_cons_succ, List.getD_cons_zero, Nat.pow_zero, Nat.mul_one]
    rw [Nat.add_comm]
    congr 1
    apply Finset.sum_congr rfl
    intro i _
    rw [Nat.pow_succ]
    ring

theorem cread_loop_gen (inp : List Nat) (B : Nat → Nat × ezimg_cstream →
      Except Trap (Nat × ezimg_cstream))
    (hB : ∀ i p, B i p = match ezimg_next_bit inp p.2 with
      | .ok q => .ok (p.1 ||| (q.1 <<< i), q.2)
      | .error e => .error e) :
    ∀ (n i acc : Nat) (s : ezimg_cstream), acc < 2 ^ i →
      forLoop B n i (acc, s) =
      match next_bits inp n s with
      | .ok (bits, s') => .ok (acc + 2 ^ i * lsbValue bits, s')
      | .error e => .error e := by
  intro n
  induction n with
  | zero =>
    intro i acc s _
    simp [forLoop, next_bits, lsbValue]
  | succ n ih =>
    intro i acc s hacc
    rw [forLoop, next_bits, hB]
    cases hq : ezimg_next_bit inp s with
    | error e => rfl
    | ok q =>
      simp only []
      have hb := next_bit_le_one inp s q.2 q.1 hq
      have hnew : (acc ||| q.1 <<< i) < 2 ^ (i + 1) := by
        rw [or_shift_bit _ _ _ hacc, Nat.pow_succ]
        have : 2 ^ i * q.1 ≤ 2 ^ i * 1 := Nat.mul_le_mul_left _ hb
        omega
      rw [ih (i + 1) _ q.2 hnew]
      cases next_bits inp n q.2 with
      | error e => rfl
      | ok q2 =>
        simp only [lsbValue]
        rw [or_shift_bit _ _ _ hacc, Nat.pow_succ]
        congr 2
        ring

theorem cread_bits_eq_next_bits (inp : List Nat) (s : ezimg_cstream) (n : Nat) :
    ezimg_cread_bits inp s n =
      match next_bits inp n s with
      | .ok (bits, s') => .ok (lsbValue bits, s')
      | .error e => .error e := by
  unfold ezimg_cread_bits forRange
  rw [cread_loop_gen inp _ (by
    intro i p
    simp only [bind, Except.bind, pure, Except.pure]
    cases ezimg_next_bit inp p.2 <;> rfl) n 0 0 s (by simp)]
  cases next_bits inp n s with
  | error e => rfl
  | ok q => simp

theorem next_bits_add (inp : List Nat) :
    ∀ (k m : Nat) (s : ezimg_cstream), next_bits inp (k + m) s =
      match next_bits inp k s with
      | .ok (b1, s1) =>
        match next_bits inp m s1 with
        | .ok (b2, s2) => .ok (b1 ++ b2, s2)
        | .error e => .error e
      | .error e => .error e := by
  intro k
  induction k with
  | zero =>
    intro m s
    rw [Nat.zero_add]
    simp only [next_bits, List.nil_append]
    cases next_bits inp m s <;> rfl
  | succ k ih =>
    intro m s
    rw [show k + 1 + m = (k + m) + 1 by omega, next_bits, next_bits]
    cases ezimg_next_bit inp s with
    | error e => rfl
    | ok q =>
      simp only []
      rw [ih m q.2]
      cases next_bits inp k q.2 with
      | error e => rfl
      | ok q1 =>
        simp only []
        cases next_bits inp m q1.2 with
        | error e => rfl
        | ok q2 => rfl

theorem next_bits_in_byte (inp : List Nat) :
    ∀ (n k : Nat) (s : ezimg_cstream), s.at_end = false → s.mask = 2 ^ k → k + n ≤ 7 →
      next_bits inp n s = .ok ((List.range n).map (fun i => s.buff / 2 ^ (k + i) % 2),
        { s with mask := 2 ^ (k + n) }) := by
  intro n
  induction n with
  | zero =>
    intro k s _ hm _
    cases s
    simp only [] at hm
    subst hm
    simp [next_bits]
  | succ n ih =>
    intro k s he hm hkn
    rw [next_bits, next_bit_spec inp s k he hm (by omega), if_pos (by omega)]
    simp only []
    rw [ih (k + 1) { s with mask := 2 ^ (k + 1) } he rfl (by omega)]
    simp only [List.range_succ_eq_map, List.map_cons, List.map_map, Nat.add_zero]
    have e1 : List.map (fun i => s.buff / 2 ^ (k + 1 + i) % 2) (List.range n)
        = List.map ((fun i => s.buff / 2 ^ (k + i) % 2) ∘ Nat.succ) (List.range n) := by
      apply List.map_congr_left
      intro i _
      simp only [Function.comp]
      rw [show k + 1 + i = k + i.succ by omega]
    rw [e1, show k + 1 + n = k + (n + 1) by omega]

theorem cread_bits_add (inp : List Nat) (s : ezimg_cstream) (k m : Nat) :
    ezimg_cread_bits inp s (k + m) =
      match ezimg_cread_bits inp s k with
      | .ok (a, s1) =>
        match ezimg_cread_bits inp s1 m with
        | .ok (b, s2) => .ok (a + 2 ^ k * b, s2)
        | .error e => .error e
      | .error e => .error e := by
  rw [cread_bits_eq_next_bits, cread_bits_eq_next_bits, next_bits_add]
  cases h1 : next_bits inp k s with
  | error e => rfl
  | ok q1 =>
    simp only []
    rw [cread_bits_eq_next_bits]
    cases h2 : next_bits inp m q1.2 with
    | error e => rfl
    | ok q2 =>
      simp only []
      rw [lsbValue_append, (next_bits_length inp k s q1.2 q1.1 h1).1]

theorem cread_bits_byte (inp : List Nat) (s : ezimg_cstream) (he : s.at_end = false)
    (hm : s.mask = 1) (hb : s.buff < 256) :
    ezimg_cread_bits inp s 8 =
      match cstream_refill inp s with
      | .ok s' => .ok (s.buff, s')
      | .error e => .error e := by
  rw [cread_bits_to_byte_end inp s 0 8 he (by rw [hm]; rfl) (by omega) (by omega)]
  cases cstream_refill inp s with
  | error e => rfl
  | ok s' =>
    simp only [Nat.pow_zero, Nat.div_one]
    rw [Nat.mod_eq_of_lt (by omega)]

/-- C30: for `n <= 32`, `ezimg_cread_bits` returns the sum over `i < n` of
`bit_i * 2^i`, where `bit_i` is the `i`-th of the next `n` bits of the stream
(`next_bits`, the results of `n` calls of `ezimg_next_bit`), and leaves the
stream after them; inside a byte these bits are the bits of the byte from the
mask position upwards, least significant first.  At a byte boundary 8 bits
give the current byte and 16 bits the current and the next byte as a
little-endian value; and reading `k` and then `n - k` bits gives the low `k`
bits and the remaining high bits of reading `n` bits at once, a value that
fits the `unsigned int` result. -/
theorem C30_cread_bits (inp : List Nat) (stream : ezimg_cstream) (n : Nat) (hn : n ≤ 32) :
    (ezimg_cread_bits inp stream n =
      match next_bits inp n stream with
      | .ok (bits, s') =>
        .ok (Finset.sum (Finset.range n) (fun i => bits.getD i 0 * 2 ^ i), s')
      | .error e => .error e) ∧
    (∀ k, stream.at_end = false → stream.mask = 2 ^ k → k + n ≤ 7 →
      next_bits inp n stream
        = .ok ((List.range n).map (fun i => stream.buff / 2 ^ (k + i) % 2),
            { stream with mask := 2 ^ (k + n) })) ∧
    (stream.at_end = false → stream.mask = 1 → stream.buff < 256 →
      (ezimg_cread_bits inp stream 8 =
        match cstream_refill inp stream with
        | .ok s1 => .ok (stream.buff, s1)
        | .error e => .error e) ∧
      ∀ s1, cstream_refill inp stream = .ok s1 → s1.at_end = false →
        ezimg_cread_bits inp stream 16 =
          match cstream_refill inp s1 with
          | .ok s2 => .ok (stream.buff + 256 * s1.buff, s2)
          | .error e => .error e) ∧
    (∀ k v s2, k ≤ n → ezimg_cread_bits inp stream n = .ok (v, s2) →
      v < 4294967296 ∧
      ∃ s1, ezimg_cread_bits inp stream k = .ok (v % 2 ^ k, s1) ∧
        ezimg_cread_bits inp s1 (n - k) = .ok (v / 2 ^ k, s2)) := by
  refine ⟨?_, ?_, ?_, ?_⟩
  · rw [cread_bits_eq_next_bits]
    cases h : next_bits inp n stream with
    | error e => rfl
    | ok q =>
      simp only []
      rw [lsbValue_sum, (next_bits_length inp n stream q.2 q.1 h).1]
  · intro k he hm hk
    exact next_bits_in_byte inp n k stream he hm hk
  · intro he hm hb
    refine ⟨cread_bits_byte inp stream he hm hb, ?_⟩
    intro s1 hr h1
    obtain ⟨hm1, hb1⟩ := cstream_refill_mask inp stream s1 hr
    rw [show (16 : Nat) = 8 + 8 from rfl, cread_bits_add, cread_bits_byte inp stream he hm hb, hr]
    simp only []
    rw [cread_bits_byte inp s1 h1 hm1 hb1]
    cases cstream_refill inp s1 with
    | error e => rfl
    | ok s2 => rfl
  · intro k v s2 hk h
    refine ⟨lt_of_lt_of_le (cread_bits_lt inp stream s2 n v h)
      (Nat.pow_le_pow_right (by omega) hn), ?_⟩
    have hs := cread_bits_add inp stream k (n - k)
    rw [show k + (n - k) = n by omega, h] at hs
    cases h1 : ezimg_cread_bits inp stream k with
    | error e => rw [h1] at hs; simp at hs
    | ok q1 =>
      rw [h1] at hs
      simp only [] at hs
      cases h2 : ezimg_cread_bits inp q1.2 (n - k) with
      | error e => rw [h2] at hs; simp at hs
      | ok q2 =>
        rw [h2] at hs
        simp only [] at hs
        injection hs with hs
        injection hs with hv hs2
        have hlt := cread_bits_lt inp stream q1.2 k q1.1 h1
        refine ⟨q1.2, ?_, ?_⟩
        · rw [hv, Nat.add_mul_mod_self_left, Nat.mod_eq_of_lt hlt]
        · rw [h2, hv, hs2, Nat.add_mul_div_left _ _ (Nat.two_pow_pos k), Nat.div_eq_of_lt hlt,
            Nat.zero_add]

/-- Witness of C30 on the bytes B5 3C 07 with the stream at the start of the
first byte: 16 bits give 0x3CB5, the first 4 of them 5 and the other 12
0x3CB. -/
theorem C30_cread_bits_witness :
    ezimg_cread_bits [0xB5, 0x3C, 7] ⟨[0], [3], 1, 0, 1, 0xB5, 1, false⟩ 16
      = .ok (0x3CB5, ⟨[0], [3], 1, 0, 3, 7, 1, false⟩) ∧
    ∃ s1, ezimg_cread_bits [0xB5, 0x3C, 7] ⟨[0], [3], 1, 0, 1, 0xB5, 1, false⟩ 4
        = .ok (0x3CB5 % 2 ^ 4, s1) ∧
      ezimg_cread_bits [0xB5, 0x3C, 7] s1 (16 - 4)
        = .ok (0x3CB5 / 2 ^ 4, ⟨[0], [3], 1, 0, 3, 7, 1, false⟩) := by
  have h : ezimg_cread_bits [0xB5, 0x3C, 7] ⟨[0], [3], 1, 0, 1, 0xB5, 1, false⟩ 16
      = .ok (0x3CB5, ⟨[0], [3], 1, 0, 3, 7, 1, false⟩) := by decide
  exact ⟨h, ((C30_cread_bits [0xB5, 0x3C, 7] ⟨[0], [3], 1, 0, 1, 0xB5, 1, false⟩ 16
    (by decide)).2.2.2 4 _ _ (by decide) h).2⟩

/-! ## Claims C21 and C22: length and distance symbols -/

theorem cread_bits_zero (inp : List Nat) (s : ezimg_cstream) :
    ezimg_cread_bits inp s 0 = .ok (0, s) := rfl

theorem deflate_dist_eq (inp : List Nat) (stream : ezimg_cstream) (s : Nat) (hs : s ≤ 29) :
    ezimg_deflate_dist inp (s : Int) stream =
      match ezimg_cread_bits inp stream (distCommentBits.getD s 0) with
      | .ok (e, s') => .ok ((((distCommentRange.getD s (0, 0)).1 + e : Nat) : Int), s')
      | .error t => .error t := by
  interval_cases s <;>
    simp [ezimg_deflate_dist, ezimg_deflate_dist_table, distCommentBits, distCommentRange,
      distComment,
      cread_bits_zero, bind, Except.bind, pure, Except.pure]
  all_goals
    cases ezimg_cread_bits inp stream _ with
    | error e => rfl
    | ok q =>
      simp only [Except.ok.injEq, Prod.mk.injEq, and_true]
      omega

theorem deflate_dist_outside (inp : List Nat) (stream : ezimg_cstream) (code : Int)
    (h : code < 0 ∨ 29 < code) : ezimg_deflate_dist inp code stream = .ok (-1, stream) := by
  simp [ezimg_deflate_dist, h]

theorem dist_cover (d : Nat) :
    ∀ s, s ≤ 29 → 1 ≤ d → d ≤ (distCommentRange.getD s (0, 0)).2 →
      ∃ t, t ≤ s ∧ (distCommentRange.getD t (0, 0)).1 ≤ d ∧
        d ≤ (distCommentRange.getD t (0, 0)).2 := by
  have hc : ∀ s, s < 29 → (distCommentRange.getD (s + 1) (0, 0)).1
      = (distCommentRange.getD s (0, 0)).2 + 1 := by decide
  intro s
  induction s with
  | zero =>
    intro _ h1 h2
    exact ⟨0, le_refl _, by simpa [distCommentRange, distComment] using h1, h2⟩
  | succ s ih =>
    intro hs h1 h2
    by_cases h : d ≤ (distCommentRange.getD s (0, 0)).2
    · obtain ⟨t, ht, h3, h4⟩ := ih (by omega) h1 h
      exact ⟨t, by omega, h3, h4⟩
    · exact ⟨s + 1, le_refl _, by rw [hc s (by omega)]; omega, h2⟩

set_option maxRecDepth 100000 in
/-- C22: for every distance symbol `s` in 0..29 (the symbol of line `s` of the
comment table `distComment`), `ezimg_deflate_dist` reads the
number of extra bits the comment table lists (0 for the symbols 0-3,
`(s-2)/2` otherwise) and returns the first distance listed for `s` plus the
value read, which lies in the listed range `lo..hi = lo + 2^bits - 1`; the
listed ranges start at 1, each starts one after the end of the one before,
and the last ends at 32768, so they are pairwise disjoint and cover exactly
1..32768; every symbol outside 0..29 returns -1 and reads nothing. -/
theorem C22_distance_symbols (inp : List Nat) (stream : ezimg_cstream) :
    (∀ s : Nat, s ≤ 29 →
      (ezimg_deflate_dist inp (s : Int) stream =
        match ezimg_cread_bits inp stream (distCommentBits.getD s 0) with
        | .ok (e, s') => .ok ((((distCommentRange.getD s (0, 0)).1 + e : Nat) : Int), s')
        | .error t => .error t) ∧
      distCommentBits.getD s 0 = (if s < 4 then 0 else (s - 2) / 2) ∧
      (distCommentRange.getD s (0, 0)).2 + 1
        = (distCommentRange.getD s (0, 0)).1 + 2 ^ distCommentBits.getD s 0 ∧
      ∀ (r : Int) s', ezimg_deflate_dist inp (s : Int) stream = .ok (r, s') →
        ((distCommentRange.getD s (0, 0)).1 : Int) ≤ r ∧
        r ≤ ((distCommentRange.getD s (0, 0)).2 : Int) ∧ 1 ≤ r ∧ r ≤ 32768) ∧
    (∀ s, s ≤ 29 → (distComment.getD s (0, 0, 0, 0)).1 = s) ∧
    (distCommentRange.getD 0 (0, 0)).1 = 1 ∧
    (∀ s, s < 29 → (distCommentRange.getD (s + 1) (0, 0)).1
      = (distCommentRange.getD s (0, 0)).2 + 1) ∧
    (distCommentRange.getD 29 (0, 0)).2 = 32768 ∧
    (∀ s t, s < t → t ≤ 29 →
      (distCommentRange.getD s (0, 0)).2 < (distCommentRange.getD t (0, 0)).1) ∧
    (∀ d, 1 ≤ d → d ≤ 32768 → ∃ s, s ≤ 29 ∧ (distCommentRange.getD s (0, 0)).1 ≤ d ∧
      d ≤ (distCommentRange.getD s (0, 0)).2) ∧
    (∀ code : Int, code < 0 ∨ 29 < code →
      ezimg_deflate_dist inp code stream = .ok (-1, stream)) := by
  have hbits : ∀ s, s ≤ 29 →
      distCommentBits.getD s 0 = (if s < 4 then 0 else (s - 2) / 2) := by decide
  have hhi : ∀ s, s ≤ 29 → (distCommentRange.getD s (0, 0)).2 + 1
      = (distCommentRange.getD s (0, 0)).1 + 2 ^ distCommentBits.getD s 0 := by decide
  have hrange : ∀ s, s ≤ 29 → 1 ≤ (distCommentRange.getD s (0, 0)).1 ∧
      (distCommentRange.getD s (0, 0)).2 ≤ 32768 := by decide
  have hdis : ∀ t, t < 30 → ∀ s, s < t →
      (distCommentRange.getD s (0, 0)).2 < (distCommentRange.getD t (0, 0)).1 := by decide
  refine ⟨?_, by decide, rfl, by decide, rfl, fun s t hst ht => hdis t (by omega) s hst, ?_,
    deflate_dist_outside inp stream⟩
  · intro s hs
    refine ⟨deflate_dist_eq inp stream s hs, hbits s hs, hhi s hs, ?_⟩
    intro r s' h
    rw [deflate_dist_eq inp stream s hs] at h
    cases hq : ezimg_cread_bits inp stream (distCommentBits.getD s 0) with
    | error e => rw [hq] at h; simp at h
    | ok q =>
      rw [hq] at h
      simp only [] at h
      injection h with h
      injection h with h _
      have hlt := cread_bits_lt inp stream q.2 _ q.1 hq
      have h1 := hhi s hs
      have h2 := hrange s hs
      omega
  · intro d h1 h2
    obtain ⟨t, ht, h3, h4⟩ := dist_cover d 29 (le_refl _) h1 h2
    exact ⟨t, ht, h3, h4⟩

/-- Witness of C22: symbol 29 followed by thirteen 1 bits (bytes FF FF) gives
the distance 32768, the end of the last listed range. -/
theorem C22_distance_symbols_witness :
    ezimg_deflate_dist [0xFF, 0xFF] 29 ⟨[0], [2], 1, 0, 1, 0xFF, 1, false⟩
      = .ok (32768, ⟨[0], [2], 1, 0, 2, 0xFF, 32, false⟩) ∧
    ((distCommentRange.getD 29 (0, 0)).1 : Int) ≤ 32768 ∧
    (32768 : Int) ≤ ((distCommentRange.getD 29 (0, 0)).2 : Int) := by
  have h : ezimg_deflate_dist [0xFF, 0xFF] ((29 : Nat) : Int)
      ⟨[0], [2], 1, 0, 1, 0xFF, 1, false⟩
      = .ok (32768, ⟨[0], [2], 1, 0, 2, 0xFF, 32, false⟩) := by decide
  have := ((C22_distance_symbols [0xFF, 0xFF] ⟨[0], [2], 1, 0, 1, 0xFF, 1, false⟩).1 29
    (by decide)).2.2.2 _ _ h
  exact ⟨h, this.1, this.2.1⟩

/-! ## Claims C23 and C24: back-references -/

theorem emit_copy_ok (outp_end : Nat) (st : InflateState) (q : Nat)
    (h1 : st.outp < outp_end) (h2 : q < st.buff.length) (h3 : st.outp < st.buff.length) :
    EMIT outp_end st (fun st => do
        let b ← liftTrap (peek st.buff q)
        return (b, st))
      = .ok { st with buff := st.buff.set st.outp (byteAt st.buff q), outp := st.outp + 1 } := by
  simp only [EMIT, bind, Except.bind, pure, Except.pure, liftTrap]
  rw [if_neg (by omega), peek_eq _ _ h2]
  simp only []
  rw [poke_ok _ _ _ h3, mod_byteAt]

theorem backref_loop (outp_end : Nat) (st : InflateState) (n d : Nat) (hd : d ≤ st.outp)
    (hb : st.outp + n ≤ outp_end) (hl : outp_end ≤ st.buff.length) :
    ∃ buf', forRange n (fun _ (p : InflateState × Nat) => do
        let st ← EMIT outp_end p.1 (fun st => do
          let b ← liftTrap (peek st.buff p.2)
          return (b, st))
        return (st, p.2 + 1)) (st, st.outp - d)
        = .ok ({ st with buff := buf', outp := st.outp + n }, st.outp - d + n) ∧
      buf'.length = st.buff.length ∧
      (∀ i, i < st.outp ∨ st.outp + n ≤ i → buf'[i]? = st.buff[i]?) ∧
      (∀ k, k < n → byteAt buf' (st.outp + k) = byteAt buf' (st.outp + k - d)) := by
  obtain ⟨p, hp, b, hpe, hlen, hkeep, hper⟩ := forLoop_inv
    (fun _ (p : InflateState × Nat) =>
      (do
        let st ← EMIT outp_end p.1 (fun st => do
          let b ← liftTrap (peek st.buff p.2)
          return (b, st))
        return (st, p.2 + 1) : Except Halt (InflateState × Nat)))
    (fun j p => ∃ b, p = ({ st with buff := b, outp := st.outp + j }, st.outp - d + j) ∧
      b.length = st.buff.length ∧
      (∀ i, i < st.outp ∨ st.outp + j ≤ i → b[i]? = st.buff[i]?) ∧
      (∀ k, k < j → byteAt b (st.outp + k) = byteAt b (st.outp + k - d)))
    n 0 (st, st.outp - d) ⟨st.buff, rfl, rfl, fun _ _ => rfl, fun k hk => absurd hk (by omega)⟩ (by
      intro j p _ hj ⟨b, hpe, hlen, hkeep, hper⟩
      subst hpe
      simp only [Nat.zero_add] at hj
      simp only [bind, Except.bind, pure, Except.pure]
      have he := emit_copy_ok outp_end { st with buff := b, outp := st.outp + j }
        (st.outp - d + j) (by simp only []; omega) (by simp only []; omega)
        (by simp only []; omega)
      simp only [bind, Except.bind, pure, Except.pure] at he
      rw [he]
      refine ⟨_, rfl, _, rfl, by simp [hlen], ?_, ?_⟩
      · intro i hi
        rw [List.getElem?_set_ne (by omega)]
        exact hkeep i (by omega)
      · intro k hk
        rw [byteAt_set, byteAt_set]
        have hv := mod_byteAt b (st.outp - d + j)
        by_cases hkj : k = j
        · subst hkj
          rw [if_pos ⟨rfl, by omega⟩, hv]
          by_cases hd0 : d = 0
          · subst hd0
            have hlt : st.outp + k < b.length := by omega
            simp only [Nat.sub_zero] at hv ⊢
            simp [hv, hlt]
          · rw [if_neg (by omega)]
            congr 1
            omega
        · rw [if_neg (by omega), if_neg (by omega)]
          exact hper k (by omega))
  subst hpe
  refine ⟨b, ?_, hlen, ?_, ?_⟩
  · unfold forRange
    rw [hp]
    simp
  · intro i hi
    exact hkeep i (by simpa using hi)
  · intro k hk
    exact hper k (by omega)

theorem backref_eq (inp : List Nat) (dist_huff : ezimg_huff) (outp_end : Nat) (lit_len : Int)
    (st : InflateState) (len dist : Nat) (dsym : Int) (s1 s2 s3 : ezimg_cstream)
    (hlen : ezimg_deflate_len inp lit_len st.stream = .ok ((len : Int), s1))
    (hsym : ezimg_huff_decode inp dist_huff s1 = .ok (dsym, s2))
    (hds : 0 ≤ dsym)
    (hdist : ezimg_deflate_dist inp dsym s2 = .ok ((dist : Int), s3))
    (hl : 0 < len) :
    inflate_backref inp dist_huff outp_end lit_len st
      = if st.outp < dist then .error (Halt.reject st.buff)
        else
          match forRange len (fun _ (p : InflateState × Nat) => do
            let st ← EMIT outp_end p.1 (fun st => do
              let b ← liftTrap (peek st.buff p.2)
              return (b, st))
            return (st, p.2 + 1)) ({ st with stream := s3 }, st.outp - dist) with
          | .ok p => .ok p.1
          | .error e => .error e := by
  simp only [inflate_backref, bind, Except.bind, pure, Except.pure, liftTrap, hlen, hsym, hdist,
    throw, throwThe, MonadExceptOf.throw]
  rw [if_neg (by omega), if_neg (by omega)]
  by_cases hlt : st.outp < dist
  · rw [if_pos (by omega), if_pos hlt]
  · rw [if_neg (by omega), if_neg hlt]
    have e1 : ((st.outp : Int) - (dist : Int)).toNat = st.outp - dist := by omega
    rw [e1, Int.toNat_ofNat]
    generalize forRange len _ _ = r
    cases r with
    | error e => rfl
    | ok p => rfl

/-- Claim C23: a back-reference of length `len` and distance `dist` decoded at
output position `p = st.outp`, with `dist ≤ p` and `p + len` inside the output
bound, returns with the cursor at `p + len` and `out[p+k] = out[p+k-dist]` for
every `k < len` in the final buffer (so the copied region has period `dist`),
leaves every byte before `p` and from `p + len` on unchanged, and for
`dist = 1` writes `len` copies of the byte before `p`. -/
theorem C23_back_reference_copy (inp : List Nat) (dist_huff : ezimg_huff) (outp_end : Nat)
    (lit_len : Int) (st : InflateState) (len dist : Nat) (dsym : Int) (s1 s2 s3 : ezimg_cstream)
    (hlen : ezimg_deflate_len inp lit_len st.stream = .ok ((len : Int), s1))
    (hsym : ezimg_huff_decode inp dist_huff s1 = .ok (dsym, s2))
    (hds : 0 ≤ dsym)
    (hdist : ezimg_deflate_dist inp dsym s2 = .ok ((dist : Int), s3))
    (hl : 0 < len) (hd : dist ≤ st.outp) (hb : st.outp + len ≤ outp_end)
    (he : outp_end ≤ st.buff.length) :
    ∃ out, inflate_backref inp dist_huff outp_end lit_len st
        = .ok { stream := s3, buff := out, outp := st.outp + len } ∧
      out.length = st.buff.length ∧
      (∀ k, k < len → byteAt out (st.outp + k) = byteAt out (st.outp + k - dist)) ∧
      (∀ k, k + dist < len → byteAt out (st.outp + k + dist) = byteAt out (st.outp + k)) ∧
      (∀ i, i < st.outp ∨ st.outp + len ≤ i → out[i]? = st.buff[i]?) ∧
      (dist = 1 → ∀ k, k < len → byteAt out (st.outp + k) = byteAt st.buff (st.outp - 1)) := by
  obtain ⟨out, hrun, hlen2, hkeep, hper⟩ :=
    backref_loop outp_end { st with stream := s3 } len dist hd hb he
  refine ⟨out, ?_, hlen2, hper, ?_, hkeep, ?_⟩
  · rw [backref_eq inp dist_huff outp_end lit_len st len dist dsym s1 s2 s3 hlen hsym hds hdist hl,
      if_neg (by omega)]
    simp only [] at hrun
    rw [hrun]
  · intro k hk
    have h := hper (k + dist) hk
    simp only [] at h
    rw [← Nat.add_assoc] at h
    rw [h]
    congr 1
    omega
  · intro h1 k hk
    subst h1
    induction k with
    | zero =>
      have h := hper 0 hk
      simp only [] at h hkeep
      rw [h]
      have hg := hkeep (st.outp - 1) (Or.inl (by omega))
      simp only [byteAt, Nat.add_zero, List.getD_eq_getElem?_getD, hg]
    | succ k ih =>
      have h := hper (k + 1) hk
      simp only [] at h
      rw [h, ← ih (by omega)]
      congr 1

set_option maxRecDepth 100000 in
/-- Witness of C23: after the byte 7, the length symbol 257 (length 3) and the
distance code 00000 (distance 1) of the fixed table write three more bytes 7. -/
theorem C23_back_reference_copy_witness :
    ∃ out, inflate_backref [0] ⟨5, 32, (List.range 32).map (fun i => ⟨i, 5⟩)
          ++ List.replicate 258 ⟨0, 0⟩⟩ 4 257
        ⟨⟨[0], [1], 1, 0, 1, 0, 1, false⟩, [7, 0, 0, 0, 9], 1⟩
        = .ok { stream := ⟨[0], [1], 1, 0, 1, 0, 32, false⟩, buff := out, outp := 1 + 3 } ∧
      out.length = 5 ∧
      (∀ k, k < 3 → byteAt out (1 + k) = byteAt out (1 + k - 1)) ∧
      (∀ k, k + 1 < 3 → byteAt out (1 + k + 1) = byteAt out (1 + k)) ∧
      (∀ i, i < 1 ∨ 1 + 3 ≤ i → out[i]? = [7, 0, 0, 0, 9][i]?) ∧
      (1 = 1 → ∀ k, k < 3 → byteAt out (1 + k) = byteAt [7, 0, 0, 0, 9] (1 - 1)) :=
  C23_back_reference_copy [0] ⟨5, 32, (List.range 32).map (fun i => ⟨i, 5⟩)
      ++ List.replicate 258 ⟨0, 0⟩⟩ 4 257
    ⟨⟨[0], [1], 1, 0, 1, 0, 1, false⟩, [7, 0, 0, 0, 9], 1⟩ 3 1 0
    ⟨[0], [1], 1, 0, 1, 0, 1, false⟩ ⟨[0], [1], 1, 0, 1, 0, 32, false⟩
    ⟨[0], [1], 1, 0, 1, 0, 32, false⟩ (by decide) (by decide) (by decide) (by decide)
    (by decide) (by decide) (by decide) (by decide)

/-! ## Claim C25: `ezimg_compute_htable` -/

theorem set_append_cons (l1 l2 : List Nat) (a b : Nat) :
    (l1 ++ a :: l2).set l1.length b = l1 ++ b :: l2 := by
  induction l1 with
  | nil => rfl
  | cons x l1 ih => simp [ih]

theorem htable_zero (htable : List Nat) :
    forRange htable.length (fun i htable => aset htable i 0) htable
      = .ok (List.replicate htable.length 0) := by
  obtain ⟨h, hr, hinv⟩ := forLoop_inv (fun i (h : List Nat) => aset h i 0)
    (fun j h => j ≤ htable.length → h = List.replicate j 0 ++ htable.drop j)
    htable.length 0 htable (by intro _; simp) (by
      intro j h _ hj hinv
      simp only [Nat.zero_add] at hj
      have hh := hinv (by omega)
      have hlen : h.length = htable.length := by
        rw [hh, List.length_append, List.length_replicate, List.length_drop]
        omega
      refine ⟨_, aset_ok h j 0 (by omega) (by omega), ?_⟩
      intro _
      rw [hh, List.drop_eq_getElem_cons hj]
      have e := set_append_cons (List.replicate j 0) (htable.drop (j + 1)) htable[j] 0
      rw [List.length_replicate] at e
      rw [e, List.replicate_succ', List.append_assoc]
      rfl)
  unfold forRange
  rw [hr, hinv (by omega)]
  simp

theorem htable_fill (B : Nat → List Nat × Nat → Except Trap (List Nat × Nat))
    (acc : List Nat) (m n v : Nat) (hn : n ≤ m)
    (hB : ∀ j p, B j p = match aset p.1 p.2 v with
      | .ok h => .ok (h, p.2 + 1)
      | .error e => .error e) :
    forRange n B (acc ++ List.replicate m 0, acc.length)
      = .ok (acc ++ List.replicate n (u32 v) ++ List.replicate (m - n) 0, acc.length + n) := by
  obtain ⟨p, hr, hinv⟩ := forLoop_inv B
    (fun j p => j ≤ n →
      p = (acc ++ List.replicate j (u32 v) ++ List.replicate (m - j) 0, acc.length + j))
    n 0 (acc ++ List.replicate m 0, acc.length) (by intro _; simp) (by
      intro j p _ hj hinv
      simp only [Nat.zero_add] at hj
      have hp := hinv (by omega)
      subst hp
      rw [hB, aset_ok_u32 _ _ _ (by simp; omega)]
      refine ⟨_, rfl, ?_⟩
      intro _
      have e1 : List.replicate (m - j) 0 = 0 :: List.replicate (m - (j + 1)) 0 := by
        rw [show m - j = (m - (j + 1)) + 1 by omega, List.replicate_succ]
      have e2 := set_append_cons (acc ++ List.replicate j (u32 v))
        (List.replicate (m - (j + 1)) 0) 0 (u32 v)
      rw [List.length_append, List.length_replicate] at e2
      rw [e1, e2, List.replicate_succ']
      simp [Nat.add_assoc])
  unfold forRange
  rw [hr, hinv (by omega)]
  simp

theorem clenRun_pos (acc : List Nat) (sym extra : Nat) : 1 ≤ (clenRun acc sym extra).length := by
  unfold clenRun
  split
  · simp
  · split
    · simp; omega
    · split <;> (simp; omega)

theorem clenExpand_length (syms : List (Nat × Nat)) :
    ∀ acc, acc.length + syms.length ≤ (clenExpand syms acc).length := by
  induction syms with
  | nil => intro acc; simp [clenExpand]
  | cons a rest ih =>
    intro acc
    obtain ⟨sym, extra⟩ := a
    have h1 := ih (acc ++ clenRun acc sym extra)
    have h2 := clenRun_pos acc sym extra
    rw [List.length_append] at h1
    simp only [clenExpand, List.length_cons]
    omega

theorem clenRun_lt (acc : List Nat) (sym extra : Nat) (hs : sym ≤ 18)
    (hacc : ∀ x ∈ acc, x < 4294967296) : ∀ x ∈ clenRun acc sym extra, x < 4294967296 := by
  intro x hx
  unfold clenRun at hx
  split at hx
  · simp at hx; omega
  · split at hx
    · rw [List.mem_replicate] at hx
      rw [hx.2, List.getD_eq_getElem?_getD]
      cases hg : acc[acc.length - 1]? with
      | none => simp
      | some y => exact hacc y (List.getElem?_mem hg)
    · split at hx <;> (rw [List.mem_replicate] at hx; omega)

theorem compute_htable_loop_spec (inp : List Nat) (huff : ezimg_huff) (hcount hmax : Nat)
    (hle : hcount ≤ hmax) :
    ∀ (syms : List (Nat × Nat)) (fuel : Nat) (acc : List Nat) (s s' : ezimg_cstream),
      syms.length ≤ fuel → (∀ x ∈ acc, x < 4294967296) →
      (acc = [] → ∀ e rest, syms ≠ (16, e) :: rest) →
      clenReads inp huff syms s = some s' →
      (clenExpand syms acc).length = hcount →
      ∃ st, compute_htable_loop inp huff hcount fuel
          ⟨s, acc ++ List.replicate (hmax - acc.length) 0, acc.length⟩ = .ok (some st) ∧
        st.stream = s' ∧ st.i = hcount ∧
        st.htable = clenExpand syms acc ++ List.replicate (hmax - hcount) 0 := by
  intro syms
  induction syms with
  | nil =>
    intro fuel acc s s' _ _ _ hr ht
    simp only [clenReads] at hr
    injection hr with hr
    subst hr
    simp only [clenExpand] at ht
    refine ⟨⟨s, acc ++ List.replicate (hmax - acc.length) 0, acc.length⟩, ?_, rfl, ht, ?_⟩
    · cases fuel with
      | zero => simp [compute_htable_loop, ht]
      | succ fuel => simp [compute_htable_loop, ht]
    · simp only [clenExpand, ht]
  | cons a rest ih =>
    intro fuel acc s s' hf hacc h16 hr ht
    obtain ⟨sym, extra⟩ := a
    cases fuel with
    | zero => simp at hf
    | succ fuel =>
      simp only [clenReads] at hr
      cases hd : ezimg_huff_decode inp huff s with
      | error e => rw [hd] at hr; simp at hr
      | ok q =>
        obtain ⟨v, s1⟩ := q
        rw [hd] at hr
        simp only [] at hr
        by_cases hv : v = (sym : Int) ∧ sym ≤ 18
        · rw [if_pos hv] at hr
          obtain ⟨hv, hs⟩ := hv
          subst hv
          cases hb : ezimg_cread_bits inp s1 (clenExtraBits sym) with
          | error e => rw [hb] at hr; simp at hr
          | ok q2 =>
            obtain ⟨n, s2⟩ := q2
            rw [hb] at hr
            simp only [] at hr
            by_cases hn : n = extra
            · rw [if_pos hn] at hr
              subst hn
              simp only [clenExpand] at ht
              have hrl := clenRun_pos acc sym n
              have hlen := clenExpand_length rest (acc ++ clenRun acc sym n)
              rw [List.length_append] at hlen
              have hi : acc.length < hcount := by omega
              have hfit : (clenRun acc sym n).length ≤ hmax - acc.length := by omega
              have hnext := ih fuel (acc ++ clenRun acc sym n) s2 s' (by simpa using hf)
                (by
                  intro x hx
                  rcases List.mem_append.mp hx with hx | hx
                  · exact hacc x hx
                  · exact clenRun_lt acc sym n hs hacc x hx)
                (by
                  intro he
                  exfalso
                  have := congrArg List.length he
                  rw [List.length_append, List.length_nil] at this
                  omega)
                hr ht
              have hrest : hmax - (acc ++ clenRun acc sym n).length
                  = hmax - acc.length - (clenRun acc sym n).length := by
                rw [List.length_append]; omega
              have hl2 : (acc ++ clenRun acc sym n).length
                  = acc.length + (clenRun acc sym n).length := List.length_append _ _
              rw [hrest, hl2] at hnext
              have finish : ∀ cnt val, clenRun acc sym n = List.replicate cnt val →
                  val < 4294967296 →
                  (∀ (B : Nat → List Nat × Nat → Except Trap (List Nat × Nat)),
                    (∀ j p, B j p = match aset p.1 p.2 val with
                      | .ok h => .ok (h, p.2 + 1)
                      | .error e => .error e) →
                    forRange cnt B (acc ++ List.replicate (hmax - acc.length) 0, acc.length)
                      = .ok (acc ++ clenRun acc sym n ++ List.replicate
                          (hmax - acc.length - (clenRun acc sym n).length) 0,
                        acc.length + (clenRun acc sym n).length)) := by
                intro cnt val hrun hval B hB
                rw [hrun, List.length_replicate] at hfit ⊢
                rw [htable_fill B acc (hmax - acc.length) cnt val hfit hB, u32_eq val hval]
              simp only [clenExpand]
              have h18 : ¬ ((sym : Int) < 0 ∨ (sym : Int) > 18) := by omega
              rw [compute_htable_loop, if_pos hi]
              simp only [bind, Except.bind, pure, Except.pure, hd, h18, if_false]
              by_cases h15 : sym ≤ 15
              · have e15 : (sym : Int) ≤ 15 := by omega
                have hn0 : s2 = s1 := by
                  simp only [clenExtraBits, h15, if_true, cread_bits_zero] at hb
                  injection hb with hb
                  injection hb with _ hb
                  exact hb.symm
                subst hn0
                simp only [e15, if_true, Int.toNat_ofNat]
                rw [finish 1 sym (by unfold clenRun; rw [if_pos h15]; rfl) (by omega) _
                  (fun j p => by cases aset p.1 p.2 sym <;> rfl)]
                exact hnext
              · have e15 : ¬ (sym : Int) ≤ 15 := by omega
                simp only [e15, if_false]
                simp only [clenExtraBits, if_neg h15] at hb
                by_cases hs16 : sym = 16
                · subst hs16
                  have hne : acc ≠ [] := fun he => h16 he n rest rfl
                  have hpos : 0 < acc.length := List.length_pos.mpr hne
                  have hget : aget (acc ++ List.replicate (hmax - acc.length) 0) (acc.length - 1)
                      = .ok (acc.getD (acc.length - 1) 0) := by
                    apply aget_ok
                    rw [List.getElem?_append_left (by omega)]
                    exact getD_get acc _ (by omega)
                  simp only [if_true] at hb
                  simp only [Nat.cast_ofNat, if_true, if_neg (by omega : ¬ acc.length = 0),
                    hget, hb]
                  have hprev : acc.getD (acc.length - 1) 0 < 4294967296 := by
                    rw [List.getD_eq_getElem?_getD]
                    cases hg : acc[acc.length - 1]? with
                    | none => simp
                    | some y => exact hacc y (List.getElem?_mem hg)
                  rw [finish (3 + n) _ (by unfold clenRun; rw [if_neg (by omega), if_pos rfl])
                    hprev _ (fun j p => by
                      cases aset p.1 p.2 (acc.getD (acc.length - 1) 0) <;> rfl)]
                  exact hnext
                · have e16 : ¬ (sym : Int) = 16 := by omega
                  simp only [if_neg hs16] at hb
                  by_cases hs17 : sym = 17
                  · subst hs17
                    simp only [if_true] at hb
                    simp only [Nat.cast_ofNat, (by decide : ¬ ((17 : Int) = 16)), if_false,
                      if_true, hb]
                    rw [finish (3 + n) 0
                      (by unfold clenRun; rw [if_neg (by omega), if_neg (by omega), if_pos rfl])
                      (by omega) _ (fun j p => by cases aset p.1 p.2 0 <;> rfl)]
                    exact hnext
                  · have hs18 : sym = 18 := by omega
                    simp only [if_neg hs17] at hb
                    subst hs18
                    simp only [Nat.cast_ofNat, (by decide : ¬ ((18 : Int) = 16)),
                      (by decide : ¬ ((18 : Int) = 17)), if_false, if_true, hb]
                    rw [finish (11 + n) 0
                      (by unfold clenRun
                          rw [if_neg (by omega), if_neg (by omega), if_neg (by omega)])
                      (by omega) _ (fun j p => by cases aset p.1 p.2 0 <;> rfl)]
                    exact hnext
            · rw [if_neg hn] at hr
              simp at hr
        · rw [if_neg hv] at hr
          simp at hr

theorem compute_htable_first_16 (inp : List Nat) (cs s1 : ezimg_cstream) (clen_huff : ezimg_huff)
    (htable : List Nat) (hcount : Nat) (hc : 0 < hcount)
    (hd : ezimg_huff_decode inp clen_huff cs = .ok (16, s1)) :
    ezimg_compute_htable inp cs clen_huff htable hcount htable.length = .ok none := by
  obtain ⟨fuel, hf⟩ : ∃ fuel, hcount = fuel + 1 := ⟨hcount - 1, by omega⟩
  simp only [ezimg_compute_htable, bind, Except.bind, pure, Except.pure, htable_zero]
  rw [hf, compute_htable_loop, if_pos (by simp only []; omega)]
  simp [bind, Except.bind, pure, Except.pure, hd]

/-- Claim C25: let the stream spell the code-length symbols `syms` (each decoded
with `clen_huff` and followed by its extra bits), the first of them not 16, and
let their expansion have exactly `hcount ≤ hmax` entries.  Then
`ezimg_compute_htable` succeeds with the stream after the symbols, the first
`hcount` entries of the table equal to the expansion (a symbol 0..15 once, 16 as
3 + 2 bits copies of the previous entry, 17 as 3 + 3 bits zeros, 18 as
11 + 7 bits zeros) and the entries from `hcount` to `hmax` zero.  On any stream
whose first symbol is 16 the function returns 0 when `hcount > 0`. -/
theorem C25_code_length_expansion (inp : List Nat) (cs cs' : ezimg_cstream)
    (clen_huff : ezimg_huff) (htable : List Nat) (hcount hmax : Nat) (syms : List (Nat × Nat))
    (hlen : htable.length = hmax) (hle : hcount ≤ hmax)
    (hreads : clenReads inp clen_huff syms cs = some cs')
    (hfirst : (syms.headD (0, 0)).1 ≠ 16)
    (htot : (clenExpand syms []).length = hcount) :
    ezimg_compute_htable inp cs clen_huff htable hcount hmax
        = .ok (some (clenExpand syms [] ++ List.replicate (hmax - hcount) 0, cs')) ∧
      (∀ i, i < hcount →
        (clenExpand syms [] ++ List.replicate (hmax - hcount) 0)[i]? = (clenExpand syms [])[i]?) ∧
      (∀ i, hcount ≤ i → i < hmax →
        (clenExpand syms [] ++ List.replicate (hmax - hcount) 0)[i]? = some 0) ∧
      (∀ cs2 s1, 0 < hcount → ezimg_huff_decode inp clen_huff cs2 = .ok (16, s1) →
        ezimg_compute_htable inp cs2 clen_huff htable hcount hmax = .ok none) := by
  refine ⟨?_, ?_, ?_, ?_⟩
  · obtain ⟨st, hrun, h1, h2, h3⟩ := compute_htable_loop_spec inp clen_huff hcount hmax hle
      syms hcount [] cs cs' (by
        have := clenExpand_length syms []
        simp only [List.length_nil, Nat.zero_add] at this
        omega) (by simp) (fun _ e rest he => by rw [he] at hfirst; exact hfirst rfl) hreads htot
    simp only [List.nil_append, List.length_nil, Nat.sub_zero] at hrun
    subst hlen
    simp only [ezimg_compute_htable, bind, Except.bind, pure, Except.pure, htable_zero, hrun]
    rw [if_neg (by simp [h2])]
    rw [← h1, ← h3]
  · intro i hi
    rw [List.getElem?_append_left (by omega)]
  · intro i h1 h2
    rw [List.getElem?_append_right (by omega), List.getElem?_replicate, if_pos (by omega)]
  · intro cs2 s1 hc hd
    subst hlen
    exact compute_htable_first_16 inp cs2 s1 clen_huff htable hcount hc hd

set_option maxRecDepth 100000 in
/-- Witness of C25: with the codes 00, 01, 10, 11 of the symbols 5, 16, 17, 18
the bytes `58 18 00` spell 5, 16 (extra bits 1), 17 (extra bits 0) and 18
(extra bits 0), whose expansion is 5, four more 5 and fourteen zeros: 19
entries of a table of 32.  Started two bits later the stream begins with the
symbol 16 and is rejected. -/
theorem C25_code_length_expansion_witness :
    ezimg_compute_huff [0, 0, 0, 0, 0, 2, 0, 0, 0, 0, 0, 0, 0, 0, 0, 0, 2, 2, 2, 0] 20 huff_zero
      = .ok (some clen_huff_5_16_17_18) ∧
    clenExpand [(5, 0), (16, 1), (17, 0), (18, 0)] []
      = [5, 5, 5, 5, 5, 0, 0, 0, 0, 0, 0, 0, 0, 0, 0, 0, 0, 0, 0] ∧
    ezimg_compute_htable [88, 24, 0, 0] ⟨[0], [4], 1, 0, 1, 88, 1, false⟩ clen_huff_5_16_17_18
        (List.replicate 32 9) 19 32
      = .ok (some ([5, 5, 5, 5, 5] ++ List.replicate 27 0, ⟨[0], [4], 1, 0, 3, 0, 16, false⟩)) ∧
    ezimg_compute_htable [88, 24, 0, 0] ⟨[0], [4], 1, 0, 1, 88, 4, false⟩ clen_huff_5_16_17_18
        (List.replicate 32 9) 19 32 = .ok none := by
  have h := C25_code_length_expansion [88, 24, 0, 0] ⟨[0], [4], 1, 0, 1, 88, 1, false⟩
    ⟨[0], [4], 1, 0, 3, 0, 16, false⟩ clen_huff_5_16_17_18 (List.replicate 32 9) 19 32
    [(5, 0), (16, 1), (17, 0), (18, 0)] (by decide) (by decide) (by decide) (by decide)
    (by decide)
  refine ⟨by decide, by decide, ?_, ?_⟩
  · rw [h.1]
    decide
  · exact h.2.2.2 ⟨[0], [4], 1, 0, 1, 88, 4, false⟩ ⟨[0], [4], 1, 0, 1, 88, 16, false⟩
      (by decide) (by decide)

/-! ## Claim C24: a back-reference before the start of the output -/

theorem inflate_symbols_succ (inp : List Nat) (lit dist : ezimg_huff) (outp_end fuel : Nat)
    (st : InflateState) :
    inflate_symbols inp lit dist outp_end (fuel + 1) st =
      match inflate_symbol_step inp lit dist outp_end st with
      | .ok (true, st1) => inflate_symbols inp lit dist outp_end fuel st1
      | .ok (false, st1) => .ok st1
      | .error e => .error e := by
  rw [inflate_symbols]
  simp only [inflate_symbol_step, bind, Except.bind, pure, Except.pure, liftTrap]
  cases hd : ezimg_huff_decode inp lit st.stream with
  | error e => rfl
  | ok q =>
    obtain ⟨lit_len, s1⟩ := q
    simp only []
    by_cases h256 : lit_len = 256
    · rw [if_pos h256, if_pos h256]
    · rw [if_neg h256, if_neg h256]
      by_cases hneg : lit_len < 0
      · rw [if_pos hneg, if_pos hneg]
        try rfl
      · rw [if_neg hneg, if_neg hneg]
        by_cases hlit : lit_len < 256
        · rw [if_pos hlit, if_pos hlit]
          cases EMIT outp_end { st with stream := s1 } (fun st => .ok (lit_len.toNat, st)) with
          | error e => rfl
          | ok st1 => rfl
        · rw [if_neg hlit, if_neg hlit]
          cases inflate_backref inp dist outp_end lit_len { st with stream := s1 } with
          | error e => rfl
          | ok st1 => rfl

theorem EMIT_ok (outp_end : Nat) (st st' : InflateState)
    (b : InflateState → Except Halt (Nat × InflateState))
    (h : EMIT outp_end st b = .ok st') :
    ∃ v s, b st = .ok (v, s) ∧ st.outp < outp_end ∧ st'.stream = s.stream ∧
      st'.buff.length = s.buff.length ∧ st'.outp = s.outp + 1 ∧
      ∀ i, i ≠ s.outp → st'.buff[i]? = s.buff[i]? := by
  unfold EMIT at h
  by_cases hge : st.outp ≥ outp_end
  · rw [if_pos hge] at h
    simp at h
  · rw [if_neg hge] at h
    cases hb : b st with
    | error e => rw [hb] at h; simp at h
    | ok q =>
      obtain ⟨v, s⟩ := q
      rw [hb] at h
      simp only [] at h
      cases hp : poke s.buff s.outp v with
      | error e => rw [hp] at h; simp at h
      | ok buff =>
        rw [hp] at h
        simp only [] at h
        injection h with h
        subst h
        obtain ⟨_, hset⟩ := poke_of_ok _ _ _ _ hp
        subst hset
        refine ⟨v, s, rfl, by omega, rfl, by simp, rfl, ?_⟩
        intro i hi
        rw [List.getElem?_set_ne (fun hh => hi hh.symm)]

theorem inflate_backref_ok (inp : List Nat) (dist_huff : ezimg_huff) (outp_end : Nat)
    (lit_len : Int) (st st' : InflateState)
    (h : inflate_backref inp dist_huff outp_end lit_len st = .ok st') :
    st'.buff.length = st.buff.length ∧ st.outp < st'.outp ∧ st'.outp ≤ outp_end ∧
      ∀ i, i < st.outp → st'.buff[i]? = st.buff[i]? := by
  simp only [inflate_backref, bind, Except.bind, pure, Except.pure, liftTrap] at h
  cases h1 : ezimg_deflate_len inp lit_len st.stream with
  | error e => rw [h1] at h; simp at h
  | ok q1 =>
    obtain ⟨len, s1⟩ := q1
    rw [h1] at h
    simp only [] at h
    cases h2 : ezimg_huff_decode inp dist_huff s1 with
    | error e => rw [h2] at h; simp at h
    | ok q2 =>
      obtain ⟨dsym, s2⟩ := q2
      rw [h2] at h
      simp only [] at h
      by_cases hneg : dsym < 0
      · rw [if_pos hneg] at h
        simp [throw, throwThe, MonadExceptOf.throw] at h
      · rw [if_neg hneg] at h
        cases h3 : ezimg_deflate_dist inp dsym s2 with
        | error e => rw [h3] at h; simp at h
        | ok q3 =>
          obtain ⟨dist, s3⟩ := q3
          rw [h3] at h
          simp only [] at h
          by_cases hbad : dist < 0 ∨ len ≤ 0
          · rw [if_pos hbad] at h
            simp [throw, throwThe, MonadExceptOf.throw] at h
          · rw [if_neg hbad] at h
            by_cases hback : (st.outp : Int) - dist < 0
            · rw [if_pos hback] at h
              simp [throw, throwThe, MonadExceptOf.throw] at h
            · rw [if_neg hback] at h
              generalize hr : forRange len.toNat _ _ = r at h
              cases r with
              | error e => simp at h
              | ok p =>
                simp only [] at h
                injection h with h
                have hinv := forLoop_ok_inv _
                  (fun j (p : InflateState × Nat) =>
                    p.1.buff.length = st.buff.length ∧ p.1.outp = st.outp + j ∧
                    (0 < j → p.1.outp ≤ outp_end) ∧
                    ∀ i, i < st.outp → p.1.buff[i]? = st.buff[i]?)
                  len.toNat 0 _ p ⟨rfl, rfl, fun hj => absurd hj (by omega), fun _ _ => rfl⟩ (by
                    intro j p p1 _ _ ⟨g1, g2, g3, g4⟩ hb
                    split at hb
                    · simp at hb
                    · rename_i st1 he
                      injection hb with hb
                      subst hb
                      obtain ⟨v, s, hbs, e1, e2, e3, e4, e5⟩ := EMIT_ok _ _ _ _ he
                      have hs : s = p.1 := by
                        split at hbs
                        · simp at hbs
                        · injection hbs with hbs
                          injection hbs with _ hbs
                          exact hbs.symm
                      subst hs
                      refine ⟨by simp only []; rw [e3, g1], by simp only []; rw [e4, g2]; omega,
                        fun _ => by simp only []; omega, ?_⟩
                      intro i hi
                      simp only []
                      rw [e5 i (by omega)]
                      exact g4 i hi) hr
                obtain ⟨g1, g2, g3, g4⟩ := hinv
                rw [Nat.zero_add] at g2 g3
                subst h
                have hl : 0 < len.toNat := by omega
                exact ⟨g1, by omega, g3 hl, g4⟩

theorem inflate_symbol_step_ok (inp : List Nat) (lit dist : ezimg_huff) (outp_end : Nat)
    (st st' : InflateState) (c : Bool)
    (h : inflate_symbol_step inp lit dist outp_end st = .ok (c, st')) :
    st'.buff.length = st.buff.length ∧
      (c = true → st.outp < st'.outp ∧ st'.outp ≤ outp_end) ∧
      (c = false → st'.buff = st.buff ∧ st'.outp = st.outp) ∧
      ∀ i, i < st.outp → st'.buff[i]? = st.buff[i]? := by
  simp only [inflate_symbol_step, bind, Except.bind, pure, Except.pure, liftTrap] at h
  cases hd : ezimg_huff_decode inp lit st.stream with
  | error e => rw [hd] at h; simp at h
  | ok q =>
    obtain ⟨lit_len, s1⟩ := q
    rw [hd] at h
    simp only [] at h
    by_cases h256 : lit_len = 256
    · rw [if_pos h256] at h
      injection h with h
      injection h with hc hs
      subst hc
      subst hs
      exact ⟨rfl, fun hh => by simp at hh, fun _ => ⟨rfl, rfl⟩, fun _ _ => rfl⟩
    · rw [if_neg h256] at h
      by_cases hneg : lit_len < 0
      · rw [if_pos hneg] at h
        simp [throw, throwThe, MonadExceptOf.throw] at h
      · rw [if_neg hneg] at h
        by_cases hlit : lit_len < 256
        · rw [if_pos hlit] at h
          cases he : EMIT outp_end { st with stream := s1 }
              (fun st => .ok (lit_len.toNat, st)) with
          | error e => rw [he] at h; simp at h
          | ok st1 =>
            rw [he] at h
            simp only [] at h
            injection h with h
            injection h with hc hs
            subst hc
            subst hs
            obtain ⟨v, s, hbs, e1, e2, e3, e4, e5⟩ := EMIT_ok _ _ _ _ he
            injection hbs with hbs
            injection hbs with _ hbs
            subst hbs
            try simp only [] at e1 e3 e4 e5
            refine ⟨e3, fun _ => ⟨by omega, by omega⟩, fun hh => by simp at hh, ?_⟩
            intro i hi
            exact e5 i (by omega)
        · rw [if_neg hlit] at h
          cases hb : inflate_backref inp dist outp_end lit_len { st with stream := s1 } with
          | error e => rw [hb] at h; simp at h
          | ok st1 =>
            rw [hb] at h
            simp only [] at h
            injection h with h
            injection h with hc hs
            subst hc
            subst hs
            obtain ⟨g1, g2, g3, g4⟩ := inflate_backref_ok _ _ _ _ _ _ hb
            exact ⟨g1, fun _ => ⟨g2, g3⟩, fun hh => by simp at hh, g4⟩

theorem inflate_symbols_ok (inp : List Nat) (lit dist : ezimg_huff) (outp_end : Nat) :
    ∀ (fuel : Nat) (st st' : InflateState),
      inflate_symbols inp lit dist outp_end fuel st = .ok st' →
      st'.buff.length = st.buff.length ∧ st.outp ≤ st'.outp ∧
        (∀ i, i < st.outp → st'.buff[i]? = st.buff[i]?) := by
  intro fuel
  induction fuel with
  | zero =>
    intro st st' h
    simp [inflate_symbols] at h
  | succ fuel ih =>
    intro st st' h
    rw [inflate_symbols_succ] at h
    cases hs : inflate_symbol_step inp lit dist outp_end st with
    | error e => rw [hs] at h; simp at h
    | ok q =>
      obtain ⟨c, st1⟩ := q
      rw [hs] at h
      obtain ⟨g1, g2, g3, g4⟩ := inflate_symbol_step_ok _ _ _ _ _ _ _ hs
      cases c with
      | true =>
        simp only [] at h
        obtain ⟨k1, k2, k3⟩ := ih st1 st' h
        have := (g2 rfl).1
        refine ⟨by rw [k1, g1], by omega, ?_⟩
        intro i hi
        rw [k3 i (by omega), g4 i hi]
      | false =>
        simp only [] at h
        injection h with h
        subst h
        exact ⟨g1, by rw [(g3 rfl).2], g4⟩

theorem inflate_symbols_after_ok (inp : List Nat) (lit dist : ezimg_huff) (outp_end : Nat) :
    ∀ (k : Nat) (st st' : InflateState),
      inflate_symbols_after inp lit dist outp_end k st = .ok (true, st') →
      st'.buff.length = st.buff.length ∧ st.outp + k ≤ st'.outp ∧
        (0 < k → st'.outp ≤ outp_end) ∧
        ∀ fuel, inflate_symbols inp lit dist outp_end (k + fuel) st
          = inflate_symbols inp lit dist outp_end fuel st' := by
  intro k
  induction k with
  | zero =>
    intro st st' h
    simp only [inflate_symbols_after] at h
    injection h with h
    injection h with _ h
    subst h
    exact ⟨rfl, by omega, fun hh => absurd hh (by omega), fun fuel => by rw [Nat.zero_add]⟩
  | succ k ih =>
    intro st st' h
    simp only [inflate_symbols_after] at h
    cases hs : inflate_symbol_step inp lit dist outp_end st with
    | error e => rw [hs] at h; simp at h
    | ok q =>
      obtain ⟨c, st1⟩ := q
      rw [hs] at h
      cases c with
      | false => simp at h
      | true =>
        simp only [] at h
        obtain ⟨g1, g2, _, _⟩ := inflate_symbol_step_ok _ _ _ _ _ _ _ hs
        obtain ⟨k1, k2, k3, k4⟩ := ih st1 st' h
        have := g2 rfl
        refine ⟨by rw [k1, g1], by omega, fun _ => ?_, ?_⟩
        · by_cases hk : 0 < k
          · exact k3 hk
          · have hk0 : k = 0 := by omega
            subst hk0
            simp only [inflate_symbols_after] at h
            injection h with h
            injection h with _ h
            subst h
            omega
        · intro fuel
          rw [show k + 1 + fuel = (k + fuel) + 1 by omega, inflate_symbols_succ, hs]
          exact k4 fuel

theorem bind_ok_eq {ε α β : Type} (a : α) (f : α → Except ε β) :
    (Except.ok a >>= f) = f a := rfl

theorem bind_error_eq {ε α β : Type} (e : ε) (f : α → Except ε β) :
    ((Except.error e : Except ε α) >>= f) = Except.error e := rfl

theorem inflate_blocks_succ (inp : List Nat) (outp_end fuel : Nat) (st : InflateState) :
    inflate_blocks inp outp_end (fuel + 1) st =
      match inflate_block_step inp outp_end st with
      | .ok (true, st1) => .ok st1
      | .ok (false, st1) => inflate_blocks inp outp_end fuel st1
      | .error e => .error e := by
  rw [inflate_blocks]
  unfold inflate_block_step
  generalize inflate_fixed_tables = F
  cases liftTrap (ezimg_cread_bits inp st.stream 1) with
  | error e => rfl
  | ok q1 =>
    obtain ⟨is_last, s1⟩ := q1
    rw [bind_ok_eq, bind_ok_eq]
    simp only []
    cases liftTrap (ezimg_cread_bits inp s1 2) with
    | error e => rfl
    | ok q2 =>
      obtain ⟨btype, s2⟩ := q2
      rw [bind_ok_eq, bind_ok_eq]
      simp only []
      generalize (if btype = 0 then inflate_stored inp outp_end { st with stream := s2 }
        else _ : Except Halt InflateState) = r
      cases r with
      | error e => rfl
      | ok st1 =>
        rw [bind_ok_eq, bind_ok_eq]
        by_cases hl : is_last ≠ 0
        · rw [if_pos hl]
          simp [hl, pure, Except.pure]
        · rw [if_neg hl]
          simp [hl, pure, Except.pure]
          rfl

theorem inflate_block_step_of_open (inp : List Nat) (outp_end : Nat) (st st1 : InflateState)
    (is_last : Nat) (lit dist : ezimg_huff)
    (h : inflate_block_open inp st = .ok (some (is_last, lit, dist, st1))) :
    st1.buff = st.buff ∧ st1.outp = st.outp ∧
    inflate_block_step inp outp_end st =
      match inflate_symbols inp lit dist outp_end (outp_end - st1.outp + 1) st1 with
      | .ok st2 => .ok (decide (is_last ≠ 0), st2)
      | .error e => .error e := by
  unfold inflate_block_open at h
  unfold inflate_block_step
  generalize inflate_fixed_tables = F at h ⊢
  cases h1 : liftTrap (ezimg_cread_bits inp st.stream 1) with
  | error e => rw [h1, bind_error_eq] at h; cases h
  | ok q1 =>
    obtain ⟨il, s1⟩ := q1
    rw [h1, bind_ok_eq] at h
    rw [bind_ok_eq]
    simp only [] at h ⊢
    cases h2 : liftTrap (ezimg_cread_bits inp s1 2) with
    | error e => rw [h2, bind_error_eq] at h; cases h
    | ok q2 =>
      obtain ⟨btype, s2⟩ := q2
      rw [h2, bind_ok_eq] at h
      rw [bind_ok_eq]
      simp only [] at h ⊢
      by_cases hb1 : btype = 1
      · subst hb1
        rw [if_pos rfl] at h
        rw [if_neg (by omega), if_pos rfl]
        cases ht : F { st with stream := s2 } with
        | error e => rw [ht, bind_error_eq] at h; cases h
        | ok t =>
          obtain ⟨t1, t2⟩ := t
          rw [ht, bind_ok_eq] at h
          rw [bind_ok_eq]
          simp only [pure, Except.pure] at h ⊢
          injection h with h
          injection h with h
          injection h with h1 h
          injection h with h2 h
          injection h with h3 h4
          subst h1 h2 h3 h4
          refine ⟨rfl, rfl, ?_⟩
          generalize inflate_symbols inp _ _ outp_end _ _ = r
          cases r <;> rfl
      · rw [if_neg hb1] at h
        by_cases hb2 : btype = 2
        · subst hb2
          rw [if_pos rfl] at h
          rw [if_neg (by omega), if_neg (by omega), if_pos rfl]
          cases ht : inflate_dynamic_tables inp { st with stream := s2 } with
          | error e => rw [ht, bind_error_eq] at h; cases h
          | ok t =>
            obtain ⟨t1, t2, t3⟩ := t
            rw [ht, bind_ok_eq] at h
            rw [bind_ok_eq]
            simp only [pure, Except.pure] at h ⊢
            injection h with h
            injection h with h
            injection h with h1 h
            injection h with h2 h
            injection h with h3 h4
            subst h1 h2 h3 h4
            refine ⟨rfl, rfl, ?_⟩
            generalize inflate_symbols inp _ _ outp_end _ _ = r
            cases r <;> rfl
        · rw [if_neg hb2] at h
          simp [pure, Except.pure] at h

theorem inflate_block_step_ok (inp : List Nat) (outp_end : Nat) (st st' : InflateState)
    (c : Bool) (h : inflate_block_step inp outp_end st = .ok (c, st')) :
    st'.buff.length = st.buff.length ∧ st.outp ≤ st'.outp ∧
      ∀ i, i < st.outp → st'.buff[i]? = st.buff[i]? := by
  unfold inflate_block_step at h
  generalize inflate_fixed_tables = F at h
  cases h1 : liftTrap (ezimg_cread_bits inp st.stream 1) with
  | error e => rw [h1, bind_error_eq] at h; cases h
  | ok q1 =>
    obtain ⟨il, s1⟩ := q1
    rw [h1, bind_ok_eq] at h
    simp only [] at h
    cases h2 : liftTrap (ezimg_cread_bits inp s1 2) with
    | error e => rw [h2, bind_error_eq] at h; cases h
    | ok q2 =>
      obtain ⟨btype, s2⟩ := q2
      rw [h2, bind_ok_eq] at h
      simp only [] at h
      by_cases hb0 : btype = 0
      · rw [if_pos hb0] at h
        cases hs : inflate_stored inp outp_end { st with stream := s2 } with
        | error e => rw [hs, bind_error_eq] at h; cases h
        | ok st1 => exact absurd hs (inflate_stored_not_ok _ _ _ _)
      · rw [if_neg hb0] at h
        by_cases hb1 : btype = 1
        · rw [if_pos hb1] at h
          cases ht : F { st with stream := s2 } with
          | error e => rw [ht, bind_error_eq, bind_error_eq] at h; cases h
          | ok t =>
            obtain ⟨t1, t2⟩ := t
            rw [ht, bind_ok_eq] at h
            simp only [] at h
            cases hy : inflate_symbols inp t1 t2 outp_end
                (outp_end - st.outp + 1) { st with stream := s2 } with
            | error e => rw [hy, bind_error_eq] at h; cases h
            | ok st1 =>
              rw [hy, bind_ok_eq] at h
              simp only [pure, Except.pure] at h
              injection h with h
              injection h with _ h
              subst h
              exact inflate_symbols_ok _ _ _ _ _ { st with stream := s2 } _ hy
        · rw [if_neg hb1] at h
          by_cases hb2 : btype = 2
          · rw [if_pos hb2] at h
            cases ht : inflate_dynamic_tables inp { st with stream := s2 } with
            | error e => rw [ht, bind_error_eq, bind_error_eq] at h; cases h
            | ok t =>
              obtain ⟨t1, t2, t3⟩ := t
              rw [ht, bind_ok_eq] at h
              simp only [] at h
              cases hy : inflate_symbols inp t1 t2 outp_end
                  (outp_end - st.outp + 1) { st with stream := t3 } with
              | error e => rw [hy, bind_error_eq] at h; cases h
              | ok st1 =>
                rw [hy, bind_ok_eq] at h
                simp only [pure, Except.pure] at h
                injection h with h
                injection h with _ h
                subst h
                exact inflate_symbols_ok _ _ _ _ _ { st with stream := t3 } _ hy
          · rw [if_neg hb2] at h
            simp only [throw, throwThe, MonadExceptOf.throw] at h
            rw [bind_error_eq] at h
            cases h

theorem inflate_blocks_ok (inp : List Nat) (outp_end : Nat) :
    ∀ (fuel : Nat) (st st' : InflateState),
      inflate_blocks inp outp_end fuel st = .ok st' →
      st'.buff.length = st.buff.length ∧ st.outp ≤ st'.outp := by
  intro fuel
  induction fuel with
  | zero =>
    intro st st' h
    simp [inflate_blocks] at h
  | succ fuel ih =>
    intro st st' h
    rw [inflate_blocks_succ] at h
    cases hs : inflate_block_step inp outp_end st with
    | error e => rw [hs] at h; simp at h
    | ok q =>
      obtain ⟨c, st1⟩ := q
      rw [hs] at h
      obtain ⟨g1, g2, _⟩ := inflate_block_step_ok _ _ _ _ _ hs
      cases c with
      | true =>
        simp only [] at h
        injection h with h
        subst h
        exact ⟨g1, g2⟩
      | false =>
        simp only [] at h
        obtain ⟨k1, k2⟩ := ih st1 st' h
        exact ⟨by rw [k1, g1], by omega⟩

theorem decompress_ok_length (inp : List Nat) (cs : ezimg_cstream) (w h : Nat)
    (out d : List Nat) (hd : ezimg_decompress_idat inp cs w h out = .ok (true, d)) :
    d.length = out.length ∧ ezimg_png_decomp_data_max_size w h ≤ out.length := by
  unfold ezimg_decompress_idat at hd
  simp only [] at hd
  by_cases hcap : out.length < ezimg_png_decomp_data_max_size w h
  · rw [if_pos hcap] at hd
    simp at hd
  · rw [if_neg hcap] at hd
    refine ⟨?_, by omega⟩
    unfold decompress_run at hd
    simp only [] at hd
    split at hd
    · rename_i st hrun
      injection hd with hd
      injection hd with _ hd
      subst hd
      cases h1 : liftTrap (ezimg_cread_bits inp cs 4) with
      | error e => rw [h1, bind_error_eq] at hrun; cases hrun
      | ok q1 =>
        rw [h1, bind_ok_eq] at hrun
        try simp only [] at hrun
        cases h2 : liftTrap (ezimg_cread_bits inp q1.2 4) with
        | error e => rw [h2, bind_error_eq] at hrun; cases hrun
        | ok q2 =>
          rw [h2, bind_ok_eq] at hrun
          try simp only [] at hrun
          cases h3 : liftTrap (ezimg_cread_bits inp q2.2 5) with
          | error e => rw [h3, bind_error_eq] at hrun; cases hrun
          | ok q3 =>
            rw [h3, bind_ok_eq] at hrun
            try simp only [] at hrun
            cases h4 : liftTrap (ezimg_cread_bits inp q3.2 1) with
            | error e => rw [h4, bind_error_eq] at hrun; cases hrun
            | ok q4 =>
              rw [h4, bind_ok_eq] at hrun
              try simp only [] at hrun
              cases h5 : liftTrap (ezimg_cread_bits inp q4.2 2) with
              | error e => rw [h5, bind_error_eq] at hrun; cases hrun
              | ok q5 =>
                rw [h5, bind_ok_eq] at hrun
                try simp only [] at hrun
                split at hrun
                · simp only [throw, throwThe, MonadExceptOf.throw] at hrun
                  rw [bind_error_eq] at hrun
                  cases hrun
                · exact (inflate_blocks_ok inp _ _ { stream := q5.2, buff := out, outp := 0 } _
                    hrun).1
    · simp at hd
    · simp at hd

/-! ### Evaluation of a stream that is one fixed-Huffman block -/

theorem inflate_block_open_fixed (inp : List Nat) (st : InflateState) (is_last : Nat)
    (s1 s2 : ezimg_cstream)
    (h1 : ezimg_cread_bits inp st.stream 1 = .ok (is_last, s1))
    (h2 : ezimg_cread_bits inp s1 2 = .ok (1, s2)) :
    inflate_block_open inp st
      = .ok (some (is_last, fixed_lit_huff, fixed_dist_huff, { st with stream := s2 })) := by
  unfold inflate_block_open
  rw [h1]
  rw [show liftTrap (Except.ok (is_last, s1) : Except Trap (Nat × ezimg_cstream))
    = Except.ok (is_last, s1) from rfl, bind_ok_eq]
  simp only []
  rw [h2]
  rw [show liftTrap (Except.ok (1, s2) : Except Trap (Nat × ezimg_cstream))
    = Except.ok (1, s2) from rfl, bind_ok_eq]
  simp only []
  rw [if_pos True.intro, inflate_fixed_tables_eq, bind_ok_eq]
  rfl

theorem decompress_single_block (inp out : List Nat) (cs s1 s2 : ezimg_cstream)
    (width height : Nat) (st1 st2 : InflateState) (is_last : Nat) (lit dist_huff : ezimg_huff)
    (hcap : ezimg_png_decomp_data_max_size width height ≤ out.length)
    (h0 : cs.at_end = false) (hm : cs.mask = 1)
    (hr1 : cstream_refill inp cs = .ok s1) (h1 : s1.at_end = false)
    (hr2 : cstream_refill inp s1 = .ok s2)
    (hhdr : cs.buff % 16 = 8 ∧ cs.buff / 16 % 16 ≤ 7 ∧ s1.buff / 32 % 2 = 0)
    (hopen : inflate_block_open inp { stream := s2, buff := out, outp := 0 }
      = .ok (some (is_last, lit, dist_huff, st1)))
    (hlast : is_last ≠ 0)
    (hsyms : inflate_symbols inp lit dist_huff (ezimg_png_decomp_data_max_size width height)
      (ezimg_png_decomp_data_max_size width height - st1.outp + 1) st1 = .ok st2) :
    ezimg_decompress_idat inp cs width height out = .ok (true, st2.buff) := by
  obtain ⟨_, _, o3⟩ := inflate_block_step_of_open inp
    (ezimg_png_decomp_data_max_size width height) _ st1 is_last lit dist_huff hopen
  rw [hsyms] at o3
  simp only [] at o3
  have hf : inflate_block_fuel cs = (inflate_block_fuel cs - 1) + 1 := by
    unfold inflate_block_fuel
    omega
  have hrun : inflate_blocks inp (ezimg_png_decomp_data_max_size width height)
      (inflate_block_fuel cs) { stream := s2, buff := out, outp := 0 } = .ok st2 := by
    rw [hf, inflate_blocks_succ, o3]
    simp [hlast]
  have hd : ezimg_decompress_idat inp cs width height out
      = decompress_run inp cs (ezimg_png_decomp_data_max_size width height) out := by
    simp only [ezimg_decompress_idat]
    rw [if_neg (by omega)]
  rw [hd, decompress_run_header inp cs s1 s2 _ out h0 hm hr1 h1 hr2, if_neg (by omega), hrun]

theorem png_load_decode_steps (inp out d d2 o1 o : List Nat) (wk : PngWalk)
    (cs : ezimg_cstream) (hc : wk.chunks ≠ [])
    (hi : ezimg_init_cstream inp
      { chunks := wk.chunks, lens := wk.lens, num_chunks := 0, current_chunk := 0,
        current_pos := 0, buff := 0, mask := 0, at_end := false } wk.chunks.length = .ok cs)
    (hd : ezimg_decompress_idat inp cs wk.w wk.h out = .ok (true, d))
    (h2 : (if wk.color_type = 2
      then png_rgb_to_rgba wk.w wk.h (ezimg_png_decomp_data_max_size wk.w wk.h) d
      else .ok d) = .ok d2)
    (hf : ezimg_png_filter d2 wk.w wk.h = .ok (true, o1))
    (ha : png_rgba_to_argb wk.w wk.h wk.color_type o1 = .ok o) :
    png_load_decode inp out wk = .ok ⟨.EZIMG_OK, o, some wk.w, some wk.h⟩ := by
  have hl : wk.chunks.length ≠ 0 := by
    intro h
    exact hc (List.length_eq_zero.mp h)
  simp only [png_load_decode, bind, Except.bind, pure, Except.pure, hl, if_false, hi, hd, h2,
    hf, ha]
  rfl

/-! ### Symbols of a fixed-Huffman block read by their codes -/

theorem fixed_lit_decode (inp : List Nat) (stream stream' : ezimg_cstream) (bits : List Nat)
    (s : Nat) (hs : s < 288)
    (hb : next_bits inp (fixedLitLen s) stream = .ok (bits, stream'))
    (hv : msbValue bits = fixedLitCode s) :
    ezimg_huff_decode inp fixed_lit_huff stream = .ok ((s : Int), stream') := by
  have hg : fixed_hlit_table.getD s 0 = fixedLitLen s := fixed_hlit_getD s hs
  have hL : fixed_hlit_table.getD s 0 ≠ 0 := by
    rw [hg]
    unfold fixedLitLen
    split_ifs <;> omega
  have h1 := fixed_lit_hent s hs
  have h2 : fixed_lit_huff.entries[s]? = some ⟨fixedLitCode s, fixedLitLen s⟩ := by
    simp only [fixed_lit_huff]
    rw [List.getElem?_append_left (by simpa using hs), List.getElem?_map,
      List.getElem?_range hs]
    simp only [Option.map_some', fixedLitCode, fixedLitLen]
    split_ifs <;> rfl
  rw [h2, if_neg hL] at h1
  have h1 := congrArg ezimg_huff_entry.code (Option.some.inj h1)
  simp only [] at h1
  refine huff_decode_code fixed_hlit_table 288 9 fixed_lit_huff.entries
    (by rw [fixed_hlit_length]) (by omega) ?_ fixed_lit_hent inp stream stream' bits s hs hL
    (by rw [hg]; exact hb) (by rw [hv, h1])
  intro i hi
  rw [fixed_hlit_getD i hi]
  split_ifs <;> omega

theorem inflate_symbol_step_literal (inp : List Nat) (lit dist : ezimg_huff) (outp_end : Nat)
    (st : InflateState) (v : Int) (s1 : ezimg_cstream)
    (hd : ezimg_huff_decode inp lit st.stream = .ok (v, s1)) (h0 : 0 ≤ v) (hv : v < 256)
    (ho : st.outp < outp_end) (hl : st.outp < st.buff.length) :
    inflate_symbol_step inp lit dist outp_end st
      = .ok (true, ⟨s1, st.buff.set st.outp (v.toNat % 256), st.outp + 1⟩) := by
  simp only [inflate_symbol_step, bind, Except.bind, pure, Except.pure, liftTrap, hd]
  rw [if_neg (by omega), if_neg (by omega), if_pos hv]
  unfold EMIT
  rw [if_neg (by simpa using ho)]
  simp only [bind, Except.bind, pure, Except.pure, poke_ok st.buff st.outp v.toNat hl]

theorem inflate_symbol_step_end (inp : List Nat) (lit dist : ezimg_huff) (outp_end : Nat)
    (st : InflateState) (s1 : ezimg_cstream)
    (hd : ezimg_huff_decode inp lit st.stream = .ok (256, s1)) :
    inflate_symbol_step inp lit dist outp_end st = .ok (false, { st with stream := s1 }) := by
  simp only [inflate_symbol_step, bind, Except.bind, pure, Except.pure, liftTrap, hd]
  rw [if_pos trivial]

theorem fixedLitReads_cons (inp : List Nat) (sym : Nat) (rest : List Nat)
    (s s' : ezimg_cstream) (h : fixedLitReads inp (sym :: rest) s = some s') :
    ∃ bits s1, next_bits inp (fixedLitLen sym) s = .ok (bits, s1) ∧
      msbValue bits = fixedLitCode sym ∧ fixedLitReads inp rest s1 = some s' := by
  rw [fixedLitReads] at h
  cases hn : next_bits inp (fixedLitLen sym) s with
  | error e => rw [hn] at h; cases h
  | ok q =>
    obtain ⟨bits, s1⟩ := q
    rw [hn] at h
    simp only [] at h
    by_cases hc : msbValue bits = fixedLitCode sym
    · rw [if_pos hc] at h
      exact ⟨bits, s1, rfl, hc, h⟩
    · rw [if_neg hc] at h
      cases h

theorem storeFrom_length (bytes : List Nat) :
    ∀ (buff : List Nat) (outp : Nat), (storeFrom buff outp bytes).length = buff.length := by
  induction bytes with
  | nil => intro buff outp; rfl
  | cons b bs ih =>
    intro buff outp
    rw [storeFrom, ih, List.length_set]

theorem inflate_symbols_literals (inp : List Nat) (dist : ezimg_huff) (outp_end fuel : Nat) :
    ∀ (syms : List Nat) (st : InflateState) (s' : ezimg_cstream),
      (∀ x, x ∈ syms → x < 256) → fixedLitReads inp syms st.stream = some s' →
      st.outp + syms.length ≤ outp_end → st.outp + syms.length ≤ st.buff.length →
      inflate_symbols inp fixed_lit_huff dist outp_end (syms.length + fuel) st
        = inflate_symbols inp fixed_lit_huff dist outp_end fuel
            ⟨s', storeFrom st.buff st.outp syms, st.outp + syms.length⟩ := by
  intro syms
  induction syms with
  | nil =>
    intro st s' _ hr _ _
    rw [fixedLitReads] at hr
    injection hr with hr
    subst hr
    simp [storeFrom]
  | cons sym rest ih =>
    intro st s' hx hr ho hl
    obtain ⟨bits, s1, hb, hv, hrest⟩ := fixedLitReads_cons inp sym rest st.stream s' hr
    have hs : sym < 256 := hx sym (List.mem_cons_self _ _)
    have hd := fixed_lit_decode inp st.stream s1 bits sym (by omega) hb hv
    simp only [List.length_cons] at ho hl ⊢
    have hstep := inflate_symbol_step_literal inp fixed_lit_huff dist outp_end st sym s1 hd
      (by omega) (by omega) (by omega) (by omega)
    rw [Int.toNat_ofNat] at hstep
    rw [show rest.length + 1 + fuel = (rest.length + fuel) + 1 by omega, inflate_symbols_succ,
      hstep]
    simp only []
    rw [ih ⟨s1, st.buff.set st.outp (sym % 256), st.outp + 1⟩ s'
      (fun x hx' => hx x (List.mem_cons_of_mem _ hx')) hrest (by simp only []; omega)
      (by simp only [List.length_set]; omega)]
    simp only [storeFrom]
    rw [show st.outp + 1 + rest.length = st.outp + (rest.length + 1) by omega]

theorem inflate_symbols_fixed_run (inp : List Nat) (dist : ezimg_huff) (outp_end fuel : Nat)
    (syms : List Nat) (st : InflateState) (s' s'' : ezimg_cstream)
    (hx : ∀ x, x ∈ syms → x < 256) (hr : fixedLitReads inp syms st.stream = some s')
    (he : fixedLitReads inp [256] s' = some s'')
    (ho : st.outp + syms.length ≤ outp_end) (hl : st.outp + syms.length ≤ st.buff.length) :
    inflate_symbols inp fixed_lit_huff dist outp_end (syms.length + (fuel + 1)) st
      = .ok ⟨s'', storeFrom st.buff st.outp syms, st.outp + syms.length⟩ := by
  rw [inflate_symbols_literals inp dist outp_end (fuel + 1) syms st s' hx hr ho hl,
    inflate_symbols_succ]
  obtain ⟨bits, s1, hb, hv, hrest⟩ := fixedLitReads_cons inp 256 [] s' s'' he
  rw [fixedLitReads] at hrest
  injection hrest with hrest
  subst hrest
  have hd := fixed_lit_decode inp s' s1 bits 256 (by omega) hb hv
  rw [inflate_symbol_step_end inp fixed_lit_huff dist outp_end _ s1 hd]

theorem inflate_symbols_after_literals (inp : List Nat) (dist : ezimg_huff) (outp_end : Nat) :
    ∀ (syms : List Nat) (st : InflateState) (s' : ezimg_cstream),
      (∀ x, x ∈ syms → x < 256) → fixedLitReads inp syms st.stream = some s' →
      st.outp + syms.length ≤ outp_end → st.outp + syms.length ≤ st.buff.length →
      inflate_symbols_after inp fixed_lit_huff dist outp_end syms.length st
        = .ok (true, ⟨s', storeFrom st.buff st.outp syms, st.outp + syms.length⟩) := by
  intro syms
  induction syms with
  | nil =>
    intro st s' _ hr _ _
    rw [fixedLitReads] at hr
    injection hr with hr
    subst hr
    rfl
  | cons sym rest ih =>
    intro st s' hx hr ho hl
    obtain ⟨bits, s1, hb, hv, hrest⟩ := fixedLitReads_cons inp sym rest st.stream s' hr
    have hs : sym < 256 := hx sym (List.mem_cons_self _ _)
    have hd := fixed_lit_decode inp st.stream s1 bits sym (by omega) hb hv
    simp only [List.length_cons] at ho hl ⊢
    have hstep := inflate_symbol_step_literal inp fixed_lit_huff dist outp_end st sym s1 hd
      (by omega) (by omega) (by omega) (by omega)
    rw [Int.toNat_ofNat] at hstep
    rw [inflate_symbols_after, hstep]
    simp only []
    rw [ih ⟨s1, st.buff.set st.outp (sym % 256), st.outp + 1⟩ s'
      (fun x hx' => hx x (List.mem_cons_of_mem _ hx')) hrest (by simp only []; omega)
      (by simp only [List.length_set]; omega)]
    simp only [storeFrom]
    rw [show st.outp + 1 + rest.length = st.outp + (rest.length + 1) by omega]

theorem inflate_symbol_step_literal_at_bound (inp : List Nat) (lit dist : ezimg_huff)
    (outp_end : Nat) (st : InflateState) (v : Int) (s1 : ezimg_cstream)
    (hd : ezimg_huff_decode inp lit st.stream = .ok (v, s1)) (h0 : 0 ≤ v) (hv : v < 256)
    (ho : outp_end ≤ st.outp) :
    inflate_symbol_step inp lit dist outp_end st = .error (Halt.reject st.buff) := by
  simp only [inflate_symbol_step, bind, Except.bind, pure, Except.pure, liftTrap, hd]
  rw [if_neg (by omega), if_neg (by omega), if_pos hv]
  unfold EMIT
  rw [if_pos ho]

theorem inflate_symbols_fixed_run_at_bound (inp : List Nat) (dist : ezimg_huff)
    (outp_end fuel v : Nat) (syms : List Nat) (st : InflateState) (s' s'' : ezimg_cstream)
    (hx : ∀ x, x ∈ syms → x < 256) (hr : fixedLitReads inp syms st.stream = some s')
    (he : fixedLitReads inp [v] s' = some s'') (hv : v < 256)
    (ho : st.outp + syms.length = outp_end) (hl : st.outp + syms.length ≤ st.buff.length) :
    inflate_symbols inp fixed_lit_huff dist outp_end (syms.length + (fuel + 1)) st
      = .error (Halt.reject (storeFrom st.buff st.outp syms)) := by
  rw [inflate_symbols_literals inp dist outp_end (fuel + 1) syms st s' hx hr (by omega) hl,
    inflate_symbols_succ]
  obtain ⟨bits, s1, hb, hc, _⟩ := fixedLitReads_cons inp v [] s' s'' he
  have hd := fixed_lit_decode inp s' s1 bits v (by omega) hb hc
  rw [inflate_symbol_step_literal_at_bound inp fixed_lit_huff dist outp_end _ v s1 hd
    (by omega) (by omega) (by simp only []; omega)]

theorem fixed_lit_decode_of_reads (inp : List Nat) (s s' : ezimg_cstream) (v : Nat)
    (hv : v < 288) (hr : fixedLitReads inp [v] s = some s') :
    ezimg_huff_decode inp fixed_lit_huff s = .ok ((v : Int), s') := by
  obtain ⟨bits, s1, hb, hc, hrest⟩ := fixedLitReads_cons inp v [] s s' hr
  rw [fixedLitReads] at hrest
  injection hrest with hrest
  subst hrest
  exact fixed_lit_decode inp s s1 bits v hv hb hc

theorem good_fixed_hlit_table : GoodHuffArgs fixed_hlit_table 288 := by
  refine ⟨by omega, by rw [fixed_hlit_length], fun s hs => ?_⟩
  rw [fixed_hlit_getD s hs]
  split_ifs <;> omega

/-! ### The image `png_rgba_1x1`: claims C4, C15 and C16 -/

set_option maxRecDepth 100000 in
set_option maxHeartbeats 4000000 in
theorem png_rgba_1x1_decompress :
    ezimg_decompress_idat png_rgba_1x1 ⟨[41], [13], 1, 0, 1, 120, 1, false⟩ 1 1
      (List.replicate 5 0) = .ok (true, [0, 10, 20, 30, 40]) :=
  decompress_single_block png_rgba_1x1 (List.replicate 5 0)
    ⟨[41], [13], 1, 0, 1, 120, 1, false⟩ ⟨[41], [13], 1, 0, 2, 1, 1, false⟩
    ⟨[41], [13], 1, 0, 3, 99, 1, false⟩ 1 1
    ⟨⟨[41], [13], 1, 0, 3, 99, 8, false⟩, List.replicate 5 0, 0⟩
    ⟨⟨[41], [13], 1, 0, 9, 0, 4, false⟩, [0, 10, 20, 30, 40], 5⟩
    1 fixed_lit_huff fixed_dist_huff (by decide) rfl rfl (by decide) rfl (by decide)
    (by decide)
    (inflate_block_open_fixed png_rgba_1x1
      ⟨⟨[41], [13], 1, 0, 3, 99, 1, false⟩, List.replicate 5 0, 0⟩ 1
      ⟨[41], [13], 1, 0, 3, 99, 2, false⟩ ⟨[41], [13], 1, 0, 3, 99, 8, false⟩
      (by decide) (by decide))
    (by decide)
    (inflate_symbols_fixed_run png_rgba_1x1 fixed_dist_huff 5 0 [0, 10, 20, 30, 40]
      ⟨⟨[41], [13], 1, 0, 3, 99, 8, false⟩, List.replicate 5 0, 0⟩
      ⟨[41], [13], 1, 0, 8, 0, 8, false⟩ ⟨[41], [13], 1, 0, 9, 0, 4, false⟩
      (by decide) (by decide) (by decide) (by decide) (by decide))

set_option maxRecDepth 100000 in
set_option maxHeartbeats 4000000 in
theorem png_rgba_1x1_load_ok :
    ezimg_png_load png_rgba_1x1 (List.replicate 5 0)
      = .ok ⟨.EZIMG_OK, [40, 10, 20, 30, 40], some 1, some 1⟩ := by
  rw [png_load_hdr png_rgba_1x1 _ (by decide) (by decide),
    show pngWalkOf png_rgba_1x1
      = .ok (WalkEnd.finished ⟨⟨70, 0, 70, 70, true⟩, 1, 1, 6, false, [41], [13]⟩) by decide!]
  exact png_load_decode_steps png_rgba_1x1 (List.replicate 5 0)
    [0, 10, 20, 30, 40] [0, 10, 20, 30, 40] [10, 20, 30, 40, 40] [40, 10, 20, 30, 40]
    ⟨⟨70, 0, 70, 70, true⟩, 1, 1, 6, false, [41], [13]⟩ ⟨[41], [13], 1, 0, 1, 120, 1, false⟩
    (by decide) (by decide) png_rgba_1x1_decompress (by decide) (by decide) (by decide)

set_option maxRecDepth 100000 in
set_option maxHeartbeats 4000000 in
/-- C4 (what the code does): on the valid 1x1 image `png_rgba_1x1`, whose size
is 5 and which decodes with `EZIMG_OK` into 5 bytes, a 4-byte output makes
`ezimg_png_load` return `EZIMG_INVALID_IMAGE`, not `EZIMG_NOT_ENOUGH_SPACE`; and
no call of `ezimg_png_load` returns `EZIMG_NOT_ENOUGH_SPACE`. -/
theorem C4_png_small_output_invalid_image :
    ezimg_png_size png_rgba_1x1 = .ok 5 ∧
    ezimg_png_load png_rgba_1x1 (List.replicate 5 0)
      = .ok ⟨.EZIMG_OK, [40, 10, 20, 30, 40], some 1, some 1⟩ ∧
    ezimg_png_load png_rgba_1x1 (List.replicate 4 0)
      = .ok (failWith .EZIMG_INVALID_IMAGE (List.replicate 4 0)) ∧
    ∀ inp out r, ezimg_png_load inp out = .ok r → r.status ≠ .EZIMG_NOT_ENOUGH_SPACE := by
  refine ⟨by decide, png_rgba_1x1_load_ok, ?_, png_load_status⟩
  decide!

set_option maxRecDepth 100000 in
set_option maxHeartbeats 4000000 in
/-- C16 (what the code does): the stored-block branch of
`ezimg_decompress_idat` never completes: whatever the stream, it rejects (the
test compares the 32-bit complement of LEN with the 16-bit NLEN) or traps.  On
`png_stored_1x1`, whose stored block has LEN = 5 and NLEN = 0xFFFA, the 16-bit
complement of LEN, `ezimg_png_load` returns `EZIMG_INVALID_IMAGE`, while
`png_rgba_1x1`, the same scanline Huffman-coded, loads with `EZIMG_OK`. -/
theorem C16_stored_block_always_rejected :
    (∀ inp outp_end st st', inflate_stored inp outp_end st ≠ .ok st') ∧
    le16 png_stored_1x1 44 = 5 ∧ le16 png_stored_1x1 46 = 65535 - 5 ∧
    ezimg_png_load png_stored_1x1 (List.replicate 5 0)
      = .ok (failWith .EZIMG_INVALID_IMAGE (List.replicate 5 0)) ∧
    ezimg_png_load png_rgba_1x1 (List.replicate 5 0)
      = .ok ⟨.EZIMG_OK, [40, 10, 20, 30, 40], some 1, some 1⟩ := by
  refine ⟨inflate_stored_not_ok, by decide, by decide, ?_, png_rgba_1x1_load_ok⟩
  decide!

/-! ## Claim C29: insertion of the alpha bytes -/

set_option maxRecDepth 100000 in
set_option maxHeartbeats 4000000 in
/-- Claim C29 (code defect): for the 1x2 truecolor image `png_rgb_1x2` the
decompressed scanlines are `00 0A 14 1E` and `00 28 32 3C`, all filter bytes 0.
The insertion loop uses the position `1 + x*4 + 3` in every row, so its second
pass shifts the data after the first pixel once more instead of inserting after
the second scanline: the data become `00 0A 14 1E 00 00 00 28 32 3C`, and
`ezimg_png_load` returns `EZIMG_OK` with pixel (0, 1) equal to
(0xFF, 0x00, 0x28, 0x32), not (0xFF, 0x28, 0x32, 0x3C). -/
theorem C29_alpha_insertion_ignores_row :
    ezimg_decompress_idat png_rgb_1x2 ⟨[41], [16], 1, 0, 1, 120, 1, false⟩ 1 2
        (List.replicate 10 0) = .ok (true, [0, 10, 20, 30, 0, 40, 50, 60, 0, 0]) ∧
    png_rgb_to_rgba 1 2 10 [0, 10, 20, 30, 0, 40, 50, 60, 0, 0]
      = .ok [0, 10, 20, 30, 0, 0, 0, 40, 50, 60] ∧
    ezimg_png_load png_rgb_1x2 (List.replicate 10 0)
      = .ok ⟨.EZIMG_OK, [255, 10, 20, 30, 255, 0, 40, 50, 50, 60], some 1, some 2⟩ := by
  have hdec : ezimg_decompress_idat png_rgb_1x2 ⟨[41], [16], 1, 0, 1, 120, 1, false⟩ 1 2
      (List.replicate 10 0) = .ok (true, [0, 10, 20, 30, 0, 40, 50, 60, 0, 0]) :=
    decompress_single_block png_rgb_1x2 (List.replicate 10 0)
      ⟨[41], [16], 1, 0, 1, 120, 1, false⟩ ⟨[41], [16], 1, 0, 2, 1, 1, false⟩
      ⟨[41], [16], 1, 0, 3, 99, 1, false⟩ 1 2
      ⟨⟨[41], [16], 1, 0, 3, 99, 8, false⟩, List.replicate 10 0, 0⟩
      ⟨⟨[41], [16], 1, 0, 12, 0, 4, false⟩, [0, 10, 20, 30, 0, 40, 50, 60, 0, 0], 8⟩
      1 fixed_lit_huff fixed_dist_huff (by decide) rfl rfl (by decide) rfl (by decide)
      (by decide)
      (inflate_block_open_fixed png_rgb_1x2
        ⟨⟨[41], [16], 1, 0, 3, 99, 1, false⟩, List.replicate 10 0, 0⟩ 1
        ⟨[41], [16], 1, 0, 3, 99, 2, false⟩ ⟨[41], [16], 1, 0, 3, 99, 8, false⟩
        (by decide) (by decide))
      (by decide)
      (inflate_symbols_fixed_run png_rgb_1x2 fixed_dist_huff 10 2
        [0, 10, 20, 30, 0, 40, 50, 60]
        ⟨⟨[41], [16], 1, 0, 3, 99, 8, false⟩, List.replicate 10 0, 0⟩
        ⟨[41], [16], 1, 0, 11, 1, 8, false⟩ ⟨[41], [16], 1, 0, 12, 0, 4, false⟩
        (by decide) (by decide) (by decide) (by decide) (by decide))
  have hwalk : pngWalkOf png_rgb_1x2
      = .ok (WalkEnd.finished ⟨⟨73, 0, 73, 73, true⟩, 1, 2, 2, false, [41], [16]⟩) := by
    decide!
  refine ⟨hdec, by decide, ?_⟩
  rw [png_load_hdr png_rgb_1x2 _ (by decide) (by decide), hwalk]
  exact png_load_decode_steps png_rgb_1x2 (List.replicate 10 0)
    [0, 10, 20, 30, 0, 40, 50, 60, 0, 0] [0, 10, 20, 30, 0, 0, 0, 40, 50, 60]
    [10, 20, 30, 0, 0, 40, 50, 60, 50, 60] [255, 10, 20, 30, 255, 0, 40, 50, 50, 60]
    ⟨⟨73, 0, 73, 73, true⟩, 1, 2, 2, false, [41], [16]⟩ ⟨[41], [16], 1, 0, 1, 120, 1, false⟩
    (by decide) (by decide) hdec (by decide) (by decide) (by decide)

/-! ## Claims C26, C27 and C28: `ezimg_png_filter` -/

theorem filter_pixel_bytes (f : Nat → Nat → Nat → Nat → Nat) (useb : Bool) (bp : RowPtr)
    (ap cp : List Nat) (src dst : Nat) (buf0 : List Nat)
    (B : Nat → List Nat → Except Trap (List Nat)) (r : Except Trap (List Nat))
    (hr : forRange 4 B buf0 = r)
    (hB : ∀ k buf, B k buf = do
      let s ← peek buf (src + k)
      let b ← (if useb then bp.get buf k else .ok 0)
      poke buf (dst + k) (f s (ap.getD k 0) b (cp.getD k 0)))
    (hsd : dst < src) (hlen : src + 4 ≤ buf0.length)
    (hb : useb = true → bp = .zero 0 ∨ ∃ q, bp = .data q ∧ q + 4 ≤ dst) :
    ∃ buf', r = .ok buf' ∧ buf'.length = buf0.length ∧
      (∀ i, i < dst ∨ dst + 4 ≤ i → byteAt buf' i = byteAt buf0 i) ∧
      ∀ k, k < 4 → byteAt buf' (dst + k) =
        f (byteAt buf0 (src + k)) (ap.getD k 0)
          (if useb then bp.val buf0 k else 0)
          (cp.getD k 0) % 256 := by
  obtain ⟨buf', h1, h2, h3, h4⟩ := forLoop_inv_of_eq B
    (fun k buf => buf.length = buf0.length ∧
      (∀ i, i < dst ∨ dst + k ≤ i → byteAt buf i = byteAt buf0 i) ∧
      ∀ j, j < k → byteAt buf (dst + j) =
        f (byteAt buf0 (src + j)) (ap.getD j 0)
          (if useb then bp.val buf0 j else 0)
          (cp.getD j 0) % 256)
    4 0 buf0 r hr ⟨rfl, fun _ _ => rfl, fun j hj => absurd hj (by omega)⟩ (by
      intro k buf _ hk ⟨hl, hkeep, hdone⟩
      simp only [Nat.zero_add] at hk
      rw [hB]
      simp only [bind, Except.bind]
      rw [peek_eq buf (src + k) (by omega), hkeep (src + k) (Or.inr (by omega))]
      simp only []
      have hbv : (if useb then bp.get buf k else .ok 0)
          = .ok (if useb then bp.val buf0 k else 0) := by
        by_cases hu : useb = true
        · rw [if_pos hu, if_pos hu]
          rcases hb hu with hz | ⟨q, hq, hq4⟩
          · subst hz
            simp only [RowPtr.get, RowPtr.val, Nat.zero_add]
            rw [if_pos hk]
          · subst hq
            simp only [RowPtr.get, RowPtr.val]
            rw [peek_eq buf (q + k) (by omega), hkeep (q + k) (Or.inl (by omega))]
        · rw [if_neg hu, if_neg hu]
      rw [hbv]
      simp only []
      rw [poke_ok buf (dst + k) _ (by omega)]
      refine ⟨_, rfl, by simp [hl], ?_, ?_⟩
      · intro i hi
        rw [byteAt_set, if_neg (by omega)]
        exact hkeep i (by omega)
      · intro j hj
        rw [byteAt_set]
        by_cases hjk : j = k
        · subst hjk
          rw [if_pos ⟨rfl, by omega⟩, Nat.mod_mod]
        · rw [if_neg (by omega)]
          exact hdone j (by omega))
  exact ⟨buf', h1, h2, fun i hi => h3 i (by omega), h4⟩

theorem reconPos_congr (d : List Nat) (w : Nat) (o o' : List Nat) (p : Nat)
    (h : ∀ i, i ≤ p → byteAt o' i = byteAt o i) (hr : ReconPos d w o p) :
    ReconPos d w o' p := by
  unfold ReconPos at hr ⊢
  rw [h p (le_refl p), h (p - 4) (by omega), h (p - 4 * w) (by omega),
    h (p - 4 * w - 4) (by omega)]
  exact hr

theorem pos_div_mod (w y r : Nat) (hr : r < 4 * w) :
    (4 * w * y + r) / (4 * w) = y ∧ (4 * w * y + r) % (4 * w) = r := by
  have hw : 0 < 4 * w := by omega
  constructor
  · rw [Nat.mul_add_div hw, Nat.div_eq_of_lt hr, Nat.add_zero]
  · rw [Nat.mul_add_mod, Nat.mod_eq_of_lt hr]

theorem get4_data (buf : List Nat) (q : Nat) (h : q + 4 ≤ buf.length) :
    (RowPtr.data q).get4 buf
      = .ok [byteAt buf q, byteAt buf (q + 1), byteAt buf (q + 2), byteAt buf (q + 3)] := by
  simp only [RowPtr.get4, RowPtr.get, bind, Except.bind, pure, Except.pure, Nat.add_zero]
  rw [peek_eq buf q (by omega), peek_eq buf (q + 1) (by omega), peek_eq buf (q + 2) (by omega),
    peek_eq buf (q + 3) (by omega)]

theorem get4_zero (buf : List Nat) : (RowPtr.zero 0).get4 buf = .ok [0, 0, 0, 0] := by
  simp [RowPtr.get4, RowPtr.get, bind, Except.bind, pure, Except.pure]

theorem getD4 (b0 b1 b2 b3 : Nat) (g : Nat → Nat) (h0 : g 0 = b0) (h1 : g 1 = b1)
    (h2 : g 2 = b2) (h3 : g 3 = b3) : ∀ k, k < 4 → [b0, b1, b2, b3].getD k 0 = g k := by
  intro k hk
  interval_cases k
  · exact h0.symm
  · exact h1.symm
  · exact h2.symm
  · exact h3.symm

theorem filter_pixel_step (d : List Nat) (w h y x ft : Nat) (f : Nat → Nat → Nat → Nat → Nat)
    (useb setc seta : Bool) (st : FilterState)
    (hy : y < h) (hx : x < w) (hd : h * (4 * w + 1) ≤ d.length)
    (hft : byteAt d (y * (4 * w + 1)) = ft) (hcb : setc = true → useb = true)
    (hf : ∀ s a b c, f s (if seta = true then a else 0) (if useb = true then b else 0)
      (if setc = true then c else 0) % 256 = pngRecon ft s a b c)
    (hinv : FilterPixInv d w y useb setc seta x st) :
    ∃ st', png_filter_pixel f useb setc seta (if y = 0 then 0 else 4) st = .ok st' ∧
      FilterPixInv d w y useb setc seta (x + 1) st' := by
  obtain ⟨hsrc, hdst, hlen, hkeep, hdone, ha, hb, hc⟩ := hinv
  -- arithmetic facts on the positions
  have hrow : (y + 1) * (4 * w + 1) ≤ h * (4 * w + 1) := Nat.mul_le_mul_right _ (by omega)
  have hrow2 : (y + 1) * (4 * w + 1) = y * (4 * w + 1) + (4 * w + 1) := by ring
  have hyw : y * (4 * w + 1) = 4 * w * y + y := by ring
  have hprev : y ≠ 0 → 4 * w * y = 4 * w * (y - 1) + 4 * w := by
    intro hy0
    obtain ⟨z, hz⟩ : ∃ z, y = z + 1 := ⟨y - 1, by omega⟩
    subst hz
    simp only [Nat.add_sub_cancel]
    ring
  unfold png_filter_pixel
  generalize hr : forRange 4 _ st.buf = r
  obtain ⟨buf', hr', hlen', hkeep', hbytes⟩ := filter_pixel_bytes f useb st.b_pixel st.a_pixel
    st.c_pixel st.src st.dst st.buf _ r hr (fun k buf => rfl) (by omega) (by omega) (by
      intro hu
      rw [hb hu]
      by_cases hy0 : y = 0
      · rw [if_pos hy0]; exact Or.inl rfl
      · rw [if_neg hy0]
        exact Or.inr ⟨_, rfl, by have := hprev hy0; omega⟩)
  subst hr'
  -- the bytes just stored are reconstructions
  have hnew : ∀ k, k < 4 → ReconPos d w buf' (4 * w * y + 4 * x + k) := by
    intro k hk
    obtain ⟨hdiv, hmod⟩ := pos_div_mod w y (4 * x + k) (by omega)
    rw [← Nat.add_assoc] at hdiv hmod
    unfold ReconPos
    rw [hdiv, hmod, hft]
    have e := hbytes k hk
    rw [hdst] at e
    rw [e, hkeep (st.src + k) (by omega), ha k hk, hc k hk, ← hf]
    have es : st.src + k = 4 * w * y + 4 * x + k + y + 1 := by omega
    rw [es]
    congr 2
    · by_cases hs : seta = true
      · rw [if_pos hs]
        by_cases hx0 : 0 < x
        · rw [if_pos ⟨hs, hx0⟩, if_neg (by omega)]
          exact (hkeep' _ (Or.inl (by omega))).symm
        · rw [if_neg (by omega), if_pos (by omega)]
      · rw [if_neg hs, if_neg (fun hh => hs hh.1)]
    · by_cases hu : useb = true
      · rw [if_pos hu, if_pos hu, hb hu]
        by_cases hy0 : y = 0
        · rw [if_pos hy0, if_pos hy0]
          rfl
        · rw [if_neg hy0, if_neg hy0]
          simp only [RowPtr.val]
          have := hprev hy0
          rw [hkeep' (4 * w * y + 4 * x + k - 4 * w) (Or.inl (by omega))]
          congr 1
          omega
      · rw [if_neg hu, if_neg hu]
    · by_cases hs : setc = true
      · rw [if_pos hs]
        by_cases hxy : 0 < x ∧ 0 < y
        · have := hprev (by omega)
          rw [if_pos ⟨hs, hxy⟩, if_neg (by omega),
            hkeep' (4 * w * y + 4 * x + k - 4 * w - 4) (Or.inl (by omega))]
          congr 1
          omega
        · rw [if_neg (fun hh => hxy hh.2), if_pos (by omega)]
      · rw [if_neg hs, if_neg (fun hh => hs hh.1)]
  have hcv : ∃ cv, (if setc = true then st.b_pixel.get4 buf' else .ok st.c_pixel) = .ok cv ∧
      ∀ k, k < 4 → cv.getD k 0
        = if setc = true ∧ 0 < y then byteAt buf' (4 * w * (y - 1) + 4 * x + k) else 0 := by
    by_cases hs : setc = true
    · rw [if_pos hs, hb (hcb hs)]
      by_cases hy0 : y = 0
      · rw [if_pos hy0, get4_zero]
        refine ⟨_, rfl, ?_⟩
        intro k hk
        rw [if_neg (by omega)]
        interval_cases k <;> rfl
      · rw [if_neg hy0, get4_data buf' _ (by have := hprev hy0; omega)]
        refine ⟨_, rfl, ?_⟩
        intro k hk
        rw [if_pos ⟨hs, by omega⟩]
        interval_cases k <;> rfl
    · rw [if_neg hs]
      refine ⟨_, rfl, ?_⟩
      intro k hk
      rw [hc k hk, if_neg (fun hh => hs hh.1), if_neg (fun hh => hs hh.1)]
  have hav : ∃ av, (if seta = true then (RowPtr.data st.dst).get4 buf' else .ok st.a_pixel)
        = .ok av ∧
      ∀ k, k < 4 → av.getD k 0
        = if seta = true then byteAt buf' (4 * w * y + 4 * x + k) else 0 := by
    by_cases hs : seta = true
    · rw [if_pos hs, get4_data buf' _ (by omega), hdst]
      refine ⟨_, rfl, ?_⟩
      intro k hk
      rw [if_pos hs]
      interval_cases k <;> rfl
    · rw [if_neg hs]
      refine ⟨_, rfl, ?_⟩
      intro k hk
      rw [ha k hk, if_neg (fun hh => hs hh.1), if_neg hs]
  obtain ⟨cv, hcv1, hcv2⟩ := hcv
  obtain ⟨av, hav1, hav2⟩ := hav
  simp only [bind, Except.bind, pure, Except.pure, hcv1, hav1]
  refine ⟨_, rfl, ?_⟩
  unfold FilterPixInv
  simp only []
  refine ⟨by omega, by omega, by omega, ?_, ?_, ?_, ?_, ?_⟩
  · intro i hi
    rw [hkeep' i (Or.inr (by omega))]
    exact hkeep i (by omega)
  · intro p hp
    by_cases hlt : p < 4 * w * y + 4 * x
    · exact reconPos_congr d w st.buf buf' p (fun i hi => hkeep' i (Or.inl (by omega)))
        (hdone p hlt)
    · have e : p = 4 * w * y + 4 * x + (p - (4 * w * y + 4 * x)) := by omega
      rw [e]
      exact hnew _ (by omega)
  · intro k hk
    rw [hav2 k hk]
    by_cases hs : seta = true
    · rw [if_pos hs, if_pos ⟨hs, by omega⟩]
      congr 1
      omega
    · rw [if_neg hs, if_neg (fun hh => hs hh.1)]
  · intro hu
    rw [if_pos hu, hb hu]
    by_cases hy0 : y = 0
    · rw [if_pos hy0, if_pos hy0, if_pos hy0]
      rfl
    · rw [if_neg hy0, if_neg hy0, if_neg hy0]
      simp only [RowPtr.add]
      congr 1
      try omega
  · intro k hk
    rw [hcv2 k hk]
    by_cases hs : setc = true ∧ 0 < y
    · rw [if_pos hs, if_pos ⟨hs.1, by omega, hs.2⟩]
      congr 1
      omega
    · rw [if_neg hs, if_neg (fun hh => hs ⟨hh.1, hh.2.2⟩)]

theorem filter_row_pixels (d : List Nat) (w h y ft : Nat) (f : Nat → Nat → Nat → Nat → Nat)
    (useb setc seta : Bool) (st0 : FilterState)
    (hy : y < h) (hd : h * (4 * w + 1) ≤ d.length)
    (hft : byteAt d (y * (4 * w + 1)) = ft) (hcb : setc = true → useb = true)
    (hf : ∀ s a b c, f s (if seta = true then a else 0) (if useb = true then b else 0)
      (if setc = true then c else 0) % 256 = pngRecon ft s a b c)
    (h0 : FilterPixInv d w y useb setc seta 0 st0) :
    ∃ st, forRange w (fun _ st =>
        png_filter_pixel f useb setc seta (if y = 0 then 0 else 4) st) st0 = .ok st ∧
      FilterPixInv d w y useb setc seta w st := by
  obtain ⟨st, h1, h2⟩ := forLoop_inv
    (fun _ st => png_filter_pixel f useb setc seta (if y = 0 then 0 else 4) st)
    (fun x st => FilterPixInv d w y useb setc seta x st) w 0 st0 h0 (by
      intro x st _ hx hinv
      exact filter_pixel_step d w h y x ft f useb setc seta st hy (by omega) hd hft hcb hf hinv)
  rw [Nat.zero_add] at h2
  exact ⟨st, h1, h2⟩

theorem filter0_body (adv : Nat) (st : FilterState) :
    (do
      let buf ← forRange 4 (fun k buf => do
        let s ← peek buf (st.src + k)
        poke buf (st.dst + k) s) st.buf
      return { st with buf := buf, src := st.src + 4, dst := st.dst + 4 } :
        Except Trap FilterState)
      = png_filter_pixel (fun s _ _ _ => s) false false false adv st := by
  unfold png_filter_pixel
  have e : (fun k buf => do
        let s ← peek buf (st.src + k)
        poke buf (st.dst + k) s)
      = (fun k buf => do
        let s ← peek buf (st.src + k)
        let b ← (if false = true then st.b_pixel.get buf k else .ok 0)
        poke buf (st.dst + k) ((fun s _ _ _ => s) s (st.a_pixel.getD k 0) b
          (st.c_pixel.getD k 0))) := by
    funext k buf
    simp only [bind, Except.bind]
    cases peek buf (st.src + k) <;> rfl
  rw [e]
  simp only [bind, Except.bind, pure, Except.pure]
  cases forRange 4 _ st.buf <;> rfl

theorem filter0_loop (w adv : Nat) (st0 : FilterState) :
    forRange w (fun _ (st : FilterState) => do
        let buf ← forRange 4 (fun k buf => do
          let s ← peek buf (st.src + k)
          poke buf (st.dst + k) s) st.buf
        return { st with buf := buf, src := st.src + 4, dst := st.dst + 4 }) st0
      = forRange w (fun _ st =>
        png_filter_pixel (fun s _ _ _ => s) false false false adv st) st0 := by
  have e : (fun (_ : Nat) (st : FilterState) => (do
        let buf ← forRange 4 (fun k buf => do
          let s ← peek buf (st.src + k)
          poke buf (st.dst + k) s) st.buf
        return { st with buf := buf, src := st.src + 4, dst := st.dst + 4 } :
          Except Trap FilterState))
      = fun _ st => png_filter_pixel (fun s _ _ _ => s) false false false adv st := by
    funext _ st
    exact filter0_body adv st
  rw [e]

theorem filter3_mod (s a b : Nat) : ezimg_png_filter3 s a b % 256 = (s + (a + b) / 2) % 256 := by
  simp only [ezimg_png_filter3]
  omega

theorem filter4_eq (s a b c : Nat) :
    ezimg_png_filter4 s a b c = (s + paethPredictor a b c) % 256 := by
  simp only [ezimg_png_filter4, paethPredictor]
  have habs : ∀ z : Int, (if z < 0 then -z else z) = (z.natAbs : Int) := by
    intro z
    split <;> omega
  rw [habs, habs, habs]
  simp only [Int.ofNat_le]

theorem filter_row_step (d : List Nat) (w h y : Nat) (rs : FilterRows)
    (hy : y < h) (hd : h * (4 * w + 1) ≤ d.length) (hft : byteAt d (y * (4 * w + 1)) ≤ 4)
    (hinv : FilterRowInv d w y rs) :
    ∃ rs', png_filter_row w rs = .ok rs' ∧ FilterRowInv d w (y + 1) rs' := by
  obtain ⟨hsrc, hdst, hprow, hadv, hlen, hkeep, hdone⟩ := hinv
  have hrow : (y + 1) * (4 * w + 1) ≤ h * (4 * w + 1) := Nat.mul_le_mul_right _ (by omega)
  have hrow2 : (y + 1) * (4 * w + 1) = y * (4 * w + 1) + (4 * w + 1) := by ring
  have hyw : y * (4 * w + 1) = 4 * w * y + y := by ring
  have hnext : 4 * w * (y + 1) = 4 * w * y + 4 * w := by ring
  have hfb : peek rs.buf rs.src = .ok (byteAt d (y * (4 * w + 1))) := by
    rw [peek_eq rs.buf rs.src (by omega), hkeep rs.src (by omega), hsrc]
  have key : ∀ (f : Nat → Nat → Nat → Nat → Nat) (useb setc seta : Bool),
      (setc = true → useb = true) →
      (∀ s a b c, f s (if seta = true then a else 0) (if useb = true then b else 0)
        (if setc = true then c else 0) % 256 = pngRecon (byteAt d (y * (4 * w + 1))) s a b c) →
      ∃ st, forRange w (fun _ st =>
          png_filter_pixel f useb setc seta rs.prev_row_advance st)
          { buf := rs.buf, src := rs.src + 1, dst := rs.dst, a_pixel := [0, 0, 0, 0],
            b_pixel := rs.prev_row, c_pixel := [0, 0, 0, 0] } = .ok st ∧
        FilterRowInv d w (y + 1)
          { buf := st.buf, src := st.src, dst := st.dst, prev_row := RowPtr.data rs.dst,
            prev_row_advance := 4 } := by
    intro f useb setc seta hcb hf
    rw [hadv]
    obtain ⟨st, h1, h2⟩ := filter_row_pixels d w h y _ f useb setc seta
      { buf := rs.buf, src := rs.src + 1, dst := rs.dst, a_pixel := [0, 0, 0, 0],
        b_pixel := rs.prev_row, c_pixel := [0, 0, 0, 0] } hy hd rfl hcb hf (by
        unfold FilterPixInv
        simp only []
        refine ⟨by omega, by omega, hlen, ?_, ?_, ?_, ?_, ?_⟩
        · intro i hi
          exact hkeep i (by omega)
        · intro p hp
          exact hdone p (by omega)
        · intro k hk
          rw [if_neg (by omega)]
          interval_cases k <;> rfl
        · intro _
          rw [hprow]
          by_cases hy0 : y = 0
          · rw [if_pos hy0, if_pos hy0]
          · rw [if_neg hy0, if_neg hy0]
            rfl
        · intro k hk
          rw [if_neg (by omega)]
          interval_cases k <;> rfl)
    refine ⟨st, h1, ?_⟩
    obtain ⟨g1, g2, g3, g4, g5, _, _, _⟩ := h2
    unfold FilterRowInv
    simp only []
    refine ⟨by omega, by omega, ?_, ?_, g3, ?_, ?_⟩
    · rw [if_neg (by omega), hdst]
      rfl
    · rw [if_neg (by omega)]
    · intro i hi
      exact g4 i (by omega)
    · intro p hp
      exact g5 p (by omega)
  have hcases : byteAt d (y * (4 * w + 1)) = 0 ∨ byteAt d (y * (4 * w + 1)) = 1
      ∨ byteAt d (y * (4 * w + 1)) = 2 ∨ byteAt d (y * (4 * w + 1)) = 3
      ∨ byteAt d (y * (4 * w + 1)) = 4 := by omega
  unfold png_filter_row
  simp only [filter0_loop w rs.prev_row_advance]
  simp only [bind, Except.bind, pure, Except.pure, liftTrap, hfb]
  rcases hcases with h0 | h1 | h2 | h3 | h4
  · obtain ⟨st, hrun, hres⟩ := key (fun s _ _ _ => s) false false false (fun hh => hh)
      (by intro s a b c; rw [h0]; rfl)
    rw [h0, if_pos rfl, hrun]
    exact ⟨_, rfl, hres⟩
  · obtain ⟨st, hrun, hres⟩ := key (fun s a _ _ => ezimg_png_filter1 s a) false false true
      (fun hh => hh) (by
        intro s a b c
        rw [h1]
        simp [ezimg_png_filter1, pngRecon])
    rw [h1, if_neg (by omega), if_pos rfl, hrun]
    exact ⟨_, rfl, hres⟩
  · obtain ⟨st, hrun, hres⟩ := key (fun s _ b _ => ezimg_png_filter2 s b) true false false
      (fun hh => by simp at hh) (by
        intro s a b c
        rw [h2]
        simp [ezimg_png_filter2, pngRecon])
    rw [h2, if_neg (by omega), if_neg (by omega), if_pos rfl, hrun]
    exact ⟨_, rfl, hres⟩
  · obtain ⟨st, hrun, hres⟩ := key (fun s a b _ => ezimg_png_filter3 s a b) true false true
      (fun hh => by simp at hh) (by
        intro s a b c
        rw [h3]
        simp only [if_true, filter3_mod]
        simp [pngRecon])
    rw [h3, if_neg (by omega), if_neg (by omega), if_neg (by omega), if_pos rfl, hrun]
    exact ⟨_, rfl, hres⟩
  · obtain ⟨st, hrun, hres⟩ := key (fun s a b c => ezimg_png_filter4 s a b c) true true true
      (fun _ => rfl) (by
        intro s a b c
        rw [h4]
        simp only [if_true, filter4_eq]
        simp [pngRecon])
    rw [h4, if_neg (by omega), if_neg (by omega), if_neg (by omega), if_neg (by omega),
      if_pos rfl, hrun]
    exact ⟨_, rfl, hres⟩

theorem png_filter_spec (d : List Nat) (w h : Nat) (hd : h * (4 * w + 1) ≤ d.length)
    (hft : ∀ y, y < h → byteAt d (y * (4 * w + 1)) ≤ 4) :
    ∃ o, ezimg_png_filter d w h = .ok (true, o) ∧ o.length = d.length ∧
      (∀ i, 4 * w * h ≤ i → byteAt o i = byteAt d i) ∧
      ∀ p, p < 4 * w * h → ReconPos d w o p := by
  obtain ⟨rs, h1, h2⟩ := forLoop_inv (fun _ rs => png_filter_row w rs)
    (fun y rs => FilterRowInv d w y rs) h 0
    { buf := d, src := 0, dst := 0, prev_row := RowPtr.zero 0, prev_row_advance := 0 } (by
      unfold FilterRowInv
      simp) (by
      intro y rs _ hy hinv
      exact filter_row_step d w h y rs (by omega) hd (hft y (by omega)) hinv)
  rw [Nat.zero_add] at h2
  obtain ⟨_, _, _, _, g1, g2, g3⟩ := h2
  refine ⟨rs.buf, ?_, g1, g2, g3⟩
  unfold ezimg_png_filter forRange
  rw [h1]

theorem recon_coords (d : List Nat) (w h : Nat) (o : List Nat)
    (hrec : ∀ p, p < 4 * w * h → ReconPos d w o p) (y x ch : Nat) (hy : y < h) (hx : x < w)
    (hch : ch < 4) :
    byteAt o (4 * (w * y + x) + ch)
      = pngRecon (byteAt d (y * (4 * w + 1))) (byteAt d (y * (4 * w + 1) + 1 + 4 * x + ch))
        (if x = 0 then 0 else byteAt o (4 * (w * y + x - 1) + ch))
        (if y = 0 then 0 else byteAt o (4 * (w * (y - 1) + x) + ch))
        (if x = 0 ∨ y = 0 then 0 else byteAt o (4 * (w * (y - 1) + x - 1) + ch)) := by
  have hp : 4 * (w * y + x) + ch = 4 * w * y + (4 * x + ch) := by ring
  have hlt : 4 * w * y + (4 * x + ch) < 4 * w * h := by
    have : 4 * w * (y + 1) ≤ 4 * w * h := Nat.mul_le_mul_left _ (by omega)
    have e : 4 * w * (y + 1) = 4 * w * y + 4 * w := by ring
    omega
  obtain ⟨hdiv, hmod⟩ := pos_div_mod w y (4 * x + ch) (by omega)
  have hr := hrec _ hlt
  unfold ReconPos at hr
  rw [hdiv, hmod] at hr
  rw [hp, hr]
  have hprev : y ≠ 0 → 4 * w * y = 4 * w * (y - 1) + 4 * w := by
    intro hy0
    obtain ⟨z, hz⟩ : ∃ z, y = z + 1 := ⟨y - 1, by omega⟩
    subst hz
    simp only [Nat.add_sub_cancel]
    ring
  have hyw : y * (4 * w + 1) = 4 * w * y + y := by ring
  have e1 : 4 * (w * y + x - 1) = 4 * (w * y + x) - 4 := by omega
  have e2 : 4 * (w * (y - 1) + x) = 4 * w * (y - 1) + 4 * x := by ring
  have e3 : 4 * (w * (y - 1) + x - 1) = 4 * (w * (y - 1) + x) - 4 := by omega
  congr 1
  · congr 1
    omega
  · by_cases hx0 : x = 0
    · rw [if_pos (by omega), if_pos hx0]
    · rw [if_neg (by omega), if_neg hx0]
      congr 1
      omega
  · by_cases hy0 : y = 0
    · rw [if_pos hy0, if_pos hy0]
    · rw [if_neg hy0, if_neg hy0]
      have := hprev hy0
      congr 1
      omega
  · by_cases hxy : x = 0 ∨ y = 0
    · rw [if_pos (by omega), if_pos hxy]
    · rw [if_neg (by omega), if_neg hxy]
      have := hprev (by omega)
      congr 1
      omega

/-- Claim C26: on a buffer of `h` scanlines, each one filter byte (at most 4)
followed by `w` pixels of four bytes, `ezimg_png_filter` returns 1 and leaves at
byte `ch` of pixel `(x, y)`, i.e. at offset `4*(w*y + x) + ch`, the
reconstruction of the raw byte read from the original buffer at
`y*(4*w+1) + 1 + 4*x + ch`: the raw byte itself for filter 0, `raw + a` for 1,
`raw + b` for 2 and `raw + (a + b) / 2` for 3 with `a + b` not truncated, all
modulo 256, where `a` is the reconstructed byte of the pixel to the left
(0 for `x = 0`) and `b` that of the pixel above (0 for `y = 0`).  The raw
bytes are those of the buffer before the call: no write of the in-place pass
changes a raw byte that is read later. -/
theorem C26_filter_reconstruction (d : List Nat) (w h : Nat)
    (hd : h * (4 * w + 1) ≤ d.length)
    (hft : ∀ y, y < h → byteAt d (y * (4 * w + 1)) ≤ 4) :
    ∃ o, ezimg_png_filter d w h = .ok (true, o) ∧ o.length = d.length ∧
      ∀ y x ch, y < h → x < w → ch < 4 →
        (byteAt d (y * (4 * w + 1)) = 0 →
          byteAt o (4 * (w * y + x) + ch) = byteAt d (y * (4 * w + 1) + 1 + 4 * x + ch)) ∧
        (byteAt d (y * (4 * w + 1)) = 1 →
          byteAt o (4 * (w * y + x) + ch) = (byteAt d (y * (4 * w + 1) + 1 + 4 * x + ch)
            + (if x = 0 then 0 else byteAt o (4 * (w * y + x - 1) + ch))) % 256) ∧
        (byteAt d (y * (4 * w + 1)) = 2 →
          byteAt o (4 * (w * y + x) + ch) = (byteAt d (y * (4 * w + 1) + 1 + 4 * x + ch)
            + (if y = 0 then 0 else byteAt o (4 * (w * (y - 1) + x) + ch))) % 256) ∧
        (byteAt d (y * (4 * w + 1)) = 3 →
          byteAt o (4 * (w * y + x) + ch) = (byteAt d (y * (4 * w + 1) + 1 + 4 * x + ch)
            + ((if x = 0 then 0 else byteAt o (4 * (w * y + x - 1) + ch))
              + (if y = 0 then 0 else byteAt o (4 * (w * (y - 1) + x) + ch))) / 2) % 256) := by
  obtain ⟨o, h1, h2, _, h4⟩ := png_filter_spec d w h hd hft
  refine ⟨o, h1, h2, ?_⟩
  intro y x ch hy hx hch
  have hr := recon_coords d w h o h4 y x ch hy hx hch
  refine ⟨?_, ?_, ?_, ?_⟩
  · intro hf
    rw [hr, hf]
    simp only [pngRecon, if_true]
    exact mod_byteAt _ _
  · intro hf
    rw [hr, hf]
    simp [pngRecon]
  · intro hf
    rw [hr, hf]
    simp [pngRecon]
  · intro hf
    rw [hr, hf]
    simp [pngRecon]

/-- Claim C27: in a scanline of filter type 4 every reconstructed byte is
`raw + pr` modulo 256, `pr` the Paeth predictor of `a`, `b`, `c` (with
`p = a + b - c` in unbounded integers: `a` if `|p-a| ≤ |p-b|` and
`|p-a| ≤ |p-c|`, else `b` if `|p-b| ≤ |p-c|`, else `c`), where `a`, `b`, `c`
are the reconstructed bytes of the same channel of the pixels to the left,
above and above left: `a = c = 0` at the first pixel of a scanline and
`b = c = 0` in the first scanline. -/
theorem C27_paeth_reconstruction (d : List Nat) (w h : Nat)
    (hd : h * (4 * w + 1) ≤ d.length)
    (hft : ∀ y, y < h → byteAt d (y * (4 * w + 1)) ≤ 4) :
    ∃ o, ezimg_png_filter d w h = .ok (true, o) ∧
      ∀ y x ch, y < h → x < w → ch < 4 → byteAt d (y * (4 * w + 1)) = 4 →
        byteAt o (4 * (w * y + x) + ch) = (byteAt d (y * (4 * w + 1) + 1 + 4 * x + ch)
          + paethPredictor
            (if x = 0 then 0 else byteAt o (4 * (w * y + x - 1) + ch))
            (if y = 0 then 0 else byteAt o (4 * (w * (y - 1) + x) + ch))
            (if x = 0 ∨ y = 0 then 0 else byteAt o (4 * (w * (y - 1) + x - 1) + ch))) % 256 := by
  obtain ⟨o, h1, _, _, h4⟩ := png_filter_spec d w h hd hft
  refine ⟨o, h1, ?_⟩
  intro y x ch hy hx hch hf
  rw [recon_coords d w h o h4 y x ch hy hx hch, hf]
  simp [pngRecon]

/-- Witness of C26 on `scanlines_sub_average`: the first scanline becomes
`0A 14 1E 28 0F 1A 25 30`, the second `06 0C 12 18 04 0E 17 21`. -/
theorem C26_filter_reconstruction_witness :
    ezimg_png_filter scanlines_sub_average 2 2
      = .ok (true, [10, 20, 30, 40, 15, 26, 37, 48, 6, 12, 18, 24, 4, 14, 23, 33, 252, 253]) ∧
    ∃ o, ezimg_png_filter scanlines_sub_average 2 2 = .ok (true, o) ∧
      o.length = scanlines_sub_average.length ∧
      ∀ y x ch, y < 2 → x < 2 → ch < 4 →
        (byteAt scanlines_sub_average (y * (4 * 2 + 1)) = 0 →
          byteAt o (4 * (2 * y + x) + ch)
            = byteAt scanlines_sub_average (y * (4 * 2 + 1) + 1 + 4 * x + ch)) ∧
        (byteAt scanlines_sub_average (y * (4 * 2 + 1)) = 1 →
          byteAt o (4 * (2 * y + x) + ch)
            = (byteAt scanlines_sub_average (y * (4 * 2 + 1) + 1 + 4 * x + ch)
              + (if x = 0 then 0 else byteAt o (4 * (2 * y + x - 1) + ch))) % 256) ∧
        (byteAt scanlines_sub_average (y * (4 * 2 + 1)) = 2 →
          byteAt o (4 * (2 * y + x) + ch)
            = (byteAt scanlines_sub_average (y * (4 * 2 + 1) + 1 + 4 * x + ch)
              + (if y = 0 then 0 else byteAt o (4 * (2 * (y - 1) + x) + ch))) % 256) ∧
        (byteAt scanlines_sub_average (y * (4 * 2 + 1)) = 3 →
          byteAt o (4 * (2 * y + x) + ch)
            = (byteAt scanlines_sub_average (y * (4 * 2 + 1) + 1 + 4 * x + ch)
              + ((if x = 0 then 0 else byteAt o (4 * (2 * y + x - 1) + ch))
                + (if y = 0 then 0 else byteAt o (4 * (2 * (y - 1) + x) + ch))) / 2) % 256) :=
  ⟨by decide, C26_filter_reconstruction scanlines_sub_average 2 2 (by decide) (by decide)⟩

/-- Witness of C27 on `scanlines_paeth`: the first scanline becomes
`0A 14 1E 28 0F 1A 25 30` (predictor `a`), the second `0B 16 21 2C 09 15 21 2D`
(predictor `b` in both pixels). -/
theorem C27_paeth_reconstruction_witness :
    ezimg_png_filter scanlines_paeth 2 2
      = .ok (true, [10, 20, 30, 40, 15, 26, 37, 48, 11, 22, 33, 44, 9, 21, 33, 45, 252, 253]) ∧
    paethPredictor 11 15 10 = 15 ∧
    ∃ o, ezimg_png_filter scanlines_paeth 2 2 = .ok (true, o) ∧
      ∀ y x ch, y < 2 → x < 2 → ch < 4 → byteAt scanlines_paeth (y * (4 * 2 + 1)) = 4 →
        byteAt o (4 * (2 * y + x) + ch)
          = (byteAt scanlines_paeth (y * (4 * 2 + 1) + 1 + 4 * x + ch)
            + paethPredictor
              (if x = 0 then 0 else byteAt o (4 * (2 * y + x - 1) + ch))
              (if y = 0 then 0 else byteAt o (4 * (2 * (y - 1) + x) + ch))
              (if x = 0 ∨ y = 0 then 0 else byteAt o (4 * (2 * (y - 1) + x - 1) + ch))) % 256 :=
  ⟨by decide, by decide, C27_paeth_reconstruction scanlines_paeth 2 2 (by decide) (by decide)⟩

theorem chunkUnits_step (lens : List Nat) (num cur : Nat) (h : cur < num) :
    chunkUnits lens num cur = lens.getD cur 0 + 1 + chunkUnits lens num (cur + 1) := by
  unfold chunkUnits
  rw [show num - cur = (num - (cur + 1)) + 1 by omega, List.range'_succ]
  simp

theorem cread_u8_adv (inp : List Nat) (s s' : ezimg_cstream) (b : Nat)
    (h : ezimg_cread_u8 inp s = .ok (b, s')) (he : s.at_end = false) :
    s'.mask = s.mask ∧ s'.lens = s.lens ∧ s'.num_chunks = s.num_chunks ∧
      (s'.at_end = true ∨ (s'.at_end = false ∧ streamUnits s' + 1 ≤ streamUnits s)) := by
  unfold ezimg_cread_u8 at h
  rw [he] at h
  simp only [Bool.false_eq_true, if_false] at h
  by_cases h1 : s.current_chunk ≥ s.num_chunks
  · rw [if_pos h1] at h
    injection h with h
    injection h with _ h
    subst h
    exact ⟨rfl, rfl, rfl, Or.inl rfl⟩
  · rw [if_neg h1] at h
    by_cases h2 : s.current_pos ≥ s.lens.getD s.current_chunk 0
    · rw [if_pos h2] at h
      simp only [] at h
      by_cases h3 : s.current_chunk + 1 ≥ s.num_chunks
      · rw [if_pos h3] at h
        injection h with h
        injection h with _ h
        subst h
        exact ⟨rfl, rfl, rfl, Or.inl rfl⟩
      · rw [if_neg h3] at h
        split at h
        · injection h with h
          injection h with _ h
          subst h
          refine ⟨rfl, rfl, rfl, Or.inr ⟨rfl, ?_⟩⟩
          simp only [streamUnits]
          have e1 := chunkUnits_step s.lens s.num_chunks s.current_chunk (by omega)
          have e2 := chunkUnits_step s.lens s.num_chunks (s.current_chunk + 1) (by omega)
          omega
        · simp at h
    · rw [if_neg h2] at h
      try simp only [] at h
      rw [if_neg h1] at h
      split at h
      · injection h with h
        injection h with _ h
        subst h
        refine ⟨rfl, rfl, rfl, Or.inr ⟨he, ?_⟩⟩
        simp only [streamUnits]
        have e1 := chunkUnits_step s.lens s.num_chunks s.current_chunk (by omega)
        omega
      · simp at h

theorem next_bit_adv (inp : List Nat) (s s' : ezimg_cstream) (b : Nat)
    (h : ezimg_next_bit inp s = .ok (b, s')) (hok : streamOk s) :
    streamOk s' ∧ s'.lens = s.lens ∧ s'.num_chunks = s.num_chunks ∧
      (s.at_end = true → s' = s) ∧ (s.at_end = false → streamLeft s' < streamLeft s) := by
  unfold ezimg_next_bit at h
  by_cases he : s.at_end = true
  · rw [if_pos he] at h
    injection h with h
    injection h with _ h
    subst h
    exact ⟨hok, rfl, rfl, fun _ => rfl, fun h0 => by rw [h0] at he; cases he⟩
  · have he0 : s.at_end = false := by
      cases hh : s.at_end
      · rfl
      · exact absurd hh he
    have hno : s.at_end = true → s' = s := fun h1 => by rw [h1] at he0; cases he0
    rw [if_neg he] at h
    simp only [] at h
    by_cases hm : (s.mask <<< 1) % 256 = 0
    · rw [if_pos hm] at h
      simp only [bind, Except.bind, pure, Except.pure] at h
      cases hr : ezimg_cread_u8 inp { s with mask := 1 } with
      | error e => rw [hr] at h; simp at h
      | ok q =>
        obtain ⟨v, s1⟩ := q
        rw [hr] at h
        simp only [] at h
        injection h with h
        injection h with _ h
        subst h
        obtain ⟨g1, g2, g3, g4⟩ := cread_u8_adv inp _ _ _ hr he0
        simp only [] at g1 g2 g3
        have hm128 : s.mask = 128 := by
          unfold streamOk at hok
          rcases hok with h | h | h | h | h | h | h | h <;> rw [h] at hm <;> simp_all
        have hok1 : streamOk { s1 with buff := v } := by
          unfold streamOk
          simp only []
          rw [g1]
          exact Or.inl rfl
        have hlt : streamLeft { s1 with buff := v } < streamLeft s := by
          rcases g4 with g4 | ⟨g4, g5⟩
          · simp [streamLeft, g4, he0, hm128, maskBits]
          · simp only [streamLeft, streamUnits, he0, g4, g1, hm128, Bool.false_eq_true,
              if_false, maskBits] at g5 ⊢
            simp only [OfNat.ofNat_ne_one, if_false, if_true] at g5 ⊢
            simp at g5 ⊢
            omega
        exact ⟨hok1, g2, g3, hno, fun _ => hlt⟩
    · rw [if_neg hm] at h
      injection h with h
      injection h with _ h
      subst h
      have hok1 : streamOk { s with mask := (s.mask <<< 1) % 256 } := by
        unfold streamOk at hok ⊢
        simp only []
        rcases hok with h | h | h | h | h | h | h | h <;> rw [h] at hm ⊢ <;> simp_all
      have hlt : streamLeft { s with mask := (s.mask <<< 1) % 256 } < streamLeft s := by
        have e : streamUnits { s with mask := (s.mask <<< 1) % 256 } = streamUnits s := rfl
        simp only [streamLeft, he0, Bool.false_eq_true, if_false, e]
        unfold streamOk at hok
        rcases hok with h | h | h | h | h | h | h | h <;> rw [h] at hm ⊢ <;>
          simp_all [maskBits]
      exact ⟨hok1, rfl, rfl, hno, fun _ => hlt⟩

theorem streamAdv_refl (s : ezimg_cstream) : StreamAdv s s :=
  fun h => ⟨h, le_refl _⟩

theorem streamAdv_trans {s1 s2 s3 : ezimg_cstream} (h1 : StreamAdv s1 s2)
    (h2 : StreamAdv s2 s3) : StreamAdv s1 s3 := by
  intro h
  obtain ⟨c1, c2⟩ := h1 h
  obtain ⟨d1, d2⟩ := h2 c1
  exact ⟨d1, by omega⟩

theorem cread_bits_adv (inp : List Nat) (s s' : ezimg_cstream) (n v : Nat)
    (h : ezimg_cread_bits inp s n = .ok (v, s')) :
    StreamAdv s s' ∧ (0 < n → s.at_end = false → streamOk s → streamLeft s' < streamLeft s) ∧
      (s.at_end = true → s' = s ∧ v = 0) := by
  have := forLoop_ok_inv
    (fun i (p : Nat × ezimg_cstream) =>
      (do
        let (bit, stream) ← ezimg_next_bit inp p.2
        return (p.1 ||| (bit <<< i), stream) : Except Trap (Nat × ezimg_cstream)))
    (fun i p => StreamAdv s p.2 ∧
      (0 < i → s.at_end = false → streamOk s → streamLeft p.2 < streamLeft s) ∧
      (s.at_end = true → p.2 = s ∧ p.1 = 0) ∧ (i = 0 → p.2 = s)) n 0 (0, s) (v, s')
    ⟨streamAdv_refl s, fun hi => absurd hi (by omega), fun _ => ⟨rfl, rfl⟩, fun _ => rfl⟩ (by
      intro j p p1 _ _ ⟨g1, g2, g3, g0⟩ hb
      simp only [bind, Except.bind, pure, Except.pure] at hb
      cases hq : ezimg_next_bit inp p.2 with
      | error e => rw [hq] at hb; simp at hb
      | ok q =>
        obtain ⟨bit, s1⟩ := q
        rw [hq] at hb
        simp only [] at hb
        injection hb with hb
        subst hb
        simp only []
        refine ⟨?_, ?_, ?_, fun hh => absurd hh (by omega)⟩
        · intro hok
          obtain ⟨c1, c2⟩ := g1 hok
          obtain ⟨n1, _, _, n4, n5⟩ := next_bit_adv inp _ _ _ hq c1
          refine ⟨n1, ?_⟩
          cases hp : p.2.at_end with
          | true => rw [n4 hp]; exact c2
          | false =>
            have := n5 hp
            omega
        · intro _ he hok
          obtain ⟨c1, c2⟩ := g1 hok
          obtain ⟨n1, _, _, n4, n5⟩ := next_bit_adv inp _ _ _ hq c1
          by_cases hj : 0 < j
          · have := g2 hj he hok
            cases hp : p.2.at_end with
            | true => rw [n4 hp]; exact this
            | false =>
              have := n5 hp
              omega
          · have hj0 : j = 0 := by omega
            cases hp : p.2.at_end with
            | true =>
              rw [g0 hj0, he] at hp
              cases hp
            | false =>
              have := n5 hp
              omega
        · intro he
          obtain ⟨e1, e2⟩ := g3 he
          have hq2 := hq
          rw [e1] at hq2
          unfold ezimg_next_bit at hq2
          rw [if_pos he] at hq2
          injection hq2 with hq2
          injection hq2 with hq3 hq4
          subst hq3
          subst hq4
          exact ⟨rfl, by rw [e2]; simp⟩) h
  simp only [Nat.zero_add] at this
  exact ⟨this.1, this.2.1, this.2.2.1⟩

theorem huff_decode_loop_adv (inp : List Nat) (huff : ezimg_huff) :
    ∀ (k code len : Nat) (s s' : ezimg_cstream) (r : Int),
      huff_decode_loop inp huff k code len s = .ok (r, s') → StreamAdv s s' := by
  intro k
  induction k with
  | zero =>
    intro code len s s' r h
    simp only [huff_decode_loop] at h
    injection h with h
    injection h with _ h
    subst h
    exact streamAdv_refl s
  | succ k ih =>
    intro code len s s' r h
    simp only [huff_decode_loop] at h
    split at h
    · injection h with h
      injection h with _ h
      subst h
      exact streamAdv_refl s
    · split at h
      · injection h with h
        injection h with _ h
        subst h
        exact streamAdv_refl s
      · split at h
        · rename_i bit s1 hb
          exact streamAdv_trans (cread_bits_adv inp _ _ _ _ hb).1 (ih _ _ _ _ _ h)
        · simp at h

theorem huff_decode_adv (inp : List Nat) (huff : ezimg_huff) (s s' : ezimg_cstream) (r : Int)
    (h : ezimg_huff_decode inp huff s = .ok (r, s')) :
    StreamAdv s s' ∧ (s.at_end = false → streamOk s → streamLeft s' < streamLeft s) := by
  simp only [ezimg_huff_decode, bind, Except.bind, pure, Except.pure] at h
  cases hb : ezimg_cread_bits inp s 1 with
  | error e => rw [hb] at h; simp at h
  | ok q =>
    obtain ⟨bit, s1⟩ := q
    rw [hb] at h
    simp only [] at h
    obtain ⟨a1, a2, _⟩ := cread_bits_adv inp _ _ _ _ hb
    have a3 := huff_decode_loop_adv inp huff _ _ _ _ _ _ h
    refine ⟨streamAdv_trans a1 a3, fun he hok => ?_⟩
    have := a2 (by omega) he hok
    have := (a3 (a1 hok).1).2
    omega

theorem deflate_len_adv (inp : List Nat) (code : Int) (s s' : ezimg_cstream) (r : Int)
    (h : ezimg_deflate_len inp code s = .ok (r, s')) : StreamAdv s s' := by
  unfold ezimg_deflate_len at h
  split at h
  · injection h with h
    injection h with _ h
    subst h
    exact streamAdv_refl s
  · split at h
    · injection h with h
      injection h with _ h
      subst h
      exact streamAdv_refl s
    · split at h
      · injection h with h
        injection h with _ h
        subst h
        exact streamAdv_refl s
      · simp only [bind, Except.bind, pure, Except.pure] at h
        cases hb : ezimg_cread_bits inp s ((code - 261) / 4).toNat with
        | error e => rw [hb] at h; simp at h
        | ok q =>
          rw [hb] at h
          simp only [] at h
          injection h with h
          injection h with _ h
          subst h
          exact (cread_bits_adv inp _ _ _ _ hb).1

theorem deflate_dist_adv (inp : List Nat) (code : Int) (s s' : ezimg_cstream) (r : Int)
    (h : ezimg_deflate_dist inp code s = .ok (r, s')) : StreamAdv s s' := by
  unfold ezimg_deflate_dist at h
  split at h
  · injection h with h
    injection h with _ h
    subst h
    exact streamAdv_refl s
  · split at h
    · injection h with h
      injection h with _ h
      subst h
      exact streamAdv_refl s
    · simp only [bind, Except.bind, pure, Except.pure] at h
      cases hb : ezimg_cread_bits inp s ((code - 2) / 2).toNat with
      | error e => rw [hb] at h; simp at h
      | ok q =>
        rw [hb] at h
        simp only [] at h
        injection h with h
        injection h with _ h
        subst h
        exact (cread_bits_adv inp _ _ _ _ hb).1

theorem inflate_backref_adv (inp : List Nat) (dist_huff : ezimg_huff) (outp_end : Nat)
    (lit_len : Int) (st st' : InflateState)
    (h : inflate_backref inp dist_huff outp_end lit_len st = .ok st') :
    StreamAdv st.stream st'.stream := by
  simp only [inflate_backref, bind, Except.bind, pure, Except.pure, liftTrap] at h
  cases h1 : ezimg_deflate_len inp lit_len st.stream with
  | error e => rw [h1] at h; simp at h
  | ok q1 =>
    obtain ⟨len, s1⟩ := q1
    rw [h1] at h
    simp only [] at h
    cases h2 : ezimg_huff_decode inp dist_huff s1 with
    | error e => rw [h2] at h; simp at h
    | ok q2 =>
      obtain ⟨dsym, s2⟩ := q2
      rw [h2] at h
      simp only [] at h
      by_cases hneg : dsym < 0
      · rw [if_pos hneg] at h
        simp [throw, throwThe, MonadExceptOf.throw] at h
      · rw [if_neg hneg] at h
        cases h3 : ezimg_deflate_dist inp dsym s2 with
        | error e => rw [h3] at h; simp at h
        | ok q3 =>
          obtain ⟨dist, s3⟩ := q3
          rw [h3] at h
          simp only [] at h
          by_cases hbad : dist < 0 ∨ len ≤ 0
          · rw [if_pos hbad] at h
            simp [throw, throwThe, MonadExceptOf.throw] at h
          · rw [if_neg hbad] at h
            by_cases hback : (st.outp : Int) - dist < 0
            · rw [if_pos hback] at h
              simp [throw, throwThe, MonadExceptOf.throw] at h
            · rw [if_neg hback] at h
              generalize hr : forRange len.toNat _ _ = r at h
              cases r with
              | error e => simp at h
              | ok p =>
                simp only [] at h
                injection h with h
                have hinv := forLoop_ok_inv _
                  (fun _ (p : InflateState × Nat) => p.1.stream = s3)
                  len.toNat 0 _ p rfl (by
                    intro j p p1 _ _ g1 hb
                    split at hb
                    · simp at hb
                    · rename_i st1 he
                      injection hb with hb
                      subst hb
                      obtain ⟨v, s, hbs, e1, e2, e3, e4, e5⟩ := EMIT_ok _ _ _ _ he
                      have hs : s = p.1 := by
                        split at hbs
                        · simp at hbs
                        · injection hbs with hbs
                          injection hbs with _ hbs
                          exact hbs.symm
                      subst hs
                      simp only []
                      rw [e2, g1]) hr
                subst h
                rw [hinv]
                exact streamAdv_trans (deflate_len_adv inp _ _ _ _ h1)
                  (streamAdv_trans (huff_decode_adv inp _ _ _ _ h2).1
                    (deflate_dist_adv inp _ _ _ _ h3))

theorem inflate_symbol_step_adv (inp : List Nat) (lit dist : ezimg_huff) (outp_end : Nat)
    (st st' : InflateState) (c : Bool)
    (h : inflate_symbol_step inp lit dist outp_end st = .ok (c, st')) :
    StreamAdv st.stream st'.stream := by
  simp only [inflate_symbol_step, bind, Except.bind, pure, Except.pure, liftTrap] at h
  cases hd : ezimg_huff_decode inp lit st.stream with
  | error e => rw [hd] at h; simp at h
  | ok q =>
    obtain ⟨lit_len, s1⟩ := q
    rw [hd] at h
    simp only [] at h
    have a1 := (huff_decode_adv inp _ _ _ _ hd).1
    by_cases h256 : lit_len = 256
    · rw [if_pos h256] at h
      injection h with h
      injection h with hc hs
      subst hs
      exact a1
    · rw [if_neg h256] at h
      by_cases hneg : lit_len < 0
      · rw [if_pos hneg] at h
        simp [throw, throwThe, MonadExceptOf.throw] at h
      · rw [if_neg hneg] at h
        by_cases hlit : lit_len < 256
        · rw [if_pos hlit] at h
          cases he : EMIT outp_end { st with stream := s1 }
              (fun st => .ok (lit_len.toNat, st)) with
          | error e => rw [he] at h; simp at h
          | ok st1 =>
            rw [he] at h
            simp only [] at h
            injection h with h
            injection h with hc hs
            subst hs
            obtain ⟨v, s, hbs, e1, e2, e3, e4, e5⟩ := EMIT_ok _ _ _ _ he
            injection hbs with hbs
            injection hbs with _ hbs
            subst hbs
            rw [e2]
            exact a1
        · rw [if_neg hlit] at h
          cases hb : inflate_backref inp dist outp_end lit_len { st with stream := s1 } with
          | error e => rw [hb] at h; simp at h
          | ok st1 =>
            rw [hb] at h
            simp only [] at h
            injection h with h
            injection h with hc hs
            subst hs
            exact streamAdv_trans a1 (inflate_backref_adv _ _ _ _ _ _ hb)

theorem inflate_symbols_adv (inp : List Nat) (lit dist : ezimg_huff) (outp_end : Nat) :
    ∀ (fuel : Nat) (st st' : InflateState),
      inflate_symbols inp lit dist outp_end fuel st = .ok st' →
      StreamAdv st.stream st'.stream := by
  intro fuel
  induction fuel with
  | zero =>
    intro st st' h
    simp [inflate_symbols] at h
  | succ fuel ih =>
    intro st st' h
    rw [inflate_symbols_succ] at h
    cases hs : inflate_symbol_step inp lit dist outp_end st with
    | error e => rw [hs] at h; simp at h
    | ok q =>
      obtain ⟨c, st1⟩ := q
      rw [hs] at h
      have a1 := inflate_symbol_step_adv _ _ _ _ _ _ _ hs
      cases c with
      | true =>
        simp only [] at h
        exact streamAdv_trans a1 (ih st1 st' h)
      | false =>
        simp only [] at h
        injection h with h
        subst h
        exact a1

theorem compute_htable_loop_adv (inp : List Nat) (huff : ezimg_huff) (hcount : Nat) :
    ∀ (fuel : Nat) (st st' : HtableState),
      compute_htable_loop inp huff hcount fuel st = .ok (some st') →
      StreamAdv st.stream st'.stream := by
  intro fuel
  induction fuel with
  | zero =>
    intro st st' h
    simp only [compute_htable_loop] at h
    split at h
    · simp at h
    · injection h with h
      injection h with h
      subst h
      exact streamAdv_refl _
  | succ fuel ih =>
    intro st st' h
    rw [compute_htable_loop] at h
    split at h
    · simp only [bind, Except.bind, pure, Except.pure] at h
      cases hd : ezimg_huff_decode inp huff st.stream with
      | error e => rw [hd] at h; simp at h
      | ok q =>
        obtain ⟨sym, s1⟩ := q
        rw [hd] at h
        simp only [] at h
        have a1 := (huff_decode_adv inp _ _ _ _ hd).1
        split at h
        · simp at h
        · generalize hsel : (if sym ≤ 15 then _ else _ :
            Except Trap (Option (Nat × Nat × ezimg_cstream))) = sel at h
          cases sel with
          | error e => simp at h
          | ok o =>
            cases o with
            | none => simp at h
            | some t =>
              obtain ⟨rv, rc, s2⟩ := t
              simp only [] at h
              have a2 : StreamAdv s1 s2 := by
                split at hsel
                · injection hsel with hsel
                  injection hsel with hsel
                  injection hsel with _ hsel
                  injection hsel with _ hsel
                  subst hsel
                  exact streamAdv_refl _
                · split at hsel
                  · split at hsel
                    · simp at hsel
                    · cases hg : aget st.htable (st.i - 1) with
                      | error e => rw [hg] at hsel; simp at hsel
                      | ok pv =>
                        rw [hg] at hsel
                        simp only [] at hsel
                        cases hb : ezimg_cread_bits inp s1 2 with
                        | error e => rw [hb] at hsel; simp at hsel
                        | ok q2 =>
                          rw [hb] at hsel
                          simp only [] at hsel
                          injection hsel with hsel
                          injection hsel with hsel
                          injection hsel with _ hsel
                          injection hsel with _ hsel
                          subst hsel
                          exact (cread_bits_adv inp _ _ _ _ hb).1
                  · split at hsel
                    · cases hb : ezimg_cread_bits inp s1 3 with
                      | error e => rw [hb] at hsel; simp at hsel
                      | ok q2 =>
                        rw [hb] at hsel
                        simp only [] at hsel
                        injection hsel with hsel
                        injection hsel with hsel
                        injection hsel with _ hsel
                        injection hsel with _ hsel
                        subst hsel
                        exact (cread_bits_adv inp _ _ _ _ hb).1
                    · split at hsel
                      · cases hb : ezimg_cread_bits inp s1 7 with
                        | error e => rw [hb] at hsel; simp at hsel
                        | ok q2 =>
                          rw [hb] at hsel
                          simp only [] at hsel
                          injection hsel with hsel
                          injection hsel with hsel
                          injection hsel with _ hsel
                          injection hsel with _ hsel
                          subst hsel
                          exact (cread_bits_adv inp _ _ _ _ hb).1
                      · simp at hsel
              split at h
              · simp at h
              · exact streamAdv_trans a1 (streamAdv_trans a2 (ih _ _ h))
    · injection h with h
      injection h with h
      subst h
      exact streamAdv_refl _

theorem compute_htable_adv (inp : List Nat) (s s' : ezimg_cstream) (huff : ezimg_huff)
    (htable t : List Nat) (hcount hmax : Nat)
    (h : ezimg_compute_htable inp s huff htable hcount hmax = .ok (some (t, s'))) :
    StreamAdv s s' := by
  simp only [ezimg_compute_htable, bind, Except.bind, pure, Except.pure] at h
  cases hz : forRange hmax (fun i htable => aset htable i 0) htable with
  | error e => rw [hz] at h; simp at h
  | ok z =>
    rw [hz] at h
    simp only [] at h
    cases ho : compute_htable_loop inp huff hcount hcount
        { stream := s, htable := z, i := 0 } with
    | error e => rw [ho] at h; simp at h
    | ok o =>
      rw [ho] at h
      cases o with
      | none => simp at h
      | some st' =>
        simp only [] at h
        split at h
        · simp at h
        · injection h with h
          injection h with h
          injection h with _ h
          subst h
          exact compute_htable_loop_adv inp huff hcount hcount
            { stream := s, htable := z, i := 0 } st' ho

theorem orReject_ok {α : Type} (buff : List Nat) (x : Except Trap (Option α)) (a : α)
    (h : orReject buff x = .ok a) : x = .ok (some a) := by
  unfold orReject at h
  split at h
  · injection h with h
    subst h
    rfl
  · simp at h
  · simp at h

theorem liftTrap_ok {α : Type} (x : Except Trap α) (a : α) (h : liftTrap x = .ok a) :
    x = .ok a := by
  unfold liftTrap at h
  split at h
  · injection h with h
    subst h
    rfl
  · simp at h

theorem inflate_dynamic_tables_adv (inp : List Nat) (st : InflateState)
    (lit dist : ezimg_huff) (s' : ezimg_cstream)
    (h : inflate_dynamic_tables inp st = .ok (lit, dist, s')) :
    StreamAdv st.stream s' := by
  unfold inflate_dynamic_tables at h
  cases h1 : liftTrap (ezimg_cread_bits inp st.stream 5) with
  | error e => rw [h1, bind_error_eq] at h; cases h
  | ok q1 =>
    obtain ⟨hlit, s1⟩ := q1
    rw [h1, bind_ok_eq] at h
    simp only [] at h
    have a1 := (cread_bits_adv inp _ _ _ _ (liftTrap_ok _ _ h1)).1
    cases h2 : liftTrap (ezimg_cread_bits inp s1 5) with
    | error e => rw [h2, bind_error_eq] at h; cases h
    | ok q2 =>
      obtain ⟨hdist, s2⟩ := q2
      rw [h2, bind_ok_eq] at h
      simp only [] at h
      have a2 := (cread_bits_adv inp _ _ _ _ (liftTrap_ok _ _ h2)).1
      cases h3 : liftTrap (ezimg_cread_bits inp s2 4) with
      | error e => rw [h3, bind_error_eq] at h; cases h
      | ok q3 =>
        obtain ⟨hclen, s3⟩ := q3
        rw [h3, bind_ok_eq] at h
        simp only [] at h
        have a3 := (cread_bits_adv inp _ _ _ _ (liftTrap_ok _ _ h3)).1
        split at h
        · simp only [throw, throwThe, MonadExceptOf.throw] at h
          rw [bind_error_eq] at h
          cases h
        · rw [show (pure PUnit.unit : Except Halt PUnit) = Except.ok PUnit.unit from rfl,
            bind_ok_eq] at h
          generalize hr : liftTrap (forRange (hclen + 4) _ (List.replicate 20 0, s3)) = r at h
          cases r with
          | error e => rw [bind_error_eq] at h; cases h
          | ok q4 =>
            obtain ⟨hclen_table, s4⟩ := q4
            rw [bind_ok_eq] at h
            simp only [] at h
            have a4 : StreamAdv s3 s4 := by
              have hr2 := liftTrap_ok _ _ hr
              have := forLoop_ok_inv _ (fun _ (p : List Nat × ezimg_cstream) => StreamAdv s3 p.2)
                (hclen + 4) 0 _ _ (streamAdv_refl s3) (by
                  intro j p p1 _ _ g1 hb
                  simp only [bind, Except.bind, pure, Except.pure] at hb
                  cases hq : ezimg_cread_bits inp p.2 3 with
                  | error e => rw [hq] at hb; simp at hb
                  | ok q =>
                    rw [hq] at hb
                    simp only [] at hb
                    split at hb
                    · simp at hb
                    · split at hb
                      · simp at hb
                      · injection hb with hb
                        subst hb
                        exact streamAdv_trans g1 (cread_bits_adv inp _ _ _ _ hq).1) hr2
              exact this
            cases h5 : orReject st.buff (ezimg_compute_huff hclen_table 20 huff_zero) with
            | error e => rw [h5, bind_error_eq] at h; cases h
            | ok clen_huff =>
              rw [h5, bind_ok_eq] at h
              cases h6 : orReject st.buff
                  (ezimg_compute_htable inp s4 clen_huff (List.replicate 288 0) (hlit + 257) 288) with
              | error e => rw [h6, bind_error_eq] at h; cases h
              | ok q6 =>
                obtain ⟨hlit_table, s6⟩ := q6
                rw [h6, bind_ok_eq] at h
                simp only [] at h
                have a6 := compute_htable_adv inp _ _ _ _ _ _ _ (orReject_ok _ _ _ h6)
                cases h7 : orReject st.buff
                    (ezimg_compute_huff hlit_table (hlit + 257) huff_zero) with
                | error e => rw [h7, bind_error_eq] at h; cases h
                | ok lit_len_huff =>
                  rw [h7, bind_ok_eq] at h
                  cases h8 : orReject st.buff
                      (ezimg_compute_htable inp s6 clen_huff (List.replicate 32 0)
                        (hdist + 1) 32) with
                  | error e => rw [h8, bind_error_eq] at h; cases h
                  | ok q8 =>
                    obtain ⟨hdist_table, s8⟩ := q8
                    rw [h8, bind_ok_eq] at h
                    simp only [] at h
                    have a8 := compute_htable_adv inp _ _ _ _ _ _ _ (orReject_ok _ _ _ h8)
                    cases h9 : orReject st.buff
                        (ezimg_compute_huff hdist_table (hdist + 1) huff_zero) with
                    | error e => rw [h9, bind_error_eq] at h; cases h
                    | ok dist_huff =>
                      rw [h9, bind_ok_eq] at h
                      simp only [pure, Except.pure] at h
                      injection h with h
                      injection h with _ h
                      injection h with _ h
                      subst h
                      exact streamAdv_trans a1 (streamAdv_trans a2 (streamAdv_trans a3
                        (streamAdv_trans a4 (streamAdv_trans a6 a8))))

theorem streamLeft_pos (s : ezimg_cstream) (he : s.at_end = false) (hok : streamOk s) :
    0 < streamLeft s := by
  unfold streamLeft
  rw [he]
  simp only [Bool.false_eq_true, if_false]
  unfold streamOk at hok
  rcases hok with h | h | h | h | h | h | h | h <;> rw [h] <;> simp [maskBits]

theorem inflate_block_step_adv (inp : List Nat) (outp_end : Nat) (st st' : InflateState)
    (c : Bool) (h : inflate_block_step inp outp_end st = .ok (c, st'))
    (hok : streamOk st.stream) :
    streamOk st'.stream ∧ streamLeft st'.stream < streamLeft st.stream := by
  unfold inflate_block_step at h
  generalize inflate_fixed_tables = F at h
  cases h1 : liftTrap (ezimg_cread_bits inp st.stream 1) with
  | error e => rw [h1, bind_error_eq] at h; cases h
  | ok q1 =>
    obtain ⟨il, s1⟩ := q1
    rw [h1, bind_ok_eq] at h
    simp only [] at h
    obtain ⟨a1, a1s, a1e⟩ := cread_bits_adv inp _ _ _ _ (liftTrap_ok _ _ h1)
    cases h2 : liftTrap (ezimg_cread_bits inp s1 2) with
    | error e => rw [h2, bind_error_eq] at h; cases h
    | ok q2 =>
      obtain ⟨btype, s2⟩ := q2
      rw [h2, bind_ok_eq] at h
      simp only [] at h
      obtain ⟨a2, _, a2e⟩ := cread_bits_adv inp _ _ _ _ (liftTrap_ok _ _ h2)
      have hstart : StreamAdv st.stream s2 := streamAdv_trans a1 a2
      by_cases hb0 : btype = 0
      · rw [if_pos hb0] at h
        cases hs : inflate_stored inp outp_end { st with stream := s2 } with
        | error e => rw [hs, bind_error_eq] at h; cases h
        | ok st1 => exact absurd hs (inflate_stored_not_ok _ _ _ _)
      · have hne : st.stream.at_end = false := by
          cases he : st.stream.at_end with
          | false => rfl
          | true =>
            exfalso
            obtain ⟨e1, _⟩ := a1e he
            rw [e1] at a2e
            exact hb0 (a2e he).2
        have hstrict : streamLeft s2 < streamLeft st.stream := by
          have := a1s (by omega) hne hok
          have := (a2 (a1 hok).1).2
          omega
        have hs2 : streamOk s2 := (hstart hok).1
        have fin : ∀ (t1 t2 : ezimg_huff) (s3 : ezimg_cstream), StreamAdv s2 s3 →
            ∀ r, inflate_symbols inp t1 t2 outp_end (outp_end - st.outp + 1)
                { st with stream := s3 } = .ok r →
              streamOk r.stream ∧ streamLeft r.stream < streamLeft st.stream := by
          intro t1 t2 s3 a3 r hy
          have a4 := inflate_symbols_adv _ _ _ _ _ { st with stream := s3 } _ hy
          obtain ⟨c1, c2⟩ := a3 hs2
          obtain ⟨d1, d2⟩ := a4 c1
          simp only [] at d2
          exact ⟨d1, by omega⟩
        rw [if_neg hb0] at h
        by_cases hb1 : btype = 1
        · rw [if_pos hb1] at h
          cases ht : F { st with stream := s2 } with
          | error e => rw [ht, bind_error_eq, bind_error_eq] at h; cases h
          | ok t =>
            obtain ⟨t1, t2⟩ := t
            rw [ht, bind_ok_eq] at h
            simp only [] at h
            cases hy : inflate_symbols inp t1 t2 outp_end
                (outp_end - st.outp + 1) { st with stream := s2 } with
            | error e => rw [hy, bind_error_eq] at h; cases h
            | ok r =>
              rw [hy, bind_ok_eq] at h
              simp only [pure, Except.pure] at h
              injection h with h
              injection h with _ h
              subst h
              exact fin t1 t2 s2 (streamAdv_refl _) _ hy
        · rw [if_neg hb1] at h
          by_cases hb2 : btype = 2
          · rw [if_pos hb2] at h
            cases ht : inflate_dynamic_tables inp { st with stream := s2 } with
            | error e => rw [ht, bind_error_eq, bind_error_eq] at h; cases h
            | ok t =>
              obtain ⟨t1, t2, t3⟩ := t
              rw [ht, bind_ok_eq] at h
              simp only [] at h
              cases hy : inflate_symbols inp t1 t2 outp_end
                  (outp_end - st.outp + 1) { st with stream := t3 } with
              | error e => rw [hy, bind_error_eq] at h; cases h
              | ok r =>
                rw [hy, bind_ok_eq] at h
                simp only [pure, Except.pure] at h
                injection h with h
                injection h with _ h
                subst h
                exact fin t1 t2 t3
                  (inflate_dynamic_tables_adv inp { st with stream := s2 } _ _ _ ht) _ hy
          · rw [if_neg hb2] at h
            simp only [throw, throwThe, MonadExceptOf.throw] at h
            rw [bind_error_eq] at h
            cases h

theorem inflate_block_open_start (inp : List Nat) (st st1 : InflateState)
    (is_last : Nat) (lit dist : ezimg_huff)
    (h : inflate_block_open inp st = .ok (some (is_last, lit, dist, st1))) :
    st.stream.at_end = false := by
  unfold inflate_block_open at h
  generalize inflate_fixed_tables = F at h
  cases h1 : liftTrap (ezimg_cread_bits inp st.stream 1) with
  | error e => rw [h1, bind_error_eq] at h; cases h
  | ok q1 =>
    obtain ⟨il, s1⟩ := q1
    rw [h1, bind_ok_eq] at h
    simp only [] at h
    obtain ⟨_, _, a1e⟩ := cread_bits_adv inp _ _ _ _ (liftTrap_ok _ _ h1)
    cases h2 : liftTrap (ezimg_cread_bits inp s1 2) with
    | error e => rw [h2, bind_error_eq] at h; cases h
    | ok q2 =>
      obtain ⟨btype, s2⟩ := q2
      rw [h2, bind_ok_eq] at h
      simp only [] at h
      obtain ⟨_, _, a2e⟩ := cread_bits_adv inp _ _ _ _ (liftTrap_ok _ _ h2)
      cases he : st.stream.at_end with
      | false => rfl
      | true =>
        exfalso
        obtain ⟨e1, _⟩ := a1e he
        rw [e1] at a2e
        have hb := (a2e he).2
        subst hb
        rw [if_neg (by omega), if_neg (by omega)] at h
        simp [pure, Except.pure] at h

theorem inflate_blocks_after_ok (inp : List Nat) (outp_end : Nat) :
    ∀ (n : Nat) (st st' : InflateState),
      inflate_blocks_after inp outp_end n st = .ok (false, st') → streamOk st.stream →
      streamOk st'.stream ∧ n + streamLeft st'.stream ≤ streamLeft st.stream ∧
        st'.buff.length = st.buff.length ∧
        ∀ fuel, inflate_blocks inp outp_end (n + fuel) st
          = inflate_blocks inp outp_end fuel st' := by
  intro n
  induction n with
  | zero =>
    intro st st' h hok
    simp only [inflate_blocks_after] at h
    injection h with h
    injection h with _ h
    subst h
    exact ⟨hok, by omega, rfl, fun fuel => by rw [Nat.zero_add]⟩
  | succ n ih =>
    intro st st' h hok
    simp only [inflate_blocks_after] at h
    cases hs : inflate_block_step inp outp_end st with
    | error e => rw [hs] at h; simp at h
    | ok q =>
      obtain ⟨c, st1⟩ := q
      rw [hs] at h
      cases c with
      | true => simp at h
      | false =>
        simp only [] at h
        obtain ⟨g1, g2⟩ := inflate_block_step_adv _ _ _ _ _ hs hok
        obtain ⟨l1, _, _⟩ := inflate_block_step_ok _ _ _ _ _ hs
        obtain ⟨k1, k2, k3, k4⟩ := ih st1 st' h g1
        refine ⟨k1, by omega, by rw [k3, l1], ?_⟩
        intro fuel
        rw [show n + 1 + fuel = (n + fuel) + 1 by omega, inflate_blocks_succ, hs]
        exact k4 fuel

theorem chunkUnits_zero_of_le (lens : List Nat) (num cur : Nat) (h : num ≤ cur) :
    chunkUnits lens num cur = 0 := by
  unfold chunkUnits
  rw [show num - cur = 0 by omega]
  rfl

theorem chunkUnits_le_start (lens : List Nat) (num : Nat) :
    ∀ cur, chunkUnits lens num cur ≤ chunkUnits lens num 0 := by
  intro cur
  induction cur with
  | zero => exact le_refl _
  | succ cur ih =>
    by_cases h : cur < num
    · have := chunkUnits_step lens num cur h
      omega
    · rw [chunkUnits_zero_of_le lens num (cur + 1) (by omega)]
      omega

theorem chunkUnits_eq (lens : List Nat) :
    ∀ (d cur : Nat), chunkUnits lens (cur + d) cur = ((lens.drop cur).take d).sum + d := by
  intro d
  induction d with
  | zero =>
    intro cur
    rw [chunkUnits_zero_of_le lens _ cur (by omega)]
    simp
  | succ d ih =>
    intro cur
    rw [chunkUnits_step lens (cur + (d + 1)) cur (by omega),
      show cur + (d + 1) = (cur + 1) + d by omega, ih (cur + 1)]
    by_cases hc : cur < lens.length
    · rw [List.drop_eq_getElem_cons hc, List.take_succ_cons, List.sum_cons]
      have : lens.getD cur 0 = lens[cur] := by
        rw [List.getD_eq_getElem?_getD, List.getElem?_eq_getElem hc]
        rfl
      omega
    · rw [List.drop_eq_nil_of_le (by omega : lens.length ≤ cur),
        List.drop_eq_nil_of_le (by omega : lens.length ≤ cur + 1)]
      have : lens.getD cur 0 = 0 := by
        rw [List.getD_eq_getElem?_getD, List.getElem?_eq_none (by omega)]
        rfl
      rw [this]
      simp
      omega

theorem streamLeft_le_fuel (s : ezimg_cstream) (hok : streamOk s) :
    streamLeft s ≤ inflate_block_fuel s := by
  unfold streamLeft inflate_block_fuel
  have h1 := chunkUnits_le_start s.lens s.num_chunks s.current_chunk
  have h2 := chunkUnits_eq s.lens s.num_chunks 0
  rw [Nat.zero_add, List.drop_zero] at h2
  have h3 : maskBits s.mask ≤ 8 := by
    unfold streamOk at hok
    rcases hok with h | h | h | h | h | h | h | h <;> rw [h] <;> simp [maskBits]
  split
  · omega
  · unfold streamUnits
    omega

theorem cstream_refill_adv (inp : List Nat) (s s' : ezimg_cstream)
    (h : cstream_refill inp s = .ok s') (he : s.at_end = false) :
    streamOk s' ∧ inflate_block_fuel s' = inflate_block_fuel s := by
  unfold cstream_refill at h
  split at h
  · rename_i b s1 hr
    injection h with h
    subst h
    obtain ⟨g1, g2, g3, _⟩ := cread_u8_adv inp _ _ _ hr he
    refine ⟨?_, ?_⟩
    · unfold streamOk
      simp only []
      rw [g1]
      exact Or.inl rfl
    · unfold inflate_block_fuel
      simp only []
      rw [g2, g3]
  · simp at h

theorem inflate_backref_before_start (inp : List Nat) (dist_huff : ezimg_huff) (outp_end : Nat)
    (lit_len : Int) (st : InflateState) (len dsym d : Int) (sb sc sd : ezimg_cstream)
    (hlen : ezimg_deflate_len inp lit_len st.stream = .ok (len, sb))
    (hdsym : ezimg_huff_decode inp dist_huff sb = .ok (dsym, sc)) (hds : 0 ≤ dsym)
    (hdist : ezimg_deflate_dist inp dsym sc = .ok (d, sd))
    (hbad : (st.outp : Int) < d) :
    inflate_backref inp dist_huff outp_end lit_len st = .error (Halt.reject st.buff) := by
  simp only [inflate_backref, bind, Except.bind, pure, Except.pure, liftTrap, hlen, hdsym,
    hdist, throw, throwThe, MonadExceptOf.throw]
  rw [if_neg (by omega)]
  by_cases h1 : d < 0 ∨ len ≤ 0
  · rw [if_pos h1]
  · rw [if_neg h1, if_pos (by omega)]

theorem inflate_symbol_step_before_start (inp : List Nat) (lit dist_huff : ezimg_huff)
    (outp_end : Nat) (st : InflateState) (lit_len len dsym d : Int)
    (sa sb sc sd : ezimg_cstream)
    (hlit : ezimg_huff_decode inp lit st.stream = .ok (lit_len, sa)) (hgt : 256 < lit_len)
    (hlen : ezimg_deflate_len inp lit_len sa = .ok (len, sb))
    (hdsym : ezimg_huff_decode inp dist_huff sb = .ok (dsym, sc)) (hds : 0 ≤ dsym)
    (hdist : ezimg_deflate_dist inp dsym sc = .ok (d, sd))
    (hbad : (st.outp : Int) < d) :
    inflate_symbol_step inp lit dist_huff outp_end st = .error (Halt.reject st.buff) := by
  have hb := inflate_backref_before_start inp dist_huff outp_end lit_len
    { st with stream := sa } len dsym d sb sc sd hlen hdsym hds hdist hbad
  simp only [inflate_symbol_step, bind, Except.bind, pure, Except.pure, liftTrap, hlit]
  rw [if_neg (by omega), if_neg (by omega), if_neg (by omega), hb]

/-- Claim C24: let the compressed stream have a valid zlib header, `n` complete
blocks that are not the last, then a compressed block in which, after `k`
literals and back-references, a length symbol is decoded whose distance `d`
exceeds the number `st.outp` of bytes produced so far.  Then
`ezimg_decompress_idat` returns 0 and leaves the output buffer as it was when
that back-reference was decoded, no byte of it copied, and `ezimg_png_load`,
when this is the stream of its data chunks, returns `EZIMG_INVALID_IMAGE`. -/
theorem C24_backref_before_start (inp out : List Nat) (cs s1 s2 : ezimg_cstream)
    (width height n k : Nat) (stB st1 st : InflateState) (is_last : Nat)
    (lit dist_huff : ezimg_huff) (lit_len len dsym d : Int) (sa sb sc sd : ezimg_cstream)
    (hcap : ezimg_png_decomp_data_max_size width height ≤ out.length)
    (h0 : cs.at_end = false) (hm : cs.mask = 1)
    (hr1 : cstream_refill inp cs = .ok s1) (h1 : s1.at_end = false)
    (hr2 : cstream_refill inp s1 = .ok s2)
    (hhdr : cs.buff % 16 = 8 ∧ cs.buff / 16 % 16 ≤ 7 ∧ s1.buff / 32 % 2 = 0)
    (hblocks : inflate_blocks_after inp (ezimg_png_decomp_data_max_size width height) n
      { stream := s2, buff := out, outp := 0 } = .ok (false, stB))
    (hopen : inflate_block_open inp stB = .ok (some (is_last, lit, dist_huff, st1)))
    (hsyms : inflate_symbols_after inp lit dist_huff
      (ezimg_png_decomp_data_max_size width height) k st1 = .ok (true, st))
    (hlit : ezimg_huff_decode inp lit st.stream = .ok (lit_len, sa)) (hgt : 256 < lit_len)
    (hlen : ezimg_deflate_len inp lit_len sa = .ok (len, sb))
    (hdsym : ezimg_huff_decode inp dist_huff sb = .ok (dsym, sc)) (hds : 0 ≤ dsym)
    (hdist : ezimg_deflate_dist inp dsym sc = .ok (d, sd))
    (hbad : (st.outp : Int) < d) :
    ezimg_decompress_idat inp cs width height out = .ok (false, st.buff) ∧
      st.buff.length = out.length ∧
      ∀ wk, 8 ≤ inp.length → pngSignatureOk inp →
        pngWalkOf inp = .ok (WalkEnd.finished wk) → wk.chunks ≠ [] →
        ezimg_init_cstream inp
          { chunks := wk.chunks, lens := wk.lens, num_chunks := 0, current_chunk := 0,
            current_pos := 0, buff := 0, mask := 0, at_end := false } wk.chunks.length
          = .ok cs →
        wk.w = width → wk.h = height →
        ezimg_png_load inp out = .ok (failWith .EZIMG_INVALID_IMAGE st.buff) := by
  -- the symbol loop of the block
  have hstep := inflate_symbol_step_before_start inp lit dist_huff
    (ezimg_png_decomp_data_max_size width height) st lit_len len dsym d sa sb sc sd hlit hgt
    hlen hdsym hds hdist hbad
  obtain ⟨y1, y2, y3, y4⟩ := inflate_symbols_after_ok _ _ _ _ _ _ _ hsyms
  have hfuel : ∃ j, ezimg_png_decomp_data_max_size width height - st1.outp + 1 = k + (j + 1) := by
    refine ⟨ezimg_png_decomp_data_max_size width height - st1.outp - k, ?_⟩
    by_cases hk : 0 < k
    · have := y3 hk
      omega
    · omega
  obtain ⟨j, hj⟩ := hfuel
  have hsym : inflate_symbols inp lit dist_huff (ezimg_png_decomp_data_max_size width height)
      (ezimg_png_decomp_data_max_size width height - st1.outp + 1) st1
      = .error (Halt.reject st.buff) := by
    rw [hj, y4 (j + 1), inflate_symbols_succ, hstep]
  -- the block loop
  obtain ⟨o1, o2, o3⟩ := inflate_block_step_of_open inp
    (ezimg_png_decomp_data_max_size width height) stB st1 is_last lit dist_huff hopen
  rw [hsym] at o3
  simp only [] at o3
  obtain ⟨r1, r1f⟩ := cstream_refill_adv inp cs s1 hr1 h0
  obtain ⟨r2, r2f⟩ := cstream_refill_adv inp s1 s2 hr2 h1
  obtain ⟨b1, b2, b3, b4⟩ := inflate_blocks_after_ok _ _ _ _ _ hblocks r2
  simp only [] at b2 b3
  have hpos := streamLeft_pos stB.stream (inflate_block_open_start inp stB st1 is_last lit
    dist_huff hopen) b1
  have hle := streamLeft_le_fuel s2 r2
  rw [r2f, r1f] at hle
  obtain ⟨i, hi⟩ : ∃ i, inflate_block_fuel cs = n + (i + 1) :=
    ⟨inflate_block_fuel cs - n - 1, by omega⟩
  have hrun : inflate_blocks inp (ezimg_png_decomp_data_max_size width height)
      (inflate_block_fuel cs) { stream := s2, buff := out, outp := 0 }
      = .error (Halt.reject st.buff) := by
    rw [hi, b4 (i + 1), inflate_blocks_succ, o3]
  have hdec : ezimg_decompress_idat inp cs width height out = .ok (false, st.buff) := by
    have hd : ezimg_decompress_idat inp cs width height out
        = decompress_run inp cs (ezimg_png_decomp_data_max_size width height) out := by
      simp only [ezimg_decompress_idat]
      rw [if_neg (by omega)]
    rw [hd, decompress_run_header inp cs s1 s2 _ out h0 hm hr1 h1 hr2,
      if_neg (by omega), hrun]
  refine ⟨hdec, by rw [y1, o1, b3], ?_⟩
  intro wk hlen8 hsig hwalk hidat hinit hw hh
  subst hw
  subst hh
  rw [png_load_hdr inp out hlen8 hsig, hwalk]
  exact png_load_decode_rejected inp out wk cs st.buff hidat hinit hdec

set_option maxRecDepth 100000 in
set_option maxHeartbeats 4000000 in
/-- Witness of C24 on `png_backref_too_far`: after the zlib header `78 01` the
first block is a fixed-Huffman block; the literal `41` is written, then the
length symbol 257 (length 3) comes with the distance symbol 1 (distance 2)
while one byte has been produced.  Decompression returns 0 with only the
literal in the buffer and the load returns `EZIMG_INVALID_IMAGE`. -/
theorem C24_backref_before_start_witness :
    ezimg_decompress_idat png_backref_too_far ⟨[41], [10], 1, 0, 1, 120, 1, false⟩ 1 1
        (List.replicate 5 0) = .ok (false, [65, 0, 0, 0, 0]) ∧
    ezimg_png_load png_backref_too_far (List.replicate 5 0)
      = .ok (failWith .EZIMG_INVALID_IMAGE [65, 0, 0, 0, 0]) := by
  have h := C24_backref_before_start png_backref_too_far (List.replicate 5 0)
    ⟨[41], [10], 1, 0, 1, 120, 1, false⟩ ⟨[41], [10], 1, 0, 2, 1, 1, false⟩
    ⟨[41], [10], 1, 0, 3, 115, 1, false⟩ 1 1 0 1
    ⟨⟨[41], [10], 1, 0, 3, 115, 1, false⟩, List.replicate 5 0, 0⟩
    ⟨⟨[41], [10], 1, 0, 3, 115, 8, false⟩, List.replicate 5 0, 0⟩
    ⟨⟨[41], [10], 1, 0, 4, 4, 8, false⟩, [65, 0, 0, 0, 0], 1⟩ 1
    fixed_lit_huff fixed_dist_huff 257 3 1 2
    ⟨[41], [10], 1, 0, 5, 66, 4, false⟩ ⟨[41], [10], 1, 0, 5, 66, 4, false⟩
    ⟨[41], [10], 1, 0, 5, 66, 128, false⟩ ⟨[41], [10], 1, 0, 5, 66, 128, false⟩
    (by decide) rfl rfl (by decide) rfl (by decide) (by decide) rfl
    (inflate_block_open_fixed png_backref_too_far
      ⟨⟨[41], [10], 1, 0, 3, 115, 1, false⟩, List.replicate 5 0, 0⟩ 1
      ⟨[41], [10], 1, 0, 3, 115, 2, false⟩ ⟨[41], [10], 1, 0, 3, 115, 8, false⟩
      (by decide) (by decide))
    (inflate_symbols_after_literals png_backref_too_far fixed_dist_huff 5 [65]
      ⟨⟨[41], [10], 1, 0, 3, 115, 8, false⟩, List.replicate 5 0, 0⟩
      ⟨[41], [10], 1, 0, 4, 4, 8, false⟩ (by decide) (by decide) (by decide) (by decide))
    (fixed_lit_decode_of_reads png_backref_too_far ⟨[41], [10], 1, 0, 4, 4, 8, false⟩
      ⟨[41], [10], 1, 0, 5, 66, 4, false⟩ 257 (by decide) (by decide))
    (by decide) (by decide) (by decide!) (by decide) (by decide)
    (by decide)
  exact ⟨h.1, h.2.2 ⟨⟨67, 0, 67, 67, true⟩, 1, 1, 6, false, [41], [10]⟩ (by decide) (by decide)
    (by decide!) (by decide) (by decide) rfl rfl⟩

/-! ## Claim C31: the byte source of the bit stream -/

set_option maxRecDepth 1000000 in
set_option maxHeartbeats 4000000 in
/-- Claim C31 (code defect): `ezimg_cread_u8` steps to the next range when the
current one is used up and then reads that range at position 0 without looking
at its length.  With the ranges `7`, the empty range and `8` (offsets 0, 1, 2
of the input `7 99 8`) five successive reads return 7, 99, 8, 0, 0: the second
read returns the byte at position 0 of the empty range, which belongs to no
range, where the concatenation of the ranges gives 7, 8, 0, 0, 0.
`png_empty_idat` is the image `png_rgba_1x1`, which loads with `EZIMG_OK`,
with two empty data chunks before its data chunk; the chunk walk records the
lengths 0, 0 and 13.  The first byte of the stream is read at position 0 of the
second empty chunk, the first byte `35` of its checksum: it is not a zlib
header, and `ezimg_png_load` returns `EZIMG_INVALID_IMAGE`. -/
theorem C31_empty_range_is_read :
    cread_bytes [7, 99, 8] 5 ⟨[0, 1, 2], [1, 0, 1], 3, 0, 0, 0, 1, false⟩
      = .ok ([7, 99, 8, 0, 0], ⟨[0, 1, 2], [1, 0, 1], 3, 3, 0, 0, 1, true⟩) ∧
    ezimg_png_load png_rgba_1x1 (List.replicate 5 0)
      = .ok ⟨.EZIMG_OK, [40, 10, 20, 30, 40], some 1, some 1⟩ ∧
    pngWalkOf png_empty_idat
      = .ok (WalkEnd.finished
          ⟨⟨94, 0, 94, 94, true⟩, 1, 1, 6, false, [41, 53, 65], [0, 0, 13]⟩) ∧
    ezimg_init_cstream png_empty_idat ⟨[41, 53, 65], [0, 0, 13], 0, 0, 0, 0, 0, false⟩ 3
      = .ok ⟨[41, 53, 65], [0, 0, 13], 3, 1, 1, 53, 1, false⟩ ∧
    ezimg_png_load png_empty_idat (List.replicate 5 0)
      = .ok (failWith .EZIMG_INVALID_IMAGE (List.replicate 5 0)) := by
  refine ⟨by decide, png_rgba_1x1_load_ok, by decide!, by decide, by decide!⟩

/-! ## Claim C33: the capacity of the code-length table -/

theorem htable_run_loop_overrun (B : Nat → List Nat × Nat → Except Trap (List Nat × Nat))
    (v : Nat) (hB : ∀ j p, B j p = (aset p.1 p.2 v >>= fun h => pure (h, p.2 + 1))) :
    ∀ (n j : Nat) (h : List Nat) (i : Nat), i ≤ h.length → h.length < i + n →
      forLoop B n j (h, i) = .error Trap.oob := by
  intro n
  induction n with
  | zero => intro j h i h1 h2; omega
  | succ n ih =>
    intro j h i h1 h2
    unfold forLoop
    rw [hB]
    by_cases hi : i < h.length
    · simp only [aset, if_pos hi, bind, Except.bind, pure, Except.pure]
      exact ih (j + 1) _ (i + 1) (by rw [List.length_set]; omega)
        (by rw [List.length_set]; omega)
    · simp only [aset, if_neg hi, bind, Except.bind]

theorem htable_run_loop_ok (B : Nat → List Nat × Nat → Except Trap (List Nat × Nat))
    (v : Nat) (hB : ∀ j p, B j p = (aset p.1 p.2 v >>= fun h => pure (h, p.2 + 1))) :
    ∀ (n j : Nat) (h : List Nat) (i : Nat), i + n ≤ h.length →
      ∃ h', h'.length = h.length ∧ forLoop B n j (h, i) = .ok (h', i + n) := by
  intro n
  induction n with
  | zero => intro j h i _; exact ⟨h, rfl, rfl⟩
  | succ n ih =>
    intro j h i h1
    obtain ⟨h', g1, g3⟩ := ih (j + 1) (h.set i (u32 v)) (i + 1)
      (by rw [List.length_set]; omega)
    refine ⟨h', by rw [g1, List.length_set], ?_⟩
    unfold forLoop
    rw [hB]
    simp only [aset, if_pos (show i < h.length by omega), bind, Except.bind, pure, Except.pure]
    rw [g3, Nat.add_assoc, Nat.add_comm 1 n]

theorem htable_run_overrun (v n : Nat) (h : List Nat) (i : Nat) (h1 : i ≤ h.length)
    (h2 : h.length < i + n) : htable_run v n h i = .error Trap.oob :=
  htable_run_loop_overrun (fun _ (p : List Nat × Nat) =>
      (do
        let htable ← aset p.1 p.2 v
        return (htable, p.2 + 1) : Except Trap (List Nat × Nat))) v (fun _ _ => rfl)
    n 0 h i h1 h2

theorem compute_htable_loop_run18 (inp : List Nat) (clen : ezimg_huff) (hcount fuel : Nat)
    (s : ezimg_cstream) (h : List Nat) (i n : Nat) (s1 s2 : ezimg_cstream) (hi : i < hcount)
    (hd : ezimg_huff_decode inp clen s = .ok (18, s1))
    (hb : ezimg_cread_bits inp s1 7 = .ok (n, s2)) :
    compute_htable_loop inp clen hcount (fuel + 1) ⟨s, h, i⟩ =
      (htable_run 0 (11 + n) h i >>= fun p =>
        compute_htable_loop inp clen hcount fuel ⟨s2, p.1, p.2⟩) := by
  rw [compute_htable_loop]
  simp only [if_pos hi, hd, hb, bind_ok_eq]
  rw [if_neg (by decide), if_neg (by decide : ¬ ((18 : Int) ≤ 15)),
    if_neg (by decide : ¬ ((18 : Int) = 16)), if_neg (by decide : ¬ ((18 : Int) = 17)),
    if_pos trivial]
  rfl

theorem compute_htable_loop_run18_ok (inp : List Nat) (clen : ezimg_huff) (hcount fuel : Nat)
    (s : ezimg_cstream) (h : List Nat) (i n : Nat) (s1 s2 : ezimg_cstream) (hi : i < hcount)
    (hd : ezimg_huff_decode inp clen s = .ok (18, s1))
    (hb : ezimg_cread_bits inp s1 7 = .ok (n, s2)) (hr : i + (11 + n) ≤ h.length) :
    ∃ h', h'.length = h.length ∧
      compute_htable_loop inp clen hcount (fuel + 1) ⟨s, h, i⟩ =
        compute_htable_loop inp clen hcount fuel ⟨s2, h', i + (11 + n)⟩ := by
  have g := htable_run_loop_ok (fun _ (p : List Nat × Nat) =>
      (do
        let htable ← aset p.1 p.2 0
        return (htable, p.2 + 1) : Except Trap (List Nat × Nat))) 0 (fun _ _ => rfl)
    (11 + n) 0 h i hr
  obtain ⟨h', g1, g3⟩ := g
  refine ⟨h', g1, ?_⟩
  rw [compute_htable_loop_run18 inp clen hcount fuel s h i n s1 s2 hi hd hb]
  unfold htable_run forRange
  rw [g3]
  rfl

theorem compute_htable_loop_run18_overrun (inp : List Nat) (clen : ezimg_huff)
    (hcount fuel : Nat) (s : ezimg_cstream) (h : List Nat) (i n : Nat) (s1 s2 : ezimg_cstream)
    (hi : i < hcount) (hd : ezimg_huff_decode inp clen s = .ok (18, s1))
    (hb : ezimg_cread_bits inp s1 7 = .ok (n, s2)) (hl : i ≤ h.length)
    (hr : h.length < i + (11 + n)) :
    compute_htable_loop inp clen hcount (fuel + 1) ⟨s, h, i⟩ = .error Trap.oob := by
  rw [compute_htable_loop_run18 inp clen hcount fuel s h i n s1 s2 hi hd hb,
    htable_run_overrun 0 (11 + n) h i hl hr]
  rfl

set_option maxRecDepth 100000 in
theorem png_htable_overrun_loop :
    compute_htable_loop png_htable_overrun clen_huff_0_18 288 288
      ⟨⟨[41], [10], 1, 0, 6, 228, 32, false⟩, List.replicate 288 0, 0⟩ = .error Trap.oob := by
  obtain ⟨h1, l1, e1⟩ := compute_htable_loop_run18_ok png_htable_overrun clen_huff_0_18 288 287
    ⟨[41], [10], 1, 0, 6, 228, 32, false⟩ (List.replicate 288 0) 0 127
    ⟨[41], [10], 1, 0, 6, 228, 64, false⟩ ⟨[41], [10], 1, 0, 7, 255, 32, false⟩
    (by decide) (by decide) (by decide)
    (by rw [List.length_replicate]; decide)
  have l1' : h1.length = 288 := by rw [l1]; exact List.length_replicate _ _
  obtain ⟨h2, l2, e2⟩ := compute_htable_loop_run18_ok png_htable_overrun clen_huff_0_18 288 286
    ⟨[41], [10], 1, 0, 7, 255, 32, false⟩ h1 138 127
    ⟨[41], [10], 1, 0, 7, 255, 64, false⟩ ⟨[41], [10], 1, 0, 8, 63, 32, false⟩
    (by decide) (by decide) (by decide)
    (by rw [l1']; decide)
  have l2' : h2.length = 288 := l2.trans l1'
  obtain ⟨h3, l3, e3⟩ := compute_htable_loop_run18_ok png_htable_overrun clen_huff_0_18 288 285
    ⟨[41], [10], 1, 0, 8, 63, 32, false⟩ h2 276 0
    ⟨[41], [10], 1, 0, 8, 63, 64, false⟩ ⟨[41], [10], 1, 0, 9, 224, 32, false⟩
    (by decide) (by decide) (by decide)
    (by rw [l2']; decide)
  have l3' : h3.length = 288 := l3.trans l2'
  have e4 := compute_htable_loop_run18_overrun png_htable_overrun clen_huff_0_18 288 284
    ⟨[41], [10], 1, 0, 9, 224, 32, false⟩ h3 287 127
    ⟨[41], [10], 1, 0, 9, 224, 64, false⟩ ⟨[41], [10], 1, 0, 10, 31, 32, false⟩
    (by decide) (by decide) (by decide)
    (by rw [l3']; decide)
    (by rw [l3']; decide)
  exact e1.trans (e2.trans (e3.trans e4))

theorem png_htable_overrun_table :
    ezimg_compute_htable png_htable_overrun ⟨[41], [10], 1, 0, 6, 228, 32, false⟩
      clen_huff_0_18 (List.replicate 288 0) 288 288 = .error Trap.oob := by
  unfold ezimg_compute_htable
  have hz := htable_zero (List.replicate 288 0)
  rw [List.length_replicate] at hz
  rw [hz, bind_ok_eq, png_htable_overrun_loop]
  rfl

set_option maxRecDepth 100000 in
theorem png_htable_overrun_tables (out : List Nat) :
    inflate_dynamic_tables png_htable_overrun ⟨⟨[41], [10], 1, 0, 3, 253, 8, false⟩, out, 0⟩
      = .error (Halt.trap Trap.oob) := by
  have r1 : liftTrap (ezimg_cread_bits png_htable_overrun ⟨[41], [10], 1, 0, 3, 253, 8, false⟩ 5)
      = .ok (31, ⟨[41], [10], 1, 0, 4, 0, 1, false⟩) := by decide
  have r2 : liftTrap (ezimg_cread_bits png_htable_overrun ⟨[41], [10], 1, 0, 4, 0, 1, false⟩ 5)
      = .ok (0, ⟨[41], [10], 1, 0, 4, 0, 32, false⟩) := by decide
  have r3 : liftTrap (ezimg_cread_bits png_htable_overrun ⟨[41], [10], 1, 0, 4, 0, 32, false⟩ 4)
      = .ok (0, ⟨[41], [10], 1, 0, 5, 128, 2, false⟩) := by decide
  have r4 : liftTrap (forRange (0 + 4) (fun i (p : List Nat × ezimg_cstream) => do
        let (v, stream) ← ezimg_cread_bits png_htable_overrun p.2 3
        let k ← aget hclen_ord i
        let t ← aset p.1 k v
        return (t, stream)) (List.replicate 20 0, ⟨[41], [10], 1, 0, 5, 128, 2, false⟩))
      = .ok ([1] ++ List.replicate 17 0 ++ [1, 0], ⟨[41], [10], 1, 0, 6, 228, 32, false⟩) := by
    decide
  have r5 : ezimg_compute_huff ([1] ++ List.replicate 17 0 ++ [1, 0]) 20 huff_zero
      = .ok (some clen_huff_0_18) := by decide!
  have r6 : ezimg_compute_htable png_htable_overrun ⟨[41], [10], 1, 0, 6, 228, 32, false⟩
      clen_huff_0_18 (List.replicate 288 0) (31 + 257) 288 = .error Trap.oob :=
    png_htable_overrun_table
  unfold inflate_dynamic_tables
  rw [r1, bind_ok_eq]
  simp only []
  rw [r2, bind_ok_eq]
  simp only []
  rw [r3, bind_ok_eq]
  simp only []
  rw [if_neg (by decide)]
  rw [show (pure PUnit.unit : Except Halt PUnit) = Except.ok PUnit.unit from rfl, bind_ok_eq]
  rw [r4, bind_ok_eq]
  simp only []
  rw [r5]
  rw [show orReject out (Except.ok (some clen_huff_0_18)) = Except.ok clen_huff_0_18 from rfl,
    bind_ok_eq, r6]
  rfl

theorem inflate_block_step_dynamic_error (inp : List Nat) (outp_end : Nat) (st : InflateState)
    (is_last : Nat) (s1 s2 : ezimg_cstream) (e : Halt)
    (h1 : ezimg_cread_bits inp st.stream 1 = .ok (is_last, s1))
    (h2 : ezimg_cread_bits inp s1 2 = .ok (2, s2))
    (h3 : inflate_dynamic_tables inp { st with stream := s2 } = .error e) :
    inflate_block_step inp outp_end st = .error e := by
  unfold inflate_block_step
  generalize inflate_fixed_tables = F
  rw [h1, show liftTrap (Except.ok (is_last, s1) : Except Trap (Nat × ezimg_cstream))
    = Except.ok (is_last, s1) from rfl, bind_ok_eq]
  simp only []
  rw [h2, show liftTrap (Except.ok (2, s2) : Except Trap (Nat × ezimg_cstream))
    = Except.ok (2, s2) from rfl, bind_ok_eq]
  simp only []
  rw [if_neg (by decide), if_neg (by decide), if_pos trivial, h3]
  rfl

theorem png_load_decode_trap (inp out : List Nat) (wk : PngWalk) (cs : ezimg_cstream)
    (t : Trap) (hc : wk.chunks ≠ [])
    (hi : ezimg_init_cstream inp
      { chunks := wk.chunks, lens := wk.lens, num_chunks := 0, current_chunk := 0,
        current_pos := 0, buff := 0, mask := 0, at_end := false } wk.chunks.length = .ok cs)
    (hd : ezimg_decompress_idat inp cs wk.w wk.h out = .error t) :
    png_load_decode inp out wk = .error t := by
  have hl : wk.chunks.length ≠ 0 := by
    intro h
    exact hc (List.length_eq_zero.mp h)
  simp only [png_load_decode, bind, Except.bind, pure, Except.pure, hl, if_false, hi, hd]

set_option maxRecDepth 100000 in
theorem png_htable_overrun_decompress (out : List Nat) (hcap : 5 ≤ out.length) :
    ezimg_decompress_idat png_htable_overrun ⟨[41], [10], 1, 0, 1, 120, 1, false⟩ 1 1 out
      = .error Trap.oob := by
  have hs : ezimg_png_decomp_data_max_size 1 1 = 5 := by decide
  have hstep := inflate_block_step_dynamic_error png_htable_overrun 5
    ⟨⟨[41], [10], 1, 0, 3, 253, 1, false⟩, out, 0⟩ 1
    ⟨[41], [10], 1, 0, 3, 253, 2, false⟩ ⟨[41], [10], 1, 0, 3, 253, 8, false⟩
    (Halt.trap Trap.oob)
    (show ezimg_cread_bits png_htable_overrun ⟨[41], [10], 1, 0, 3, 253, 1, false⟩ 1
      = .ok (1, ⟨[41], [10], 1, 0, 3, 253, 2, false⟩) by decide)
    (by decide) (png_htable_overrun_tables out)
  have hf : inflate_block_fuel ⟨[41], [10], 1, 0, 1, 120, 1, false⟩ = 95 + 1 := by decide
  unfold ezimg_decompress_idat
  simp only []
  rw [hs, if_neg (by omega),
    decompress_run_header png_htable_overrun ⟨[41], [10], 1, 0, 1, 120, 1, false⟩
      ⟨[41], [10], 1, 0, 2, 1, 1, false⟩ ⟨[41], [10], 1, 0, 3, 253, 1, false⟩ 5 out rfl rfl
      (by decide) rfl (by decide),
    if_neg (by decide), hf, inflate_blocks_succ, hstep]

set_option maxRecDepth 100000 in
theorem png_htable_overrun_load (out : List Nat) (hcap : 5 ≤ out.length) :
    ezimg_png_load png_htable_overrun out = .error Trap.oob := by
  rw [png_load_hdr png_htable_overrun out (by decide) (by decide),
    show pngWalkOf png_htable_overrun
      = .ok (WalkEnd.finished ⟨⟨67, 0, 67, 67, true⟩, 1, 1, 6, false, [41], [10]⟩) by decide]
  exact png_load_decode_trap png_htable_overrun out _ ⟨[41], [10], 1, 0, 1, 120, 1, false⟩
    Trap.oob (by decide) (by decide) (png_htable_overrun_decompress out hcap)

set_option maxRecDepth 1000000 in
/-- Claim C33 (code defect): the loop
`while(rep_count > 0) { htable[i++] = rep_val; rep_count -= 1; }` of
`ezimg_compute_htable` (`htable_run`) tests neither `hcount` nor `hmax`; the
count is compared with `hcount` only after the outer loop.  For every table,
a run that starts inside the table and is longer than the rest of it ends in
a store outside the table, and so does the pass of the outer loop that decodes
such a run of symbol 18; it does not end in `return(0)`.  With the codes 00,
01, 10, 11 of the code-length symbols 5, 16, 17, 18 the byte `38` spells 5 and
then 16 with the extra bits 3, a run of six: for `hcount = 2` and a table of
`hmax = 4` entries the run is stored at the indices 1 to 6, and on an array of
eight elements the same loop leaves 5 in the elements 4, 5 and 6.  In
`png_htable_overrun` the literal/length lengths of a dynamic block with
HLIT = 288 are four runs of zeros of the lengths 138, 138, 11 and 138: the
last one starts at the index 287, its second store is outside the 288 entries
of `hlit_table`, and `ezimg_png_load` ends there for every output buffer that
passes the capacity check. -/
theorem C33_repeat_run_stored_past_table :
    (∀ v n h i, i ≤ h.length → h.length < i + n → htable_run v n h i = .error Trap.oob) ∧
    (∀ inp clen hcount fuel s h i n s1 s2, i < hcount →
      ezimg_huff_decode inp clen s = .ok (18, s1) → ezimg_cread_bits inp s1 7 = .ok (n, s2) →
      i ≤ h.length → h.length < i + (11 + n) →
      compute_htable_loop inp clen hcount (fuel + 1) ⟨s, h, i⟩ = .error Trap.oob) ∧
    ezimg_compute_htable [56, 0] ⟨[0], [2], 1, 0, 1, 56, 1, false⟩ clen_huff_5_16_17_18
        (List.replicate 4 0) 2 4 = .error Trap.oob ∧
    compute_htable_loop [56, 0] clen_huff_5_16_17_18 2 2
        ⟨⟨[0], [2], 1, 0, 1, 56, 1, false⟩, List.replicate 8 0, 0⟩
      = .ok (some ⟨⟨[0], [2], 1, 0, 1, 56, 64, false⟩, [5, 5, 5, 5, 5, 5, 5, 0], 7⟩) ∧
    ezimg_compute_htable png_htable_overrun ⟨[41], [10], 1, 0, 6, 228, 32, false⟩
        clen_huff_0_18 (List.replicate 288 0) 288 288 = .error Trap.oob ∧
    (∀ out, 5 ≤ out.length → ezimg_png_load png_htable_overrun out = .error Trap.oob) := by
  refine ⟨htable_run_overrun, ?_, by decide, by decide, png_htable_overrun_table,
    png_htable_overrun_load⟩
  intro inp clen hcount fuel s h i n s1 s2 hi hd hb hl hr
  exact compute_htable_loop_run18_overrun inp clen hcount fuel s h i n s1 s2 hi hd hb hl hr

/-! ## Claims C34 and C35: the end of the input in the chunk walk -/

/-- Claim C34 (code defect): the chunk walk never compares `next_chunk` with
the end of the input, and the size `in_size - (next_chunk - in)` of the next
stream is an `unsigned int` that wraps.  `png_no_iend` (33 bytes) ends after
its header chunk: the next chunk header is read as zeros at offset 33, the
stream of the chunk after it starts at offset 37 with the size `2^32 - 4`, and
the next read is outside the input.  In `png_idat_past_end` (54 bytes) the data
chunk at offset 33 declares the length 1000: the range (41, 1000) is recorded,
the next stream starts at offset 1045 and the next read is outside the input.
`ezimg_png_load` does not return `EZIMG_INVALID_IMAGE` on either input, for any
output buffer. -/
theorem C34_chunk_walk_reads_past_input :
    png_no_iend.length = 33 ∧
    png_walk_step png_no_iend ⟨⟨33, 0, 33, 33, true⟩, 1, 1, 6, false, [], []⟩
      = .ok (Sum.inr ⟨⟨37, 4294967292, 37, 4294967329, true⟩, 1, 1, 6, false, [], []⟩) ∧
    png_walk_step png_no_iend ⟨⟨37, 4294967292, 37, 4294967329, true⟩, 1, 1, 6, false, [], []⟩
      = .error Trap.oob ∧
    (∀ out, ezimg_png_load png_no_iend out = .error Trap.oob) ∧
    png_idat_past_end.length = 54 ∧
    png_walk_step png_idat_past_end ⟨⟨33, 21, 33, 54, true⟩, 1, 1, 6, false, [], []⟩
      = .ok (Sum.inr ⟨⟨1045, 4294966305, 1045, 4294967350, true⟩, 1, 1, 6, false,
          [41], [1000]⟩) ∧
    (∀ out, ezimg_png_load png_idat_past_end out = .error Trap.oob) := by
  refine ⟨rfl, by decide, by decide, ?_, rfl, by decide, ?_⟩
  · intro out
    rw [png_load_hdr png_no_iend out (by decide) (by decide),
      show pngWalkOf png_no_iend = .error Trap.oob by decide]
  · intro out
    rw [png_load_hdr png_idat_past_end out (by decide) (by decide),
      show pngWalkOf png_idat_past_end = .error Trap.oob by decide]

/-- Claim C35 (code defect): `ezimg_png_load` tests `in_size < 8` only, and a
read at the end of the input returns 0.  On `png_cut_24`, the 24-byte input of
the claim, the bit depth is read as 0 and the result is `EZIMG_NOT_SUPPORTED`.
On `png_cut_26` the three missing header bytes are read as 0, which are the
supported values: the header chunk is accepted and the walk goes on at offset
33 of the 26 bytes with the size `2^32 - 7`, where the next read is outside the
input (the defect of C34). -/
theorem C35_truncated_header_not_invalid_image :
    png_cut_24 = png_rgba_1x1.take 24 ∧ png_cut_26 = png_rgba_1x1.take 26 ∧
    (∀ out, ezimg_png_load png_cut_24 out = .ok (failWith .EZIMG_NOT_SUPPORTED out)) ∧
    png_walk_step png_cut_26 (png_walk_init (pngStreamAfterSignature png_cut_26))
      = .ok (Sum.inr ⟨⟨33, 4294967289, 33, 4294967322, true⟩, 1, 1, 6, false, [], []⟩) ∧
    (∀ out, ezimg_png_load png_cut_26 out = .error Trap.oob) := by
  refine ⟨by decide, by decide, ?_, by decide, ?_⟩
  · intro out
    rw [png_load_hdr png_cut_24 out (by decide) (by decide),
      show pngWalkOf png_cut_24 = .ok (WalkEnd.returned .EZIMG_NOT_SUPPORTED) by decide]
  · intro out
    rw [png_load_hdr png_cut_26 out (by decide) (by decide),
      show pngWalkOf png_cut_26 = .error Trap.oob by decide]

/-! ## Claim C39: the capacity check of `ezimg_bmp_load` -/

/-- Claim C39 (code defect): the capacity check compares `out_size` with the
32-bit product `absw*absh*4`.  For the header `bmp24_65536` (width and height
65536) the product is `2^34`, which is 0 in 32 bits: `ezimg_bmp_size` returns
0, and the check passes for every output buffer, also the empty one.  The
decode loops then store `4 * 65536 * 65536` bytes: with an empty output the
first store, with a 5-byte output the sixth, is outside the buffer. -/
theorem C39_capacity_check_wraps :
    bmpWidth bmp24_65536 = 65536 ∧ bmpHeight bmp24_65536 = 65536 ∧
    u32 (65536 * 65536 * 4) = 0 ∧
    ezimg_bmp_size bmp24_65536 = .ok 0 ∧
    ezimg_bmp_load bmp24_65536 [] = .error Trap.oob ∧
    ezimg_bmp_load bmp24_65536 [1, 2, 3, 4, 5] = .error Trap.oob := by
  refine ⟨by decide, by decide, by decide, by decide, by decide, by decide⟩

/-! ## Claim C32: the byte stream -/

theorem streamByte_lt (mem : List Nat) (s : ezimg_stream) (k : Nat) :
    streamByte mem s k < 256 := by
  unfold streamByte
  split
  · exact byteAt_lt _ _
  · omega

theorem read_u8_stream (mem : List Nat) (s : ezimg_stream) (hp : s.ptr ≤ s.ptr_end)
    (he : s.ptr_end ≤ mem.length) :
    ezimg_read_u8 mem s = .ok (streamByte mem s 0, streamAfter s 1) := by
  obtain ⟨b, z, p, e, be⟩ := s
  simp only [streamByte, streamAfter, Nat.add_zero] at hp he ⊢
  by_cases h : p < e
  · rw [read_u8_in mem b z p e be h (by omega), if_pos h, Nat.min_eq_left (by omega)]
  · rw [read_u8_end mem b z p e be (by omega), if_neg h, Nat.min_eq_right (by omega)]
    have : p = e := by omega
    subst this
    rfl

theorem streamAfter_after (s : ezimg_stream) (n m : Nat) :
    streamAfter (streamAfter s n) m = streamAfter s (n + m) := by
  obtain ⟨b, z, p, e, be⟩ := s
  simp only [streamAfter]
  congr 1
  omega

theorem streamByte_after (mem : List Nat) (s : ezimg_stream) (n k : Nat)
    (hp : s.ptr ≤ s.ptr_end) :
    streamByte mem (streamAfter s n) k = streamByte mem s (n + k) := by
  obtain ⟨b, z, p, e, be⟩ := s
  simp only [streamByte, streamAfter] at hp ⊢
  by_cases h : p + n ≤ e
  · rw [Nat.min_eq_left h, Nat.add_assoc]
  · rw [Nat.min_eq_right (by omega), if_neg (by omega), if_neg (by omega)]

theorem read_bytes4_stream (mem : List Nat) (s : ezimg_stream) (hp : s.ptr ≤ s.ptr_end)
    (he : s.ptr_end ≤ mem.length) :
    ezimg_read_u8 mem s = .ok (streamByte mem s 0, streamAfter s 1) ∧
    ezimg_read_u8 mem (streamAfter s 1) = .ok (streamByte mem s 1, streamAfter s 2) ∧
    ezimg_read_u8 mem (streamAfter s 2) = .ok (streamByte mem s 2, streamAfter s 3) ∧
    ezimg_read_u8 mem (streamAfter s 3) = .ok (streamByte mem s 3, streamAfter s 4) := by
  have key : ∀ n, ezimg_read_u8 mem (streamAfter s n)
      = .ok (streamByte mem s n, streamAfter s (n + 1)) := by
    intro n
    rw [read_u8_stream mem (streamAfter s n) (by simp only [streamAfter]; omega)
      (by simpa only [streamAfter] using he), streamByte_after mem s n 0 hp, streamAfter_after]
    rfl
  refine ⟨read_u8_stream mem s hp he, key 1, key 2, key 3⟩

theorem read_u16_stream (mem : List Nat) (s : ezimg_stream) (hp : s.ptr ≤ s.ptr_end)
    (he : s.ptr_end ≤ mem.length) :
    ezimg_read_u16 mem s = .ok (streamU16 mem s, streamAfter s 2) := by
  obtain ⟨h0, h1, _, _⟩ := read_bytes4_stream mem s hp he
  simp only [ezimg_read_u16, bind, Except.bind, pure, Except.pure, h0, h1]
  have e1 := or2_eq (streamByte mem s 1) (streamByte mem s 0) (streamByte_lt _ _ _)
  have e2 := or2_eq (streamByte mem s 0) (streamByte mem s 1) (streamByte_lt _ _ _)
  have hb : (streamAfter s 2).big_endian = s.big_endian := rfl
  rw [hb]
  unfold streamU16
  cases s.big_endian
  · simp only [Bool.false_eq_true, if_false, e2]
    congr 2
    omega
  · simp only [if_true, e1]
    congr 2
    omega

theorem read_u32_stream (mem : List Nat) (s : ezimg_stream) (hp : s.ptr ≤ s.ptr_end)
    (he : s.ptr_end ≤ mem.length) :
    ezimg_read_u32 mem s = .ok (streamU32 mem s, streamAfter s 4) := by
  obtain ⟨h0, h1, h2, h3⟩ := read_bytes4_stream mem s hp he
  simp only [ezimg_read_u32, bind, Except.bind, pure, Except.pure, h0, h1, h2, h3]
  have e1 := or4_eq (streamByte mem s 3) (streamByte mem s 2) (streamByte mem s 1)
    (streamByte mem s 0) (streamByte_lt _ _ _) (streamByte_lt _ _ _) (streamByte_lt _ _ _)
  have e2 := or4_eq (streamByte mem s 0) (streamByte mem s 1) (streamByte mem s 2)
    (streamByte mem s 3) (streamByte_lt _ _ _) (streamByte_lt _ _ _) (streamByte_lt _ _ _)
  have hb : (streamAfter s 4).big_endian = s.big_endian := rfl
  rw [hb]
  unfold streamU32
  cases s.big_endian
  · simp only [Bool.false_eq_true, if_false, e2]
    congr 2
    omega
  · simp only [if_true, e1]
    congr 2
    omega

theorem read_i32_stream (mem : List Nat) (s : ezimg_stream) (hp : s.ptr ≤ s.ptr_end)
    (he : s.ptr_end ≤ mem.length) :
    ezimg_read_i32 mem s = .ok (toInt32 (streamU32 mem s), streamAfter s 4) := by
  obtain ⟨h0, h1, h2, h3⟩ := read_bytes4_stream mem s hp he
  simp only [ezimg_read_i32, bind, Except.bind, pure, Except.pure, h0, h1, h2, h3]
  have e1 := or4_eq (streamByte mem s 3) (streamByte mem s 2) (streamByte mem s 1)
    (streamByte mem s 0) (streamByte_lt _ _ _) (streamByte_lt _ _ _) (streamByte_lt _ _ _)
  have e2 := or4_eq (streamByte mem s 0) (streamByte mem s 1) (streamByte mem s 2)
    (streamByte mem s 3) (streamByte_lt _ _ _) (streamByte_lt _ _ _) (streamByte_lt _ _ _)
  have hb : (streamAfter s 4).big_endian = s.big_endian := rfl
  rw [hb]
  unfold streamU32
  cases s.big_endian
  · simp only [Bool.false_eq_true, if_false, e2]
    congr 3
    omega
  · simp only [if_true, e1]
    congr 3
    omega

theorem streamU32_lt (mem : List Nat) (s : ezimg_stream) : streamU32 mem s < 4294967296 := by
  have h0 := streamByte_lt mem s 0
  have h1 := streamByte_lt mem s 1
  have h2 := streamByte_lt mem s 2
  have h3 := streamByte_lt mem s 3
  unfold streamU32
  split <;> omega

theorem streamByte_congr (mem mem' : List Nat) (s : ezimg_stream) (k : Nat)
    (h : ∀ i, i < s.ptr_end → mem'[i]? = mem[i]?) :
    streamByte mem' s k = streamByte mem s k := by
  unfold streamByte
  split
  · rename_i hk
    simp only [byteAt, List.getD_eq_getElem?_getD, h _ hk]
  · rfl

/-- Claim C32: on a stream that lies inside its buffer, with the next bytes
`b0 b1 b2 b3` (`streamByte`: a byte at or beyond `ptr_end` counts as 0),
`ezimg_read_u8` returns `b0`, `ezimg_read_u16` returns `b0*2^8 + b1`
big-endian and `b1*2^8 + b0` little-endian, `ezimg_read_u32` returns
`b0*2^24 + b1*2^16 + b2*2^8 + b3` big-endian and `b3*2^24 + b2*2^16 + b1*2^8 + b0`
little-endian, and `ezimg_read_i32` returns the same 32 bits as a two's-complement
value.  The cursor moves by the number of bytes read and stops at `ptr_end`.
No byte at or beyond `ptr_end` is read: each result is the same on every
buffer with the same bytes before `ptr_end`. -/
theorem C32_byte_stream_reads (mem : List Nat) (s : ezimg_stream) (hp : s.ptr ≤ s.ptr_end)
    (he : s.ptr_end ≤ mem.length) :
    ezimg_read_u8 mem s = .ok (streamByte mem s 0, streamAfter s 1) ∧
    ezimg_read_u16 mem s = .ok (streamU16 mem s, streamAfter s 2) ∧
    ezimg_read_u32 mem s = .ok (streamU32 mem s, streamAfter s 4) ∧
    ezimg_read_i32 mem s
      = .ok ((if streamU32 mem s < 2 ^ 31 then (streamU32 mem s : Int)
              else (streamU32 mem s : Int) - 2 ^ 32), streamAfter s 4) ∧
    (∀ n, (streamAfter s n).ptr = min (s.ptr + n) s.ptr_end) ∧
    (∀ k, s.ptr_end ≤ s.ptr + k → streamByte mem s k = 0) ∧
    (∀ k, s.ptr + k < s.ptr_end → streamByte mem s k = byteAt mem (s.ptr + k)) ∧
    ∀ mem' : List Nat, (∀ i, i < s.ptr_end → mem'[i]? = mem[i]?) →
      ezimg_read_u8 mem' s = ezimg_read_u8 mem s ∧
      ezimg_read_u16 mem' s = ezimg_read_u16 mem s ∧
      ezimg_read_u32 mem' s = ezimg_read_u32 mem s ∧
      ezimg_read_i32 mem' s = ezimg_read_i32 mem s := by
  refine ⟨read_u8_stream mem s hp he, read_u16_stream mem s hp he, read_u32_stream mem s hp he,
    ?_, fun _ => rfl, ?_, ?_, ?_⟩
  · rw [read_i32_stream mem s hp he]
    have hlt := streamU32_lt mem s
    simp only [toInt32, u32, Nat.mod_eq_of_lt hlt]
    norm_num
  · intro k hk
    simp only [streamByte, if_neg (by omega : ¬ s.ptr + k < s.ptr_end)]
  · intro k hk
    simp only [streamByte, if_pos hk]
  · intro mem' hm
    have he' : s.ptr_end ≤ mem'.length := by
      by_cases h0 : s.ptr_end = 0
      · omega
      · have h1 := hm (s.ptr_end - 1) (by omega)
        have h2 : mem[s.ptr_end - 1]? ≠ none := by
          rw [Ne, List.getElem?_eq_none_iff]
          omega
        rw [← h1, Ne, List.getElem?_eq_none_iff] at h2
        omega
    have hb : ∀ k, streamByte mem' s k = streamByte mem s k :=
      fun k => streamByte_congr mem mem' s k hm
    rw [read_u8_stream mem s hp he, read_u16_stream mem s hp he, read_u32_stream mem s hp he,
      read_i32_stream mem s hp he, read_u8_stream mem' s hp he', read_u16_stream mem' s hp he',
      read_u32_stream mem' s hp he', read_i32_stream mem' s hp he']
    simp only [streamU16, streamU32, hb, and_self]

/-- Witness of C32: a big-endian stream with the two bytes `05 06` left before
its end at offset 6 of the buffer `01 02 03 04 05 06 07`; the 32-bit read returns
`0x05060000` and leaves the cursor at offset 6, and the byte `07` is not read. -/
theorem C32_byte_stream_reads_witness :
    ((⟨0, 6, 4, 6, true⟩ : ezimg_stream).ptr ≤ 6 ∧ 6 ≤ [1, 2, 3, 4, 5, 6, 7].length) ∧
    ezimg_read_u32 [1, 2, 3, 4, 5, 6, 7] ⟨0, 6, 4, 6, true⟩
      = .ok (0x05060000, ⟨0, 6, 6, 6, true⟩) := by
  refine ⟨by decide, ?_⟩
  rw [(C32_byte_stream_reads [1, 2, 3, 4, 5, 6, 7] ⟨0, 6, 4, 6, true⟩ (by decide)
    (by decide)).2.2.1]
  decide

/-! ## Claim C38: the codes are prefix-free -/

theorem kraftSum_succ (lens : List Nat) (j : Nat) (hj : j < lens.length) :
    kraftSum lens (j + 1)
      = kraftSum lens j + (if lens.getD j 0 ≠ 0 then 2 ^ (15 - lens.getD j 0) else 0) := by
  unfold kraftSum
  rw [List.take_succ, List.getD_eq_getElem?_getD, List.getElem?_eq_getElem hj]
  simp only [Option.toList_some, Option.getD_some, List.filter_append, List.map_append,
    List.sum_append]
  by_cases h : lens[j] = 0
  · simp [h]
  · simp [h]

theorem kraftUpTo_succ (lens : List Nat) (j : Nat) (hj : j < lens.length) :
    ∀ L, kraftUpTo lens (j + 1) L
      = kraftUpTo lens j L
        + (if 1 ≤ lens.getD j 0 ∧ lens.getD j 0 ≤ L then 2 ^ (15 - lens.getD j 0) else 0) := by
  intro L
  induction L with
  | zero =>
    simp only [kraftUpTo]
    rw [if_neg (by omega)]
  | succ L ih =>
    simp only [kraftUpTo]
    rw [ih, lenCount_succ lens j (L + 1) hj]
    by_cases h1 : lens.getD j 0 = L + 1
    · rw [if_pos h1, if_neg (by omega), if_pos (by omega), h1]
      ring
    · rw [if_neg h1]
      by_cases h2 : 1 ≤ lens.getD j 0 ∧ lens.getD j 0 ≤ L
      · rw [if_pos h2, if_pos (by omega)]
        ring
      · rw [if_neg h2, if_neg (by omega)]
        ring

theorem kraftUpTo_le (lens : List Nat) (L : Nat) :
    ∀ n, n ≤ lens.length → kraftUpTo lens n L ≤ kraftSum lens n := by
  intro n
  induction n with
  | zero =>
    intro _
    have : ∀ L, kraftUpTo lens 0 L = 0 := by
      intro L
      induction L with
      | zero => rfl
      | succ L ih => simp [kraftUpTo, ih, lenCount_zero]
    rw [this]
    exact Nat.zero_le _
  | succ j ih =>
    intro hj
    have := ih (by omega)
    have hpos := Nat.two_pow_pos (15 - lens.getD j 0)
    rw [kraftUpTo_succ lens j (by omega), kraftSum_succ lens j (by omega)]
    split_ifs <;> omega

theorem firstCode_kraft (lens : List Nat) (n : Nat) :
    ∀ L, 1 ≤ L → L ≤ 15 →
      (firstCode lens n L + lenCount lens n L) * 2 ^ (15 - L) = kraftUpTo lens n L := by
  intro L
  induction L with
  | zero => intro h; omega
  | succ L ih =>
    intro _ h15
    by_cases hL : L = 0
    · subst hL
      simp [firstCode, kraftUpTo]
    · have := ih (by omega) (by omega)
      rw [firstCode, if_neg hL, kraftUpTo, ← this]
      have e : 2 ^ (15 - L) = 2 * 2 ^ (15 - (L + 1)) := by
        rw [show 15 - L = (15 - (L + 1)) + 1 by omega, Nat.pow_succ]
        ring
      rw [e]
      ring

/-- With a Kraft sum of at most 1 the codes of length `L` end below `2^L`. -/
theorem firstCode_fits (lens : List Nat) (n L : Nat) (hn : n ≤ lens.length) (h1 : 1 ≤ L)
    (h15 : L ≤ 15) (hk : kraftSum lens n ≤ 2 ^ 15) :
    firstCode lens n L + lenCount lens n L ≤ 2 ^ L := by
  have h := firstCode_kraft lens n L h1 h15
  have h2 := kraftUpTo_le lens L n hn
  have e : (2 : Nat) ^ 15 = 2 ^ L * 2 ^ (15 - L) := by
    rw [← Nat.pow_add]
    congr 1
    omega
  rw [e] at hk
  have h3 : (firstCode lens n L + lenCount lens n L) * 2 ^ (15 - L) ≤ 2 ^ L * 2 ^ (15 - L) := by
    omega
  exact Nat.le_of_mul_le_mul_right h3 (Nat.two_pow_pos _)

/-- Claim C38: for `hcount < 290` code lengths, each at most 15, whose Kraft
sum (`kraftSum`, the sum of `2^(15-len)` over the non-zero lengths) is at most
`2^15`, `ezimg_compute_huff` returns a table in which every symbol of non-zero
length `len` has its length and a code below `2^len`, and for two different
symbols `s`, `t` of non-zero lengths `ls <= lt` the first `ls` bits of the code
of `t` are not the code of `s`: no code is equal to, or a prefix of, the code
of another symbol. -/
theorem C38_codes_prefix_free (htable : List Nat) (hcount : Nat) (huff : ezimg_huff)
    (hn : hcount < 290) (hlen : hcount ≤ htable.length)
    (h15 : ∀ s, s < hcount → htable.getD s 0 ≤ 15)
    (hk : kraftSum htable hcount ≤ 2 ^ 15) :
    ∃ T, ezimg_compute_huff htable hcount huff = .ok (some T) ∧
      (∀ s, s < hcount → htable.getD s 0 ≠ 0 →
        (T.entries.getD s ⟨0, 0⟩).len = htable.getD s 0 ∧
        (T.entries.getD s ⟨0, 0⟩).code < 2 ^ htable.getD s 0) ∧
      ∀ s t, s < hcount → t < hcount → s ≠ t →
        htable.getD s 0 ≠ 0 → htable.getD s 0 ≤ htable.getD t 0 →
        (T.entries.getD t ⟨0, 0⟩).code / 2 ^ (htable.getD t 0 - htable.getD s 0)
          ≠ (T.entries.getD s ⟨0, 0⟩).code := by
  obtain ⟨mx, entries, hT, _, _, _, hent⟩ := compute_huff_spec htable hcount huff hn hlen h15
  have hget : ∀ s, s < hcount → htable.getD s 0 ≠ 0 →
      entries.getD s ⟨0, 0⟩ = ⟨firstCode htable hcount (htable.getD s 0)
        + lenCount htable s (htable.getD s 0), htable.getD s 0⟩ := by
    intro s hs h0
    rw [List.getD_eq_getElem?_getD, hent s hs, if_neg h0]
    rfl
  refine ⟨_, hT, ?_, ?_⟩
  · intro s hs h0
    simp only []
    rw [hget s hs h0]
    refine ⟨rfl, ?_⟩
    simp only []
    have h1 := lenCount_rank_lt htable s hcount _ hs hlen rfl
    have h2 := firstCode_fits htable hcount (htable.getD s 0) hlen (by omega) (h15 s hs) hk
    omega
  · intro s t hs ht hst h0 hle
    simp only []
    rw [hget s hs h0, hget t ht (by omega)]
    simp only []
    by_cases heq : htable.getD s 0 = htable.getD t 0
    · rw [heq, Nat.sub_self, Nat.pow_zero, Nat.div_one]
      rcases Nat.lt_or_gt_of_ne hst with h | h
      · have := lenCount_rank_lt htable s t _ h (by omega) heq
        omega
      · have := lenCount_rank_lt htable t s (htable.getD t 0) h (by omega) rfl
        omega
    · exact (canonical_prefix_free htable hcount _ _ s _ (by omega) (by omega) hs hlen rfl
        (Nat.le_add_right _ _)).symm

/-- Witness of C38 on the complete lengths (3,3,3,3,3,2,4,4): symbol 5 has the
code 00 and symbol 6 the code 1110, whose first two bits are 11. -/
theorem C38_codes_prefix_free_witness :
    (8 < 290 ∧ 8 ≤ [3, 3, 3, 3, 3, 2, 4, 4].length ∧
      kraftSum [3, 3, 3, 3, 3, 2, 4, 4] 8 ≤ 2 ^ 15) ∧
    ∃ T, ezimg_compute_huff [3, 3, 3, 3, 3, 2, 4, 4] 8 huff_zero = .ok (some T) ∧
      (T.entries.getD 6 ⟨0, 0⟩).code / 2 ^ (4 - 2) ≠ (T.entries.getD 5 ⟨0, 0⟩).code := by
  refine ⟨by decide, ?_⟩
  obtain ⟨T, hT, _, h⟩ := C38_codes_prefix_free [3, 3, 3, 3, 3, 2, 4, 4] 8 huff_zero
    (by decide) (by decide) (by decide) (by decide)
  exact ⟨T, hT, h 5 6 (by decide) (by decide) (by decide) (by decide) (by decide)⟩

/-! ## Results of the steps of `ezimg_decompress_idat` -/

theorem res_bind {ε α β : Type} {R : α → Prop} {Q : β → Prop} {P : ε → Prop}
    (x : Except ε α) (f : α → Except ε β) (h1 : Res R P x)
    (h2 : ∀ a, x = .ok a → R a → Res Q P (f a)) : Res Q P (x >>= f) := by
  cases x with
  | error e => exact h1
  | ok a => exact h2 a rfl h1

theorem res_throw_jp {ε β : Type} {Q : β → Prop} {P : ε → Prop} (c : Prop) [Decidable c]
    (e : ε) (k : PUnit → Except ε β) (he : c → P e) (hk : ¬c → Res Q P (k PUnit.unit)) :
    Res Q P (if c then (throw e >>= k) else (pure PUnit.unit >>= k)) := by
  split
  · rename_i h
    exact he h
  · rename_i h
    exact hk h

theorem res_ite {ε β : Type} {Q : β → Prop} {P : ε → Prop} (c : Prop) [Decidable c]
    (x y : Except ε β) (hx : c → Res Q P x) (hy : ¬c → Res Q P y) :
    Res Q P (if c then x else y) := by
  split
  · rename_i h
    exact hx h
  · rename_i h
    exact hy h

theorem res_pure_jp {ε β : Type} {Q : β → Prop} {P : ε → Prop} (k : PUnit → Except ε β)
    (hk : Res Q P (k PUnit.unit)) : Res Q P (pure PUnit.unit >>= k) := hk

theorem res_mono {ε α : Type} {Q Q' : α → Prop} {P P' : ε → Prop} (r : Except ε α)
    (h : Res Q P r) (hq : ∀ a, r = .ok a → Q a → Q' a) (hp : ∀ e, r = .error e → P e → P' e) :
    Res Q' P' r := by
  cases r with
  | error e => exact hp e rfl h
  | ok a => exact hq a rfl h

theorem res_liftTrap {α : Type} {Q : α → Prop} {P : Halt → Prop} (x : Except Trap α)
    (h : Res Q (fun t => P (Halt.trap t)) x) : Res Q P (liftTrap x) := by
  cases x with
  | error e => exact h
  | ok a => exact h

theorem res_orReject {α : Type} {Q : α → Prop} {P : Halt → Prop} (buff : List Nat)
    (x : Except Trap (Option α))
    (h : Res (fun o => match o with
        | some a => Q a
        | none => P (Halt.reject buff)) (fun t => P (Halt.trap t)) x) :
    Res Q P (orReject buff x) := by
  cases x with
  | error e => exact h
  | ok o =>
    cases o with
    | none => exact h
    | some a => exact h

theorem res_forLoop {ε σ : Type} (body : Nat → σ → Except ε σ) (Inv : Nat → σ → Prop)
    (P : ε → Prop) :
    ∀ (n i : Nat) (s : σ), Inv i s →
      (∀ j s, i ≤ j → j < i + n → Inv j s → Res (Inv (j + 1)) P (body j s)) →
      Res (Inv (i + n)) P (forLoop body n i s) := by
  intro n
  induction n with
  | zero => intro i s h0 _; exact h0
  | succ n ih =>
    intro i s h0 hstep
    have h1 := hstep i s (le_refl _) (by omega) h0
    rw [forLoop]
    cases hb : body i s with
    | error e => rw [hb] at h1; exact h1
    | ok s1 =>
      rw [hb] at h1
      simp only []
      have := ih (i + 1) s1 h1 (fun j s hj hj2 hI => hstep j s (by omega) (by omega) hI)
      rw [show i + 1 + n = i + (n + 1) by omega] at this
      exact this

theorem res_forRange {ε σ : Type} (body : Nat → σ → Except ε σ) (Inv : Nat → σ → Prop)
    (P : ε → Prop) (n : Nat) (s : σ) (h0 : Inv 0 s)
    (hstep : ∀ j s, j < n → Inv j s → Res (Inv (j + 1)) P (body j s)) :
    Res (Inv n) P (forRange n body s) := by
  have := res_forLoop body Inv P n 0 s h0 (fun j s _ hj hI => hstep j s (by omega) hI)
  rw [Nat.zero_add] at this
  exact this

theorem peek_oob (mem : List Nat) (p : Nat) : OobOr (fun _ => True) (peek mem p) := by
  unfold peek
  cases mem[p]? with
  | none => rfl
  | some b => trivial

theorem cread_u8_oob (inp : List Nat) (s : ezimg_cstream) :
    OobOr (fun _ => True) (ezimg_cread_u8 inp s) := by
  unfold OobOr Res
  generalize hr : ezimg_cread_u8 inp s = r
  cases r with
  | ok a => trivial
  | error e =>
    simp only []
    unfold ezimg_cread_u8 peek at hr
    simp only [] at hr
    repeat' (split at hr)
    all_goals try cases hr
    all_goals
      rename_i hq
      split at hq
      · cases hq
      · injection hq with hq
        exact hq.symm

theorem next_bit_oob (inp : List Nat) (s : ezimg_cstream) :
    OobOr (fun _ => True) (ezimg_next_bit inp s) := by
  unfold ezimg_next_bit
  split
  · trivial
  · simp only []
    split
    · exact res_bind _ _ (cread_u8_oob inp _) (fun a _ _ => trivial)
    · trivial

theorem cread_bits_oob (inp : List Nat) (s : ezimg_cstream) (n : Nat) :
    OobOr (fun _ => True) (ezimg_cread_bits inp s n) := by
  unfold ezimg_cread_bits
  exact res_forRange _ (fun _ _ => True) _ n _ trivial
    (fun j p _ _ => res_bind _ _ (next_bit_oob inp p.2) (fun a _ _ => trivial))

theorem huff_decode_loop_oob (inp : List Nat) (huff : ezimg_huff) :
    ∀ (k code len : Nat) (s : ezimg_cstream),
      OobOr (fun _ => True) (huff_decode_loop inp huff k code len s) := by
  intro k
  induction k with
  | zero => intro _ _ _; trivial
  | succ k ih =>
    intro code len s
    rw [huff_decode_loop]
    split
    · trivial
    · split
      · trivial
      · have h := cread_bits_oob inp s 1
        revert h
        generalize ezimg_cread_bits inp s 1 = r
        intro h
        cases r with
        | error e => exact h
        | ok q => exact ih _ _ _

theorem huff_decode_oob (inp : List Nat) (huff : ezimg_huff) (s : ezimg_cstream) :
    OobOr (fun _ => True) (ezimg_huff_decode inp huff s) := by
  unfold ezimg_huff_decode
  exact res_bind _ _ (cread_bits_oob inp s 1) (fun a _ _ => huff_decode_loop_oob inp huff _ _ _ _)

theorem deflate_len_oob (inp : List Nat) (code : Int) (s : ezimg_cstream) :
    OobOr (fun _ => True) (ezimg_deflate_len inp code s) := by
  unfold ezimg_deflate_len
  split
  · trivial
  · split
    · trivial
    · split
      · trivial
      · exact res_bind _ _ (cread_bits_oob inp s _) (fun a _ _ => trivial)

theorem deflate_dist_oob (inp : List Nat) (code : Int) (s : ezimg_cstream) :
    OobOr (fun _ => True) (ezimg_deflate_dist inp code s) := by
  unfold ezimg_deflate_dist
  split
  · trivial
  · split
    · trivial
    · exact res_bind _ _ (cread_bits_oob inp s _) (fun a _ _ => trivial)

theorem cflush_oob (inp : List Nat) (s : ezimg_cstream) :
    OobOr (fun _ => True) (ezimg_cflush inp s) := by
  unfold ezimg_cflush
  split
  · exact res_bind _ _ (cread_u8_oob inp _) (fun a _ _ => trivial)
  · trivial

theorem frame_refl (E : Nat) (b : List Nat) : Frame E b b := ⟨rfl, fun _ _ => rfl⟩

theorem frame_set (E : Nat) (b0 b : List Nat) (i v : Nat) (h : Frame E b0 b) (hi : i < E) :
    Frame E b0 (b.set i v) := by
  refine ⟨by rw [List.length_set]; exact h.1, ?_⟩
  intro j hj
  rw [List.getElem?_set_ne (by omega)]
  exact h.2 j hj

theorem EMIT_res (E : Nat) (b0 : List Nat) (outp_end : Nat) (st : InflateState)
    (b : InflateState → Except Halt (Nat × InflateState)) (hE : outp_end ≤ E)
    (hf : Frame E b0 st.buff)
    (hb : Res (fun q => q.2.buff = st.buff ∧ q.2.outp = st.outp) (HaltFrame E b0) (b st)) :
    Res (fun st' => Frame E b0 st'.buff) (HaltFrame E b0) (EMIT outp_end st b) := by
  unfold EMIT
  split
  · exact hf
  · cases hq : b st with
    | error e =>
      rw [hq] at hb
      exact hb
    | ok q =>
      rw [hq] at hb
      obtain ⟨v, st1⟩ := q
      obtain ⟨h1, h2⟩ := hb
      simp only [] at h1 h2 ⊢
      unfold poke
      split
      · rename_i hp
        split at hp
        · injection hp with hp
          subst hp
          rw [h1, h2]
          exact frame_set E b0 _ _ _ hf (by omega)
        · cases hp
      · rename_i hp
        split at hp
        · cases hp
        · injection hp with hp
          exact hp.symm

theorem inflate_backref_res (E : Nat) (b0 : List Nat) (inp : List Nat) (dist_huff : ezimg_huff)
    (outp_end : Nat) (lit_len : Int) (st : InflateState) (hE : outp_end ≤ E)
    (hf : Frame E b0 st.buff) :
    Res (fun st' => Frame E b0 st'.buff) (HaltFrame E b0)
      (inflate_backref inp dist_huff outp_end lit_len st) := by
  unfold inflate_backref
  refine res_bind _ _ (res_liftTrap _ (deflate_len_oob inp _ _)) ?_
  rintro ⟨len, s1⟩ _ _
  refine res_bind _ _ (res_liftTrap _ (huff_decode_oob inp _ _)) ?_
  rintro ⟨dsym, s2⟩ _ _
  refine res_throw_jp _ _ _ (fun _ => hf) (fun _ => ?_)
  refine res_bind _ _ (res_liftTrap _ (deflate_dist_oob inp _ _)) ?_
  rintro ⟨d, s3⟩ _ _
  refine res_throw_jp _ _ _ (fun _ => hf) (fun _ => ?_)
  refine res_throw_jp _ _ _ (fun _ => hf) (fun _ => ?_)
  refine res_bind (R := fun (p : InflateState × Nat) => Frame E b0 p.1.buff) _ _ ?_
    (fun a _ h => h)
  refine res_forRange _ (fun _ (p : InflateState × Nat) => Frame E b0 p.1.buff) _ _ _ hf ?_
  intro j p _ hI
  refine res_bind (R := fun (st' : InflateState) => Frame E b0 st'.buff) _ _ ?_
    (fun a _ h => h)
  refine EMIT_res E b0 outp_end p.1 _ hE hI ?_
  exact res_bind _ _ (res_liftTrap _ (peek_oob _ _)) (fun a _ _ => ⟨rfl, rfl⟩)

theorem inflate_stored_res (E : Nat) (b0 : List Nat) (inp : List Nat) (outp_end : Nat)
    (st : InflateState) (hE : outp_end ≤ E) (hf : Frame E b0 st.buff) :
    Res (fun st' => Frame E b0 st'.buff) (HaltFrame E b0) (inflate_stored inp outp_end st) := by
  unfold inflate_stored
  refine res_bind _ _ (res_liftTrap _ (cflush_oob inp _)) ?_
  intro s1 _ _
  refine res_bind _ _ (res_liftTrap _ (cread_bits_oob inp _ _)) ?_
  rintro ⟨b0len, s2⟩ _ _
  refine res_bind _ _ (res_liftTrap _ (cread_bits_oob inp _ _)) ?_
  rintro ⟨b0nlen, s3⟩ _ _
  refine res_throw_jp _ _ _ (fun _ => hf) (fun _ => ?_)
  refine res_forRange _ (fun _ (st' : InflateState) => Frame E b0 st'.buff) _ _ _ hf ?_
  intro j p _ hI
  refine EMIT_res E b0 outp_end p _ hE hI ?_
  exact res_bind _ _ (res_liftTrap _ (cread_bits_oob inp _ _)) (fun a _ _ => ⟨rfl, rfl⟩)

theorem inflate_symbol_step_res (E : Nat) (b0 : List Nat) (inp : List Nat)
    (lit dist : ezimg_huff) (outp_end : Nat) (st : InflateState) (hE : outp_end ≤ E)
    (hf : Frame E b0 st.buff) :
    Res (fun q => Frame E b0 q.2.buff) (HaltFrame E b0)
      (inflate_symbol_step inp lit dist outp_end st) := by
  unfold inflate_symbol_step
  refine res_bind _ _ (res_liftTrap _ (huff_decode_oob inp _ _)) ?_
  rintro ⟨lit_len, s1⟩ _ _
  refine res_ite _ _ _ (fun _ => hf) (fun _ => ?_)
  refine res_pure_jp _ ?_
  refine res_throw_jp _ _ _ (fun _ => hf) (fun _ => ?_)
  refine res_ite _ _ _ (fun _ => ?_) (fun _ => ?_)
  · refine res_bind (R := fun (st' : InflateState) => Frame E b0 st'.buff) _ _ ?_
      (fun a _ h => h)
    exact EMIT_res E b0 outp_end _ _ hE hf ⟨rfl, rfl⟩
  · refine res_bind (R := fun (st' : InflateState) => Frame E b0 st'.buff) _ _ ?_
      (fun a _ h => h)
    exact inflate_backref_res E b0 inp dist outp_end lit_len _ hE hf

theorem inflate_symbols_res (E : Nat) (b0 : List Nat) (inp : List Nat) (lit dist : ezimg_huff)
    (outp_end : Nat) (hE : outp_end ≤ E) :
    ∀ (fuel : Nat) (st : InflateState), 0 < fuel → outp_end < st.outp + fuel →
      Frame E b0 st.buff →
      Res (fun st' => Frame E b0 st'.buff) (HaltFrame E b0)
        (inflate_symbols inp lit dist outp_end fuel st) := by
  intro fuel
  induction fuel with
  | zero => intro st h; omega
  | succ fuel ih =>
    intro st _ hfu hf
    rw [inflate_symbols_succ]
    have h1 := inflate_symbol_step_res E b0 inp lit dist outp_end st hE hf
    cases hs : inflate_symbol_step inp lit dist outp_end st with
    | error e =>
      rw [hs] at h1
      exact h1
    | ok q =>
      rw [hs] at h1
      obtain ⟨c, st1⟩ := q
      cases c with
      | false => exact h1
      | true =>
        obtain ⟨_, h2, _, _⟩ := inflate_symbol_step_ok inp lit dist outp_end st st1 true hs
        have h3 := h2 rfl
        exact ih st1 (by omega) (by omega) h1

theorem aget_oob (a : List Nat) (i : Nat) : OobOr (fun v => a[i]? = some v) (aget a i) := by
  unfold aget
  cases a[i]? with
  | none => rfl
  | some b => exact rfl

theorem aset_oob (a : List Nat) (i v : Nat) :
    OobOr (fun a' => i < a.length ∧ a' = a.set i (u32 v)) (aset a i v) := by
  unfold aset
  split
  · rename_i h
    exact ⟨h, rfl⟩
  · rfl

theorem getD_set_le (a : List Nat) (i v B : Nat) (ha : ∀ k, a.getD k 0 ≤ B) (hv : v ≤ B) :
    ∀ k, (a.set i v).getD k 0 ≤ B := by
  intro k
  rw [List.getD_eq_getElem?_getD, List.getElem?_set]
  split
  · split
    · exact hv
    · exact Nat.zero_le _
  · rw [← List.getD_eq_getElem?_getD]
    exact ha k

theorem u32_le_self (v : Nat) : u32 v ≤ v := Nat.mod_le _ _

theorem htable_fill_res (htable : List Nat) (i rv rc : Nat) :
    OobOr (fun (p : List Nat × Nat) => p.2 = i + rc ∧ p.1.length = htable.length ∧
        ∀ B, (∀ k, htable.getD k 0 ≤ B) → rv ≤ B → ∀ k, p.1.getD k 0 ≤ B)
      (forRange rc (fun _ (p : List Nat × Nat) => do
        let htable ← aset p.1 p.2 rv
        return (htable, p.2 + 1)) (htable, i)) := by
  refine res_forRange _ (fun j (p : List Nat × Nat) => p.2 = i + j ∧ p.1.length = htable.length ∧
        ∀ B, (∀ k, htable.getD k 0 ≤ B) → rv ≤ B → ∀ k, p.1.getD k 0 ≤ B) _ rc _
    ⟨rfl, rfl, fun _ h _ => h⟩ ?_
  intro j p _ hI
  obtain ⟨h1, h2, h3⟩ := hI
  refine res_bind _ _ (aset_oob p.1 p.2 rv) ?_
  intro t _ ht
  obtain ⟨_, ht⟩ := ht
  subst ht
  refine ⟨by simp only [h1]; omega, by simp only [List.length_set, h2], ?_⟩
  intro B hB hv
  exact getD_set_le _ _ _ B (h3 B hB hv) (le_trans (u32_le_self _) hv)

theorem compute_htable_loop_res (inp : List Nat) (huff : ezimg_huff) (hcount : Nat) :
    ∀ (fuel : Nat) (st : HtableState), hcount ≤ st.i + fuel →
      OobOr (fun o => ∀ st', o = some st' → st'.htable.length = st.htable.length ∧
          ((∀ k, st.htable.getD k 0 ≤ 15) → ∀ k, st'.htable.getD k 0 ≤ 15))
        (compute_htable_loop inp huff hcount fuel st) := by
  intro fuel
  induction fuel with
  | zero =>
    intro st h
    rw [compute_htable_loop, if_neg (by omega)]
    intro st' h'
    injection h' with h'
    subst h'
    exact ⟨rfl, fun h => h⟩
  | succ fuel ih =>
    intro st hfu
    rw [compute_htable_loop]
    refine res_ite _ _ _ (fun hi => ?_) (fun _ => ?_)
    · refine res_bind _ _ (huff_decode_oob inp _ _) ?_
      rintro ⟨sym, s1⟩ _ _
      refine res_ite _ _ _ (fun _ => ?_) (fun hsym => ?_)
      · intro st' h'
        cases h'
      · refine res_pure_jp _ ?_
        refine res_bind (R := fun (o : Option (Nat × Nat × ezimg_cstream)) =>
          ∀ rv rc s, o = some (rv, rc, s) → 1 ≤ rc ∧
            ((∀ k, st.htable.getD k 0 ≤ 15) → rv ≤ 15)) _ _ ?_ ?_
        · refine res_ite _ _ _ (fun h15 => ?_) (fun _ => ?_)
          · intro rv rc s h
            injection h with h
            injection h with h1 h
            injection h with h2 _
            subst h1
            subst h2
            exact ⟨le_refl _, fun _ => by omega⟩
          · refine res_ite _ _ _ (fun _ => ?_) (fun _ => ?_)
            · refine res_ite _ _ _ (fun _ => ?_) (fun _ => ?_)
              · intro rv rc s h
                cases h
              · refine res_bind _ _ (aget_oob _ _) ?_
                intro pv _ hpv
                refine res_bind _ _ (cread_bits_oob inp _ _) ?_
                rintro ⟨n, s2⟩ _ _
                intro rv rc s h
                injection h with h
                injection h with h1 h
                injection h with h2 _
                subst h1
                subst h2
                refine ⟨by omega, fun hb => ?_⟩
                have := hb (st.i - 1)
                rw [List.getD_eq_getElem?_getD, hpv] at this
                exact this
            · refine res_ite _ _ _ (fun _ => ?_) (fun _ => ?_)
              · refine res_bind _ _ (cread_bits_oob inp _ _) ?_
                rintro ⟨n, s2⟩ _ _
                intro rv rc s h
                injection h with h
                injection h with h1 h
                injection h with h2 _
                subst h1
                subst h2
                exact ⟨by omega, fun _ => Nat.zero_le _⟩
              · refine res_ite _ _ _ (fun _ => ?_) (fun _ => ?_)
                · refine res_bind _ _ (cread_bits_oob inp _ _) ?_
                  rintro ⟨n, s2⟩ _ _
                  intro rv rc s h
                  injection h with h
                  injection h with h1 h
                  injection h with h2 _
                  subst h1
                  subst h2
                  exact ⟨by omega, fun _ => Nat.zero_le _⟩
                · intro rv rc s h
                  cases h
        · rintro (_ | ⟨rv, rc, s2⟩) _ hsel
          · intro st' h'
            cases h'
          · obtain ⟨hrc, hrv⟩ := hsel rv rc s2 rfl
            refine res_bind _ _ (htable_fill_res st.htable st.i rv rc) ?_
            rintro ⟨t, i'⟩ _ ⟨hi', hlen, hb⟩
            simp only [] at hi' hlen hb
            have := ih { stream := s2, htable := t, i := i' } (by simp only [hi']; omega)
            refine res_mono _ this ?_ (fun _ _ h => h)
            intro o _ ho st' hst'
            obtain ⟨g1, g2⟩ := ho st' hst'
            simp only [] at g1 g2
            exact ⟨g1.trans hlen, fun h15 => g2 (hb 15 h15 (hrv h15))⟩
    · intro st' h'
      injection h' with h'
      subst h'
      exact ⟨rfl, fun h => h⟩

theorem cread_bits_res (inp : List Nat) (s : ezimg_cstream) (n : Nat) :
    OobOr (fun q => q.1 < 2 ^ n) (ezimg_cread_bits inp s n) :=
  res_mono _ (cread_bits_oob inp s n)
    (fun a h _ => cread_bits_lt inp s a.2 n a.1 h) (fun _ _ h => h)

theorem compute_htable_res (inp : List Nat) (s : ezimg_cstream) (huff : ezimg_huff)
    (htable : List Nat) (hcount hmax : Nat) :
    OobOr (fun o => ∀ t s', o = some (t, s') → t.length = htable.length ∧
        ((∀ k, htable.getD k 0 ≤ 15) → ∀ k, t.getD k 0 ≤ 15))
      (ezimg_compute_htable inp s huff htable hcount hmax) := by
  unfold ezimg_compute_htable
  refine res_bind (R := fun (t : List Nat) => t.length = htable.length ∧
      ((∀ k, htable.getD k 0 ≤ 15) → ∀ k, t.getD k 0 ≤ 15)) _ _ ?_ ?_
  · refine res_forRange _ (fun _ (t : List Nat) => t.length = htable.length ∧
      ((∀ k, htable.getD k 0 ≤ 15) → ∀ k, t.getD k 0 ≤ 15)) _ _ _ ⟨rfl, fun h => h⟩ ?_
    intro j t _ hI
    refine res_mono _ (aset_oob t j 0) ?_ (fun _ _ h => h)
    rintro t' _ ⟨_, ht'⟩
    subst ht'
    exact ⟨by rw [List.length_set]; exact hI.1,
      fun h => getD_set_le _ _ _ 15 (hI.2 h) (Nat.zero_le _)⟩
  · intro z _ hz
    refine res_bind _ _ (compute_htable_loop_res inp huff hcount hcount
      { stream := s, htable := z, i := 0 } (by simp)) ?_
    rintro (_ | st') _ hst
    · intro t s' h
      cases h
    · obtain ⟨g1, g2⟩ := hst st' rfl
      simp only [] at g1 g2
      refine res_ite _ _ _ (fun _ => ?_) (fun _ => ?_)
      · intro t s' h
        cases h
      · refine res_pure_jp _ ?_
        intro t s' h
        injection h with h
        injection h with h1 _
        subst h1
        exact ⟨g1.trans hz.1, fun h => g2 (hz.2 h)⟩

theorem hclen_table_res (inp : List Nat) (s : ezimg_cstream) (n : Nat) :
    OobOr (fun (p : List Nat × ezimg_cstream) => p.1.length = 20 ∧ ∀ k, p.1.getD k 0 ≤ 15)
      (forRange n (fun i (p : List Nat × ezimg_cstream) => do
        let (v, stream) ← ezimg_cread_bits inp p.2 3
        let k ← aget hclen_ord i
        let t ← aset p.1 k v
        return (t, stream)) (List.replicate 20 0, s)) := by
  refine res_forRange _ (fun _ (p : List Nat × ezimg_cstream) =>
      p.1.length = 20 ∧ ∀ k, p.1.getD k 0 ≤ 15) _ n _ ⟨by simp, ?_⟩ ?_
  · intro k
    simp only [List.getD_eq_getElem?_getD, List.getElem?_replicate]
    split <;> simp
  · intro j p _ hI
    refine res_bind _ _ (cread_bits_res inp p.2 3) ?_
    rintro ⟨v, s1⟩ _ hv
    simp only [] at hv
    refine res_bind _ _ (aget_oob hclen_ord j) ?_
    intro k _ _
    refine res_bind _ _ (aset_oob p.1 k v) ?_
    rintro t _ ⟨_, ht⟩
    subst ht
    exact ⟨by rw [List.length_set]; exact hI.1,
      getD_set_le _ _ _ 15 hI.2 (le_trans (u32_le_self _) (by omega))⟩

theorem bind_congr_lift {α β : Type} {R : α → Prop} (x : Except Trap α)
    (f g : α → Except Halt β) (hx : OobOr R x) (h : ∀ a, x = .ok a → R a → f a = g a) :
    (liftTrap x >>= f) = (liftTrap x >>= g) := by
  cases x with
  | error e => rfl
  | ok a => exact h a rfl hx

theorem bind_congr_orReject {α β : Type} {R : Option α → Prop} (buff : List Nat)
    (x : Except Trap (Option α)) (f g : α → Except Halt β) (hx : OobOr R x)
    (h : ∀ a, x = .ok (some a) → R (some a) → f a = g a) :
    (orReject buff x >>= f) = (orReject buff x >>= g) := by
  cases x with
  | error e => rfl
  | ok o =>
    cases o with
    | none => rfl
    | some a => exact h a rfl hx

theorem throw_jp_congr {ε β : Type} (c : Prop) [Decidable c] (e : ε)
    (k k' : PUnit → Except ε β) (h : ¬c → k PUnit.unit = k' PUnit.unit) :
    (if c then (throw e >>= k) else (pure PUnit.unit >>= k))
      = (if c then (throw e >>= k') else (pure PUnit.unit >>= k')) := by
  split
  · rfl
  · rename_i hc
    exact h hc

theorem huff_of_good (htable : List Nat) (hcount : Nat) (h : GoodHuffArgs htable hcount) :
    ezimg_compute_huff htable hcount huff_zero = .ok (some (huff_of htable hcount)) := by
  obtain ⟨mx, entries, hT, _⟩ := compute_huff_spec htable hcount huff_zero h.1 h.2.1 h.2.2
  unfold huff_of
  rw [hT]

theorem huff_call_congr {β : Type} (buff htable : List Nat) (hcount : Nat)
    (f g : ezimg_huff → Except Halt β) (hg : GoodHuffArgs htable hcount)
    (h : f (huff_of htable hcount) = g (huff_of htable hcount)) :
    (orReject buff (ezimg_compute_huff htable hcount huff_zero) >>= f)
      = ((.ok (huff_of htable hcount) : Except Halt ezimg_huff) >>= g) := by
  rw [huff_of_good htable hcount hg]
  exact h

theorem replicate_zero_le (n k : Nat) : (List.replicate n 0).getD k 0 ≤ 15 := by
  simp only [List.getD_eq_getElem?_getD, List.getElem?_replicate]
  split <;> simp

set_option maxRecDepth 100000 in
theorem inflate_dynamic_tables_eq (inp : List Nat) (st : InflateState) :
    inflate_dynamic_tables inp st = inflate_dynamic_tables_unchecked inp st := by
  unfold inflate_dynamic_tables inflate_dynamic_tables_unchecked
  refine bind_congr_lift _ _ _ (cread_bits_res inp _ 5) ?_
  rintro ⟨hlit, s1⟩ _ hl
  refine bind_congr_lift _ _ _ (cread_bits_res inp _ 5) ?_
  rintro ⟨hdist, s2⟩ _ hd
  refine bind_congr_lift _ _ _ (cread_bits_res inp _ 4) ?_
  rintro ⟨hclen, s3⟩ _ _
  simp only [] at hl hd
  refine throw_jp_congr _ _ _ _ (fun _ => ?_)
  refine bind_congr_lift _ _ _ (hclen_table_res inp s3 (hclen + 4)) ?_
  rintro ⟨t, s4⟩ _ ⟨ht1, ht2⟩
  simp only [] at ht1 ht2
  refine huff_call_congr _ _ _ _ _ ⟨by omega, by omega, fun k _ => ht2 k⟩ ?_
  refine bind_congr_orReject _ _ _ _
    (compute_htable_res inp s4 (huff_of t 20) (List.replicate 288 0) (hlit + 257) 288) ?_
  rintro ⟨t6, s6⟩ _ h6
  obtain ⟨g1, g2⟩ := h6 t6 s6 rfl
  rw [List.length_replicate] at g1
  have g3 := g2 (replicate_zero_le 288)
  refine huff_call_congr _ _ _ _ _ ⟨by omega, by omega, fun k _ => g3 k⟩ ?_
  refine bind_congr_orReject _ _ _ _
    (compute_htable_res inp s6 (huff_of t 20) (List.replicate 32 0) (hdist + 1) 32) ?_
  rintro ⟨t8, s8⟩ _ h8
  obtain ⟨g4, g5⟩ := h8 t8 s8 rfl
  rw [List.length_replicate] at g4
  have g6 := g5 (replicate_zero_le 32)
  exact huff_call_congr _ _ _ _ _ ⟨by omega, by omega, fun k _ => g6 k⟩ rfl

set_option maxRecDepth 100000 in
theorem inflate_dynamic_tables_res (E : Nat) (b0 : List Nat) (inp : List Nat)
    (st : InflateState) (hf : Frame E b0 st.buff) :
    Res (fun _ => True) (HaltFrame E b0) (inflate_dynamic_tables inp st) := by
  rw [inflate_dynamic_tables_eq]
  unfold inflate_dynamic_tables_unchecked
  refine res_bind _ _ (res_liftTrap _ (cread_bits_oob inp _ _)) ?_
  rintro ⟨hlit, s1⟩ _ _
  refine res_bind _ _ (res_liftTrap _ (cread_bits_oob inp _ _)) ?_
  rintro ⟨hdist, s2⟩ _ _
  refine res_bind _ _ (res_liftTrap _ (cread_bits_oob inp _ _)) ?_
  rintro ⟨hclen, s3⟩ _ _
  refine res_throw_jp _ _ _ (fun _ => hf) (fun _ => ?_)
  refine res_bind _ _ (res_liftTrap _ (hclen_table_res inp s3 _)) ?_
  rintro ⟨t, s4⟩ _ _
  refine res_bind (R := fun _ => True) _ _ trivial ?_
  intro T1 _ _
  refine res_bind (R := fun _ => True) _ _ (res_orReject _ _ (res_mono _
    (compute_htable_res inp s4 T1 (List.replicate 288 0) (hlit + 257) 288) ?_
    (fun _ _ h => h))) ?_
  · intro o _ _
    cases o with
    | none => exact hf
    | some a => trivial
  rintro ⟨t6, s6⟩ _ _
  refine res_bind (R := fun _ => True) _ _ trivial ?_
  intro T2 _ _
  refine res_bind (R := fun _ => True) _ _ (res_orReject _ _ (res_mono _
    (compute_htable_res inp s6 T1 (List.replicate 32 0) (hdist + 1) 32) ?_
    (fun _ _ h => h))) ?_
  · intro o _ _
    cases o with
    | none => exact hf
    | some a => trivial
  rintro ⟨t8, s8⟩ _ _
  exact res_bind (R := fun _ => True) _ _ trivial (fun _ _ _ => trivial)

theorem inflate_block_step_res (E : Nat) (b0 : List Nat) (inp : List Nat) (outp_end : Nat)
    (st : InflateState) (hE : outp_end ≤ E) (hf : Frame E b0 st.buff) :
    Res (fun q => Frame E b0 q.2.buff) (HaltFrame E b0) (inflate_block_step inp outp_end st) := by
  unfold inflate_block_step
  refine res_bind _ _ (res_liftTrap _ (cread_bits_oob inp _ _)) ?_
  rintro ⟨is_last, s1⟩ _ _
  refine res_bind _ _ (res_liftTrap _ (cread_bits_oob inp _ _)) ?_
  rintro ⟨btype, s2⟩ _ _
  refine res_bind (R := fun (st' : InflateState) => Frame E b0 st'.buff) _ _ ?_
    (fun a _ h => h)
  refine res_ite _ _ _ (fun _ => ?_) (fun _ => ?_)
  · exact inflate_stored_res E b0 inp outp_end _ hE hf
  · refine res_ite _ _ _ (fun _ => ?_) (fun _ => ?_)
    · rw [inflate_fixed_tables_eq]
      exact inflate_symbols_res E b0 inp _ _ outp_end hE _ _ (by omega)
        (by simp only []; omega) hf
    · refine res_ite _ _ _ (fun _ => ?_) (fun _ => hf)
      refine res_bind _ _ (inflate_dynamic_tables_res E b0 inp _ hf) ?_
      rintro ⟨l, d, s3⟩ _ _
      exact inflate_symbols_res E b0 inp _ _ outp_end hE _ _ (by omega)
        (by simp only []; omega) hf

theorem inflate_blocks_res (E : Nat) (b0 : List Nat) (inp : List Nat) (outp_end : Nat)
    (hE : outp_end ≤ E) :
    ∀ (fuel : Nat) (st : InflateState), streamOk st.stream → streamLeft st.stream < fuel →
      Frame E b0 st.buff →
      Res (fun st' => Frame E b0 st'.buff) (HaltFrame E b0)
        (inflate_blocks inp outp_end fuel st) := by
  intro fuel
  induction fuel with
  | zero => intro st _ h; omega
  | succ fuel ih =>
    intro st hok hfu hf
    rw [inflate_blocks_succ]
    have h1 := inflate_block_step_res E b0 inp outp_end st hE hf
    cases hs : inflate_block_step inp outp_end st with
    | error e =>
      rw [hs] at h1
      exact h1
    | ok q =>
      rw [hs] at h1
      obtain ⟨c, st1⟩ := q
      cases c with
      | true => exact h1
      | false =>
        obtain ⟨h2, h3⟩ := inflate_block_step_adv inp outp_end st st1 false hs hok
        exact ih st1 h2 (by omega) h1

theorem inflate_blocks_frame (E : Nat) (b0 : List Nat) (inp : List Nat) (outp_end : Nat)
    (hE : outp_end ≤ E) :
    ∀ (fuel : Nat) (st : InflateState), Frame E b0 st.buff →
      Res (fun st' => Frame E b0 st'.buff) (fun e => ∀ b, e = Halt.reject b → Frame E b0 b)
        (inflate_blocks inp outp_end fuel st) := by
  intro fuel
  induction fuel with
  | zero =>
    intro st _
    rw [inflate_blocks]
    intro b h
    cases h
  | succ fuel ih =>
    intro st hf
    rw [inflate_blocks_succ]
    have h1 := inflate_block_step_res E b0 inp outp_end st hE hf
    cases hs : inflate_block_step inp outp_end st with
    | error e =>
      rw [hs] at h1
      intro b hb
      subst hb
      exact h1
    | ok q =>
      rw [hs] at h1
      obtain ⟨c, st1⟩ := q
      cases c with
      | true => exact h1
      | false => exact ih st1 h1

theorem decompress_run_eq (inp : List Nat) (cs : ezimg_cstream) (size : Nat) (buff : List Nat) :
    decompress_run inp cs size buff =
      match decompress_blocks inp cs size buff with
      | .ok st => .ok (true, st.buff)
      | .error (Halt.reject b) => .ok (false, b)
      | .error (Halt.trap t) => .error t := by
  unfold decompress_run decompress_blocks
  rfl

theorem decompress_blocks_frame (inp : List Nat) (cs : ezimg_cstream) (size : Nat)
    (buff : List Nat) :
    Res (fun st' => Frame size buff st'.buff) (fun e => ∀ b, e = Halt.reject b → Frame size buff b)
      (decompress_blocks inp cs size buff) := by
  have hf := frame_refl size buff
  have hl : ∀ (s : ezimg_cstream) (n : Nat),
      Res (fun _ => True) (fun e => ∀ b, e = Halt.reject b → Frame size buff b)
        (liftTrap (ezimg_cread_bits inp s n)) := by
    intro s n
    cases ezimg_cread_bits inp s n with
    | error e => intro b h; cases h
    | ok a => trivial
  unfold decompress_blocks
  refine res_bind _ _ (hl _ _) ?_
  rintro ⟨cm, s1⟩ _ _
  refine res_bind _ _ (hl _ _) ?_
  rintro ⟨ci, s2⟩ _ _
  refine res_bind _ _ (hl _ _) ?_
  rintro ⟨_, s3⟩ _ _
  refine res_bind _ _ (hl _ _) ?_
  rintro ⟨fd, s4⟩ _ _
  refine res_bind _ _ (hl _ _) ?_
  rintro ⟨_, s5⟩ _ _
  refine res_throw_jp _ _ _ (fun _ b h => ?_) (fun _ => ?_)
  · injection h with h
    subst h
    exact hf
  · exact inflate_blocks_frame size buff inp size (le_refl _) _ _ hf

theorem decompress_blocks_res (inp : List Nat) (cs : ezimg_cstream) (size : Nat)
    (buff : List Nat) (hok : streamOk cs) :
    Res (fun st' => Frame size buff st'.buff) (HaltFrame size buff)
      (decompress_blocks inp cs size buff) := by
  have hf := frame_refl size buff
  unfold decompress_blocks
  refine res_bind _ _ (res_liftTrap _ (cread_bits_oob inp _ _)) ?_
  rintro ⟨cm, s1⟩ h1 _
  refine res_bind _ _ (res_liftTrap _ (cread_bits_oob inp _ _)) ?_
  rintro ⟨ci, s2⟩ h2 _
  refine res_bind _ _ (res_liftTrap _ (cread_bits_oob inp _ _)) ?_
  rintro ⟨_, s3⟩ h3 _
  refine res_bind _ _ (res_liftTrap _ (cread_bits_oob inp _ _)) ?_
  rintro ⟨fd, s4⟩ h4 _
  refine res_bind _ _ (res_liftTrap _ (cread_bits_oob inp _ _)) ?_
  rintro ⟨_, s5⟩ h5 _
  refine res_throw_jp _ _ _ (fun _ => hf) (fun _ => ?_)
  obtain ⟨a1, a1s, a1e⟩ := cread_bits_adv inp _ _ _ _ (liftTrap_ok _ _ h1)
  obtain ⟨a2, _, _⟩ := cread_bits_adv inp _ _ _ _ (liftTrap_ok _ _ h2)
  obtain ⟨a3, _, _⟩ := cread_bits_adv inp _ _ _ _ (liftTrap_ok _ _ h3)
  obtain ⟨a4, _, _⟩ := cread_bits_adv inp _ _ _ _ (liftTrap_ok _ _ h4)
  obtain ⟨a5, _, _⟩ := cread_bits_adv inp _ _ _ _ (liftTrap_ok _ _ h5)
  obtain ⟨k1, l1⟩ := a1 hok
  obtain ⟨k2, l2⟩ := a2 k1
  obtain ⟨k3, l3⟩ := a3 k2
  obtain ⟨k4, l4⟩ := a4 k3
  obtain ⟨k5, l5⟩ := a5 k4
  have hle := streamLeft_le_fuel cs hok
  have hlt : streamLeft s5 < inflate_block_fuel cs := by
    by_cases he : cs.at_end = false
    · have := a1s (by omega) he hok
      omega
    · have h0 : streamLeft cs = 0 := by
        unfold streamLeft
        rw [if_pos (by simpa using he)]
      have : 8 ≤ inflate_block_fuel cs := by
        unfold inflate_block_fuel
        omega
      omega
  exact inflate_blocks_res size buff inp size (le_refl _) _ _ k5 hlt hf

/-! ## The bound of the output of `ezimg_decompress_idat` -/

theorem decomp_max_size_le (w h : Nat) :
    ezimg_png_decomp_data_max_size w h ≤ w * h * 4 + h := by
  unfold ezimg_png_decomp_data_max_size
  have h1 := u32_le_self (u32 (w * h * 4) + u32 (1 * h))
  have h2 := u32_le_self (w * h * 4)
  have h3 := u32_le_self (1 * h)
  omega

theorem decompress_idat_frame (inp : List Nat) (cs : ezimg_cstream) (w h : Nat)
    (buff d : List Nat) (flag : Bool)
    (hd : ezimg_decompress_idat inp cs w h buff = .ok (flag, d)) :
    Frame (ezimg_png_decomp_data_max_size w h) buff d := by
  unfold ezimg_decompress_idat at hd
  simp only [] at hd
  split at hd
  · injection hd with hd
    injection hd with _ hd
    subst hd
    exact frame_refl _ _
  · rw [decompress_run_eq] at hd
    have hf := decompress_blocks_frame inp cs (ezimg_png_decomp_data_max_size w h) buff
    cases hr : decompress_blocks inp cs (ezimg_png_decomp_data_max_size w h) buff with
    | ok st =>
      rw [hr] at hd hf
      injection hd with hd
      injection hd with _ hd
      subst hd
      exact hf
    | error e =>
      rw [hr] at hd hf
      cases e with
      | reject b =>
        injection hd with hd
        injection hd with _ hd
        subst hd
        exact hf b rfl
      | trap t => cases hd

theorem decompress_idat_not_fuel (inp : List Nat) (cs : ezimg_cstream) (w h : Nat)
    (buff : List Nat) (hok : streamOk cs) (t : Trap)
    (hd : ezimg_decompress_idat inp cs w h buff = .error t) : t = Trap.oob := by
  unfold ezimg_decompress_idat at hd
  simp only [] at hd
  split at hd
  · cases hd
  · rw [decompress_run_eq] at hd
    have hf := decompress_blocks_res inp cs (ezimg_png_decomp_data_max_size w h) buff hok
    cases hr : decompress_blocks inp cs (ezimg_png_decomp_data_max_size w h) buff with
    | ok st =>
      rw [hr] at hd
      cases hd
    | error e =>
      rw [hr] at hd hf
      cases e with
      | reject b => cases hd
      | trap t' =>
        injection hd with hd
        subst hd
        exact hf

theorem next_bit_at_end (inp : List Nat) (s : ezimg_cstream) (h : s.at_end = true) :
    ezimg_next_bit inp s = .ok (0, s) := by
  unfold ezimg_next_bit
  rw [if_pos h]

theorem cread_bits_loop_at_end (inp : List Nat) (s : ezimg_cstream) (h : s.at_end = true) :
    ∀ (n i : Nat), forLoop (fun i (p : Nat × ezimg_cstream) =>
      (do
        let (bit, stream) ← ezimg_next_bit inp p.2
        return (p.1 ||| (bit <<< i), stream) : Except Trap (Nat × ezimg_cstream))) n i (0, s)
      = .ok (0, s) := by
  intro n
  induction n with
  | zero => intro i; rfl
  | succ n ih =>
    intro i
    unfold forLoop
    simp only [bind, Except.bind, pure, Except.pure, next_bit_at_end inp s h, Nat.zero_shiftLeft,
      Nat.or_self]
    exact ih (i + 1)

theorem cread_bits_at_end (inp : List Nat) (s : ezimg_cstream) (n : Nat)
    (h : s.at_end = true) : ezimg_cread_bits inp s n = .ok (0, s) :=
  cread_bits_loop_at_end inp s h n 0

theorem cflush_at_end (inp : List Nat) (s : ezimg_cstream) (h : s.at_end = true) :
    ∃ s', ezimg_cflush inp s = .ok s' ∧ s'.at_end = true := by
  unfold ezimg_cflush
  split
  · simp only [bind, Except.bind, pure, Except.pure, ezimg_cread_u8, h, if_true]
    exact ⟨_, rfl, rfl⟩
  · exact ⟨s, rfl, h⟩

theorem inflate_stored_at_end (inp : List Nat) (outp_end : Nat) (st : InflateState)
    (h : st.stream.at_end = true) :
    inflate_stored inp outp_end st = .error (Halt.reject st.buff) := by
  obtain ⟨s1, h1, e1⟩ := cflush_at_end inp st.stream h
  simp only [inflate_stored, bind, Except.bind, pure, Except.pure, liftTrap, h1,
    cread_bits_at_end inp s1 16 e1]
  rfl

theorem inflate_block_step_at_end (inp : List Nat) (outp_end : Nat) (st : InflateState)
    (h : st.stream.at_end = true) :
    inflate_block_step inp outp_end st = .error (Halt.reject st.buff) := by
  unfold inflate_block_step
  generalize inflate_fixed_tables = F
  have h1 : ∀ n, liftTrap (ezimg_cread_bits inp st.stream n) = .ok (0, st.stream) := by
    intro n
    rw [cread_bits_at_end inp st.stream n h]
    rfl
  rw [h1, bind_ok_eq]
  simp only []
  rw [h1, bind_ok_eq]
  simp only []
  rw [if_pos trivial, inflate_stored_at_end inp outp_end _ h, bind_error_eq]

/-! ## Claim C36 -/

set_option maxRecDepth 100000 in
/-- Claim C36: `ezimg_decompress_idat` stores nothing at an index at or above
the bound `ezimg_png_decomp_data_max_size width height`, the value that the code
computes for `width*height*4 + height` in 32-bit arithmetic, which is at most
that sum. A buffer shorter than the bound is refused untouched, so the bound
is at most the buffer size wherever the decoder runs. Whenever the call
returns, the buffer has its length and, from the bound on, its contents of
before. `EMIT`, the one store of the decoder (literals, stored bytes and
back-reference bytes), tests the output position first: at or above the bound
it returns 0 with the buffer as it is, and a store that happens is below the
bound. A symbol decoded with the output position at the bound can only be
the end of the block; a literal there makes the decoder return 0, and a
`return(0)` of the decoder is `EZIMG_INVALID_IMAGE` from the loader. On the
five literals of `png_rgba_1x1`, decoded with the bound 4 into five bytes, four
are stored and the fifth makes the decoder return 0, the byte at index 4 as it
was. -/
theorem C36_decompress_writes_below_bound (inp : List Nat) (cs : ezimg_cstream)
    (width height : Nat) (buff : List Nat) :
    ezimg_png_decomp_data_max_size width height ≤ width * height * 4 + height ∧
    (buff.length < ezimg_png_decomp_data_max_size width height →
      ezimg_decompress_idat inp cs width height buff = .ok (false, buff)) ∧
    (∀ flag d, ezimg_decompress_idat inp cs width height buff = .ok (flag, d) →
      d.length = buff.length ∧
      (∀ i, ezimg_png_decomp_data_max_size width height ≤ i → d[i]? = buff[i]?) ∧
      (∀ i, width * height * 4 + height ≤ i → d[i]? = buff[i]?) ∧
      (flag = true → ezimg_png_decomp_data_max_size width height ≤ buff.length)) ∧
    (∀ outp_end st b, outp_end ≤ st.outp →
      EMIT outp_end st b = .error (Halt.reject st.buff)) ∧
    (∀ outp_end st b st', EMIT outp_end st b = .ok st' →
      ∃ v s, b st = .ok (v, s) ∧ st.outp < outp_end ∧ st'.buff.length = s.buff.length ∧
        st'.outp = s.outp + 1 ∧ ∀ i, i ≠ s.outp → st'.buff[i]? = s.buff[i]?) ∧
    (∀ lit dist outp_end st c st', outp_end ≤ st.outp →
      inflate_symbol_step inp lit dist outp_end st = .ok (c, st') →
      c = false ∧ st'.buff = st.buff ∧ st'.outp = st.outp) ∧
    (∀ lit dist outp_end st v s, outp_end ≤ st.outp →
      ezimg_huff_decode inp lit st.stream = .ok (v, s) → 0 ≤ v → v < 256 →
      inflate_symbol_step inp lit dist outp_end st = .error (Halt.reject st.buff)) ∧
    (∀ out wk cs0 b, wk.chunks ≠ [] →
      ezimg_init_cstream inp
        { chunks := wk.chunks, lens := wk.lens, num_chunks := 0, current_chunk := 0,
          current_pos := 0, buff := 0, mask := 0, at_end := false } wk.chunks.length
        = .ok cs0 →
      ezimg_decompress_idat inp cs0 wk.w wk.h out = .ok (false, b) →
      png_load_decode inp out wk = .ok (failWith .EZIMG_INVALID_IMAGE b)) ∧
    inflate_symbols png_rgba_1x1 fixed_lit_huff fixed_dist_huff 4 5
      ⟨⟨[41], [13], 1, 0, 3, 99, 8, false⟩, [7, 7, 7, 7, 7], 0⟩
      = .error (Halt.reject [0, 10, 20, 30, 7]) := by
  refine ⟨decomp_max_size_le width height, ?_, ?_, ?_, ?_, ?_, ?_, ?_,
    inflate_symbols_fixed_run_at_bound png_rgba_1x1 fixed_dist_huff 4 0 40 [0, 10, 20, 30]
      ⟨⟨[41], [13], 1, 0, 3, 99, 8, false⟩, [7, 7, 7, 7, 7], 0⟩
      ⟨[41], [13], 1, 0, 7, 211, 8, false⟩ ⟨[41], [13], 1, 0, 8, 0, 8, false⟩
      (by decide) (by decide) (by decide) (by decide) (by decide) (by decide)⟩
  · intro h
    unfold ezimg_decompress_idat
    simp only []
    rw [if_pos h]
  · intro flag d hd
    obtain ⟨h1, h2⟩ := decompress_idat_frame inp cs width height buff d flag hd
    refine ⟨h1, h2, fun i hi => h2 i (le_trans (decomp_max_size_le width height) hi), ?_⟩
    intro hf
    subst hf
    exact (decompress_ok_length inp cs width height buff d hd).2
  · intro outp_end st b h
    unfold EMIT
    rw [if_pos h]
  · intro outp_end st b st' h
    obtain ⟨v, s, h1, h2, _, h3, h4, h5⟩ := EMIT_ok outp_end st st' b h
    exact ⟨v, s, h1, h2, h3, h4, h5⟩
  · intro lit dist outp_end st c st' hb h
    obtain ⟨_, h1, h2, _⟩ := inflate_symbol_step_ok inp lit dist outp_end st st' c h
    cases c with
    | false => exact ⟨rfl, h2 rfl⟩
    | true =>
      have := h1 rfl
      omega
  · intro lit dist outp_end st v s hb hd h0 h256
    simp only [inflate_symbol_step, bind, Except.bind, pure, Except.pure, liftTrap, hd]
    rw [if_neg (by omega), if_neg (by omega), if_pos h256]
    unfold EMIT
    rw [if_pos hb]
  · intro out wk cs0 b hc hi hd
    exact png_load_decode_rejected inp out wk cs0 b hc hi hd

/-! ## Claim C37 -/

/-- Claim C37: `ezimg_decompress_idat` terminates. The two unbounded loops of
the code run here on a count of passes: the block loop on
`inflate_block_fuel` (eight for each byte and each chunk of the stream, and
eight more), the symbol loop of a block on the room left below the output
bound plus one. For every input, chunk stream with a one-bit mask (as
`ezimg_init_cstream` leaves it), width, height and buffer, these counts are
never used up: the call returns, or stops at an access outside a buffer,
and `Trap.fuel` is not its result. The reasons: a symbol after which the
symbol loop goes on has stored at least one byte below the bound, a symbol
that stores nothing ends the block; a block that ends without failure has
taken at least one bit of the stream; and at the end of the stream, where all
reads give 0, the block header is that of a stored block, which is rejected. -/
theorem C37_decompress_terminates (inp : List Nat) (cs : ezimg_cstream)
    (width height : Nat) (buff : List Nat) (hok : streamOk cs) :
    (ezimg_decompress_idat inp cs width height buff ≠ .error Trap.fuel) ∧
    (∀ t, ezimg_decompress_idat inp cs width height buff = .error t → t = Trap.oob) ∧
    (∀ lit dist outp_end st c st',
      inflate_symbol_step inp lit dist outp_end st = .ok (c, st') →
      (c = true → st.outp < st'.outp ∧ st'.outp ≤ outp_end) ∧
      (c = false → st'.buff = st.buff ∧ st'.outp = st.outp)) ∧
    (∀ outp_end st c st', streamOk st.stream →
      inflate_block_step inp outp_end st = .ok (c, st') →
      streamOk st'.stream ∧ streamLeft st'.stream < streamLeft st.stream) ∧
    streamLeft cs ≤ inflate_block_fuel cs ∧
    (∀ s n, s.at_end = true → ezimg_cread_bits inp s n = .ok (0, s)) ∧
    (∀ outp_end st, st.stream.at_end = true →
      inflate_block_step inp outp_end st = .error (Halt.reject st.buff)) := by
  refine ⟨?_, decompress_idat_not_fuel inp cs width height buff hok, ?_, ?_,
    streamLeft_le_fuel cs hok, fun s n h => cread_bits_at_end inp s n h,
    fun outp_end st h => inflate_block_step_at_end inp outp_end st h⟩
  · intro h
    have := decompress_idat_not_fuel inp cs width height buff hok _ h
    cases this
  · intro lit dist outp_end st c st' h
    obtain ⟨_, h1, h2, _⟩ := inflate_symbol_step_ok inp lit dist outp_end st st' c h
    exact ⟨h1, h2⟩
  · intro outp_end st c st' hs h
    exact inflate_block_step_adv inp outp_end st st' c h hs

/-- Witness of C37 at the stream of `png_rgba_1x1` (one chunk of 13 bytes at
offset 41, first byte 120 loaded, mask 1): the call on a buffer of 5 bytes is
not stopped by the count of passes. -/
theorem C37_decompress_terminates_witness :
    streamOk ⟨[41], [13], 1, 0, 1, 120, 1, false⟩ ∧
    ezimg_decompress_idat png_rgba_1x1 ⟨[41], [13], 1, 0, 1, 120, 1, false⟩ 1 1
      (List.replicate 5 0) ≠ .error Trap.fuel :=
  ⟨by decide, (C37_decompress_terminates png_rgba_1x1 ⟨[41], [13], 1, 0, 1, 120, 1, false⟩ 1 1
    (List.replicate 5 0) (by decide)).1⟩

/-! ## Claim C40 -/

set_option maxRecDepth 100000 in
/-- Claim C40: every call of `ezimg_compute_huff` made by the decoder has
arguments with which the indexing of the call stays inside its arrays
(`GoodHuffArgs`: a count below 290 and inside the table, code lengths of at
most 15), and with such arguments the call neither leaves an array nor
returns 0. The two fixed tables are such arguments, and the two calls of a
fixed block give `fixed_lit_huff` and `fixed_dist_huff` in every state. In a
dynamic block the code-length table has 20 entries of 3 bits each, the tables
that `ezimg_compute_htable` returns keep their length and entries of at most
15, and the counts are at most 288 and 32: the branch is equal to
`inflate_dynamic_tables_unchecked`, in which the result of each of its three
calls is used without a test. -/
theorem C40_compute_huff_calls_in_bounds :
    (∀ htable hcount huff, GoodHuffArgs htable hcount →
      ∃ mx entries, ezimg_compute_huff htable hcount huff = .ok (some ⟨mx, hcount, entries⟩) ∧
        mx ≤ 15 ∧ entries.length = 290) ∧
    GoodHuffArgs fixed_hlit_table 288 ∧ GoodHuffArgs fixed_hdist_table 32 ∧
    (∀ st, inflate_fixed_tables st = .ok (fixed_lit_huff, fixed_dist_huff)) ∧
    (∀ inp s n p, forRange n (fun i (p : List Nat × ezimg_cstream) => do
        let (v, stream) ← ezimg_cread_bits inp p.2 3
        let k ← aget hclen_ord i
        let t ← aset p.1 k v
        return (t, stream)) (List.replicate 20 0, s) = .ok p → GoodHuffArgs p.1 20) ∧
    (∀ inp s huff hcount hmax t s', hcount ≤ hmax → hmax < 290 →
      ezimg_compute_htable inp s huff (List.replicate hmax 0) hcount hmax = .ok (some (t, s')) →
      GoodHuffArgs t hcount) ∧
    (∀ inp s v s', ezimg_cread_bits inp s 5 = .ok (v, s') → v + 257 ≤ 288 ∧ v + 1 ≤ 32) ∧
    (∀ inp st, inflate_dynamic_tables inp st = inflate_dynamic_tables_unchecked inp st) := by
  refine ⟨?_, good_fixed_hlit_table, ⟨by decide, by decide, by decide⟩,
    inflate_fixed_tables_eq, ?_, ?_, ?_, inflate_dynamic_tables_eq⟩
  · intro htable hcount huff ⟨h1, h2, h3⟩
    obtain ⟨mx, entries, he, hm, _, hl, _⟩ := compute_huff_spec htable hcount huff h1 h2 h3
    exact ⟨mx, entries, he, hm, hl⟩
  · intro inp s n p h
    have := hclen_table_res inp s n
    rw [h] at this
    exact ⟨by decide, by rw [this.1], fun k _ => this.2 k⟩
  · intro inp s huff hcount hmax t s' h1 h2 h
    have := compute_htable_res inp s huff (List.replicate hmax 0) hcount hmax
    rw [h] at this
    obtain ⟨g1, g2⟩ := this t s' rfl
    refine ⟨by omega, by rw [g1, List.length_replicate]; exact h1, fun k _ => ?_⟩
    exact g2 (fun k => replicate_zero_le hmax k) k
  · intro inp s v s' h
    have := cread_bits_lt inp s s' 5 v h
    norm_num at this
    omega
end Ezimg
